import Mathlib

/-!
# A tree-walking interpreter for a small integer language

The tokenizer, the recursive-descent parser, the AST with its deep clone, the
scope-chain `Environment`, the `Evaluator` and the `Interpreter` entry point,
followed by the properties proved about them.

Conventions of the model:
* exceptions are values of `Error`; a function that can throw returns them
  next to its results;
* mutable objects are passed in and handed back: an evaluation takes the
  environment of its evaluator (with its parents) and returns it as it is
  afterwards;
* `int` is `Int` wrapped to 32 bits after each arithmetic operation;
* recursion that the source bounds only by the machine stack takes a `fuel`
  argument; running out of it is a result of its own (`none`, `outOfFuel`),
  never an error of the program;
* the parser reads a list of tokens, which the tokenizer produces up front:
  both fail only with SyntaxError and a parse succeeds only when the whole
  input has been read, so reading lazily yields the same Program or again a
  SyntaxError.
-/

/-- Modelled from the spec: the header error.h is not among the sources; it
declares the three exception kinds, each carrying a human-readable message. -/
inductive Error
  | SyntaxError (what : String)
  | NameError (what : String)
  | RuntimeError (what : String)
  deriving DecidableEq, Repr

inductive EmbracingToken
  | LPAREN | RPAREN | COMMA | IF | THEN | ELSE
  deriving DecidableEq, Repr

inductive OperatorToken
  | PLUS | MINUS | MULTIPLY | DIVIDE | EQ_EQ | NOT_EQ | LESS | EQ
  deriving DecidableEq, Repr

inductive UtilityTokens
  | DEF | RETURN | NEWLINE | EOFT
  deriving DecidableEq, Repr

/-- The variant `Token` of tokenzier.h. -/
inductive Token
  | Symbol (name : String)
  | Constant (value : Int)
  | Embracing (t : EmbracingToken)
  | Operator (t : OperatorToken)
  | Utility (t : UtilityTokens)
  deriving DecidableEq, Repr

inductive ExprAST
  | Number (value : Int)
  | Identifier (name : String)
  | BinaryOp (op : Char) (left right : ExprAST)
  | TernaryExpr (condition then_expr else_expr : ExprAST)
  | FunctionCall (callee : String) (args : List ExprAST)
  deriving Repr

mutual
inductive StatementAST
  | Assignment (variable_ : String) (value : ExprAST)
  | ReturnStmt (return_expr : ExprAST)
  | FunctionDef (f : FunctionDefAST)
inductive FunctionDefAST
  | mk (name : String) (params : List String) (body : List StatementAST) (return_expr : ExprAST)
end

namespace FunctionDefAST
def getName : FunctionDefAST → String
  | .mk name _ _ _ => name
def getParams : FunctionDefAST → List String
  | .mk _ params _ _ => params
def getBody : FunctionDefAST → List StatementAST
  | .mk _ _ body _ => body
def getReturnExpr : FunctionDefAST → ExprAST
  | .mk _ _ _ return_expr => return_expr
end FunctionDefAST

/-- The token stream seen by the parser: the tokens still to come, the first
being the current one; once they are used up the tokenizer keeps answering
END_OF_INPUT. -/
abbrev TokenStream := List Token

def GetToken : TokenStream → Token
  | [] => .Utility .EOFT
  | t :: _ => t

def Next : TokenStream → TokenStream
  | [] => []
  | _ :: ts => ts

def IsEnd (ts : TokenStream) : Bool :=
  GetToken ts == .Utility .EOFT

inductive ParseResult (α : Type)
  | ok (value : α) (rest : TokenStream)
  | error (e : Error)
  | outOfFuel

/-- Carry on after a parse function has returned; an exception it threw, or
the fuel bound it reached, ends the whole parse. -/
def ParseResult.bind {α β : Type} (r : ParseResult α) (k : α → TokenStream → ParseResult β) :
    ParseResult β :=
  match r with
  | .ok value rest => k value rest
  | .error e => .error e
  | .outOfFuel => .outOfFuel

def skipNewlines : TokenStream → TokenStream
  | .Utility .NEWLINE :: ts => skipNewlines ts
  | ts => ts

mutual
def parseExpression : Nat → TokenStream → ParseResult ExprAST
  | 0, _ => .outOfFuel
  | fuel + 1, ts => parseTernaryExpr fuel ts

def parseTernaryExpr : Nat → TokenStream → ParseResult ExprAST
  | 0, _ => .outOfFuel
  | fuel + 1, ts =>
    if GetToken ts = .Embracing .IF then
      (parseLogicalExpr fuel (Next ts)).bind fun condition ts1 =>
        if GetToken ts1 ≠ .Embracing .THEN then
          .error (.SyntaxError "Expected 'then' after condition")
        else
          (parseLogicalExpr fuel (Next ts1)).bind fun then_expr ts2 =>
            if GetToken ts2 ≠ .Embracing .ELSE then
              .error (.SyntaxError "Expected 'else' after then expression")
            else
              (parseLogicalExpr fuel (Next ts2)).bind fun else_expr ts3 =>
                .ok (.TernaryExpr condition then_expr else_expr) ts3
    else parseLogicalExpr fuel ts

def parseLogicalExpr : Nat → TokenStream → ParseResult ExprAST
  | 0, _ => .outOfFuel
  | fuel + 1, ts =>
    (parseAddExpr fuel ts).bind fun expr ts1 => parseLogicalLoop fuel expr ts1

/-- The `while` loop of `parseLogicalExpr`, `expr` being the tree built so
far. -/
def parseLogicalLoop : Nat → ExprAST → TokenStream → ParseResult ExprAST
  | 0, _, _ => .outOfFuel
  | fuel + 1, expr, ts =>
    if GetToken ts = .Operator .EQ_EQ ∨ GetToken ts = .Operator .NOT_EQ
        ∨ GetToken ts = .Operator .LESS then
      let op : Char :=
        if GetToken ts = .Operator .EQ_EQ then '='
        else if GetToken ts = .Operator .NOT_EQ then '!'
        else '<'
      (parseAddExpr fuel (Next ts)).bind fun right ts1 =>
        parseLogicalLoop fuel (.BinaryOp op expr right) ts1
    else .ok expr ts

def parseAddExpr : Nat → TokenStream → ParseResult ExprAST
  | 0, _ => .outOfFuel
  | fuel + 1, ts =>
    (parseMulExpr fuel ts).bind fun expr ts1 => parseAddLoop fuel expr ts1

/-- The `while` loop of `parseAddExpr`. -/
def parseAddLoop : Nat → ExprAST → TokenStream → ParseResult ExprAST
  | 0, _, _ => .outOfFuel
  | fuel + 1, expr, ts =>
    if GetToken ts = .Operator .PLUS ∨ GetToken ts = .Operator .MINUS then
      let op : Char := if GetToken ts = .Operator .PLUS then '+' else '-'
      (parseMulExpr fuel (Next ts)).bind fun right ts1 =>
        parseAddLoop fuel (.BinaryOp op expr right) ts1
    else .ok expr ts

def parseMulExpr : Nat → TokenStream → ParseResult ExprAST
  | 0, _ => .outOfFuel
  | fuel + 1, ts =>
    (parsePrimary fuel ts).bind fun expr ts1 => parseMulLoop fuel expr ts1

/-- The `while` loop of `parseMulExpr`. -/
def parseMulLoop : Nat → ExprAST → TokenStream → ParseResult ExprAST
  | 0, _, _ => .outOfFuel
  | fuel + 1, expr, ts =>
    if GetToken ts = .Operator .MULTIPLY ∨ GetToken ts = .Operator .DIVIDE then
      let op : Char := if GetToken ts = .Operator .MULTIPLY then '*' else '/'
      (parsePrimary fuel (Next ts)).bind fun right ts1 =>
        parseMulLoop fuel (.BinaryOp op expr right) ts1
    else .ok expr ts

def parsePrimary : Nat → TokenStream → ParseResult ExprAST
  | 0, _ => .outOfFuel
  | fuel + 1, ts =>
    match GetToken ts with
    | .Constant value => .ok (.Number value) (Next ts)
    | .Symbol name =>
      let ts1 := Next ts
      if GetToken ts1 = .Embracing .LPAREN then
        let ts2 := Next ts1
        let parsed : ParseResult (List ExprAST) :=
          if GetToken ts2 ≠ .Embracing .RPAREN then
            (parseExpression fuel ts2).bind fun arg ts3 => parseArgsLoop fuel [arg] ts3
          else .ok [] ts2
        parsed.bind fun args ts4 =>
          if GetToken ts4 ≠ .Embracing .RPAREN then
            .error (.SyntaxError "Expected ')' after function arguments")
          else .ok (.FunctionCall name args) (Next ts4)
      else .ok (.Identifier name) ts1
    | .Embracing .LPAREN =>
      (parseExpression fuel (Next ts)).bind fun expr ts1 =>
        if GetToken ts1 ≠ .Embracing .RPAREN then
          .error (.SyntaxError "Expected ')' after expression")
        else .ok expr (Next ts1)
    | _ => .error (.SyntaxError "Expected expression")

/-- The `while` loop of `parsePrimary` that reads the second and later
arguments of a call. -/
def parseArgsLoop : Nat → List ExprAST → TokenStream → ParseResult (List ExprAST)
  | 0, _, _ => .outOfFuel
  | fuel + 1, args, ts =>
    if GetToken ts = .Embracing .COMMA then
      (parseExpression fuel (Next ts)).bind fun arg ts1 =>
        parseArgsLoop fuel (args ++ [arg]) ts1
    else .ok args ts
end

def parseStatement : Nat → TokenStream → ParseResult StatementAST
  | 0, _ => .outOfFuel
  | fuel + 1, ts =>
    match GetToken ts with
    | .Utility .RETURN =>
      (parseExpression fuel (Next ts)).bind fun expr ts1 => .ok (.ReturnStmt expr) ts1
    | .Symbol name =>
      let ts1 := Next ts
      if GetToken ts1 ≠ .Operator .EQ then
        .error (.SyntaxError "Expected '=' after variable name")
      else
        (parseExpression fuel (Next ts1)).bind fun expr ts2 => .ok (.Assignment name expr) ts2
    | _ => .error (.SyntaxError "Expected statement")

/-- The loop `while (token is COMMA)` that reads the second and later
parameter names of a function header. -/
def parseParamsLoop : List String → TokenStream → ParseResult (List String)
  | params, .Embracing .COMMA :: ts =>
    match ts with
    | .Symbol name :: ts1 => parseParamsLoop (params ++ [name]) ts1
    | _ => .error (.SyntaxError "Expected parameter name after ','")
  | params, ts => .ok params ts

/-- The parameter list of a function header, from just after `(` up to, and
not including, the closing `)`. -/
def parseParams (ts : TokenStream) : ParseResult (List String) :=
  if GetToken ts ≠ .Embracing .RPAREN then
    match GetToken ts with
    | .Symbol name => parseParamsLoop [name] (Next ts)
    | _ => .error (.SyntaxError "Expected parameter name")
  else .ok [] ts

mutual
def parseFunctionDef : Nat → TokenStream → ParseResult FunctionDefAST
  | 0, _ => .outOfFuel
  | fuel + 1, ts =>
    if GetToken ts ≠ .Utility .DEF then
      .error (.SyntaxError "Expected 'def' keyword")
    else
      let ts1 := Next ts
      match GetToken ts1 with
      | .Symbol name =>
        let ts2 := Next ts1
        if GetToken ts2 ≠ .Embracing .LPAREN then
          .error (.SyntaxError "Expected '(' after function name")
        else
          (parseParams (Next ts2)).bind fun params ts3 =>
            if GetToken ts3 ≠ .Embracing .RPAREN then
              .error (.SyntaxError "Expected ')' after parameters")
            else
              let ts4 := Next ts3
              if GetToken ts4 ≠ .Utility .NEWLINE then
                .error (.SyntaxError "Expected newline after function declaration")
              else
                (parseBodyLoop fuel [] (Next ts4)).bind fun parsed ts5 =>
                  match parsed with
                  | (_, none) =>
                    .error (.SyntaxError "Function must end with a return statement")
                  | (body, some return_expr) => .ok (.mk name params body return_expr) ts5
      | _ => .error (.SyntaxError "Expected function name after 'def'")

/-- The statement loop of `parseFunctionDef`, `body` being the statements read
so far. The second component of the result is the return expression: `none`
when the loop was left at end of input with `foundReturn` still false. -/
def parseBodyLoop : Nat → List StatementAST → TokenStream →
    ParseResult (List StatementAST × Option ExprAST)
  | 0, _, _ => .outOfFuel
  | fuel + 1, body, ts =>
    if IsEnd ts then .ok (body, none) ts
    else
      let ts1 := skipNewlines ts
      if IsEnd ts1 then .ok (body, none) ts1
      else if GetToken ts1 = .Utility .DEF then
        (parseFunctionDef fuel ts1).bind fun nested_func ts2 =>
          parseBodyLoop fuel (body ++ [.FunctionDef nested_func]) ts2
      else if GetToken ts1 = .Utility .RETURN then
        (parseExpression fuel (Next ts1)).bind fun return_expr ts2 =>
          if GetToken ts2 ≠ .Utility .NEWLINE ∧ GetToken ts2 ≠ .Utility .EOFT then
            .error (.SyntaxError "Expected newline after return statement")
          else if !IsEnd ts2 then .ok (body, some return_expr) (Next ts2)
          else .ok (body, some return_expr) ts2
      else
        (parseStatement fuel ts1).bind fun stmt ts2 =>
          if GetToken ts2 ≠ .Utility .NEWLINE then
            .error (.SyntaxError "Expected newline after statement")
          else parseBodyLoop fuel (body ++ [stmt]) (Next ts2)
end

/-- The loop of `parseProgram`, `functions` being the definitions read so
far. -/
def parseProgramLoop : Nat → List FunctionDefAST → TokenStream →
    ParseResult (List FunctionDefAST)
  | 0, _, _ => .outOfFuel
  | fuel + 1, functions, ts =>
    if IsEnd ts then .ok functions ts
    else
      let ts1 := skipNewlines ts
      if IsEnd ts1 then .ok functions ts1
      else if GetToken ts1 = .Utility .DEF then
        (parseFunctionDef fuel ts1).bind fun f ts2 => parseProgramLoop fuel (functions ++ [f]) ts2
      else .error (.SyntaxError "Expected function definition or newline")

/-- Fuel that lets every parser run to its end on a stream of `n` tokens. -/
def parseFuel (n : Nat) : Nat := 16 * (n + 1)

def parseProgram (ts : TokenStream) : ParseResult (List FunctionDefAST) :=
  parseProgramLoop (parseFuel ts.length) [] ts

/-! ## Tokenizer -/

namespace Tokenizer

def isspace (c : Char) : Bool :=
  c = ' ' || c = '\t' || c = '\n' || c = Char.ofNat 11 || c = Char.ofNat 12 || c = '\r'

def isdigit (c : Char) : Bool :=
  '0' ≤ c && c ≤ '9'

def isalpha (c : Char) : Bool :=
  ('a' ≤ c && c ≤ 'z') || ('A' ≤ c && c ≤ 'Z')

def isalnum (c : Char) : Bool :=
  isalpha c || isdigit c

def SkipWhitespace (input : List Char) : List Char :=
  let input1 := input.dropWhile (fun c => isspace c && c != '\n')
  match input1 with
  | '#' :: _ => input1.dropWhile (fun c => c != '\n')
  | _ => input1

/-- The number a decimal digit string denotes, as `std::stoi` reads it. -/
def stoi (num : List Char) : Nat :=
  num.foldl (fun acc c => 10 * acc + (c.toNat - '0'.toNat)) 0

def ReadNumber (input : List Char) : Except Error (Token × List Char) :=
  let num := input.takeWhile isdigit
  if stoi num ≤ 2147483647 then
    .ok (.Constant (stoi num), input.dropWhile isdigit)
  else .error (.SyntaxError ("Invalid number: " ++ String.mk num))

def ReadIdentifier (input : List Char) : String × List Char :=
  (String.mk (input.takeWhile (fun c => isalnum c || c = '_')),
    input.dropWhile (fun c => isalnum c || c = '_'))

/-- One call of `Tokenizer::Next` on the unread input: the token it makes
current and the input left after it. -/
def Next (input : List Char) : Except Error (Token × List Char) :=
  match SkipWhitespace input with
  | [] => .ok (.Utility .EOFT, [])
  | c :: rest =>
    if c = '\n' then .ok (.Utility .NEWLINE, rest)
    else if isdigit c then ReadNumber (c :: rest)
    else if isalpha c || c = '_' then
      let (identifier, rest1) := ReadIdentifier (c :: rest)
      if identifier = "def" then .ok (.Utility .DEF, rest1)
      else if identifier = "return" then .ok (.Utility .RETURN, rest1)
      else if identifier = "if" then .ok (.Embracing .IF, rest1)
      else if identifier = "then" then .ok (.Embracing .THEN, rest1)
      else if identifier = "else" then .ok (.Embracing .ELSE, rest1)
      else .ok (.Symbol identifier, rest1)
    else if c = '(' then .ok (.Embracing .LPAREN, rest)
    else if c = ')' then .ok (.Embracing .RPAREN, rest)
    else if c = ',' then .ok (.Embracing .COMMA, rest)
    else if c = '+' then .ok (.Operator .PLUS, rest)
    else if c = '-' then .ok (.Operator .MINUS, rest)
    else if c = '*' then .ok (.Operator .MULTIPLY, rest)
    else if c = '/' then .ok (.Operator .DIVIDE, rest)
    else if c = '<' then .ok (.Operator .LESS, rest)
    else if c = '=' then
      match rest with
      | '=' :: rest1 => .ok (.Operator .EQ_EQ, rest1)
      | _ => .ok (.Operator .EQ, rest)
    else if c = '!' then
      match rest with
      | '=' :: rest1 => .ok (.Operator .NOT_EQ, rest1)
      | _ => .error (.SyntaxError "Expected '=' after '!'")
    else .error (.SyntaxError ("Unknown character: " ++ String.singleton c))

/-- The tokens that successive calls of `Next` deliver up to END_OF_INPUT. -/
def tokensLoop : Nat → List Token → List Char → Option (Except Error TokenStream)
  | 0, _, _ => none
  | fuel + 1, acc, input =>
    match Next input with
    | .error e => some (.error e)
    | .ok (.Utility .EOFT, _) => some (.ok acc)
    | .ok (t, rest) => tokensLoop fuel (acc ++ [t]) rest

def tokens (input : String) : Option (Except Error TokenStream) :=
  tokensLoop (input.length + 1) [] input.data

end Tokenizer

/-! ## Cloning -/

mutual
def cloneExpr : ExprAST → ExprAST
  | .Number value => .Number value
  | .Identifier name => .Identifier name
  | .BinaryOp op left right => .BinaryOp op (cloneExpr left) (cloneExpr right)
  | .TernaryExpr condition then_expr else_expr =>
    .TernaryExpr (cloneExpr condition) (cloneExpr then_expr) (cloneExpr else_expr)
  | .FunctionCall callee args => .FunctionCall callee (cloneArgs args)

/-- The loop over the arguments of a call in `cloneExpr`. -/
def cloneArgs : List ExprAST → List ExprAST
  | [] => []
  | arg :: args => cloneExpr arg :: cloneArgs args
end

mutual
def FunctionDefAST.clone : FunctionDefAST → FunctionDefAST
  | .mk name params body return_expr =>
    .mk name params (cloneBody body) (cloneExpr return_expr)

/-- The loop over the body statements in `FunctionDefAST::clone`. -/
def cloneBody : List StatementAST → List StatementAST
  | [] => []
  | .Assignment variable_ value :: body =>
    .Assignment variable_ (cloneExpr value) :: cloneBody body
  | .ReturnStmt return_expr :: body => .ReturnStmt (cloneExpr return_expr) :: cloneBody body
  | .FunctionDef nested_func :: body => .FunctionDef nested_func.clone :: cloneBody body
end

/-! ## Values and environments -/

inductive Value
  | IntValue (value : Int)
  deriving DecidableEq, Repr

def Value.asInt : Value → Int
  | .IntValue value => value

/-- The assignment `m[key] = value` on a `std::map` kept as a list of entries
with distinct keys. -/
def mapAssign {β : Type} : List (String × β) → String → β → List (String × β)
  | [], key, value => [(key, value)]
  | (k, v) :: m, key, value =>
    if k = key then (key, value) :: m else (k, v) :: mapAssign m key value

/-- The call `m.find(key)` on a `std::map`, `none` standing for `m.end()`. -/
def mapFind {β : Type} : List (String × β) → String → Option β
  | [], _ => none
  | (k, v) :: m, key => if k = key then some v else mapFind m key

/-- An `Environment` object together with the objects its `parent` pointer
leads to: `root` when the pointer is null, `child` otherwise. A stored value is
a `unique_ptr` and may be null (`none`). -/
inductive Environment
  | root (vars : List (String × Option Value)) (functions : List (String × FunctionDefAST))
  | child (vars : List (String × Option Value)) (functions : List (String × FunctionDefAST))
      (parent : Environment)

namespace Environment

def vars : Environment → List (String × Option Value)
  | .root vars _ => vars
  | .child vars _ _ => vars

def functions : Environment → List (String × FunctionDefAST)
  | .root _ functions => functions
  | .child _ functions _ => functions

def parent : Environment → Option Environment
  | .root _ _ => none
  | .child _ _ parent => some parent

def defineVariable : Environment → String → Option Value → Environment
  | .root vars functions, name, value => .root (mapAssign vars name value) functions
  | .child vars functions parent, name, value =>
    .child (mapAssign vars name value) functions parent

def getVariable : Environment → String → Option Value
  | .root vars _, name =>
    match mapFind vars name with
    | some value => value
    | none => none
  | .child vars _ parent, name =>
    match mapFind vars name with
    | some value => value
    | none => parent.getVariable name

def defineFunction : Environment → String → FunctionDefAST → Environment
  | .root vars functions, name, func => .root vars (mapAssign functions name func)
  | .child vars functions parent, name, func =>
    .child vars (mapAssign functions name func) parent

def getFunction : Environment → String → Option FunctionDefAST
  | .root _ functions, name =>
    match mapFind functions name with
    | some func => some func
    | none => none
  | .child _ functions parent, name =>
    match mapFind functions name with
    | some func => some func
    | none => parent.getFunction name

def createChildEnv (env : Environment) : Environment :=
  .child [] [] env

/-- The environment `child` after the object its `parent` pointer refers to
has become `env`. -/
def withParent : Environment → Environment → Environment
  | .root vars functions, env => .child vars functions env
  | .child vars functions _, env => .child vars functions env

/-- The object the `parent` pointer of `child` refers to; `env` when the
pointer is null. -/
def parentOr : Environment → Environment → Environment
  | .child _ _ parent, _ => parent
  | .root _ _, env => env

end Environment

/-! ## Evaluator -/

inductive NodeAST
  | Expr (expr : ExprAST)
  | Statement (stmt : StatementAST)

/-- The state of the environment after an evaluation, and what the evaluation
returned (`none` is a null `unique_ptr<Value>`) or threw. -/
abbrev EvalResult := Environment × Except Error (Option Value)

/-- The value of a 32-bit `int` computation whose exact result is `z`, wrapped
to two's complement. -/
def wrapInt (z : Int) : Int :=
  (z + 2147483648) % 4294967296 - 2147483648

/-- The switch over the operator character in `visit(BinaryOpAST&)`. -/
def binaryOp (op : Char) (left right : Int) : Except Error Int :=
  if op = '+' then .ok (wrapInt (left + right))
  else if op = '-' then .ok (wrapInt (left - right))
  else if op = '*' then .ok (wrapInt (left * right))
  else if op = '/' then
    if right = 0 then .error (.RuntimeError "Division by zero")
    else .ok (wrapInt (Int.tdiv left right))
  else if op = '=' then .ok (if left = right then 1 else 0)
  else if op = '!' then .ok (if left ≠ right then 1 else 0)
  else if op = '<' then .ok (if left < right then 1 else 0)
  else .error (.RuntimeError "Unknown binary operator")

/-- The loop of `visit(FunctionCallAST&)` that evaluates each argument with
the caller's evaluator and binds it in `funcEnv`, the child of `env`. -/
def bindArgs (eval : Environment → NodeAST → Option EvalResult) :
    List String → List ExprAST → Environment → Environment →
    Option (Environment × Except Error Environment)
  | param :: params, arg :: args, env, funcEnv =>
    match eval env (.Expr arg) with
    | none => none
    | some (env1, .error e) => some (env1, .error e)
    | some (env1, .ok argValue) =>
      bindArgs eval params args env1 ((funcEnv.withParent env1).defineVariable param argValue)
  | _, _, env, funcEnv => some (env, .ok funcEnv)

/-- The loop `for (stmt : func->getBody()) evaluate(stmt)`. -/
def evalBody (eval : Environment → NodeAST → Option EvalResult) :
    List StatementAST → Environment → Option (Environment × Except Error Unit)
  | [], env => some (env, .ok ())
  | stmt :: body, env =>
    match eval env (.Statement stmt) with
    | none => none
    | some (env1, .error e) => some (env1, .error e)
    | some (env1, .ok _) => evalBody eval body env1

/-- `Evaluator::evaluate` on the evaluator of `env`, with a bound `fuel` on the
nesting depth of evaluations; `none` when the bound is reached. -/
def evaluate : Nat → Environment → NodeAST → Option EvalResult
  | 0, _, _ => none
  | _ + 1, env, .Expr (.Number value) => some (env, .ok (some (.IntValue value)))
  | _ + 1, env, .Expr (.Identifier name) =>
    match env.getVariable name with
    | none => some (env, .error (.NameError ("Undefined variable: " ++ name)))
    | some val => some (env, .ok (some (.IntValue val.asInt)))
  | fuel + 1, env, .Expr (.BinaryOp op l r) =>
    match evaluate fuel env (.Expr l) with
    | none => none
    | some (env1, .error e) => some (env1, .error e)
    | some (env1, .ok leftEval) =>
      match evaluate fuel env1 (.Expr r) with
      | none => none
      | some (env2, .error e) => some (env2, .error e)
      | some (env2, .ok rightEval) =>
        match leftEval, rightEval with
        | some left, some right =>
          match binaryOp op left.asInt right.asInt with
          | .error e => some (env2, .error e)
          | .ok value => some (env2, .ok (some (.IntValue value)))
        | _, _ => some (env2, .error (.RuntimeError "Invalid operands in binary operation"))
  | fuel + 1, env, .Expr (.TernaryExpr c t e) =>
    match evaluate fuel env (.Expr c) with
    | none => none
    | some (env1, .error err) => some (env1, .error err)
    | some (env1, .ok none) =>
      some (env1, .error (.RuntimeError "Invalid condition in ternary expression"))
    | some (env1, .ok (some conditionValue)) =>
      if conditionValue.asInt ≠ 0 then evaluate fuel env1 (.Expr t)
      else evaluate fuel env1 (.Expr e)
  | fuel + 1, env, .Expr (.FunctionCall callee args) =>
    match env.getFunction callee with
    | none => some (env, .error (.NameError ("Undefined function: " ++ callee)))
    | some func =>
      if func.getParams.length ≠ args.length then
        some (env, .error (.RuntimeError
          ("Function " ++ callee ++ " called with incorrect number of arguments")))
      else
        match bindArgs (evaluate fuel) func.getParams args env env.createChildEnv with
        | none => none
        | some (env1, .error e) => some (env1, .error e)
        | some (env1, .ok funcEnv) =>
          match evalBody (evaluate fuel) func.getBody funcEnv with
          | none => none
          | some (funcEnv1, .error e) => some (funcEnv1.parentOr env1, .error e)
          | some (funcEnv1, .ok _) =>
            match evaluate fuel funcEnv1 (.Expr func.getReturnExpr) with
            | none => none
            | some (funcEnv2, result) => some (funcEnv2.parentOr env1, result)
  | fuel + 1, env, .Statement (.Assignment variable_ value) =>
    match evaluate fuel env (.Expr value) with
    | none => none
    | some (env1, .error e) => some (env1, .error e)
    | some (env1, .ok none) =>
      some (env1, .error (.RuntimeError "Invalid expression in assignment"))
    | some (env1, .ok (some v)) => some (env1.defineVariable variable_ (some v), .ok none)
  | fuel + 1, env, .Statement (.ReturnStmt return_expr) =>
    evaluate fuel env (.Expr return_expr)
  | _ + 1, env, .Statement (.FunctionDef functionDef) =>
    some (env.defineFunction functionDef.getName functionDef.clone, .ok none)

/-! ## Interpreter -/

structure Interpreter where
  global_env : Environment
  functions : List FunctionDefAST

namespace Interpreter

/-- The loop of the constructor that registers a clone of every parsed
function in the global environment. -/
def registerAll : List FunctionDefAST → Environment → Environment
  | [], env => env
  | func :: functions, env => registerAll functions (env.defineFunction func.getName func.clone)

/-- The state the constructor leaves once `parseProgram` has returned
`functions`. -/
def load (functions : List FunctionDefAST) : Interpreter :=
  { global_env := registerAll functions (.root [] []), functions := functions }

/-- The constructor `Interpreter(std::istream&)` on the text `input`; the outer
`none` is a parser or tokenizer bound reached. -/
def new (input : String) : Option (Except Error Interpreter) :=
  match Tokenizer.tokens input with
  | none => none
  | some (.error e) => some (.error e)
  | some (.ok ts) =>
    match parseProgram ts with
    | .outOfFuel => none
    | .error e => some (.error e)
    | .ok functions _ => some (.ok (load functions))

/-- The loop of `run` that binds every parameter to its integer argument. -/
def bindInts : List String → List Int → Environment → Environment
  | param :: params, arg :: args, funcEnv =>
    bindInts params args (funcEnv.defineVariable param (some (.IntValue arg)))
  | _, _, funcEnv => funcEnv

/-- `Interpreter::run`, with the bound `fuel` handed to the evaluator: the
interpreter after the call, and the integer returned or the error thrown. -/
def run (fuel : Nat) (interp : Interpreter) (function_name : String) (args : List Int) :
    Option (Interpreter × Except Error Int) :=
  match interp.global_env.getFunction function_name with
  | none => some (interp, .error (.NameError ("Function not found: " ++ function_name)))
  | some func =>
    if func.getParams.length ≠ args.length then
      some (interp, .error (.RuntimeError
        ("Incorrect number of arguments for function: " ++ function_name)))
    else
      let funcEnv := bindInts func.getParams args interp.global_env.createChildEnv
      match evalBody (evaluate fuel) func.getBody funcEnv with
      | none => none
      | some (funcEnv1, .error e) =>
        some ({ interp with global_env := funcEnv1.parentOr interp.global_env }, .error e)
      | some (funcEnv1, .ok _) =>
        match evaluate fuel funcEnv1 (.Expr func.getReturnExpr) with
        | none => none
        | some (funcEnv2, .error e) =>
          some ({ interp with global_env := funcEnv2.parentOr interp.global_env }, .error e)
        | some (funcEnv2, .ok none) =>
          some ({ interp with global_env := funcEnv2.parentOr interp.global_env },
            .error (.RuntimeError "Function did not return a value"))
        | some (funcEnv2, .ok (some result)) =>
          some ({ interp with global_env := funcEnv2.parentOr interp.global_env },
            .ok result.asInt)

end Interpreter

/-! ## Programs and notions the properties are stated with -/

/-- The smallest value of the host's 32-bit `int`. -/
def INT_MIN : Int := -2147483648

/-- The largest value of the host's 32-bit `int`. -/
def INT_MAX : Int := 2147483647

def srcAdd : String := "def f(a,b) \n return a+b"

def addProgram : List FunctionDefAST :=
  [.mk "f" ["a", "b"] [] (.BinaryOp '+' (.Identifier "a") (.Identifier "b"))]

def srcDiv : String := "def d(a,b) \n return a/b"

def divProgram : List FunctionDefAST :=
  [.mk "d" ["a", "b"] [] (.BinaryOp '/' (.Identifier "a") (.Identifier "b"))]

def srcFact : String := "def fact(n) \n return if n<1 then 1 else n*fact(n-1)"

/-- The return expression of `fact`. -/
def factBody : ExprAST :=
  .TernaryExpr (.BinaryOp '<' (.Identifier "n") (.Number 1)) (.Number 1)
    (.BinaryOp '*' (.Identifier "n")
      (.FunctionCall "fact" [.BinaryOp '-' (.Identifier "n") (.Number 1)]))

def factDef : FunctionDefAST := .mk "fact" ["n"] [] factBody

def srcOuter : String := "def outer(a) \n x = a+1 \n return x"

def outerProgram : List FunctionDefAST :=
  [.mk "outer" ["a"] [.Assignment "x" (.BinaryOp '+' (.Identifier "a") (.Number 1))]
    (.Identifier "x")]

def srcUndefinedVariable : String := "def f() \n return x"

def undefinedVariableProgram : List FunctionDefAST :=
  [.mk "f" [] [] (.Identifier "x")]

def srcWrongArity : String := "def g(a,b) \n return a \ndef f() \n return g(x)"

def wrongArityProgram : List FunctionDefAST :=
  [.mk "g" ["a", "b"] [] (.Identifier "a"),
   .mk "f" [] [] (.FunctionCall "g" [.Identifier "x"])]

def srcTwoParams : String := "def f(a,b) \n return a"

def srcNoReturn : String := "def f(a) \n x = a \n"

def srcNestedReturnOnly : String := "def f() \n def g() \n return 1 \n"

namespace Environment

/-- The scope chain of an environment: the environment itself, then its
parent, and so on up to the global environment. -/
def chain : Environment → List Environment
  | .root vars functions => [.root vars functions]
  | .child vars functions parent => .child vars functions parent :: parent.chain

/-- No scope of the chain stores a null pointer as the value of a variable. -/
def NoNull (env : Environment) : Prop :=
  ∀ scope ∈ env.chain, ∀ entry ∈ scope.vars, entry.2 ≠ none

/-- The entry for `name` of the innermost scope of the chain that has one. -/
def innermostBinding (env : Environment) (name : String) : Option (Option Value) :=
  (env.chain.find? (fun scope => (mapFind scope.vars name).isSome)).bind
    (fun scope => mapFind scope.vars name)

/-- The function registered under `name` in the innermost scope of the chain
that has one. -/
def innermostFunction (env : Environment) (name : String) : Option FunctionDefAST :=
  (env.chain.find? (fun scope => (mapFind scope.functions name).isSome)).bind
    (fun scope => mapFind scope.functions name)

end Environment

/-- The number of function definitions that are still waiting for their RETURN
when the stream ends, `n` of them being open at its start: a DEF opens one, a
RETURN closes the one opened last. -/
def openDefs : Nat → TokenStream → Nat
  | n, [] => n
  | n, .Utility .EOFT :: _ => n
  | n, .Utility .DEF :: ts => openDefs (n + 1) ts
  | n, .Utility .RETURN :: ts => openDefs (n - 1) ts
  | n, _ :: ts => openDefs n ts

/-- The tokens a parse function has used up lead from `ts` to `rest` without
opening or closing a function definition, and `rest` is no longer than `ts`. -/
def Consumed (ts rest : TokenStream) : Prop :=
  rest.length ≤ ts.length ∧ ∀ n, openDefs n ts = openDefs n rest

def isSyntaxError : Error → Prop
  | .SyntaxError _ => True
  | _ => False

/-- A token that neither opens nor closes a function definition nor ends the
stream. -/
def neutral (t : Token) : Prop :=
  t ≠ .Utility .DEF ∧ t ≠ .Utility .RETURN ∧ t ≠ .Utility .EOFT

/-- What a parse function run with `fuel` guarantees: a result satisfies
`post`, an exception is a SyntaxError, and the fuel bound is reached only when
`fuel` is below `need`. -/
def ParseSpec {α : Type} (need fuel : Nat) (post : α → TokenStream → Prop) :
    ParseResult α → Prop
  | .ok value rest => post value rest
  | .error e => isSyntaxError e
  | .outOfFuel => fuel < need

/-- The tokens of `def f(a) \n x = a \n`. -/
def tokensNoReturn : TokenStream :=
  [.Utility .DEF, .Symbol "f", .Embracing .LPAREN, .Symbol "a", .Embracing .RPAREN,
   .Utility .NEWLINE, .Symbol "x", .Operator .EQ, .Symbol "a", .Utility .NEWLINE]

/-- The tokens of `def f() \n def g() \n return 1 \n`. -/
def tokensNestedReturnOnly : TokenStream :=
  [.Utility .DEF, .Symbol "f", .Embracing .LPAREN, .Embracing .RPAREN, .Utility .NEWLINE,
   .Utility .DEF, .Symbol "g", .Embracing .LPAREN, .Embracing .RPAREN, .Utility .NEWLINE,
   .Utility .RETURN, .Constant 1, .Utility .NEWLINE]

def srcTernaryUntaken : String := "def f() \n return if 1 then 1 else 1/0"

def srcDynamicScope : String := "def g() \n return x \ndef f(a) \n x = a \n return g()"

def dynamicScopeProgram : List FunctionDefAST :=
  [.mk "g" [] [] (.Identifier "x"),
   .mk "f" ["a"] [.Assignment "x" (.Identifier "a")] (.FunctionCall "g" [])]

def srcCalleeAssigns : String :=
  "def g() \n x = 99 \n y = 5 \n return x \ndef f() \n x = 1 \n z = g() \n return x"

def srcCalleeLocalRead : String :=
  "def g() \n x = 99 \n y = 5 \n return x \ndef f() \n x = 1 \n z = g() \n return y"

def srcMutualRecursion : String :=
  "def is_even(n) \n return if n == 0 then 1 else is_odd(n-1) \n" ++
  "def is_odd(n) \n return if n == 0 then 0 else is_even(n-1)"

def srcLeftFails : String := "def f() \n return x + 1/0"

def srcRightFails : String := "def f() \n return 0 * (1/0)"

def srcTernaryInBranch : String := "def f(a,b) \n return if a then if b then 1 else 2 else 3"

def srcTernaryAsOperand : String := "def f(a) \n return 1 + if a then 2 else 3"

def srcTernaryInParens : String :=
  "def f(a,b) \n return if a then (if b then 1 else 2) else 3"

def ternaryInParensProgram : List FunctionDefAST :=
  [.mk "f" ["a", "b"] []
    (.TernaryExpr (.Identifier "a")
      (.TernaryExpr (.Identifier "b") (.Number 1) (.Number 2)) (.Number 3))]

def srcTernaryTopLevel : String :=
  "def f(a) \n x = if a then 1 else 2 \n return g(if a then x else 0, (if x then 1 else 2))"

def ternaryTopLevelProgram : List FunctionDefAST :=
  [.mk "f" ["a"]
    [.Assignment "x" (.TernaryExpr (.Identifier "a") (.Number 1) (.Number 2))]
    (.FunctionCall "g"
      [.TernaryExpr (.Identifier "a") (.Identifier "x") (.Number 0),
       .TernaryExpr (.Identifier "x") (.Number 1) (.Number 2)])]

/-- The result `r` of a run with less fuel against the result `r1` of a run with
more: either the smaller run reached the fuel bound or the two agree. -/
def ParseResult.below {α : Type} (r r1 : ParseResult α) : Prop :=
  r = .outOfFuel ∨ r = r1

/-- The character under which the parser stores a binary operator token in a
BinaryOp node (`=` for `==`, `!` for `!=`). -/
def opChar : OperatorToken → Char
  | .PLUS => '+'
  | .MINUS => '-'
  | .MULTIPLY => '*'
  | .DIVIDE => '/'
  | .EQ_EQ => '='
  | .NOT_EQ => '!'
  | .LESS => '<'
  | .EQ => '='

/-- The tokens `toks`, read by `parse`, yield `ast` and are used up exactly,
whatever comes after them, provided the token that comes next satisfies
`stop`. -/
def Operand (parse : Nat → TokenStream → ParseResult ExprAST) (stop : Token → Prop)
    (toks : TokenStream) (ast : ExprAST) : Prop :=
  ∀ rest, stop (GetToken rest) → ∃ fuel, parse fuel (toks ++ rest) = .ok ast rest

/-- A token that does not turn a primary before it into a call. -/
def afterPrimary (t : Token) : Prop :=
  t ≠ .Embracing .LPAREN

/-- A token at which a product ends. -/
def afterMul (t : Token) : Prop :=
  afterPrimary t ∧ t ≠ .Operator .MULTIPLY ∧ t ≠ .Operator .DIVIDE

/-- A token at which a sum ends. -/
def afterAdd (t : Token) : Prop :=
  afterMul t ∧ t ≠ .Operator .PLUS ∧ t ≠ .Operator .MINUS

/-- A token at which a comparison ends. -/
def afterLogical (t : Token) : Prop :=
  afterAdd t ∧ t ≠ .Operator .EQ_EQ ∧ t ≠ .Operator .NOT_EQ ∧ t ≠ .Operator .LESS

/-- The tokens `toks` are a primary with tree `ast`. -/
def IsPrimary (toks : TokenStream) (ast : ExprAST) : Prop :=
  Operand parsePrimary afterPrimary toks ast

/-- The tokens of `op1 p1 ... opn pn`, each operand given by its tokens and
its tree. -/
def chainTokens : List (OperatorToken × TokenStream × ExprAST) → TokenStream
  | [] => []
  | (o, toks, _) :: ops => .Operator o :: toks ++ chainTokens ops

/-- The left-nested tree
BinaryOp(opn, BinaryOp(..., BinaryOp(op1, e, p1), ...), pn). -/
def leftNested : ExprAST → List (OperatorToken × TokenStream × ExprAST) → ExprAST
  | e, [] => e
  | e, (o, _, ast) :: ops => leftNested (.BinaryOp (opChar o) e ast) ops

def srcLeftAssoc : String := "def f(a,b,c) \n return a - b - c"

def leftAssocProgram : List FunctionDefAST :=
  [.mk "f" ["a", "b", "c"] []
    (.BinaryOp '-' (.BinaryOp '-' (.Identifier "a") (.Identifier "b")) (.Identifier "c"))]

def srcMulBeforeAdd : String := "def f(a,b,c) \n return a + b * c"

def mulBeforeAddProgram : List FunctionDefAST :=
  [.mk "f" ["a", "b", "c"] []
    (.BinaryOp '+' (.Identifier "a") (.BinaryOp '*' (.Identifier "b") (.Identifier "c")))]

def srcParenthesised : String := "def f(a,b,c) \n return (a + b) * c"

def parenthesisedProgram : List FunctionDefAST :=
  [.mk "f" ["a", "b", "c"] []
    (.BinaryOp '*' (.BinaryOp '+' (.Identifier "a") (.Identifier "b")) (.Identifier "c"))]

/-- The result of a parse function with a NEWLINE token added at the end of
the tokens it left. -/
def ParseResult.appendNewline {α : Type} : ParseResult α → ParseResult α
  | .ok value rest => .ok value (rest ++ [.Utility .NEWLINE])
  | .error e => .error e
  | .outOfFuel => .outOfFuel

/-- The tokens left by a parse function on a stream and on the same stream
with a NEWLINE added at its end: the same tokens and the added NEWLINE, or
nothing in both cases, the added NEWLINE having been read as well. -/
def NewlineAbsorbed (rest rest1 : TokenStream) : Prop :=
  rest1 = rest ++ [.Utility .NEWLINE] ∨ (rest = [] ∧ rest1 = [])

/-- Two results succeed together and with the same value; in the direction
from the second to the first only for the values that satisfy `Q`. -/
def SameSuccess {α : Type} (Q : α → Prop) (r r1 : ParseResult α) : Prop :=
  (∀ a rest, r = .ok a rest → ∃ rest1, r1 = .ok a rest1 ∧ NewlineAbsorbed rest rest1) ∧
  (∀ a rest1, r1 = .ok a rest1 → Q a → ∃ rest, r = .ok a rest ∧ NewlineAbsorbed rest rest1)

def srcReturnTwoExpressions : String := "def f() \n return 1 2"

def srcReturnThenParen : String := "def f(a) \n return a )"

def srcNoTrailingNewline : String := "def f(a,b) \n return a+b"

def srcTrailingNewline : String := "def f(a,b) \n return a+b\n"

/-! ### Calls, parameters and nested definitions -/

def srcArgsInCallerEnv : String := "def g(a,b) \n return b \ndef f(a) \n return g(a+1, a)"

def argsInCallerEnvProgram : List FunctionDefAST :=
  [.mk "g" ["a", "b"] [] (.Identifier "b"),
   .mk "f" ["a"] []
    (.FunctionCall "g" [.BinaryOp '+' (.Identifier "a") (.Number 1), .Identifier "a"])]

def srcTwoFailingArgs : String := "def g(a,b) \n return a \ndef f() \n return g(x, 1/0)"

def srcTwoFailingArgsSwapped : String := "def g(a,b) \n return a \ndef f() \n return g(1/0, x)"

/-- The environment `funcEnv` after each parameter has been bound, from left
to right, to the value at the same position. -/
def bindValues : List String → List (Option Value) → Environment → Environment
  | param :: params, v :: vals, funcEnv => bindValues params vals (funcEnv.defineVariable param v)
  | _, _, funcEnv => funcEnv

def srcDuplicateParams : String := "def f(a,a) \n return a"

def duplicateParamsProgram : List FunctionDefAST :=
  [.mk "f" ["a", "a"] [] (.Identifier "a")]

/-- The tokens of a parameter list: the names separated by commas. -/
def paramTokens : List String → TokenStream
  | [] => []
  | [name] => [.Symbol name]
  | name :: names => .Symbol name :: .Embracing .COMMA :: paramTokens names

/-- The argument bound last to a parameter called `name`, when the parameters
are bound to the arguments from left to right. -/
def lastBound (params : List String) (args : List Int) (name : String) : Option Int :=
  (params.zip args).reverse.lookup name

/-- The interpreters that calls of `run` lead to from `interp0`. -/
inductive Reachable (interp0 : Interpreter) : Interpreter → Prop
  | start : Reachable interp0 interp0
  | step (interp interp1 : Interpreter) (fuel : Nat) (name : String) (args : List Int)
      (r : Except Error Int) :
      Reachable interp0 interp → Interpreter.run fuel interp name args = some (interp1, r) →
      Reachable interp0 interp1

/-- Modelled from the spec: the in-language call `name(a1, ..., an)` whose
arguments are the number literals of the integers `args`. -/
def callExpr (name : String) (args : List Int) : ExprAST :=
  .FunctionCall name (args.map .Number)

def srcDuplicateTop : String := "def f() \n return 1 \ndef f(a) \n return a"

def duplicateTopProgram : List FunctionDefAST :=
  [.mk "f" [] [] (.Number 1), .mk "f" ["a"] [] (.Identifier "a")]

/-- Modelled from the spec: the last top-level definition called `name`, in
source order. -/
def lastNamed (functions : List FunctionDefAST) (name : String) : Option FunctionDefAST :=
  functions.reverse.find? (fun f => f.getName = name)

/-! ### Operators of parsed programs and the errors of a run -/

/-- The operator characters the switch of `visit(BinaryOpAST&)` has a case
for. -/
def knownOp (op : Char) : Prop :=
  op = '+' ∨ op = '-' ∨ op = '*' ∨ op = '/' ∨ op = '=' ∨ op = '!' ∨ op = '<'

mutual
/-- Every BinaryOp node of the expression has a known operator character. -/
def ExprAST.KnownOps : ExprAST → Prop
  | .Number _ => True
  | .Identifier _ => True
  | .BinaryOp op left right => knownOp op ∧ left.KnownOps ∧ right.KnownOps
  | .TernaryExpr condition then_expr else_expr =>
    condition.KnownOps ∧ then_expr.KnownOps ∧ else_expr.KnownOps
  | .FunctionCall _ args => argsKnownOps args

/-- Every BinaryOp node of the arguments has a known operator character. -/
def argsKnownOps : List ExprAST → Prop
  | [] => True
  | arg :: args => arg.KnownOps ∧ argsKnownOps args
end

mutual
/-- Every BinaryOp node of the definition, nested definitions included, has a
known operator character. -/
def FunctionDefAST.KnownOps : FunctionDefAST → Prop
  | .mk _ _ body return_expr => bodyKnownOps body ∧ return_expr.KnownOps

/-- Every BinaryOp node of the statements has a known operator character. -/
def bodyKnownOps : List StatementAST → Prop
  | [] => True
  | .Assignment _ value :: body => value.KnownOps ∧ bodyKnownOps body
  | .ReturnStmt return_expr :: body => return_expr.KnownOps ∧ bodyKnownOps body
  | .FunctionDef nested_func :: body => nested_func.KnownOps ∧ bodyKnownOps body
end

def StatementAST.KnownOps : StatementAST → Prop
  | .Assignment _ value => value.KnownOps
  | .ReturnStmt return_expr => return_expr.KnownOps
  | .FunctionDef nested_func => nested_func.KnownOps

def NodeAST.KnownOps : NodeAST → Prop
  | .Expr expr => expr.KnownOps
  | .Statement stmt => stmt.KnownOps

/-- Every function registered in the environment or in one of its ancestors
has known operator characters only. -/
def Environment.KnownOps : Environment → Prop
  | .root _ functions => ∀ p ∈ functions, p.2.KnownOps
  | .child _ functions parent => (∀ p ∈ functions, p.2.KnownOps) ∧ parent.KnownOps

/-- A result of a parse function, when there is one, satisfies `P`. -/
def ParseResult.Holds {α : Type} (P : α → Prop) : ParseResult α → Prop
  | .ok value _ => P value
  | .error _ => True
  | .outOfFuel => True

/-- The errors of the evaluator that are not defensive: a NameError, the
division by zero, and the arity error of a call. -/
def evaluatorError (e : Error) : Prop :=
  (∃ msg, e = .NameError msg) ∨ e = .RuntimeError "Division by zero" ∨
    ∃ callee, e = .RuntimeError
      ("Function " ++ callee ++ " called with incorrect number of arguments")

/-- The errors of the defensive branches of the evaluator and of `run`. -/
def defensiveErrors : List Error :=
  [.RuntimeError "Unknown binary operator",
   .RuntimeError "Invalid operands in binary operation",
   .RuntimeError "Invalid condition in ternary expression",
   .RuntimeError "Invalid expression in assignment",
   .RuntimeError "Function did not return a value"]

def srcAllOperators : String :=
  "def f(a,b) \n x = a + b - a * b / 2 \n return if x == 1 then x != 2 else x < 3"

/-! ### Blank lines -/

/-- The stream `ts1` is `ts` with one more NEWLINE token right after one of
its NEWLINE tokens. -/
def BlankLineAfter (ts ts1 : TokenStream) : Prop :=
  ∃ pre post, ts = pre ++ .Utility .NEWLINE :: post ∧
    ts1 = pre ++ .Utility .NEWLINE :: .Utility .NEWLINE :: post

/-- The stream `ts1` is `ts` with one more NEWLINE token at its very start or
right after one of its NEWLINE tokens. -/
def BlankLineInserted (ts ts1 : TokenStream) : Prop :=
  ts1 = .Utility .NEWLINE :: ts ∨ BlankLineAfter ts ts1

/-- The stream `ts1` is `ts`, or `ts` with a blank line inserted. -/
def BlankLineOrSame (ts ts1 : TokenStream) : Prop :=
  ts1 = ts ∨ BlankLineInserted ts ts1

/-- Two results of parse functions are the same, up to the relation `R`
between the tokens they leave. -/
def ParseResult.Related {α : Type} (R : TokenStream → TokenStream → Prop) :
    ParseResult α → ParseResult α → Prop
  | .ok a rest, .ok a1 rest1 => a = a1 ∧ R rest rest1
  | .error e, .error e1 => e = e1
  | .outOfFuel, .outOfFuel => True
  | _, _ => False

def srcWithoutBlankLines : String := "def f(a) \n x = a \n return x \ndef g() \n return f(1)"

def srcWithBlankLines : String :=
  "\n\ndef f(a) \n\n x = a \n\n\n return x \n\n\ndef g() \n\n return f(1)\n\n"

/-! ### Comments -/

/-- The input `rest` starts with a character that ends every token: it is
empty, or starts with `#` or with a newline. -/
def Tokenizer.Stops (rest : List Char) : Prop :=
  ∀ h t, rest = h :: t → h = '#' ∨ h = '\n'

/-- The result of `Tokenizer.Next` with `rest` added at the end of the input
left. -/
def Tokenizer.appendRest (rest : List Char) :
    Except Error (Token × List Char) → Except Error (Token × List Char)
  | .ok (t, input) => .ok (t, input ++ rest)
  | .error e => .error e

def srcCommented : String := "return 1 # done\n"

def srcUncommented : String := "return 1 \n"
namespace Environment
theorem parent_defineVariable (env : Environment) (name : String) (v : Option Value) :
    (env.defineVariable name v).parent = env.parent := by
  cases env <;> rfl

theorem parent_defineFunction (env : Environment) (name : String) (f : FunctionDefAST) :
    (env.defineFunction name f).parent = env.parent := by
  cases env <;> rfl

theorem parent_withParent (child env : Environment) : (child.withParent env).parent = some env := by
  cases child <;> rfl

theorem parent_createChildEnv (env : Environment) : env.createChildEnv.parent = some env := rfl

theorem parentOr_of_parent {child env : Environment} (d : Environment)
    (h : child.parent = some env) : child.parentOr d = env := by
  cases child with
  | root vars functions => simp [Environment.parent] at h
  | child vars functions parent =>
    simp only [Environment.parent, Option.some.injEq] at h
    subst h
    rfl

theorem withParent_of_parent {child env : Environment} (h : child.parent = some env) :
    child.withParent env = child := by
  cases child with
  | root vars functions => simp [Environment.parent] at h
  | child vars functions parent =>
    simp only [Environment.parent, Option.some.injEq] at h
    subst h
    rfl
end Environment

theorem bindArgs_frame (eval : Environment → NodeAST → Option EvalResult)
    (heval : ∀ env e env1 r, eval env (.Expr e) = some (env1, r) → env1 = env) :
    ∀ (params : List String) (args : List ExprAST) (env funcEnv env1 : Environment)
      (r : Except Error Environment),
      funcEnv.parent = some env →
      bindArgs eval params args env funcEnv = some (env1, r) →
      env1 = env ∧ ∀ fe, r = .ok fe → fe.parent = some env := by
  intro params
  induction params with
  | nil =>
    intro args env funcEnv env1 r hp h
    simp only [bindArgs] at h
    obtain ⟨rfl, rfl⟩ := Prod.mk.inj (Option.some.inj h)
    exact ⟨rfl, fun fe hfe => by cases hfe; exact hp⟩
  | cons param params ih =>
    intro args env funcEnv env1 r hp h
    cases args with
    | nil =>
      simp only [bindArgs] at h
      obtain ⟨rfl, rfl⟩ := Prod.mk.inj (Option.some.inj h)
      exact ⟨rfl, fun fe hfe => by cases hfe; exact hp⟩
    | cons arg args =>
      simp only [bindArgs] at h
      cases hev : eval env (.Expr arg) with
      | none => simp [hev] at h
      | some res =>
        obtain ⟨env2, r2⟩ := res
        have h2 := heval _ _ _ _ hev
        subst h2
        cases r2 with
        | error e =>
          simp only [hev] at h
          obtain ⟨rfl, rfl⟩ := Prod.mk.inj (Option.some.inj h)
          exact ⟨rfl, fun fe hfe => by cases hfe⟩
        | ok argValue =>
          simp only [hev] at h
          exact ih args _ _ _ _
            (by rw [Environment.parent_defineVariable, Environment.parent_withParent]) h

theorem evalBody_frame (eval : Environment → NodeAST → Option EvalResult)
    (heval : ∀ env s env1 r, eval env (.Statement s) = some (env1, r) → env1.parent = env.parent) :
    ∀ (body : List StatementAST) (env env1 : Environment) (r : Except Error Unit),
      evalBody eval body env = some (env1, r) → env1.parent = env.parent := by
  intro body
  induction body with
  | nil =>
    intro env env1 r h
    simp only [evalBody] at h
    obtain ⟨rfl, rfl⟩ := Prod.mk.inj (Option.some.inj h)
    rfl
  | cons stmt body ih =>
    intro env env1 r h
    simp only [evalBody] at h
    cases hev : eval env (.Statement stmt) with
    | none => simp [hev] at h
    | some res =>
      obtain ⟨env2, r2⟩ := res
      have h2 := heval _ _ _ _ hev
      cases r2 with
      | error e =>
        simp only [hev] at h
        obtain ⟨rfl, rfl⟩ := Prod.mk.inj (Option.some.inj h)
        exact h2
      | ok v =>
        simp only [hev] at h
        rw [ih _ _ _ h, h2]

theorem evaluate_frame : ∀ (fuel : Nat) (env : Environment) (node : NodeAST) (env1 : Environment)
    (r : Except Error (Option Value)), evaluate fuel env node = some (env1, r) →
    env1.parent = env.parent ∧ ∀ e, node = .Expr e → env1 = env := by
  intro fuel
  induction fuel with
  | zero => intro env node env1 r h; simp [evaluate] at h
  | succ fuel ih =>
    have ihE : ∀ env e env1 r, evaluate fuel env (.Expr e) = some (env1, r) → env1 = env :=
      fun env e env1 r h => (ih env _ env1 r h).2 e rfl
    have ihS : ∀ env s env1 r, evaluate fuel env (.Statement s) = some (env1, r) →
        env1.parent = env.parent := fun env s env1 r h => (ih env _ env1 r h).1
    have key : ∀ (env : Environment) (e : ExprAST) (env1 : Environment)
        (r : Except Error (Option Value)),
        evaluate (fuel + 1) env (.Expr e) = some (env1, r) → env1 = env := by
      intro env e env1 r h
      cases e with
      | Number v =>
        simp only [evaluate] at h
        exact (Prod.mk.inj (Option.some.inj h)).1.symm
      | Identifier name =>
        simp only [evaluate] at h
        split at h <;> exact (Prod.mk.inj (Option.some.inj h)).1.symm
      | BinaryOp op l r =>
        simp only [evaluate] at h
        split at h
        · simp at h
        · rename_i env2 e2 hl
          have := ihE _ _ _ _ hl
          subst this
          exact (Prod.mk.inj (Option.some.inj h)).1.symm
        · rename_i env2 lv hl
          have := ihE _ _ _ _ hl
          subst this
          split at h
          · simp at h
          · rename_i env3 e3 hr
            have := ihE _ _ _ _ hr
            subst this
            exact (Prod.mk.inj (Option.some.inj h)).1.symm
          · rename_i env3 rv hr
            have := ihE _ _ _ _ hr
            subst this
            split at h
            · split at h <;> exact (Prod.mk.inj (Option.some.inj h)).1.symm
            · exact (Prod.mk.inj (Option.some.inj h)).1.symm
      | TernaryExpr c t e =>
        simp only [evaluate] at h
        split at h
        · simp at h
        · rename_i env2 e2 hc
          have := ihE _ _ _ _ hc
          subst this
          exact (Prod.mk.inj (Option.some.inj h)).1.symm
        · rename_i env2 hc
          have := ihE _ _ _ _ hc
          subst this
          exact (Prod.mk.inj (Option.some.inj h)).1.symm
        · rename_i env2 cv hc
          have := ihE _ _ _ _ hc
          subst this
          split at h
          · exact ihE _ _ _ _ h
          · exact ihE _ _ _ _ h
      | FunctionCall callee args =>
        simp only [evaluate] at h
        split at h
        · exact (Prod.mk.inj (Option.some.inj h)).1.symm
        · rename_i func hf
          split at h
          · exact (Prod.mk.inj (Option.some.inj h)).1.symm
          · split at h
            · simp at h
            · rename_i env2 e2 hb
              have hb2 := bindArgs_frame _ ihE _ _ _ _ _ _ env.parent_createChildEnv hb
              rw [← (Prod.mk.inj (Option.some.inj h)).1]
              exact hb2.1
            · rename_i env2 funcEnv hb
              have hb2 := bindArgs_frame _ ihE _ _ _ _ _ _ env.parent_createChildEnv hb
              obtain ⟨hb3, hb4⟩ := hb2
              subst hb3
              have hp := hb4 _ rfl
              split at h
              · simp at h
              · rename_i funcEnv1 e3 hbody
                have hp1 := evalBody_frame _ ihS _ _ _ _ hbody
                rw [hp] at hp1
                rw [← (Prod.mk.inj (Option.some.inj h)).1]
                exact Environment.parentOr_of_parent _ hp1
              · rename_i funcEnv1 u hbody
                have hp1 := evalBody_frame _ ihS _ _ _ _ hbody
                rw [hp] at hp1
                split at h
                · simp at h
                · rename_i funcEnv2 result hret
                  have := ihE _ _ _ _ hret
                  subst this
                  rw [← (Prod.mk.inj (Option.some.inj h)).1]
                  exact Environment.parentOr_of_parent _ hp1
    intro env node env1 r h
    cases node with
    | Expr e =>
      have := key env e env1 r h
      subst this
      exact ⟨rfl, fun _ _ => rfl⟩
    | Statement s =>
      refine ⟨?_, fun e he => by cases he⟩
      cases s with
      | Assignment v value =>
        simp only [evaluate] at h
        split at h
        · simp at h
        · rename_i env2 e2 hv
          have := ihE _ _ _ _ hv
          subst this
          rw [← (Prod.mk.inj (Option.some.inj h)).1]
        · rename_i env2 hv
          have := ihE _ _ _ _ hv
          subst this
          rw [← (Prod.mk.inj (Option.some.inj h)).1]
        · rename_i env2 val hv
          have := ihE _ _ _ _ hv
          subst this
          rw [← (Prod.mk.inj (Option.some.inj h)).1]
          exact Environment.parent_defineVariable _ _ _
      | ReturnStmt e =>
        simp only [evaluate] at h
        rw [ihE _ _ _ _ h]
      | FunctionDef f =>
        simp only [evaluate] at h
        rw [← (Prod.mk.inj (Option.some.inj h)).1]
        exact Environment.parent_defineFunction _ _ _
theorem sign_mul_sign_mul_div (m n : Nat) :
    (m : Int).sign * (n : Int).sign * ((m / n : Nat) : Int) = ((m / n : Nat) : Int) := by
  rcases Nat.eq_zero_or_pos (m / n) with h | h
  · rw [h]; simp
  · have hn : 0 < n := by
      rcases Nat.eq_zero_or_pos n with h0 | h0
      · subst h0; simp at h
      · exact h0
    have hm : 0 < m := by
      rcases Nat.eq_zero_or_pos m with h0 | h0
      · subst h0; simp at h
      · exact h0
    rw [Int.sign_eq_one_of_pos (by exact_mod_cast hm), Int.sign_eq_one_of_pos (by exact_mod_cast hn)]
    simp

theorem tdiv_eq_sign_mul_natAbs_div (a b : Int) :
    Int.tdiv a b = a.sign * b.sign * ((a.natAbs / b.natAbs : Nat) : Int) := by
  obtain ⟨m, rfl | rfl⟩ := Int.eq_nat_or_neg a <;> obtain ⟨n, rfl | rfl⟩ := Int.eq_nat_or_neg b
  · rw [Int.natAbs_ofNat, Int.natAbs_ofNat, sign_mul_sign_mul_div]; rfl
  · rw [Int.tdiv_neg, Int.sign_neg, Int.natAbs_neg, Int.mul_neg, Int.neg_mul, Int.natAbs_ofNat,
      Int.natAbs_ofNat, sign_mul_sign_mul_div]; rfl
  · rw [Int.neg_tdiv, Int.sign_neg, Int.natAbs_neg, Int.neg_mul, Int.neg_mul, Int.natAbs_ofNat,
      Int.natAbs_ofNat, sign_mul_sign_mul_div]; rfl
  · rw [Int.neg_tdiv, Int.tdiv_neg, Int.sign_neg, Int.sign_neg, Int.natAbs_neg, Int.natAbs_neg,
      Int.neg_mul_neg, Int.natAbs_ofNat, Int.natAbs_ofNat, sign_mul_sign_mul_div, Int.neg_neg]; rfl

theorem wrapInt_of_range {z : Int} (h1 : INT_MIN ≤ z) (h2 : z ≤ INT_MAX) : wrapInt z = z := by
  unfold wrapInt
  unfold INT_MIN at h1
  unfold INT_MAX at h2
  omega

theorem tdiv_range {a b : Int} (ha : INT_MIN ≤ a ∧ a ≤ INT_MAX) (hb : INT_MIN ≤ b ∧ b ≤ INT_MAX)
    (hb0 : b ≠ 0) (hov : ¬ (a = INT_MIN ∧ b = -1)) :
    INT_MIN ≤ Int.tdiv a b ∧ Int.tdiv a b ≤ INT_MAX := by
  unfold INT_MIN INT_MAX at *
  obtain ⟨m, rfl | rfl⟩ := Int.eq_nat_or_neg a <;> obtain ⟨n, rfl | rfl⟩ := Int.eq_nat_or_neg b
  · have h : Int.tdiv (m : Int) (n : Int) = ((m / n : Nat) : Int) := rfl
    have h1 := Nat.div_le_self m n
    rw [h]
    generalize m / n = k at h1 ⊢
    omega
  · have h : Int.tdiv (m : Int) (n : Int) = ((m / n : Nat) : Int) := rfl
    have h1 := Nat.div_le_self m n
    rw [Int.tdiv_neg, h]
    generalize m / n = k at h1 ⊢
    omega
  · have h : Int.tdiv (m : Int) (n : Int) = ((m / n : Nat) : Int) := rfl
    have h1 := Nat.div_le_self m n
    rw [Int.neg_tdiv, h]
    generalize m / n = k at h1 ⊢
    omega
  · have h : Int.tdiv (m : Int) (n : Int) = ((m / n : Nat) : Int) := rfl
    rw [Int.neg_tdiv, Int.tdiv_neg, Int.neg_neg, h]
    have h1 := Nat.div_le_self m n
    rcases Nat.lt_or_ge n 2 with hn | hn
    · have hn1 : n = 1 := by omega
      subst hn1
      simp only [Nat.div_one]
      omega
    · have h2 : m / n ≤ m / 2 := Nat.div_le_div_left hn (by decide)
      have h3 : m / 2 * 2 ≤ m := Nat.div_mul_le_self m 2
      generalize m / n = k at h1 h2 ⊢
      generalize m / 2 = j at h2 h3
      omega
theorem evaluate_Number (fuel : Nat) (env : Environment) (value : Int) :
    evaluate (fuel + 1) env (.Expr (.Number value)) = some (env, .ok (some (.IntValue value))) := by
  simp only [evaluate]

theorem evaluate_Identifier_some (fuel : Nat) (env : Environment) (name : String) (val : Value)
    (h : env.getVariable name = some val) :
    evaluate (fuel + 1) env (.Expr (.Identifier name)) = some (env, .ok (some val)) := by
  cases val
  simp only [evaluate, h, Value.asInt]

theorem evaluate_Identifier_none (fuel : Nat) (env : Environment) (name : String)
    (h : env.getVariable name = none) :
    evaluate (fuel + 1) env (.Expr (.Identifier name))
      = some (env, .error (.NameError ("Undefined variable: " ++ name))) := by
  simp only [evaluate, h]

theorem evaluate_BinaryOp_values (fuel : Nat) (env env1 env2 : Environment) (op : Char)
    (l r : ExprAST) (lv rv : Value)
    (hl : evaluate fuel env (.Expr l) = some (env1, .ok (some lv)))
    (hr : evaluate fuel env1 (.Expr r) = some (env2, .ok (some rv))) :
    evaluate (fuel + 1) env (.Expr (.BinaryOp op l r))
      = match binaryOp op lv.asInt rv.asInt with
        | .error e => some (env2, .error e)
        | .ok value => some (env2, .ok (some (.IntValue value))) := by
  simp only [evaluate, hl, hr]

theorem evaluate_TernaryExpr_value (fuel : Nat) (env env1 : Environment) (c t e : ExprAST)
    (cv : Value) (hc : evaluate fuel env (.Expr c) = some (env1, .ok (some cv))) :
    evaluate (fuel + 1) env (.Expr (.TernaryExpr c t e))
      = if cv.asInt ≠ 0 then evaluate fuel env1 (.Expr t) else evaluate fuel env1 (.Expr e) := by
  simp only [evaluate, hc]

theorem evaluate_FunctionCall_found (fuel : Nat) (env : Environment) (callee : String)
    (args : List ExprAST) (func : FunctionDefAST) (hf : env.getFunction callee = some func)
    (hlen : func.getParams.length = args.length) :
    evaluate (fuel + 1) env (.Expr (.FunctionCall callee args))
      = match bindArgs (evaluate fuel) func.getParams args env env.createChildEnv with
        | none => none
        | some (env1, .error e) => some (env1, .error e)
        | some (env1, .ok funcEnv) =>
          match evalBody (evaluate fuel) func.getBody funcEnv with
          | none => none
          | some (funcEnv1, .error e) => some (funcEnv1.parentOr env1, .error e)
          | some (funcEnv1, .ok _) =>
            match evaluate fuel funcEnv1 (.Expr func.getReturnExpr) with
            | none => none
            | some (funcEnv2, result) => some (funcEnv2.parentOr env1, result) := by
  simp only [evaluate, hf, hlen, ne_eq, not_true_eq_false, if_false]

/-! ## The constructor on the programs of the properties -/

theorem new_srcAdd : Interpreter.new srcAdd = some (.ok (Interpreter.load addProgram)) := by rfl

theorem new_srcDiv : Interpreter.new srcDiv = some (.ok (Interpreter.load divProgram)) := by rfl

theorem new_srcFact : Interpreter.new srcFact = some (.ok (Interpreter.load [factDef])) := by rfl

theorem new_srcOuter : Interpreter.new srcOuter = some (.ok (Interpreter.load outerProgram)) := by
  rfl

theorem new_srcUndefinedVariable :
    Interpreter.new srcUndefinedVariable = some (.ok (Interpreter.load undefinedVariableProgram)) := by
  rfl

theorem new_srcWrongArity :
    Interpreter.new srcWrongArity = some (.ok (Interpreter.load wrongArityProgram)) := by rfl

/-! ## Arithmetic programs -/

theorem run_add (x y : Int) (fuel : Nat) (hsum : INT_MIN ≤ x + y ∧ x + y ≤ INT_MAX) :
    Interpreter.run (fuel + 2) (Interpreter.load addProgram) "f" [x, y]
      = some (Interpreter.load addProgram, .ok (x + y)) := by
  simp [Interpreter.run, Interpreter.load, addProgram, Interpreter.registerAll,
    Environment.defineFunction, Environment.getFunction, mapFind, mapAssign,
    FunctionDefAST.getName, FunctionDefAST.clone, cloneBody, cloneExpr,
    FunctionDefAST.getParams, FunctionDefAST.getBody, FunctionDefAST.getReturnExpr,
    Interpreter.bindInts, Environment.createChildEnv, Environment.defineVariable, evalBody,
    evaluate, Environment.getVariable, binaryOp, Value.asInt, Environment.parentOr,
    wrapInt_of_range hsum.1 hsum.2]

/-- C1: for the program `def f(a,b) \n return a+b` and all integers `x`, `y`
whose sum fits the 32-bit `int` range, `run("f", [x, y])` returns `x + y`. -/
theorem C1_run_add_returns_sum (x y : Int) (fuel : Nat)
    (hsum : INT_MIN ≤ x + y ∧ x + y ≤ INT_MAX) :
    ∃ interp, Interpreter.new srcAdd = some (.ok interp) ∧
      Interpreter.run (fuel + 2) interp "f" [x, y] = some (interp, .ok (x + y)) :=
  ⟨_, new_srcAdd, run_add x y fuel hsum⟩

theorem C1_run_add_returns_sum_witness :
    (INT_MIN ≤ (3 : Int) + 4 ∧ (3 : Int) + 4 ≤ INT_MAX) ∧
    ∃ interp, Interpreter.new srcAdd = some (.ok interp) ∧
      Interpreter.run (0 + 2) interp "f" [3, 4] = some (interp, .ok (3 + 4)) :=
  ⟨by decide, C1_run_add_returns_sum 3 4 0 (by decide)⟩

theorem run_div (a b : Int) (fuel : Nat) :
    Interpreter.run (fuel + 2) (Interpreter.load divProgram) "d" [a, b]
      = some (Interpreter.load divProgram,
          if b = 0 then .error (.RuntimeError "Division by zero")
          else .ok (wrapInt (Int.tdiv a b))) := by
  by_cases hb : b = 0 <;>
  simp [Interpreter.run, Interpreter.load, divProgram, Interpreter.registerAll,
    Environment.defineFunction, Environment.getFunction, mapFind, mapAssign,
    FunctionDefAST.getName, FunctionDefAST.clone, cloneBody, cloneExpr,
    FunctionDefAST.getParams, FunctionDefAST.getBody, FunctionDefAST.getReturnExpr,
    Interpreter.bindInts, Environment.createChildEnv, Environment.defineVariable, evalBody,
    evaluate, Environment.getVariable, binaryOp, Value.asInt, Environment.parentOr, hb]

/-- C2: when both operands of a BinaryOp with operator `/` evaluate to values,
the evaluation raises RuntimeError if and only if the value of the right
operand is 0; and for `def d(a,b) \n return a/b`, `run("d", [a, 0])` raises
RuntimeError for every integer `a`. -/
theorem C2_division_by_zero_raises :
    (∀ (fuel : Nat) (env env1 env2 : Environment) (l r : ExprAST) (lv rv : Value),
      evaluate fuel env (.Expr l) = some (env1, .ok (some lv)) →
      evaluate fuel env1 (.Expr r) = some (env2, .ok (some rv)) →
      ((∃ env3 msg, evaluate (fuel + 1) env (.Expr (.BinaryOp '/' l r))
          = some (env3, .error (.RuntimeError msg))) ↔ rv.asInt = 0) ∧
      (rv.asInt = 0 → evaluate (fuel + 1) env (.Expr (.BinaryOp '/' l r))
          = some (env2, .error (.RuntimeError "Division by zero")))) ∧
    (∀ (a : Int) (fuel : Nat),
      ∃ interp, Interpreter.new srcDiv = some (.ok interp) ∧
        Interpreter.run (fuel + 2) interp "d" [a, 0]
          = some (interp, .error (.RuntimeError "Division by zero"))) := by
  refine ⟨?_, ?_⟩
  · intro fuel env env1 env2 l r lv rv hl hr
    by_cases h0 : rv.asInt = 0
    · have h : evaluate (fuel + 1) env (.Expr (.BinaryOp '/' l r))
          = some (env2, .error (.RuntimeError "Division by zero")) := by
        simp [evaluate, hl, hr, binaryOp, h0]
      exact ⟨⟨fun _ => h0, fun _ => ⟨_, _, h⟩⟩, fun _ => h⟩
    · have h : evaluate (fuel + 1) env (.Expr (.BinaryOp '/' l r))
          = some (env2, .ok (some (.IntValue (wrapInt (Int.tdiv lv.asInt rv.asInt))))) := by
        simp [evaluate, hl, hr, binaryOp, h0]
      refine ⟨⟨?_, fun h1 => absurd h1 h0⟩, fun h1 => absurd h1 h0⟩
      rintro ⟨env3, msg, h3⟩
      rw [h] at h3
      simp at h3
  · intro a fuel
    refine ⟨_, new_srcDiv, ?_⟩
    rw [run_div]
    simp

theorem C2_division_by_zero_raises_witness :
    evaluate 1 (.root [] []) (.Expr (.Number 7))
      = some (.root [] [], .ok (some (.IntValue 7))) ∧
    evaluate 1 (.root [] []) (.Expr (.Number 0))
      = some (.root [] [], .ok (some (.IntValue 0))) ∧
    ((∃ env3 msg, evaluate (1 + 1) (.root [] [])
        (.Expr (.BinaryOp '/' (.Number 7) (.Number 0)))
          = some (env3, .error (.RuntimeError msg))) ↔ (Value.IntValue 0).asInt = 0) :=
  ⟨rfl, rfl, (C2_division_by_zero_raises.1 1 (.root [] []) (.root [] []) (.root [] [])
    (.Number 7) (.Number 0) (.IntValue 7) (.IntValue 0) rfl rfl).1⟩

/-- C3: for `def d(a,b) \n return a/b` and all 32-bit integers `a`, `b` with
`b ≠ 0`, other than `a = INT_MIN`, `b = -1`, `run("d", [a, b])` is the quotient
truncated toward zero: its magnitude is `|a| / |b|` rounded down and its sign
is the product of the signs; so `run("d",[7,2]) = 3` and
`run("d",[-7,2]) = -3`. -/
theorem C3_division_truncates_toward_zero :
    (∀ (a b : Int) (fuel : Nat), INT_MIN ≤ a ∧ a ≤ INT_MAX → INT_MIN ≤ b ∧ b ≤ INT_MAX →
      b ≠ 0 → ¬ (a = INT_MIN ∧ b = -1) →
      ∃ interp, Interpreter.new srcDiv = some (.ok interp) ∧
        Interpreter.run (fuel + 2) interp "d" [a, b]
          = some (interp, .ok (a.sign * b.sign * ((a.natAbs / b.natAbs : Nat) : Int)))) ∧
    (∃ interp, Interpreter.new srcDiv = some (.ok interp) ∧
      Interpreter.run 2 interp "d" [7, 2] = some (interp, .ok 3) ∧
      Interpreter.run 2 interp "d" [-7, 2] = some (interp, .ok (-3))) := by
  refine ⟨?_, ⟨_, new_srcDiv, by rfl, by rfl⟩⟩
  intro a b fuel ha hb hb0 hov
  refine ⟨_, new_srcDiv, ?_⟩
  have hr := tdiv_range ha hb hb0 hov
  rw [run_div, if_neg hb0, wrapInt_of_range hr.1 hr.2, tdiv_eq_sign_mul_natAbs_div]

theorem C3_division_truncates_toward_zero_witness :
    (INT_MIN ≤ (-7 : Int) ∧ (-7 : Int) ≤ INT_MAX) ∧ (INT_MIN ≤ (2 : Int) ∧ (2 : Int) ≤ INT_MAX) ∧
    (2 : Int) ≠ 0 ∧ ¬ ((-7 : Int) = INT_MIN ∧ (2 : Int) = -1) ∧
    ∃ interp, Interpreter.new srcDiv = some (.ok interp) ∧
      Interpreter.run (0 + 2) interp "d" [-7, 2]
        = some (interp, .ok ((-7 : Int).sign * (2 : Int).sign *
            (((-7 : Int).natAbs / (2 : Int).natAbs : Nat) : Int))) :=
  ⟨by decide, by decide, by decide, by decide,
    C3_division_truncates_toward_zero.1 (-7) 2 0 (by decide) (by decide) (by decide) (by decide)⟩
theorem factorial_le_INT_MAX {k : Nat} (hk : k ≤ 12) :
    ((Nat.factorial k : Nat) : Int) ≤ INT_MAX := by
  have h : Nat.factorial k ≤ Nat.factorial 12 := Nat.factorial_le hk
  have h12 : Nat.factorial 12 = 479001600 := by decide
  unfold INT_MAX
  omega

theorem evaluate_factBody : ∀ (k : Nat), k ≤ 12 → ∀ (fuel : Nat) (env : Environment),
    env.getFunction "fact" = some factDef →
    env.getVariable "n" = some (.IntValue (k : Int)) →
    evaluate (fuel + 3 * k + 3) env (.Expr factBody)
      = some (env, .ok (some (.IntValue ((Nat.factorial k : Nat) : Int)))) := by
  intro k
  induction k with
  | zero =>
    intro _ fuel env hf hn
    have hcond : evaluate (fuel + 2) env (.Expr (.BinaryOp '<' (.Identifier "n") (.Number 1)))
        = some (env, .ok (some (.IntValue 1))) := by
      rw [evaluate_BinaryOp_values (fuel + 1) env env env '<' _ _ _ _
        (evaluate_Identifier_some fuel env "n" _ hn) (evaluate_Number fuel env 1)]
      rfl
    show evaluate (fuel + 2 + 1) env (.Expr (.TernaryExpr _ _ _)) = _
    rw [evaluate_TernaryExpr_value _ _ _ _ _ _ _ hcond]
    simp only [Value.asInt, ne_eq, one_ne_zero, not_false_eq_true, if_true]
    exact evaluate_Number (fuel + 1) env 1
  | succ k ih =>
    intro hk fuel env hf hn
    have hcond : evaluate (fuel + 3 * k + 5) env
        (.Expr (.BinaryOp '<' (.Identifier "n") (.Number 1)))
        = some (env, .ok (some (.IntValue 0))) := by
      rw [evaluate_BinaryOp_values (fuel + 3 * k + 4) env env env '<' _ _ _ _
        (evaluate_Identifier_some _ env "n" _ hn) (evaluate_Number _ env 1)]
      have hlt : ¬ (((k + 1 : Nat) : Int) < 1) := by omega
      simp [binaryOp, Value.asInt, hlt]
    have harg : evaluate (fuel + 3 * k + 3) env
        (.Expr (.BinaryOp '-' (.Identifier "n") (.Number 1)))
        = some (env, .ok (some (.IntValue (k : Int)))) := by
      rw [evaluate_BinaryOp_values (fuel + 3 * k + 2) env env env '-' _ _ _ _
        (evaluate_Identifier_some _ env "n" _ hn) (evaluate_Number _ env 1)]
      have hsub : wrapInt (k : Int) = (k : Int) := by
        unfold wrapInt; omega
      simp [binaryOp, Value.asInt, hsub]
    have hchildF : ((env.createChildEnv.withParent env).defineVariable "n"
        (some (.IntValue (k : Int)))).getFunction "fact" = some factDef := by
      simp only [Environment.createChildEnv, Environment.withParent, Environment.defineVariable,
        Environment.getFunction, mapFind]
      exact hf
    have hchildV : ((env.createChildEnv.withParent env).defineVariable "n"
        (some (.IntValue (k : Int)))).getVariable "n" = some (.IntValue (k : Int)) := by
      simp [Environment.createChildEnv, Environment.withParent, Environment.defineVariable,
        Environment.getVariable, mapFind, mapAssign]
    have hcall : evaluate (fuel + 3 * k + 4) env
        (.Expr (.FunctionCall "fact" [.BinaryOp '-' (.Identifier "n") (.Number 1)]))
        = some (env, .ok (some (.IntValue ((Nat.factorial k : Nat) : Int)))) := by
      rw [evaluate_FunctionCall_found (fuel + 3 * k + 3) env "fact" _ factDef hf rfl]
      simp only [factDef, FunctionDefAST.getParams, FunctionDefAST.getBody,
        FunctionDefAST.getReturnExpr, bindArgs, harg, evalBody]
      rw [ih (by omega) fuel _ hchildF hchildV]
      rfl
    have hmul : wrapInt (((k : Int) + 1) * ((Nat.factorial k : Nat) : Int))
        = ((Nat.factorial (k + 1) : Nat) : Int) := by
      have h1 := factorial_le_INT_MAX hk
      have h2 : ((Nat.factorial (k + 1) : Nat) : Int)
          = ((k : Int) + 1) * ((Nat.factorial k : Nat) : Int) := by
        rw [Nat.factorial_succ]; push_cast; ring
      rw [← h2]
      apply wrapInt_of_range
      · unfold INT_MIN; omega
      · exact h1
    have hprod : evaluate (fuel + 3 * k + 5) env
        (.Expr (.BinaryOp '*' (.Identifier "n")
          (.FunctionCall "fact" [.BinaryOp '-' (.Identifier "n") (.Number 1)])))
        = some (env, .ok (some (.IntValue ((Nat.factorial (k + 1) : Nat) : Int)))) := by
      rw [evaluate_BinaryOp_values (fuel + 3 * k + 4) env env env '*' _ _ _ _
        (evaluate_Identifier_some _ env "n" _ hn) hcall]
      simp [binaryOp, Value.asInt, hmul]
    show evaluate (fuel + 3 * k + 5 + 1) env (.Expr (.TernaryExpr _ _ _)) = _
    rw [evaluate_TernaryExpr_value _ _ _ _ _ _ _ hcond]
    simp only [Value.asInt, ne_eq, not_true_eq_false, if_false]
    exact hprod
/-- The environment `run` evaluates the body of `fact` in: the child of the
global environment with `n` bound to the argument. -/
theorem run_fact_of_body (fuel : Nat) (n v : Int)
    (h : ∀ env : Environment, env.getFunction "fact" = some factDef →
      env.getVariable "n" = some (.IntValue n) →
      evaluate fuel env (.Expr factBody) = some (env, .ok (some (.IntValue v)))) :
    Interpreter.run fuel (Interpreter.load [factDef]) "fact" [n]
      = some (Interpreter.load [factDef], .ok v) := by
  have hg : (Interpreter.load [factDef]).global_env
      = .root [] [("fact", factDef)] := by rfl
  have hf : (Interpreter.load [factDef]).global_env.getFunction "fact" = some factDef := by
    rw [hg]; simp [Environment.getFunction, mapFind]
  have hbody := h (((Interpreter.load [factDef]).global_env.createChildEnv).defineVariable "n"
      (some (.IntValue n)))
    (by rw [hg]; simp [Environment.createChildEnv, Environment.defineVariable,
          Environment.getFunction, mapFind])
    (by rw [hg]; simp [Environment.createChildEnv, Environment.defineVariable,
          Environment.getVariable, mapFind, mapAssign])
  unfold Interpreter.run
  rw [hf]
  have hp : factDef.getParams = ["n"] := rfl
  have hb : factDef.getBody = [] := rfl
  have hr : factDef.getReturnExpr = factBody := rfl
  simp only [hp, hb, hr, List.length_singleton, ne_eq, not_true_eq_false, if_false,
    Interpreter.bindInts, evalBody]
  rw [hbody]
  rfl

theorem evaluate_factBody_lt_one (n : Int) (hn : n < 1) (fuel : Nat) (env : Environment)
    (hv : env.getVariable "n" = some (.IntValue n)) :
    evaluate (fuel + 3) env (.Expr factBody) = some (env, .ok (some (.IntValue 1))) := by
  have hcond : evaluate (fuel + 2) env (.Expr (.BinaryOp '<' (.Identifier "n") (.Number 1)))
      = some (env, .ok (some (.IntValue 1))) := by
    rw [evaluate_BinaryOp_values (fuel + 1) env env env '<' _ _ _ _
      (evaluate_Identifier_some fuel env "n" _ hv) (evaluate_Number fuel env 1)]
    simp [binaryOp, Value.asInt, hn]
  show evaluate (fuel + 2 + 1) env (.Expr (.TernaryExpr _ _ _)) = _
  rw [evaluate_TernaryExpr_value _ _ _ _ _ _ _ hcond]
  simp only [Value.asInt, ne_eq, one_ne_zero, not_false_eq_true, if_true]
  exact evaluate_Number (fuel + 1) env 1

/-- C4: for `def fact(n) \n return if n<1 then 1 else n*fact(n-1)`,
`run("fact", [n])` terminates and returns `n!` for every `0 ≤ n ≤ 12`, and
returns 1 for every `n < 1`; `run("fact",[5]) = 120`, `run("fact",[0]) = 1`. -/
theorem C4_run_fact_returns_factorial :
    (∀ (n : Int) (fuel : Nat), 0 ≤ n → n ≤ 12 →
      ∃ interp, Interpreter.new srcFact = some (.ok interp) ∧
        Interpreter.run (fuel + 3 * n.toNat + 3) interp "fact" [n]
          = some (interp, .ok ((Nat.factorial n.toNat : Nat) : Int))) ∧
    (∀ (n : Int) (fuel : Nat), n < 1 →
      ∃ interp, Interpreter.new srcFact = some (.ok interp) ∧
        Interpreter.run (fuel + 3) interp "fact" [n] = some (interp, .ok 1)) ∧
    (∃ interp, Interpreter.new srcFact = some (.ok interp) ∧
      Interpreter.run 18 interp "fact" [5] = some (interp, .ok 120) ∧
      Interpreter.run 3 interp "fact" [0] = some (interp, .ok 1)) := by
  refine ⟨?_, ?_, ⟨_, new_srcFact, by rfl, by rfl⟩⟩
  · intro n fuel h0 h12
    refine ⟨_, new_srcFact, ?_⟩
    apply run_fact_of_body
    intro env hf hv
    have hn : n = ((n.toNat : Nat) : Int) := (Int.toNat_of_nonneg h0).symm
    rw [hn] at hv
    exact evaluate_factBody n.toNat (by omega) fuel env hf hv
  · intro n fuel hn
    refine ⟨_, new_srcFact, ?_⟩
    apply run_fact_of_body
    intro env _ hv
    exact evaluate_factBody_lt_one n hn fuel env hv

theorem C4_run_fact_returns_factorial_witness :
    (0 : Int) ≤ 5 ∧ (5 : Int) ≤ 12 ∧
    ∃ interp, Interpreter.new srcFact = some (.ok interp) ∧
      Interpreter.run (0 + 3 * (5 : Int).toNat + 3) interp "fact" [5]
        = some (interp, .ok ((Nat.factorial (5 : Int).toNat : Nat) : Int)) :=
  ⟨by decide, by decide, C4_run_fact_returns_factorial.1 5 0 (by decide) (by decide)⟩
theorem bindInts_parent : ∀ (params : List String) (args : List Int) (funcEnv : Environment),
    (Interpreter.bindInts params args funcEnv).parent = funcEnv.parent := by
  intro params
  induction params with
  | nil => intro args funcEnv; rfl
  | cons param params ih =>
    intro args funcEnv
    cases args with
    | nil => rfl
    | cons arg args =>
      simp only [Interpreter.bindInts]
      rw [ih, Environment.parent_defineVariable]

theorem run_frame (interp : Interpreter) (fuel : Nat) (name : String) (args : List Int)
    (interp1 : Interpreter) (r : Except Error Int)
    (h : Interpreter.run fuel interp name args = some (interp1, r)) : interp1 = interp := by
  unfold Interpreter.run at h
  split at h
  · exact (Prod.mk.inj (Option.some.inj h)).1.symm
  · rename_i func hf
    split at h
    · exact (Prod.mk.inj (Option.some.inj h)).1.symm
    · have hp0 : (Interpreter.bindInts func.getParams args
          interp.global_env.createChildEnv).parent = some interp.global_env := by
        rw [bindInts_parent]; rfl
      simp only at h
      split at h
      · simp at h
      · rename_i funcEnv1 e hbody
        have hp1 := evalBody_frame _ (fun env s env1 r h => (evaluate_frame fuel env _ env1 r h).1)
          _ _ _ _ hbody
        rw [hp0] at hp1
        rw [Environment.parentOr_of_parent _ hp1] at h
        exact (Prod.mk.inj (Option.some.inj h)).1.symm
      · rename_i funcEnv1 u hbody
        have hp1 := evalBody_frame _ (fun env s env1 r h => (evaluate_frame fuel env _ env1 r h).1)
          _ _ _ _ hbody
        rw [hp0] at hp1
        split at h
        · simp at h
        all_goals
          rename_i funcEnv2 _ hret
          have hp2 := (evaluate_frame fuel _ _ _ _ hret).1
          rw [hp1] at hp2
          rw [Environment.parentOr_of_parent _ hp2] at h
          exact (Prod.mk.inj (Option.some.inj h)).1.symm

/-- C5: `Interpreter::run` never changes the global Environment: whether it
returns or raises, the interpreter (global variable map, global function map
and program) is what it was before the call; hence the outcome of a `run` does
not depend on the `run` calls made before it. For
`def outer(a) \n x = a+1 \n return x`, `run("outer",[1])` followed by
`run("outer",[10])` returns 11. -/
theorem C5_run_leaves_global_environment_unchanged :
    (∀ (interp : Interpreter) (fuel : Nat) (name : String) (args : List Int)
      (interp1 : Interpreter) (r : Except Error Int),
      Interpreter.run fuel interp name args = some (interp1, r) →
      interp1 = interp ∧ interp1.global_env.vars = interp.global_env.vars ∧
        interp1.global_env.functions = interp.global_env.functions) ∧
    (∀ (interp : Interpreter) (fuel1 : Nat) (name1 : String) (args1 : List Int)
      (interp1 : Interpreter) (r1 : Except Error Int) (fuel : Nat) (name : String)
      (args : List Int),
      Interpreter.run fuel1 interp name1 args1 = some (interp1, r1) →
      Interpreter.run fuel interp1 name args = Interpreter.run fuel interp name args) ∧
    (∃ interp interp1, Interpreter.new srcOuter = some (.ok interp) ∧
      Interpreter.run 3 interp "outer" [1] = some (interp1, .ok 2) ∧
      Interpreter.run 3 interp1 "outer" [10] = some (interp1, .ok 11)) := by
  refine ⟨?_, ?_, ⟨_, _, new_srcOuter, by rfl, by rfl⟩⟩
  · intro interp fuel name args interp1 r h
    have := run_frame interp fuel name args interp1 r h
    subst this
    exact ⟨rfl, rfl, rfl⟩
  · intro interp fuel1 name1 args1 interp1 r1 fuel name args h
    rw [run_frame interp fuel1 name1 args1 interp1 r1 h]

theorem C5_run_leaves_global_environment_unchanged_witness :
    Interpreter.run 3 (Interpreter.load outerProgram) "outer" [1]
      = some (Interpreter.load outerProgram, .ok 2) ∧
    (Interpreter.load outerProgram = Interpreter.load outerProgram ∧
      (Interpreter.load outerProgram).global_env.vars
        = (Interpreter.load outerProgram).global_env.vars ∧
      (Interpreter.load outerProgram).global_env.functions
        = (Interpreter.load outerProgram).global_env.functions) :=
  ⟨by rfl, C5_run_leaves_global_environment_unchanged.1 (Interpreter.load outerProgram) 3 "outer"
    [1] (Interpreter.load outerProgram) (.ok 2) (by rfl)⟩
theorem mapFind_mapAssign_self {β : Type} (m : List (String × β)) (key : String) (value : β) :
    mapFind (mapAssign m key value) key = some value := by
  induction m with
  | nil => simp [mapAssign, mapFind]
  | cons entry m ih =>
    obtain ⟨k, v⟩ := entry
    by_cases hk : k = key
    · simp [mapAssign, mapFind, hk]
    · simp [mapAssign, mapFind, hk, ih]

theorem mapFind_mapAssign_ne {β : Type} (m : List (String × β)) (key name : String) (value : β)
    (h : key ≠ name) : mapFind (mapAssign m key value) name = mapFind m name := by
  induction m with
  | nil => simp [mapAssign, mapFind, h]
  | cons entry m ih =>
    obtain ⟨k, v⟩ := entry
    by_cases hk : k = key
    · subst hk
      simp [mapAssign, mapFind, h]
    · by_cases hn : k = name
      · subst hn
        simp [mapAssign, mapFind, hk]
      · simp [mapAssign, mapFind, hk, hn, ih]

namespace Environment

theorem getVariable_defineVariable_self (env : Environment) (name : String) (value : Value) :
    (env.defineVariable name (some value)).getVariable name = some value := by
  cases env <;> simp only [defineVariable, getVariable, mapFind_mapAssign_self]

theorem getVariable_defineVariable_ne (env : Environment) (key name : String)
    (value : Option Value) (h : key ≠ name) :
    (env.defineVariable key value).getVariable name = env.getVariable name := by
  cases env <;> simp only [defineVariable, getVariable, mapFind_mapAssign_ne _ _ _ _ h]

theorem getVariable_defineFunction (env : Environment) (key name : String) (f : FunctionDefAST) :
    (env.defineFunction key f).getVariable name = env.getVariable name := by
  cases env <;> simp only [defineFunction, getVariable]

end Environment

/-- What an assignment that completes does: its expression has a value, and
that value is bound to the variable in the environment of the evaluator. -/
theorem evaluate_Assignment_ok (fuel : Nat) (env env1 : Environment) (v : String) (e : ExprAST)
    (r : Option Value)
    (h : evaluate fuel env (.Statement (.Assignment v e)) = some (env1, .ok r)) :
    ∃ fuel0 val, fuel = fuel0 + 1 ∧
      evaluate fuel0 env (.Expr e) = some (env, .ok (some val)) ∧
      env1 = env.defineVariable v (some val) := by
  cases fuel with
  | zero => simp [evaluate] at h
  | succ fuel0 =>
    refine ⟨fuel0, ?_⟩
    simp only [evaluate] at h
    split at h
    · simp at h
    · simp at h
    · simp at h
    · rename_i env2 val hv
      have h2 := (evaluate_frame fuel0 env _ env2 _ hv).2 e rfl
      subst h2
      exact ⟨val, rfl, hv, (Prod.mk.inj (Option.some.inj h)).1.symm⟩

/-- A statement that is not an assignment to `v` leaves the binding of `v`
as it is. -/
theorem evaluate_Statement_getVariable (fuel : Nat) (env env1 : Environment) (s : StatementAST)
    (r : Except Error (Option Value)) (v : String)
    (hs : ∀ e, s ≠ .Assignment v e)
    (h : evaluate fuel env (.Statement s) = some (env1, r)) :
    env1.getVariable v = env.getVariable v := by
  cases fuel with
  | zero => simp [evaluate] at h
  | succ fuel0 =>
    cases s with
    | Assignment w e =>
      have hw : w ≠ v := fun hwv => hs e (by rw [hwv])
      simp only [evaluate] at h
      split at h
      · simp at h
      · rename_i env2 err hv
        have h2 := (evaluate_frame fuel0 env _ env2 _ hv).2 e rfl
        rw [← (Prod.mk.inj (Option.some.inj h)).1, h2]
      · rename_i env2 hv
        have h2 := (evaluate_frame fuel0 env _ env2 _ hv).2 e rfl
        rw [← (Prod.mk.inj (Option.some.inj h)).1, h2]
      · rename_i env2 val hv
        have h2 := (evaluate_frame fuel0 env _ env2 _ hv).2 e rfl
        rw [← (Prod.mk.inj (Option.some.inj h)).1, h2]
        exact Environment.getVariable_defineVariable_ne _ _ _ _ hw
    | ReturnStmt e =>
      simp only [evaluate] at h
      rw [(evaluate_frame fuel0 env _ env1 _ h).2 e rfl]
    | FunctionDef f =>
      simp only [evaluate] at h
      rw [← (Prod.mk.inj (Option.some.inj h)).1]
      exact Environment.getVariable_defineFunction _ _ _ _

theorem evalBody_getVariable (fuel : Nat) (v : String) : ∀ (body : List StatementAST)
    (env env1 : Environment) (r : Except Error Unit),
    (∀ s ∈ body, ∀ e, s ≠ .Assignment v e) →
    evalBody (evaluate fuel) body env = some (env1, r) →
    env1.getVariable v = env.getVariable v := by
  intro body
  induction body with
  | nil =>
    intro env env1 r _ h
    simp only [evalBody] at h
    rw [← (Prod.mk.inj (Option.some.inj h)).1]
  | cons stmt body ih =>
    intro env env1 r hs h
    simp only [evalBody] at h
    have hstmt := hs stmt (List.mem_cons_self _ _)
    split at h
    · simp at h
    · rename_i env2 err hv
      rw [← (Prod.mk.inj (Option.some.inj h)).1]
      exact evaluate_Statement_getVariable fuel env env2 stmt _ v hstmt hv
    · rename_i env2 u hv
      rw [ih env2 env1 r (fun s hmem => hs s (List.mem_cons_of_mem _ hmem)) h]
      exact evaluate_Statement_getVariable fuel env env2 stmt _ v hstmt hv

theorem run_outer (a : Int) (fuel : Nat) (h : INT_MIN ≤ a + 1 ∧ a + 1 ≤ INT_MAX) :
    Interpreter.run (fuel + 3) (Interpreter.load outerProgram) "outer" [a]
      = some (Interpreter.load outerProgram, .ok (a + 1)) := by
  simp [Interpreter.run, Interpreter.load, outerProgram, Interpreter.registerAll,
    Environment.defineFunction, Environment.getFunction, mapFind, mapAssign,
    FunctionDefAST.getName, FunctionDefAST.clone, cloneBody, cloneExpr,
    FunctionDefAST.getParams, FunctionDefAST.getBody, FunctionDefAST.getReturnExpr,
    Interpreter.bindInts, Environment.createChildEnv, Environment.defineVariable, evalBody,
    evaluate, Environment.getVariable, binaryOp, Value.asInt, Environment.parentOr,
    wrapInt_of_range h.1 h.2]

/-- C6: an assignment followed by a read in the same function observes the
assigned value. For `def outer(a) \n x = a+1 \n return x` and every integer `a`
with `a + 1` in the 32-bit range, `run("outer", [a])` returns `a + 1`. In
general, once an Assignment of `v` has executed in a scope, and whatever
statements other than assignments to `v` execute after it in that scope,
evaluating Identifier `v` there yields the value the assignment computed, and
so never raises NameError. -/
theorem C6_assignment_then_read_observes_value :
    (∀ (a : Int) (fuel : Nat), INT_MIN ≤ a + 1 ∧ a + 1 ≤ INT_MAX →
      ∃ interp, Interpreter.new srcOuter = some (.ok interp) ∧
        Interpreter.run (fuel + 3) interp "outer" [a] = some (interp, .ok (a + 1))) ∧
    (∀ (fuel : Nat) (env env1 : Environment) (v : String) (e : ExprAST) (r : Option Value),
      evaluate fuel env (.Statement (.Assignment v e)) = some (env1, .ok r) →
      ∃ fuel0 val, fuel = fuel0 + 1 ∧
        evaluate fuel0 env (.Expr e) = some (env, .ok (some val)) ∧
        ∀ (body : List StatementAST) (fuel2 fuel3 : Nat) (env2 : Environment)
          (r2 : Except Error Unit),
          (∀ s ∈ body, ∀ e2, s ≠ .Assignment v e2) →
          evalBody (evaluate fuel2) body env1 = some (env2, r2) →
          evaluate (fuel3 + 1) env2 (.Expr (.Identifier v)) = some (env2, .ok (some val))) := by
  refine ⟨fun a fuel h => ⟨_, new_srcOuter, run_outer a fuel h⟩, ?_⟩
  intro fuel env env1 v e r h
  obtain ⟨fuel0, val, hfuel, hval, henv⟩ := evaluate_Assignment_ok fuel env env1 v e r h
  refine ⟨fuel0, val, hfuel, hval, ?_⟩
  intro body fuel2 fuel3 env2 r2 hbody hrun
  apply evaluate_Identifier_some
  rw [evalBody_getVariable fuel2 v body env1 env2 r2 hbody hrun, henv]
  exact Environment.getVariable_defineVariable_self _ _ _

theorem C6_assignment_then_read_observes_value_witness :
    (INT_MIN ≤ (10 : Int) + 1 ∧ (10 : Int) + 1 ≤ INT_MAX) ∧
    ∃ interp, Interpreter.new srcOuter = some (.ok interp) ∧
      Interpreter.run (0 + 3) interp "outer" [10] = some (interp, .ok (10 + 1)) :=
  ⟨by decide, C6_assignment_then_read_observes_value.1 10 0 (by decide)⟩
/-! ## Looking up the entry point -/

theorem append_ne_append_of_head (a c : String) (h1 : a.data.head? = some 'U')
    (h2 : c.data.head? = some 'F') (x n : String) : a ++ x ≠ c ++ n := by
  intro h
  have hd := congrArg (fun s => s.data.head?) h
  simp only [String.data_append] at hd
  cases ha : a.data with
  | nil => rw [ha] at h1; simp at h1
  | cons ca ra =>
    cases hc : c.data with
    | nil => rw [hc] at h2; simp at h2
    | cons cc rc =>
      rw [ha] at h1 hd; rw [hc] at h2 hd
      simp at h1 h2 hd
      rw [h1, h2] at hd
      exact absurd hd (by decide)

theorem bindArgs_error (eval : Environment → NodeAST → Option EvalResult) (P : Error → Prop)
    (heval : ∀ env e env1 err, eval env (.Expr e) = some (env1, .error err) → P err) :
    ∀ (params : List String) (args : List ExprAST) (env funcEnv env1 : Environment) (err : Error),
      bindArgs eval params args env funcEnv = some (env1, .error err) → P err := by
  intro params
  induction params with
  | nil => intro args env funcEnv env1 err h; simp [bindArgs] at h
  | cons param params ih =>
    intro args env funcEnv env1 err h
    cases args with
    | nil => simp [bindArgs] at h
    | cons arg args =>
      simp only [bindArgs] at h
      split at h
      · simp at h
      · rename_i env2 e2 hev
        have := (Prod.mk.inj (Option.some.inj h)).2
        cases this
        exact heval _ _ _ _ hev
      · exact ih _ _ _ _ _ h

theorem evalBody_error (eval : Environment → NodeAST → Option EvalResult) (P : Error → Prop)
    (heval : ∀ env s env1 err, eval env (.Statement s) = some (env1, .error err) → P err) :
    ∀ (body : List StatementAST) (env env1 : Environment) (err : Error),
      evalBody eval body env = some (env1, .error err) → P err := by
  intro body
  induction body with
  | nil => intro env env1 err h; simp [evalBody] at h
  | cons stmt body ih =>
    intro env env1 err h
    simp only [evalBody] at h
    split at h
    · simp at h
    · rename_i env2 e2 hev
      have := (Prod.mk.inj (Option.some.inj h)).2
      cases this
      exact heval _ _ _ _ hev
    · exact ih _ _ _ h

/-- No error the evaluator raises is the NameError of the lookup in `run`. -/
theorem evaluate_error_ne_not_found : ∀ (fuel : Nat) (env : Environment) (node : NodeAST)
    (env1 : Environment) (err : Error), evaluate fuel env node = some (env1, .error err) →
    ∀ n, err ≠ .NameError ("Function not found: " ++ n) := by
  intro fuel
  induction fuel with
  | zero => intro env node env1 err h; simp [evaluate] at h
  | succ fuel ih =>
    intro env node env1 err h n
    have hname : ∀ (a x : String), a.data.head? = some 'U' →
        Error.NameError (a ++ x) ≠ .NameError ("Function not found: " ++ n) := by
      intro a x ha heq
      exact append_ne_append_of_head a "Function not found: " ha (by rfl) x n
        (Error.NameError.inj heq)
    cases node with
    | Expr e =>
      cases e with
      | Number v => simp [evaluate] at h
      | Identifier name =>
        simp only [evaluate] at h
        split at h
        · have := (Prod.mk.inj (Option.some.inj h)).2
          cases this
          exact hname _ _ (by rfl)
        · simp at h
      | BinaryOp op l r =>
        simp only [evaluate] at h
        split at h
        · simp at h
        · rename_i env2 e2 hl
          have := (Prod.mk.inj (Option.some.inj h)).2
          cases this
          exact ih _ _ _ _ hl n
        · split at h
          · simp at h
          · rename_i env3 e3 hr
            have := (Prod.mk.inj (Option.some.inj h)).2
            cases this
            exact ih _ _ _ _ hr n
          · split at h
            · split at h
              · rename_i e4 hop
                have := (Prod.mk.inj (Option.some.inj h)).2
                cases this
                simp only [binaryOp] at hop
                repeat' split at hop
                all_goals first
                  | (cases hop; simp)
                  | simp at hop
              · simp at h
            · have := (Prod.mk.inj (Option.some.inj h)).2
              cases this
              simp
      | TernaryExpr c t e =>
        simp only [evaluate] at h
        split at h
        · simp at h
        · rename_i env2 e2 hc
          have := (Prod.mk.inj (Option.some.inj h)).2
          cases this
          exact ih _ _ _ _ hc n
        · have := (Prod.mk.inj (Option.some.inj h)).2
          cases this
          simp
        · split at h
          · exact ih _ _ _ _ h n
          · exact ih _ _ _ _ h n
      | FunctionCall callee args =>
        simp only [evaluate] at h
        split at h
        · have := (Prod.mk.inj (Option.some.inj h)).2
          cases this
          exact hname _ _ (by rfl)
        · split at h
          · have := (Prod.mk.inj (Option.some.inj h)).2
            cases this
            simp
          · split at h
            · simp at h
            · rename_i env2 e2 hb
              have := (Prod.mk.inj (Option.some.inj h)).2
              cases this
              exact bindArgs_error _ (fun err => ∀ n, err ≠ .NameError ("Function not found: " ++ n))
                (fun env e env1 err h => ih env _ env1 err h) _ _ _ _ _ _ hb n
            · split at h
              · simp at h
              · rename_i funcEnv1 e3 hbody
                have := (Prod.mk.inj (Option.some.inj h)).2
                cases this
                exact evalBody_error _
                  (fun err => ∀ n, err ≠ .NameError ("Function not found: " ++ n))
                  (fun env s env1 err h => ih env _ env1 err h) _ _ _ _ hbody n
              · split at h
                · simp at h
                · rename_i funcEnv2 result hret
                  have := (Prod.mk.inj (Option.some.inj h)).2
                  subst this
                  exact ih _ _ _ _ hret n
    | Statement s =>
      cases s with
      | Assignment v value =>
        simp only [evaluate] at h
        split at h
        · simp at h
        · rename_i env2 e2 hv
          have := (Prod.mk.inj (Option.some.inj h)).2
          cases this
          exact ih _ _ _ _ hv n
        · have := (Prod.mk.inj (Option.some.inj h)).2
          cases this
          simp
        · simp at h
      | ReturnStmt e =>
        simp only [evaluate] at h
        exact ih _ _ _ _ h n
      | FunctionDef f => simp [evaluate] at h
namespace Environment

theorem getFunction_defineFunction_self (env : Environment) (name : String) (f : FunctionDefAST) :
    (env.defineFunction name f).getFunction name = some f := by
  cases env <;> simp only [defineFunction, getFunction, mapFind_mapAssign_self]

theorem getFunction_defineFunction_ne (env : Environment) (key name : String)
    (f : FunctionDefAST) (h : key ≠ name) :
    (env.defineFunction key f).getFunction name = env.getFunction name := by
  cases env <;> simp only [defineFunction, getFunction, mapFind_mapAssign_ne _ _ _ _ h]

end Environment

theorem getFunction_registerAll_of_absent : ∀ (functions : List FunctionDefAST)
    (env : Environment) (name : String), (∀ f ∈ functions, f.getName ≠ name) →
    (Interpreter.registerAll functions env).getFunction name = env.getFunction name := by
  intro functions
  induction functions with
  | nil => intro env name _; rfl
  | cons func functions ih =>
    intro env name h
    simp only [Interpreter.registerAll]
    rw [ih _ _ (fun f hf => h f (List.mem_cons_of_mem _ hf))]
    exact Environment.getFunction_defineFunction_ne _ _ _ _ (h func (List.mem_cons_self _ _))

theorem getFunction_registerAll_of_present : ∀ (functions : List FunctionDefAST)
    (env : Environment) (name : String), (∃ f ∈ functions, f.getName = name) →
    ∃ f ∈ functions, f.getName = name ∧
      (Interpreter.registerAll functions env).getFunction name = some f.clone := by
  intro functions
  induction functions with
  | nil => intro env name h; obtain ⟨f, hf, _⟩ := h; cases hf
  | cons func functions ih =>
    intro env name h
    simp only [Interpreter.registerAll]
    by_cases hrest : ∃ f ∈ functions, f.getName = name
    · obtain ⟨f, hf, hn, hg⟩ := ih (env.defineFunction func.getName func.clone) name hrest
      exact ⟨f, List.mem_cons_of_mem _ hf, hn, hg⟩
    · have hall : ∀ f ∈ functions, f.getName ≠ name := fun f hf hn => hrest ⟨f, hf, hn⟩
      obtain ⟨f, hf, hn⟩ := h
      have hfunc : func.getName = name := by
        rcases List.mem_cons.1 hf with h1 | h1
        · rw [← h1]; exact hn
        · exact absurd hn (hall f h1)
      refine ⟨func, List.mem_cons_self _ _, hfunc, ?_⟩
      rw [getFunction_registerAll_of_absent _ _ _ hall, hfunc]
      exact Environment.getFunction_defineFunction_self _ _ _

theorem getParams_clone (f : FunctionDefAST) : f.clone.getParams = f.getParams := by
  cases f
  simp only [FunctionDefAST.clone, FunctionDefAST.getParams]

theorem run_ne_not_found_of_found (interp : Interpreter) (fuel : Nat) (name : String)
    (args : List Int) (func : FunctionDefAST)
    (hf : interp.global_env.getFunction name = some func) (interp1 : Interpreter) :
    Interpreter.run fuel interp name args
      ≠ some (interp1, .error (.NameError ("Function not found: " ++ name))) := by
  intro h
  unfold Interpreter.run at h
  rw [hf] at h
  simp only at h
  split at h
  · simp at h
  · split at h
    · simp at h
    · rename_i funcEnv1 e hbody
      have := (Prod.mk.inj (Option.some.inj h)).2
      cases this
      exact evalBody_error _ (fun err => ∀ n, err ≠ .NameError ("Function not found: " ++ n))
        (fun env s env1 err h => evaluate_error_ne_not_found fuel env _ env1 err h)
        _ _ _ _ hbody name rfl
    · split at h
      · simp at h
      · rename_i funcEnv2 e hret
        have := (Prod.mk.inj (Option.some.inj h)).2
        cases this
        exact evaluate_error_ne_not_found fuel _ _ _ _ hret name rfl
      · simp at h
      · simp at h

/-- C7 fails as stated: `def f() \n return x` has a top-level function `f`,
and `run("f", [])` raises NameError all the same (for the variable `x`). -/
theorem C7_counterexample :
    ¬ ((∃ interp1 msg, Interpreter.run 1 (Interpreter.load undefinedVariableProgram) "f" []
          = some (interp1, .error (.NameError msg))) ↔
        (∀ f ∈ undefinedVariableProgram, f.getName ≠ "f")) := by
  intro h
  have h1 : ∃ interp1 msg, Interpreter.run 1 (Interpreter.load undefinedVariableProgram) "f" []
      = some (interp1, .error (.NameError msg)) :=
    ⟨Interpreter.load undefinedVariableProgram, "Undefined variable: x", by rfl⟩
  exact h.1 h1 (.mk "f" [] [] (.Identifier "x")) (by simp [undefinedVariableProgram]) rfl

/-- C7 (amended): for every loaded program, `run(name, args)` raises the
NameError "Function not found: name" if and only if no top-level function
called `name` exists in the program, whatever `args` is; and when such a
function exists, the one registered is a clone of one of them and `run` raises
RuntimeError whenever the length of `args` differs from its parameter count.
A two-parameter function run with one or with three arguments raises
RuntimeError. -/
theorem C7_run_not_found_or_wrong_arity :
    (∀ (functions : List FunctionDefAST) (name : String) (args : List Int) (fuel : Nat),
      (∀ f ∈ functions, f.getName ≠ name) →
      Interpreter.run fuel (Interpreter.load functions) name args
        = some (Interpreter.load functions,
            .error (.NameError ("Function not found: " ++ name)))) ∧
    (∀ (functions : List FunctionDefAST) (name : String) (args : List Int) (fuel : Nat)
      (interp1 : Interpreter),
      Interpreter.run fuel (Interpreter.load functions) name args
        = some (interp1, .error (.NameError ("Function not found: " ++ name))) →
      ∀ f ∈ functions, f.getName ≠ name) ∧
    (∀ (functions : List FunctionDefAST) (name : String) (args : List Int) (fuel : Nat),
      (∃ f ∈ functions, f.getName = name) →
      ∃ f ∈ functions, f.getName = name ∧
        (Interpreter.load functions).global_env.getFunction name = some f.clone ∧
        (f.getParams.length ≠ args.length →
          Interpreter.run fuel (Interpreter.load functions) name args
            = some (Interpreter.load functions, .error (.RuntimeError
                ("Incorrect number of arguments for function: " ++ name))))) ∧
    (∃ interp, Interpreter.new srcTwoParams = some (.ok interp) ∧
      Interpreter.run 0 interp "f" [1] = some (interp, .error (.RuntimeError
        "Incorrect number of arguments for function: f")) ∧
      Interpreter.run 0 interp "f" [1, 2, 3] = some (interp, .error (.RuntimeError
        "Incorrect number of arguments for function: f"))) := by
  refine ⟨?_, ?_, ?_, ⟨_, by rfl, by rfl, by rfl⟩⟩
  · intro functions name args fuel h
    have hg : (Interpreter.load functions).global_env.getFunction name = none := by
      show (Interpreter.registerAll functions (.root [] [])).getFunction name = none
      rw [getFunction_registerAll_of_absent _ _ _ h]
      rfl
    unfold Interpreter.run
    rw [hg]
  · intro functions name args fuel interp1 h f hf hn
    obtain ⟨g, _, _, hg⟩ := getFunction_registerAll_of_present functions (.root [] []) name
      ⟨f, hf, hn⟩
    exact run_ne_not_found_of_found (Interpreter.load functions) fuel name args g.clone hg
      interp1 h
  · intro functions name args fuel h
    obtain ⟨g, hg1, hg2, hg⟩ := getFunction_registerAll_of_present functions (.root [] []) name h
    refine ⟨g, hg1, hg2, hg, ?_⟩
    intro hlen
    have hg3 : (Interpreter.load functions).global_env.getFunction name = some g.clone := hg
    unfold Interpreter.run
    rw [hg3]
    simp only [getParams_clone, ne_eq, hlen, not_false_eq_true, if_true]

theorem C7_run_not_found_or_wrong_arity_witness :
    (∀ f ∈ addProgram, f.getName ≠ "g") ∧
    Interpreter.run 0 (Interpreter.load addProgram) "g" [1]
      = some (Interpreter.load addProgram, .error (.NameError ("Function not found: " ++ "g"))) :=
  ⟨by simp [addProgram, FunctionDefAST.getName],
    C7_run_not_found_or_wrong_arity.1 addProgram "g" [1] 0
      (by simp [addProgram, FunctionDefAST.getName])⟩
/-! ## Lookup along the scope chain -/

namespace Environment

theorem functions_root (vars : List (String × Option Value))
    (functions : List (String × FunctionDefAST)) :
    (Environment.root vars functions).functions = functions := rfl

theorem functions_child (vars : List (String × Option Value))
    (functions : List (String × FunctionDefAST)) (parent : Environment) :
    (Environment.child vars functions parent).functions = functions := rfl

theorem vars_root (vars : List (String × Option Value))
    (functions : List (String × FunctionDefAST)) :
    (Environment.root vars functions).vars = vars := rfl

theorem vars_child (vars : List (String × Option Value))
    (functions : List (String × FunctionDefAST)) (parent : Environment) :
    (Environment.child vars functions parent).vars = vars := rfl

theorem getFunction_eq_innermostFunction (env : Environment) (name : String) :
    env.getFunction name = env.innermostFunction name := by
  induction env with
  | root vars functions =>
    unfold innermostFunction
    simp only [getFunction, chain, List.find?, functions_root, functions_child]
    cases h : mapFind functions name <;> simp [h, functions_root]
  | child vars functions parent ih =>
    unfold innermostFunction at ih ⊢
    simp only [getFunction, chain, List.find?, functions_root, functions_child]
    cases h : mapFind functions name
    · simp [h, ih]
    · simp [h, functions_child]

theorem getVariable_eq_innermostBinding (env : Environment) (name : String) :
    env.getVariable name = (env.innermostBinding name).join := by
  induction env with
  | root vars functions =>
    unfold innermostBinding
    simp only [getVariable, chain, List.find?, vars_root, vars_child]
    cases h : mapFind vars name <;> simp [h, vars_root]
  | child vars functions parent ih =>
    unfold innermostBinding at ih ⊢
    simp only [getVariable, chain, List.find?, vars_root, vars_child]
    cases h : mapFind vars name
    · simp [h, ih]
    · simp [h, vars_child]

theorem getFunction_eq_none_iff (env : Environment) (name : String) :
    env.getFunction name = none ↔ ∀ scope ∈ env.chain, mapFind scope.functions name = none := by
  induction env with
  | root vars functions =>
    simp only [getFunction, chain, List.mem_singleton, forall_eq, functions_root]
    cases h : mapFind functions name <;> simp
  | child vars functions parent ih =>
    simp only [getFunction, chain, List.mem_cons, forall_eq_or_imp, functions_child]
    cases h : mapFind functions name
    · simp [ih]
    · simp

end Environment
/-! ## No null pointer is ever bound to a variable -/

theorem mem_mapAssign {β : Type} : ∀ (m : List (String × β)) (key : String) (value : β)
    (entry : String × β), entry ∈ mapAssign m key value → entry = (key, value) ∨ entry ∈ m := by
  intro m
  induction m with
  | nil =>
    intro key value entry h
    simp only [mapAssign, List.mem_singleton] at h
    exact Or.inl h
  | cons head m ih =>
    intro key value entry h
    obtain ⟨k, v⟩ := head
    by_cases hk : k = key
    · simp only [mapAssign, hk, if_true, List.mem_cons] at h
      rcases h with h | h
      · exact Or.inl h
      · exact Or.inr (List.mem_cons_of_mem _ h)
    · simp only [mapAssign, hk, if_false, List.mem_cons] at h
      rcases h with h | h
      · exact Or.inr (by rw [h]; exact List.mem_cons_self _ _)
      · rcases ih key value entry h with h1 | h1
        · exact Or.inl h1
        · exact Or.inr (List.mem_cons_of_mem _ h1)

namespace Environment

theorem NoNull_defineVariable (env : Environment) (name : String) (value : Value)
    (h : env.NoNull) : (env.defineVariable name (some value)).NoNull := by
  cases env with
  | root vars functions =>
    intro scope hs entry he
    simp only [defineVariable, chain, List.mem_singleton] at hs
    subst hs
    rcases mem_mapAssign _ _ _ _ he with h1 | h1
    · rw [h1]; simp
    · exact h (.root vars functions) (by simp [chain]) entry h1
  | child vars functions parent =>
    intro scope hs entry he
    simp only [defineVariable, chain, List.mem_cons] at hs
    rcases hs with hs | hs
    · subst hs
      rcases mem_mapAssign _ _ _ _ he with h1 | h1
      · rw [h1]; simp
      · exact h (.child vars functions parent) (by simp [chain]) entry h1
    · exact h scope (by simp [chain, hs]) entry he

theorem NoNull_defineFunction (env : Environment) (name : String) (f : FunctionDefAST)
    (h : env.NoNull) : (env.defineFunction name f).NoNull := by
  cases env with
  | root vars functions =>
    intro scope hs entry he
    simp only [defineFunction, chain, List.mem_singleton] at hs
    subst hs
    exact h (.root vars functions) (by simp [chain]) entry he
  | child vars functions parent =>
    intro scope hs entry he
    simp only [defineFunction, chain, List.mem_cons] at hs
    rcases hs with hs | hs
    · subst hs
      exact h (.child vars functions parent) (by simp [chain]) entry he
    · exact h scope (by simp [chain, hs]) entry he

theorem NoNull_createChildEnv (env : Environment) (h : env.NoNull) :
    env.createChildEnv.NoNull := by
  intro scope hs entry he
  simp only [createChildEnv, chain, List.mem_cons] at hs
  rcases hs with hs | hs
  · subst hs
    simp [vars] at he
  · exact h scope hs entry he

end Environment

/-- An expression that evaluates without an exception yields a value, never
a null pointer. -/
theorem evaluate_Expr_value : ∀ (fuel : Nat) (env : Environment) (e : ExprAST)
    (env1 : Environment) (v : Option Value),
    evaluate fuel env (.Expr e) = some (env1, .ok v) → v ≠ none := by
  intro fuel
  induction fuel with
  | zero => intro env e env1 v h; simp [evaluate] at h
  | succ fuel ih =>
    intro env e env1 v h
    cases e with
    | Number value =>
      simp only [evaluate, Option.some.injEq, Prod.mk.injEq, Except.ok.injEq] at h
      rw [← h.2]; simp
    | Identifier name =>
      simp only [evaluate] at h
      split at h
      · simp at h
      · simp only [Option.some.injEq, Prod.mk.injEq, Except.ok.injEq] at h
        rw [← h.2]; simp
    | BinaryOp op l r =>
      simp only [evaluate] at h
      split at h
      · simp at h
      · simp at h
      · split at h
        · simp at h
        · simp at h
        · split at h
          · split at h
            · simp at h
            · simp only [Option.some.injEq, Prod.mk.injEq, Except.ok.injEq] at h
              rw [← h.2]; simp
          · simp at h
    | TernaryExpr c t e =>
      simp only [evaluate] at h
      split at h
      · simp at h
      · simp at h
      · simp at h
      · split at h
        · exact ih _ _ _ _ h
        · exact ih _ _ _ _ h
    | FunctionCall callee args =>
      simp only [evaluate] at h
      split at h
      · simp at h
      · split at h
        · simp at h
        · split at h
          · simp at h
          · simp at h
          · split at h
            · simp at h
            · simp at h
            · split at h
              · simp at h
              · rename_i funcEnv2 result hret
                simp only [Option.some.injEq, Prod.mk.injEq] at h
                rw [h.2] at hret
                exact ih _ _ _ _ hret

/-- The environment a call runs its callee in stores no null pointer when
the caller's does not. -/
theorem bindArgs_NoNull (fuel : Nat) : ∀ (params : List String) (args : List ExprAST)
    (env funcEnv env1 fe : Environment),
    funcEnv.parent = some env → funcEnv.NoNull →
    bindArgs (evaluate fuel) params args env funcEnv = some (env1, .ok fe) → fe.NoNull := by
  intro params
  induction params with
  | nil =>
    intro args env funcEnv env1 fe _ hnn h
    simp only [bindArgs, Option.some.injEq, Prod.mk.injEq, Except.ok.injEq] at h
    rw [← h.2]; exact hnn
  | cons param params ih =>
    intro args env funcEnv env1 fe hp hnn h
    cases args with
    | nil =>
      simp only [bindArgs, Option.some.injEq, Prod.mk.injEq, Except.ok.injEq] at h
      rw [← h.2]; exact hnn
    | cons arg args =>
      simp only [bindArgs] at h
      split at h
      · simp at h
      · simp at h
      · rename_i env2 argValue hev
        have h2 := (evaluate_frame fuel env _ env2 _ hev).2 arg rfl
        subst h2
        have hv := evaluate_Expr_value fuel _ _ _ _ hev
        cases argValue with
        | none => exact absurd rfl hv
        | some value =>
          rw [Environment.withParent_of_parent hp] at h
          exact ih args _ _ _ _ (by rw [Environment.parent_defineVariable]; exact hp)
            (Environment.NoNull_defineVariable _ _ _ hnn) h

/-- Evaluation hands back an environment that stores no null pointer when
it was given one. -/
theorem evaluate_NoNull (fuel : Nat) (env : Environment) (node : NodeAST) (env1 : Environment)
    (r : Except Error (Option Value)) (hnn : env.NoNull)
    (h : evaluate fuel env node = some (env1, r)) : env1.NoNull := by
  cases node with
  | Expr e =>
    rw [(evaluate_frame fuel env _ env1 r h).2 e rfl]
    exact hnn
  | Statement s =>
    cases fuel with
    | zero => simp [evaluate] at h
    | succ fuel =>
      cases s with
      | Assignment v value =>
        simp only [evaluate] at h
        split at h
        · simp at h
        · rename_i env2 e2 hv
          have h2 := (evaluate_frame fuel env _ env2 _ hv).2 value rfl
          rw [← (Prod.mk.inj (Option.some.inj h)).1, h2]
          exact hnn
        · rename_i env2 hv
          have h2 := (evaluate_frame fuel env _ env2 _ hv).2 value rfl
          rw [← (Prod.mk.inj (Option.some.inj h)).1, h2]
          exact hnn
        · rename_i env2 val hv
          have h2 := (evaluate_frame fuel env _ env2 _ hv).2 value rfl
          rw [← (Prod.mk.inj (Option.some.inj h)).1, h2]
          exact Environment.NoNull_defineVariable _ _ _ hnn
      | ReturnStmt e =>
        simp only [evaluate] at h
        rw [(evaluate_frame fuel env _ env1 r h).2 e rfl]
        exact hnn
      | FunctionDef f =>
        simp only [evaluate] at h
        rw [← (Prod.mk.inj (Option.some.inj h)).1]
        exact Environment.NoNull_defineFunction _ _ _ hnn

theorem registerAll_NoNull : ∀ (functions : List FunctionDefAST) (env : Environment),
    env.NoNull → (Interpreter.registerAll functions env).NoNull := by
  intro functions
  induction functions with
  | nil => intro env h; exact h
  | cons func functions ih =>
    intro env h
    exact ih _ (Environment.NoNull_defineFunction _ _ _ h)

theorem bindInts_NoNull : ∀ (params : List String) (args : List Int) (funcEnv : Environment),
    funcEnv.NoNull → (Interpreter.bindInts params args funcEnv).NoNull := by
  intro params
  induction params with
  | nil => intro args funcEnv h; exact h
  | cons param params ih =>
    intro args funcEnv h
    cases args with
    | nil => exact h
    | cons arg args => exact ih _ _ (Environment.NoNull_defineVariable _ _ _ h)

/-- The environment `run` evaluates a function in stores no null pointer. -/
theorem run_environment_NoNull (functions : List FunctionDefAST) (params : List String)
    (args : List Int) :
    (Interpreter.bindInts params args
      (Interpreter.load functions).global_env.createChildEnv).NoNull := by
  apply bindInts_NoNull
  apply Environment.NoNull_createChildEnv
  apply registerAll_NoNull
  intro scope hs entry he
  simp only [Environment.chain, List.mem_singleton] at hs
  subst hs
  simp [Environment.vars] at he
theorem mem_of_mapFind {β : Type} : ∀ (m : List (String × β)) (key : String) (value : β),
    mapFind m key = some value → (key, value) ∈ m := by
  intro m
  induction m with
  | nil => intro key value h; simp [mapFind] at h
  | cons entry m ih =>
    intro key value h
    obtain ⟨k, v⟩ := entry
    by_cases hk : k = key
    · simp only [mapFind, hk, if_true, Option.some.injEq] at h
      rw [hk, h]
      exact List.mem_cons_self _ _
    · simp only [mapFind, hk, if_false] at h
      exact List.mem_cons_of_mem _ (ih key value h)

namespace Environment

theorem getVariable_eq_none_iff (env : Environment) (name : String) (hnn : env.NoNull) :
    env.getVariable name = none ↔ ∀ scope ∈ env.chain, mapFind scope.vars name = none := by
  induction env with
  | root vars functions =>
    simp only [getVariable, chain, List.mem_singleton, forall_eq, vars_root]
    cases h : mapFind vars name with
    | none => simp
    | some value =>
      have hmem := mem_of_mapFind _ _ _ h
      have := hnn (.root vars functions) (by simp [chain]) _ hmem
      cases value with
      | none => exact absurd rfl this
      | some v => simp
  | child vars functions parent ih =>
    have hp : parent.NoNull := fun scope hs entry he =>
      hnn scope (by simp [chain, hs]) entry he
    simp only [getVariable, chain, List.mem_cons, forall_eq_or_imp, vars_child]
    cases h : mapFind vars name with
    | none => simp [ih hp]
    | some value =>
      have hmem := mem_of_mapFind _ _ _ h
      have := hnn (.child vars functions parent) (by simp [chain]) _ hmem
      cases value with
      | none => exact absurd rfl this
      | some v => simp

end Environment

/-- C8: a Call whose callee name resolves in no scope of the chain raises
NameError; one whose callee has a parameter count other than the number of
arguments raises RuntimeError; both happen with the arguments unevaluated
(one unit of evaluation depth is enough whatever the arguments are), so the
wrong-arity call `g(x)` with `x` undefined raises RuntimeError, not
NameError. -/
theorem C8_call_checks_precede_arguments :
    (∀ (fuel : Nat) (env : Environment) (callee : String) (args : List ExprAST),
      (∀ scope ∈ env.chain, mapFind scope.functions callee = none) →
      evaluate (fuel + 1) env (.Expr (.FunctionCall callee args))
        = some (env, .error (.NameError ("Undefined function: " ++ callee)))) ∧
    (∀ (fuel : Nat) (env : Environment) (callee : String) (args : List ExprAST)
      (func : FunctionDefAST),
      env.innermostFunction callee = some func → func.getParams.length ≠ args.length →
      evaluate (fuel + 1) env (.Expr (.FunctionCall callee args))
        = some (env, .error (.RuntimeError
            ("Function " ++ callee ++ " called with incorrect number of arguments")))) ∧
    (∃ interp, Interpreter.new srcWrongArity = some (.ok interp) ∧
      Interpreter.run 1 interp "f" [] = some (interp, .error (.RuntimeError
        "Function g called with incorrect number of arguments")) ∧
      Interpreter.run 1 interp "g" [1, 2, 3] = some (interp, .error (.RuntimeError
        "Incorrect number of arguments for function: g"))) := by
  refine ⟨?_, ?_, ⟨_, new_srcWrongArity, by rfl, by rfl⟩⟩
  · intro fuel env callee args h
    have hf := (Environment.getFunction_eq_none_iff env callee).2 h
    simp only [evaluate, hf]
  · intro fuel env callee args func hf hlen
    rw [← Environment.getFunction_eq_innermostFunction] at hf
    simp only [evaluate, hf, ne_eq, hlen, not_false_eq_true, if_true]

theorem C8_call_checks_precede_arguments_witness :
    (∀ scope ∈ (Environment.root [] []).chain, mapFind scope.functions "g" = none) ∧
    evaluate (0 + 1) (.root [] []) (.Expr (.FunctionCall "g" [.Identifier "x"]))
      = some (.root [] [], .error (.NameError ("Undefined function: " ++ "g"))) :=
  ⟨by simp [Environment.chain, Environment.functions, mapFind],
    C8_call_checks_precede_arguments.1 0 (.root [] []) "g" [.Identifier "x"]
      (by simp [Environment.chain, Environment.functions, mapFind])⟩

/-- C9: `getVariable` returns the value bound in the innermost scope of the
chain that binds the name; in a chain that stores no null pointer it returns
nothing if and only if no scope of the chain binds the name. Evaluating
Identifier(name) returns that value, and raises NameError exactly when the
lookup returns nothing; a child's binding of `a` shadows its parent's;
`def f() \n return x` makes `run("f",[])` raise NameError. No chain the
interpreter builds stores a null pointer: not the one `run` starts with, not
the one an evaluation leaves, not the one a call binds its arguments in. -/
theorem C9_getVariable_innermost_binding :
    (∀ (env : Environment) (name : String),
      env.getVariable name = (env.innermostBinding name).join) ∧
    (∀ (env : Environment) (name : String), env.NoNull →
      (env.getVariable name = none ↔ ∀ scope ∈ env.chain, mapFind scope.vars name = none)) ∧
    (∀ (fuel : Nat) (env : Environment) (name : String) (value : Value),
      env.getVariable name = some value →
      evaluate (fuel + 1) env (.Expr (.Identifier name)) = some (env, .ok (some value))) ∧
    (∀ (fuel : Nat) (env : Environment) (name : String),
      (∃ env1 msg, evaluate (fuel + 1) env (.Expr (.Identifier name))
          = some (env1, .error (.NameError msg))) ↔ env.getVariable name = none) ∧
    (Environment.child [("a", some (.IntValue 1))] []
        (.root [("a", some (.IntValue 2)), ("b", some (.IntValue 3))] [])).getVariable "a"
      = some (.IntValue 1) ∧
    (∃ interp, Interpreter.new srcUndefinedVariable = some (.ok interp) ∧
      Interpreter.run 1 interp "f" []
        = some (interp, .error (.NameError "Undefined variable: x"))) ∧
    (∀ (functions : List FunctionDefAST) (params : List String) (args : List Int),
      (Interpreter.bindInts params args
        (Interpreter.load functions).global_env.createChildEnv).NoNull) ∧
    (∀ (fuel : Nat) (env env1 : Environment) (node : NodeAST) (r : Except Error (Option Value)),
      env.NoNull → evaluate fuel env node = some (env1, r) → env1.NoNull) ∧
    (∀ (fuel : Nat) (params : List String) (args : List ExprAST) (env env1 fe : Environment),
      env.NoNull → bindArgs (evaluate fuel) params args env env.createChildEnv
        = some (env1, .ok fe) → fe.NoNull) := by
  refine ⟨Environment.getVariable_eq_innermostBinding, Environment.getVariable_eq_none_iff,
    evaluate_Identifier_some, ?_, by rfl, ⟨_, new_srcUndefinedVariable, by rfl⟩,
    run_environment_NoNull,
    fun fuel env env1 node r hnn h => evaluate_NoNull fuel env node env1 r hnn h,
    fun fuel params args env env1 fe hnn h =>
      bindArgs_NoNull fuel params args env _ env1 fe env.parent_createChildEnv
        (Environment.NoNull_createChildEnv env hnn) h⟩
  intro fuel env name
  constructor
  · rintro ⟨env1, msg, h⟩
    cases hv : env.getVariable name with
    | none => rfl
    | some value =>
      rw [evaluate_Identifier_some fuel env name value hv] at h
      simp at h
  · intro hv
    exact ⟨env, _, evaluate_Identifier_none fuel env name hv⟩

theorem C9_getVariable_innermost_binding_witness :
    (Environment.child [("a", some (.IntValue 1))] [] (.root [("a", some (.IntValue 2))] [])).NoNull ∧
    ((Environment.child [("a", some (.IntValue 1))] []
        (.root [("a", some (.IntValue 2))] [])).getVariable "b" = none ↔
      ∀ scope ∈ (Environment.child [("a", some (.IntValue 1))] []
        (.root [("a", some (.IntValue 2))] [])).chain, mapFind scope.vars "b" = none) :=
  ⟨by simp [Environment.NoNull, Environment.chain, Environment.vars],
    C9_getVariable_innermost_binding.2.1 _ "b"
      (by simp [Environment.NoNull, Environment.chain, Environment.vars])⟩
/-! ## The parser: termination, errors, and the DEF/RETURN balance -/

theorem openDefs_cons_of_neutral {t : Token} (h : neutral t) (n : Nat) (ts : TokenStream) :
    openDefs n (t :: ts) = openDefs n ts := by
  obtain ⟨h1, h2, h3⟩ := h
  cases t with
  | Utility u => cases u <;> simp_all [openDefs]
  | _ => simp [openDefs]

theorem Consumed.refl (ts : TokenStream) : Consumed ts ts := ⟨Nat.le_refl _, fun _ => rfl⟩

theorem Consumed.trans {ts ts1 ts2 : TokenStream} (h1 : Consumed ts ts1) (h2 : Consumed ts1 ts2) :
    Consumed ts ts2 :=
  ⟨Nat.le_trans h2.1 h1.1, fun n => (h1.2 n).trans (h2.2 n)⟩

theorem Next_length {ts : TokenStream} {t : Token} (h : GetToken ts = t)
    (ht : t ≠ .Utility .EOFT) : (Next ts).length + 1 = ts.length := by
  cases ts with
  | nil => exact absurd h.symm ht
  | cons a ts => rfl

theorem Next_Consumed {ts : TokenStream} {t : Token} (h : GetToken ts = t) (ht : neutral t) :
    Consumed ts (Next ts) := by
  cases ts with
  | nil => exact Consumed.refl _
  | cons a ts =>
    simp only [GetToken] at h
    subst h
    exact ⟨Nat.le_succ _, fun n => openDefs_cons_of_neutral ht n ts⟩

theorem ParseSpec_bind {α β : Type} {needY needX fuel : Nat} {postY : α → TokenStream → Prop}
    {postX : β → TokenStream → Prop} {r : ParseResult α} {k : α → TokenStream → ParseResult β}
    (hr : ParseSpec needY fuel postY r) (hneed : needY < needX)
    (hk : ∀ a rest, postY a rest → ParseSpec needX (fuel + 1) postX (k a rest)) :
    ParseSpec needX (fuel + 1) postX (r.bind k) := by
  cases r with
  | ok a rest => exact hk a rest hr
  | error e => exact hr
  | outOfFuel =>
    simp only [ParseSpec] at hr
    simp only [ParseResult.bind, ParseSpec]
    omega

theorem ParseSpec_bind_same {α β : Type} {need fuel : Nat} {postY : α → TokenStream → Prop}
    {postX : β → TokenStream → Prop} {r : ParseResult α} {k : α → TokenStream → ParseResult β}
    (hr : ParseSpec need fuel postY r)
    (hk : ∀ a rest, postY a rest → ParseSpec need fuel postX (k a rest)) :
    ParseSpec need fuel postX (r.bind k) := by
  cases r with
  | ok a rest => exact hk a rest hr
  | error e => exact hr
  | outOfFuel => exact hr

theorem ParseSpec_mono {α : Type} {needY needX fuel : Nat} {postY postX : α → TokenStream → Prop}
    {r : ParseResult α} (hr : ParseSpec needY fuel postY r) (hneed : needY < needX)
    (hpost : ∀ a rest, postY a rest → postX a rest) : ParseSpec needX (fuel + 1) postX r := by
  cases r with
  | ok a rest => exact hpost a rest hr
  | error e => exact hr
  | outOfFuel =>
    simp only [ParseSpec] at hr ⊢
    omega

theorem ParseSpec_error {α : Type} (need fuel : Nat) (post : α → TokenStream → Prop)
    (msg : String) : ParseSpec need fuel post (.error (.SyntaxError msg)) := trivial

/-- The loop of a binary-operator level: once the level below meets its
specification, so does the loop. -/
theorem binaryLoop_step {fuel : Nat} {ts : TokenStream} {t : Token} (needSub : Nat → Nat)
    (sub : Nat → TokenStream → ParseResult ExprAST)
    (loop : Nat → ExprAST → TokenStream → ParseResult ExprAST)
    (hsub : ∀ ts, ParseSpec (needSub ts.length) fuel (fun _ rest => Consumed ts rest) (sub fuel ts))
    (hloop : ∀ expr ts, ParseSpec (6 * ts.length + 1) fuel (fun _ rest => Consumed ts rest)
      (loop fuel expr ts))
    (hneedSub : ∀ n, needSub n + 1 < 6 * (n + 1) + 1)
    (ht : GetToken ts = t) (hn : neutral t) (f : ExprAST → ExprAST) :
    ParseSpec (6 * ts.length + 1) (fuel + 1) (fun _ rest => Consumed ts rest)
      ((sub fuel (Next ts)).bind fun right ts1 => loop fuel (f right) ts1) := by
  have hc := Next_Consumed ht hn
  have hl := Next_length ht hn.2.2
  refine ParseSpec_bind (hsub (Next ts)) ?_ ?_
  · have := hneedSub (Next ts).length
    rw [← hl]; omega
  · intro right ts1 h1
    refine ParseSpec_mono (hloop (f right) ts1) ?_ ?_
    · have := h1.1
      omega
    · intro _ rest h2
      exact hc.trans (h1.trans h2)

theorem parseExpression_spec : ∀ fuel : Nat,
    (∀ ts, ParseSpec (6 * ts.length + 6) fuel (fun _ rest => Consumed ts rest)
      (parseExpression fuel ts)) ∧
    (∀ ts, ParseSpec (6 * ts.length + 5) fuel (fun _ rest => Consumed ts rest)
      (parseTernaryExpr fuel ts)) ∧
    (∀ ts, ParseSpec (6 * ts.length + 4) fuel (fun _ rest => Consumed ts rest)
      (parseLogicalExpr fuel ts)) ∧
    (∀ expr ts, ParseSpec (6 * ts.length + 1) fuel (fun _ rest => Consumed ts rest)
      (parseLogicalLoop fuel expr ts)) ∧
    (∀ ts, ParseSpec (6 * ts.length + 3) fuel (fun _ rest => Consumed ts rest)
      (parseAddExpr fuel ts)) ∧
    (∀ expr ts, ParseSpec (6 * ts.length + 1) fuel (fun _ rest => Consumed ts rest)
      (parseAddLoop fuel expr ts)) ∧
    (∀ ts, ParseSpec (6 * ts.length + 2) fuel (fun _ rest => Consumed ts rest)
      (parseMulExpr fuel ts)) ∧
    (∀ expr ts, ParseSpec (6 * ts.length + 1) fuel (fun _ rest => Consumed ts rest)
      (parseMulLoop fuel expr ts)) ∧
    (∀ ts, ParseSpec (6 * ts.length + 1) fuel (fun _ rest => Consumed ts rest)
      (parsePrimary fuel ts)) ∧
    (∀ args ts, ParseSpec (6 * ts.length + 1) fuel (fun _ rest => Consumed ts rest)
      (parseArgsLoop fuel args ts)) := by
  intro fuel
  induction fuel with
  | zero =>
    refine ⟨?_, ?_, ?_, ?_, ?_, ?_, ?_, ?_, ?_, ?_⟩ <;> intros <;>
      simp [parseExpression, parseTernaryExpr, parseLogicalExpr, parseLogicalLoop, parseAddExpr,
        parseAddLoop, parseMulExpr, parseMulLoop, parsePrimary, parseArgsLoop, ParseSpec]
  | succ fuel ih =>
    obtain ⟨ihE, ihT, ihL, ihLL, ihA, ihAL, ihM, ihML, ihP, ihArgs⟩ := ih
    refine ⟨?_, ?_, ?_, ?_, ?_, ?_, ?_, ?_, ?_, ?_⟩
    · -- parseExpression
      intro ts
      simp only [parseExpression]
      exact ParseSpec_mono (ihT ts) (by omega) (fun _ _ h => h)
    · -- parseTernaryExpr
      intro ts
      simp only [parseTernaryExpr]
      split
      · rename_i hIF
        have c0 := Next_Consumed hIF (by unfold neutral; decide)
        have l0 := Next_length hIF (by decide)
        refine ParseSpec_bind (ihL (Next ts)) (by omega) ?_
        intro condition ts1 h1
        split
        · exact ParseSpec_error _ _ _ _
        · rename_i hTHEN
          have hTHEN : GetToken ts1 = .Embracing .THEN := by simpa using hTHEN
          have c1 := Next_Consumed hTHEN (by unfold neutral; decide)
          have l1 := Next_length hTHEN (by decide)
          have := h1.1
          refine ParseSpec_bind (ihL (Next ts1)) (by omega) ?_
          intro then_expr ts2 h2
          split
          · exact ParseSpec_error _ _ _ _
          · rename_i hELSE
            have hELSE : GetToken ts2 = .Embracing .ELSE := by simpa using hELSE
            have c2 := Next_Consumed hELSE (by unfold neutral; decide)
            have l2 := Next_length hELSE (by decide)
            have := h2.1
            refine ParseSpec_bind (ihL (Next ts2)) (by omega) ?_
            intro else_expr ts3 h3
            exact c0.trans (h1.trans (c1.trans (h2.trans (c2.trans h3))))
      · exact ParseSpec_mono (ihL ts) (by omega) (fun _ _ h => h)
    · -- parseLogicalExpr
      intro ts
      simp only [parseLogicalExpr]
      refine ParseSpec_bind (ihA ts) (by omega) ?_
      intro expr ts1 h1
      have := h1.1
      exact ParseSpec_mono (ihLL expr ts1) (by omega) (fun _ _ h => h1.trans h)
    · -- parseLogicalLoop
      intro expr ts
      simp only [parseLogicalLoop]
      split
      · rename_i hop
        rcases hop with hop | hop | hop
        · exact binaryLoop_step (fun n => 6 * n + 3) parseAddExpr parseLogicalLoop ihA ihLL
            (fun n => by show 6 * n + 3 + 1 < 6 * (n + 1) + 1; omega) hop (by unfold neutral; decide) _
        · exact binaryLoop_step (fun n => 6 * n + 3) parseAddExpr parseLogicalLoop ihA ihLL
            (fun n => by show 6 * n + 3 + 1 < 6 * (n + 1) + 1; omega) hop (by unfold neutral; decide) _
        · exact binaryLoop_step (fun n => 6 * n + 3) parseAddExpr parseLogicalLoop ihA ihLL
            (fun n => by show 6 * n + 3 + 1 < 6 * (n + 1) + 1; omega) hop (by unfold neutral; decide) _
      · exact Consumed.refl ts
    · -- parseAddExpr
      intro ts
      simp only [parseAddExpr]
      refine ParseSpec_bind (ihM ts) (by omega) ?_
      intro expr ts1 h1
      have := h1.1
      exact ParseSpec_mono (ihAL expr ts1) (by omega) (fun _ _ h => h1.trans h)
    · -- parseAddLoop
      intro expr ts
      simp only [parseAddLoop]
      split
      · rename_i hop
        rcases hop with hop | hop
        · exact binaryLoop_step (fun n => 6 * n + 2) parseMulExpr parseAddLoop ihM ihAL
            (fun n => by show 6 * n + 2 + 1 < 6 * (n + 1) + 1; omega) hop (by unfold neutral; decide) _
        · exact binaryLoop_step (fun n => 6 * n + 2) parseMulExpr parseAddLoop ihM ihAL
            (fun n => by show 6 * n + 2 + 1 < 6 * (n + 1) + 1; omega) hop (by unfold neutral; decide) _
      · exact Consumed.refl ts
    · -- parseMulExpr
      intro ts
      simp only [parseMulExpr]
      refine ParseSpec_bind (ihP ts) (by omega) ?_
      intro expr ts1 h1
      have := h1.1
      exact ParseSpec_mono (ihML expr ts1) (by omega) (fun _ _ h => h1.trans h)
    · -- parseMulLoop
      intro expr ts
      simp only [parseMulLoop]
      split
      · rename_i hop
        rcases hop with hop | hop
        · exact binaryLoop_step (fun n => 6 * n + 1) parsePrimary parseMulLoop ihP ihML
            (fun n => by show 6 * n + 1 + 1 < 6 * (n + 1) + 1; omega) hop (by unfold neutral; decide) _
        · exact binaryLoop_step (fun n => 6 * n + 1) parsePrimary parseMulLoop ihP ihML
            (fun n => by show 6 * n + 1 + 1 < 6 * (n + 1) + 1; omega) hop (by unfold neutral; decide) _
      · exact Consumed.refl ts
    · -- parsePrimary
      intro ts
      simp only [parsePrimary]
      split
      · rename_i value hC
        exact Next_Consumed hC (by simp [neutral])
      · rename_i name hS
        have c0 := Next_Consumed hS (by simp [neutral])
        have l0 := Next_length hS (by simp)
        split
        · rename_i hLP
          have c1 := Next_Consumed hLP (by unfold neutral; decide)
          have l1 := Next_length hLP (by decide)
          refine @ParseSpec_bind_same _ _ _ _ (fun _ rest => Consumed (Next (Next ts)) rest) _ _ _ ?_ ?_
          · split
            · refine ParseSpec_bind (ihE (Next (Next ts))) (by omega) ?_
              intro arg ts3 h3
              have := h3.1
              exact ParseSpec_mono (ihArgs _ ts3) (by omega) (fun _ _ h => h3.trans h)
            · exact Consumed.refl _
          · intro args ts4 h4
            split
            · exact ParseSpec_error _ _ _ _
            · rename_i hRP
              have hRP : GetToken ts4 = .Embracing .RPAREN := by simpa using hRP
              exact c0.trans (c1.trans (h4.trans (Next_Consumed hRP (by unfold neutral; decide))))
        · exact c0
      · rename_i hLP
        have c0 := Next_Consumed hLP (by unfold neutral; decide)
        have l0 := Next_length hLP (by decide)
        refine ParseSpec_bind (ihE (Next ts)) (by omega) ?_
        intro expr ts1 h1
        split
        · exact ParseSpec_error _ _ _ _
        · rename_i hRP
          have hRP : GetToken ts1 = .Embracing .RPAREN := by simpa using hRP
          exact c0.trans (h1.trans (Next_Consumed hRP (by unfold neutral; decide)))
      · exact ParseSpec_error _ _ _ _
    · -- parseArgsLoop
      intro args ts
      simp only [parseArgsLoop]
      split
      · rename_i hC
        have c0 := Next_Consumed hC (by unfold neutral; decide)
        have l0 := Next_length hC (by decide)
        refine ParseSpec_bind (ihE (Next ts)) (by omega) ?_
        intro arg ts1 h1
        have := h1.1
        exact ParseSpec_mono (ihArgs _ ts1) (by omega) (fun _ _ h => c0.trans (h1.trans h))
      · exact Consumed.refl ts
theorem parseStatement_spec (fuel : Nat) (ts : TokenStream)
    (hret : GetToken ts ≠ .Utility .RETURN) :
    ParseSpec (6 * ts.length + 1) fuel (fun _ rest => Consumed ts rest)
      (parseStatement fuel ts) := by
  cases fuel with
  | zero => simp [parseStatement, ParseSpec]
  | succ fuel =>
    simp only [parseStatement]
    split
    · rename_i h; exact absurd h hret
    · rename_i name hS
      have c0 := Next_Consumed hS (by simp [neutral])
      have l0 := Next_length hS (by simp)
      split
      · exact ParseSpec_error _ _ _ _
      · rename_i hEQ
        have hEQ : GetToken (Next ts) = .Operator .EQ := by simpa using hEQ
        have c1 := Next_Consumed hEQ (by unfold neutral; decide)
        have l1 := Next_length hEQ (by decide)
        refine ParseSpec_bind ((parseExpression_spec fuel).1 (Next (Next ts))) (by omega) ?_
        intro expr ts2 h2
        exact c0.trans (c1.trans h2)
    · exact ParseSpec_error _ _ _ _

theorem parseParamsLoop_spec : ∀ (n : Nat) (ts : TokenStream), ts.length ≤ n →
    ∀ (params : List String) (need fuel : Nat),
    ParseSpec need fuel (fun _ rest => Consumed ts rest) (parseParamsLoop params ts) := by
  intro n
  induction n with
  | zero =>
    intro ts hlen params need fuel
    have : ts = [] := List.eq_nil_of_length_eq_zero (by omega)
    subst this
    simp only [parseParamsLoop]
    exact Consumed.refl _
  | succ n ih =>
    intro ts hlen params need fuel
    unfold parseParamsLoop
    split
    · rename_i ts0
      split
      · rename_i name ts1
        have hlen1 : ts1.length ≤ n := by simp only [List.length_cons] at hlen; omega
        have h := ih ts1 hlen1 (params ++ [name]) need fuel
        have c : Consumed (Token.Embracing .COMMA :: Token.Symbol name :: ts1) ts1 :=
          (@Next_Consumed (Token.Embracing .COMMA :: Token.Symbol name :: ts1)
            (.Embracing .COMMA) rfl (by unfold neutral; decide)).trans
            (@Next_Consumed (Token.Symbol name :: ts1) (.Symbol name) rfl
              (by simp [neutral]))
        cases hr : parseParamsLoop (params ++ [name]) ts1 with
        | ok a rest => rw [hr] at h; exact c.trans h
        | error e => rw [hr] at h; exact h
        | outOfFuel => rw [hr] at h; exact h
      · exact ParseSpec_error _ _ _ _
    · exact Consumed.refl _

theorem parseParams_spec (ts : TokenStream) (need fuel : Nat) :
    ParseSpec need fuel (fun _ rest => Consumed ts rest) (parseParams ts) := by
  unfold parseParams
  split
  · split
    · rename_i name hS
      have c0 := Next_Consumed hS (by simp [neutral])
      have h := parseParamsLoop_spec _ (Next ts) (Nat.le_refl _) [name] need fuel
      cases hr : parseParamsLoop [name] (Next ts) with
      | ok a rest => rw [hr] at h; exact c0.trans h
      | error e => rw [hr] at h; exact h
      | outOfFuel => rw [hr] at h; exact h
    · exact ParseSpec_error _ _ _ _
  · exact Consumed.refl _

theorem skipNewlines_Consumed : ∀ ts : TokenStream, Consumed ts (skipNewlines ts) := by
  intro ts
  induction ts with
  | nil => exact Consumed.refl _
  | cons t ts ih =>
    by_cases h : t = .Utility .NEWLINE
    · subst h
      simp only [skipNewlines]
      exact (@Next_Consumed (Token.Utility .NEWLINE :: ts) (.Utility .NEWLINE) rfl
        (by unfold neutral; decide)).trans ih
    · have : skipNewlines (t :: ts) = t :: ts := by
        unfold skipNewlines
        split
        · rename_i heq
          simp only [List.cons.injEq] at heq
          exact absurd heq.1 h
        · rfl
      rw [this]
      exact Consumed.refl _

theorem openDefs_of_IsEnd {ts : TokenStream} (h : IsEnd ts = true) (n : Nat) :
    openDefs n ts = n := by
  cases ts with
  | nil => rfl
  | cons t ts =>
    simp only [IsEnd, GetToken, beq_iff_eq] at h
    subst h
    rfl

theorem openDefs_Next_DEF {ts : TokenStream} (h : GetToken ts = .Utility .DEF) (n : Nat) :
    openDefs n ts = openDefs (n + 1) (Next ts) := by
  cases ts with
  | nil => simp [GetToken] at h
  | cons t ts =>
    simp only [GetToken] at h
    subst h
    rfl

theorem openDefs_Next_RETURN {ts : TokenStream} (h : GetToken ts = .Utility .RETURN) (n : Nat) :
    openDefs (n + 1) ts = openDefs n (Next ts) := by
  cases ts with
  | nil => simp [GetToken] at h
  | cons t ts =>
    simp only [GetToken] at h
    subst h
    rfl
theorem parseFunctionDef_spec : ∀ fuel : Nat,
    (∀ ts, ParseSpec (6 * ts.length + 1) fuel
      (fun _ rest => rest.length < ts.length ∧ ∀ n, openDefs n ts = openDefs n rest)
      (parseFunctionDef fuel ts)) ∧
    (∀ body ts, ParseSpec (6 * ts.length + 8) fuel
      (fun parsed rest => rest.length ≤ ts.length ∧
        (parsed.2.isSome = true → ∀ n, openDefs (n + 1) ts = openDefs n rest))
      (parseBodyLoop fuel body ts)) := by
  intro fuel
  induction fuel with
  | zero =>
    refine ⟨?_, ?_⟩ <;> intros <;> simp [parseFunctionDef, parseBodyLoop, ParseSpec]
  | succ fuel ih =>
    obtain ⟨ihF, ihB⟩ := ih
    refine ⟨?_, ?_⟩
    · intro ts
      simp only [parseFunctionDef]
      split
      · exact ParseSpec_error _ _ _ _
      · rename_i hDEF
        have hDEF : GetToken ts = .Utility .DEF := by simpa using hDEF
        have l0 := Next_length hDEF (by decide)
        have o0 := openDefs_Next_DEF hDEF
        split
        · rename_i name hS
          have c1 := Next_Consumed hS (by simp [neutral])
          have l1 := Next_length hS (by simp)
          split
          · exact ParseSpec_error _ _ _ _
          · rename_i hLP
            have hLP : GetToken (Next (Next ts)) = .Embracing .LPAREN := by simpa using hLP
            have c2 := Next_Consumed hLP (by unfold neutral; decide)
            have l2 := Next_length hLP (by decide)
            refine ParseSpec_bind_same (parseParams_spec (Next (Next (Next ts))) _ _) ?_
            intro params ts3 h3
            split
            · exact ParseSpec_error _ _ _ _
            · rename_i hRP
              have hRP : GetToken ts3 = .Embracing .RPAREN := by simpa using hRP
              have c3 := Next_Consumed hRP (by unfold neutral; decide)
              have l3 := Next_length hRP (by decide)
              split
              · exact ParseSpec_error _ _ _ _
              · rename_i hNL
                have hNL : GetToken (Next ts3) = .Utility .NEWLINE := by simpa using hNL
                have c4 := Next_Consumed hNL (by unfold neutral; decide)
                have l4 := Next_length hNL (by decide)
                have hall := c1.trans (c2.trans (h3.trans (c3.trans c4)))
                have := h3.1
                refine ParseSpec_bind (ihB [] (Next (Next ts3))) (by omega) ?_
                intro parsed ts5 h5
                obtain ⟨body, ret⟩ := parsed
                cases ret with
                | none => exact ParseSpec_error _ _ _ _
                | some return_expr =>
                  refine ⟨by have := h5.1; omega, fun n => ?_⟩
                  rw [o0 n, hall.2 (n + 1)]
                  exact h5.2 rfl n
        · exact ParseSpec_error _ _ _ _
    · intro body ts
      simp only [parseBodyLoop]
      split
      · exact ⟨Nat.le_refl _, fun h => by simp at h⟩
      · have cs := skipNewlines_Consumed ts
        have ls := cs.1
        split
        · exact ⟨ls, fun h => by simp at h⟩
        · rename_i hne
          have hne : GetToken (skipNewlines ts) ≠ .Utility .EOFT := by
            simpa [IsEnd] using hne
          split
          · rename_i hDEF
            refine ParseSpec_bind (ihF (skipNewlines ts)) (by omega) ?_
            intro nested_func ts2 h2
            have := h2.1
            refine ParseSpec_mono (ihB _ ts2) (by omega) ?_
            intro parsed rest h
            refine ⟨by have := h.1; omega, fun hsome n => ?_⟩
            rw [cs.2 (n + 1), h2.2 (n + 1)]
            exact h.2 hsome n
          · split
            · rename_i hRET
              have l0 := Next_length hRET (by decide)
              have o0 := openDefs_Next_RETURN hRET
              refine ParseSpec_bind ((parseExpression_spec fuel).1 (Next (skipNewlines ts)))
                (by omega) ?_
              intro return_expr ts2 h2
              have := h2.1
              split
              · exact ParseSpec_error _ _ _ _
              · rename_i hterm
                split
                · rename_i hnotEnd
                  have hNL : GetToken ts2 = .Utility .NEWLINE := by
                    simp only [IsEnd, Bool.not_eq_true', beq_eq_false_iff_ne, ne_eq] at hnotEnd
                    by_contra hc
                    exact hterm ⟨hc, hnotEnd⟩
                  have c3 := Next_Consumed hNL (by unfold neutral; decide)
                  refine ⟨by have := c3.1; omega, fun _ n => ?_⟩
                  rw [cs.2 (n + 1), o0 n, h2.2 n, c3.2 n]
                · refine ⟨by omega, fun _ n => ?_⟩
                  rw [cs.2 (n + 1), o0 n, h2.2 n]
            · rename_i hRET
              refine ParseSpec_bind (parseStatement_spec fuel (skipNewlines ts) hRET)
                (by omega) ?_
              intro stmt ts2 h2
              have := h2.1
              split
              · exact ParseSpec_error _ _ _ _
              · rename_i hNL
                have hNL : GetToken ts2 = .Utility .NEWLINE := by simpa using hNL
                have c3 := Next_Consumed hNL (by unfold neutral; decide)
                have l3 := Next_length hNL (by decide)
                refine ParseSpec_mono (ihB _ (Next ts2)) (by omega) ?_
                intro parsed rest h
                refine ⟨by have := h.1; omega, fun hsome n => ?_⟩
                rw [cs.2 (n + 1), h2.2 (n + 1), c3.2 (n + 1)]
                exact h.2 hsome n

theorem parseProgramLoop_spec : ∀ (fuel : Nat) (functions : List FunctionDefAST)
    (ts : TokenStream),
    ParseSpec (6 * ts.length + 2) fuel (fun _ _ => openDefs 0 ts = 0)
      (parseProgramLoop fuel functions ts) := by
  intro fuel
  induction fuel with
  | zero => intros; simp [parseProgramLoop, ParseSpec]
  | succ fuel ih =>
    intro functions ts
    simp only [parseProgramLoop]
    split
    · rename_i hEnd
      exact openDefs_of_IsEnd hEnd 0
    · have cs := skipNewlines_Consumed ts
      have ls := cs.1
      split
      · rename_i hEnd
        show openDefs 0 ts = 0
        rw [cs.2 0]
        exact openDefs_of_IsEnd hEnd 0
      · split
        · refine ParseSpec_bind ((parseFunctionDef_spec fuel).1 (skipNewlines ts)) (by omega) ?_
          intro f ts2 h2
          have := h2.1
          refine ParseSpec_mono (ih _ ts2) (by omega) ?_
          intro _ _ h
          show openDefs 0 ts = 0
          rw [cs.2 0, h2.2 0]
          exact h
        · exact ParseSpec_error _ _ _ _

theorem parseProgram_spec (ts : TokenStream) :
    ParseSpec (6 * ts.length + 2) (parseFuel ts.length) (fun _ _ => openDefs 0 ts = 0)
      (parseProgram ts) :=
  parseProgramLoop_spec _ [] ts
/-- C10: every token stream in which some function definition, top-level or
nested, is still waiting for its own RETURN when the input ends (a RETURN
closes the definition opened last) makes `parseProgram` fail with SyntaxError,
so that no Program results; `def f(a) \n x = a \n` and
`def f() \n def g() \n return 1 \n` are such streams and fail with "Function
must end with a return statement". -/
theorem C10_function_without_return_is_syntax_error :
    (∀ ts : TokenStream, 0 < openDefs 0 ts →
      ∃ msg, parseProgram ts = .error (.SyntaxError msg)) ∧
    (Tokenizer.tokens srcNoReturn = some (.ok tokensNoReturn) ∧
      0 < openDefs 0 tokensNoReturn ∧
      parseProgram tokensNoReturn
        = .error (.SyntaxError "Function must end with a return statement") ∧
      Interpreter.new srcNoReturn
        = some (.error (.SyntaxError "Function must end with a return statement"))) ∧
    (Tokenizer.tokens srcNestedReturnOnly = some (.ok tokensNestedReturnOnly) ∧
      0 < openDefs 0 tokensNestedReturnOnly ∧
      parseProgram tokensNestedReturnOnly
        = .error (.SyntaxError "Function must end with a return statement") ∧
      Interpreter.new srcNestedReturnOnly
        = some (.error (.SyntaxError "Function must end with a return statement"))) := by
  refine ⟨?_, ⟨by rfl, by decide, by rfl, by rfl⟩, ⟨by rfl, by decide, by rfl, by rfl⟩⟩
  intro ts hopen
  have h := parseProgram_spec ts
  cases hr : parseProgram ts with
  | ok functions rest =>
    rw [hr] at h
    simp only [ParseSpec] at h
    omega
  | error e =>
    rw [hr] at h
    cases e with
    | SyntaxError msg => exact ⟨msg, rfl⟩
    | NameError msg => exact absurd h (by simp [ParseSpec, isSyntaxError])
    | RuntimeError msg => exact absurd h (by simp [ParseSpec, isSyntaxError])
  | outOfFuel =>
    rw [hr] at h
    simp only [ParseSpec, parseFuel] at h
    omega

theorem C10_function_without_return_is_syntax_error_witness :
    0 < openDefs 0 tokensNestedReturnOnly ∧
    ∃ msg, parseProgram tokensNestedReturnOnly = .error (.SyntaxError msg) :=
  ⟨by decide, C10_function_without_return_is_syntax_error.1 tokensNestedReturnOnly (by decide)⟩
/-! ## Cloning -/

mutual
theorem cloneExpr_eq : ∀ e : ExprAST, cloneExpr e = e
  | .Number _ => rfl
  | .Identifier _ => rfl
  | .BinaryOp op l r => by
    simp only [cloneExpr, cloneExpr_eq l, cloneExpr_eq r]
  | .TernaryExpr c t e => by
    simp only [cloneExpr, cloneExpr_eq c, cloneExpr_eq t, cloneExpr_eq e]
  | .FunctionCall callee args => by
    simp only [cloneExpr, cloneArgs_eq args]
theorem cloneArgs_eq : ∀ args : List ExprAST, cloneArgs args = args
  | [] => rfl
  | arg :: args => by
    simp only [cloneArgs, cloneExpr_eq arg, cloneArgs_eq args]
end

mutual
theorem clone_eq : ∀ f : FunctionDefAST, f.clone = f
  | .mk name params body return_expr => by
    simp only [FunctionDefAST.clone, cloneBody_eq body, cloneExpr_eq]
theorem cloneBody_eq : ∀ body : List StatementAST, cloneBody body = body
  | [] => rfl
  | .Assignment v e :: body => by
    simp only [cloneBody, cloneExpr_eq, cloneBody_eq body]
  | .ReturnStmt e :: body => by
    simp only [cloneBody, cloneExpr_eq, cloneBody_eq body]
  | .FunctionDef f :: body => by
    simp only [cloneBody, clone_eq f, cloneBody_eq body]
end
/-- C11: `FunctionDefAST::clone` returns a FunctionDef structurally equal to
the original, whatever the nesting of its expressions, assignments and nested
definitions: same name, same parameters in the same order, the same body
statements in the same order, the same return expression, node for node; so no
statement is dropped. -/
theorem C11_clone_is_structurally_equal :
    (∀ f : FunctionDefAST, f.clone = f) ∧
    (∀ f : FunctionDefAST, f.clone.getName = f.getName ∧ f.clone.getParams = f.getParams ∧
      f.clone.getBody = f.getBody ∧ f.clone.getBody.length = f.getBody.length ∧
      f.clone.getReturnExpr = f.getReturnExpr) ∧
    (∀ e : ExprAST, cloneExpr e = e) ∧
    (FunctionDefAST.mk "f" ["a", "b"]
        [.Assignment "x" (.FunctionCall "h" [.BinaryOp '+' (.Identifier "a") (.Number 1)]),
         .FunctionDef (.mk "g" [] [.ReturnStmt (.Number 2)]
           (.TernaryExpr (.Identifier "x") (.Number 1) (.Number 0)))]
        (.Identifier "x")).clone
      = FunctionDefAST.mk "f" ["a", "b"]
        [.Assignment "x" (.FunctionCall "h" [.BinaryOp '+' (.Identifier "a") (.Number 1)]),
         .FunctionDef (.mk "g" [] [.ReturnStmt (.Number 2)]
           (.TernaryExpr (.Identifier "x") (.Number 1) (.Number 0)))]
        (.Identifier "x") := by
  refine ⟨clone_eq, fun f => ?_, cloneExpr_eq, by rfl⟩
  rw [clone_eq f]
  exact ⟨rfl, rfl, rfl, rfl, rfl⟩

/-! ## Ternary, binary operators and calls -/

theorem run_ternaryUntaken :
    ∃ interp, Interpreter.new srcTernaryUntaken = some (.ok interp) ∧
      Interpreter.run 3 interp "f" [] = some (interp, .ok 1) :=
  ⟨_, by rfl, by rfl⟩

/-- C12: when the condition of a Ternary evaluates to a value, the outcome of
the Ternary (value or error) is the outcome of the then-branch if the value is
nonzero and of the else-branch if it is 0, whatever the other branch is; the
other branch is not evaluated: `if 1 then 1 else 1/0` evaluates to 1. -/
theorem C12_ternary_evaluates_chosen_branch_only :
    (∀ (fuel : Nat) (env env1 : Environment) (c t e : ExprAST) (cv : Value),
      evaluate fuel env (.Expr c) = some (env1, .ok (some cv)) →
      env1 = env ∧
      (cv.asInt ≠ 0 →
        evaluate (fuel + 1) env (.Expr (.TernaryExpr c t e)) = evaluate fuel env (.Expr t)) ∧
      (cv.asInt = 0 →
        evaluate (fuel + 1) env (.Expr (.TernaryExpr c t e)) = evaluate fuel env (.Expr e))) ∧
    (∃ interp, Interpreter.new srcTernaryUntaken = some (.ok interp) ∧
      Interpreter.run 3 interp "f" [] = some (interp, .ok 1)) := by
  refine ⟨?_, run_ternaryUntaken⟩
  intro fuel env env1 c t e cv hc
  have henv := (evaluate_frame fuel env _ env1 _ hc).2 c rfl
  subst henv
  refine ⟨rfl, fun h => ?_, fun h => ?_⟩
  · rw [evaluate_TernaryExpr_value fuel _ _ c t e cv hc, if_pos h]
  · rw [evaluate_TernaryExpr_value fuel _ _ c t e cv hc, if_neg (not_not.2 h)]

theorem C12_ternary_evaluates_chosen_branch_only_witness :
    evaluate 1 (.root [] []) (.Expr (.Number 1))
      = some (.root [] [], .ok (some (.IntValue 1))) ∧
    ((Value.IntValue 1).asInt ≠ 0 →
      evaluate (1 + 1) (.root [] [])
        (.Expr (.TernaryExpr (.Number 1) (.Number 1) (.BinaryOp '/' (.Number 1) (.Number 0))))
        = evaluate 1 (.root [] []) (.Expr (.Number 1))) :=
  ⟨rfl, (C12_ternary_evaluates_chosen_branch_only.1 1 (.root [] []) (.root [] []) (.Number 1)
    (.Number 1) (.BinaryOp '/' (.Number 1) (.Number 0)) (.IntValue 1) rfl).2.1⟩

theorem new_srcDynamicScope :
    Interpreter.new srcDynamicScope = some (.ok (Interpreter.load dynamicScopeProgram)) := by rfl

theorem run_dynamicScope_f (a : Int) (fuel : Nat) :
    Interpreter.run (fuel + 2) (Interpreter.load dynamicScopeProgram) "f" [a]
      = some (Interpreter.load dynamicScopeProgram, .ok a) := by
  simp [Interpreter.run, Interpreter.load, dynamicScopeProgram, Interpreter.registerAll,
    Environment.defineFunction, Environment.getFunction, mapFind, mapAssign,
    FunctionDefAST.getName, FunctionDefAST.clone, cloneBody, cloneExpr, cloneArgs,
    FunctionDefAST.getParams, FunctionDefAST.getBody, FunctionDefAST.getReturnExpr,
    Interpreter.bindInts, Environment.createChildEnv, Environment.defineVariable, evalBody,
    evaluate, Environment.getVariable, bindArgs, Value.asInt, Environment.parentOr]

/-- C13: a call's environment is a child of the caller's environment, so a
callee resolves a name that is neither its parameter nor its local through the
chain of the call site: with `def g() \n return x` and
`def f(a) \n x = a \n return g()`, `run("f", [a])` returns `a` for every
integer `a`, while `run("g", [])` raises NameError. -/
theorem C13_callee_resolves_through_call_site :
    (∀ (a : Int) (fuel : Nat),
      ∃ interp, Interpreter.new srcDynamicScope = some (.ok interp) ∧
        Interpreter.run (fuel + 2) interp "f" [a] = some (interp, .ok a)) ∧
    (∃ interp, Interpreter.new srcDynamicScope = some (.ok interp) ∧
      Interpreter.run 1 interp "g" []
        = some (interp, .error (.NameError "Undefined variable: x"))) ∧
    (∀ (fuel : Nat) (env : Environment) (callee : String) (func : FunctionDefAST)
      (name : String) (value : Value),
      env.getFunction callee = some func → func.getParams = [] → func.getBody = [] →
      func.getReturnExpr = .Identifier name → env.getVariable name = some value →
      evaluate (fuel + 2) env (.Expr (.FunctionCall callee []))
        = some (env, .ok (some value))) := by
  refine ⟨fun a fuel => ⟨_, new_srcDynamicScope, run_dynamicScope_f a fuel⟩,
    ⟨_, new_srcDynamicScope, by rfl⟩, ?_⟩
  intro fuel env callee func name value hf hp hb hr hv
  rw [evaluate_FunctionCall_found (fuel + 1) env callee [] func hf (by rw [hp]; rfl)]
  have hchild : env.createChildEnv.getVariable name = some value := by
    simp only [Environment.createChildEnv, Environment.getVariable, mapFind]
    exact hv
  simp only [hp, hb, hr, bindArgs, evalBody,
    evaluate_Identifier_some fuel env.createChildEnv name value hchild]
  rfl

theorem C13_callee_resolves_through_call_site_witness :
    (Environment.root [("x", some (.IntValue 7))]
        [("g", .mk "g" [] [] (.Identifier "x"))]).getFunction "g"
      = some (.mk "g" [] [] (.Identifier "x")) ∧
    evaluate (0 + 2) (Environment.root [("x", some (.IntValue 7))]
        [("g", .mk "g" [] [] (.Identifier "x"))]) (.Expr (.FunctionCall "g" []))
      = some (Environment.root [("x", some (.IntValue 7))]
        [("g", .mk "g" [] [] (.Identifier "x"))], .ok (some (.IntValue 7))) :=
  ⟨by rfl, C13_callee_resolves_through_call_site.2.2 0 _ "g" (.mk "g" [] [] (.Identifier "x"))
    "x" (.IntValue 7) (by rfl) rfl rfl rfl (by rfl)⟩

/-- C14: evaluating an expression, a Call included and whatever its callee
assigns or defines, hands back the environment it was evaluated in, all its
ancestors included, as it was; a statement changes only the innermost scope.
With `def g() \n x = 99 \n y = 5 \n return x` and
`def f() \n x = 1 \n z = g() \n return x`, `run("f",[])` returns 1, and with
`return y` in `f` it raises NameError. -/
theorem C14_evaluation_leaves_environment_unchanged :
    (∀ (fuel : Nat) (env env1 : Environment) (e : ExprAST) (r : Except Error (Option Value)),
      evaluate fuel env (.Expr e) = some (env1, r) → env1 = env) ∧
    (∀ (fuel : Nat) (env env1 : Environment) (s : StatementAST)
      (r : Except Error (Option Value)),
      evaluate fuel env (.Statement s) = some (env1, r) → env1.parent = env.parent) ∧
    (∃ interp, Interpreter.new srcCalleeAssigns = some (.ok interp) ∧
      Interpreter.run 4 interp "f" [] = some (interp, .ok 1)) ∧
    (∃ interp, Interpreter.new srcCalleeLocalRead = some (.ok interp) ∧
      Interpreter.run 4 interp "f" []
        = some (interp, .error (.NameError "Undefined variable: y"))) := by
  refine ⟨fun fuel env env1 e r h => (evaluate_frame fuel env _ env1 r h).2 e rfl,
    fun fuel env env1 s r h => (evaluate_frame fuel env _ env1 r h).1,
    ⟨_, by rfl, by rfl⟩, ⟨_, by rfl, by rfl⟩⟩

theorem C14_evaluation_leaves_environment_unchanged_witness :
    evaluate 3 (Environment.child [("x", some (.IntValue 1))] []
        (.root [] [("g", .mk "g" [] [.Assignment "x" (.Number 99)] (.Identifier "x"))]))
        (.Expr (.FunctionCall "g" []))
      = some (Environment.child [("x", some (.IntValue 1))] []
        (.root [] [("g", .mk "g" [] [.Assignment "x" (.Number 99)] (.Identifier "x"))]),
          .ok (some (.IntValue 99))) ∧
    Environment.child [("x", some (.IntValue 1))] []
        (.root [] [("g", .mk "g" [] [.Assignment "x" (.Number 99)] (.Identifier "x"))])
      = Environment.child [("x", some (.IntValue 1))] []
        (.root [] [("g", .mk "g" [] [.Assignment "x" (.Number 99)] (.Identifier "x"))]) :=
  ⟨by rfl, C14_evaluation_leaves_environment_unchanged.1 3 _ _ (.FunctionCall "g" []) _
    (by rfl)⟩

/-- C20: binary operators are strict and evaluate left before right: if the
left operand fails, the BinaryOp fails with that error, whatever the right
operand; if the left operand succeeds and the right one fails, the BinaryOp
fails with the right operand's error, whatever the operator and the left
value. `x + 1/0` with `x` undefined raises NameError; `0 * (1/0)` raises
RuntimeError. -/
theorem C20_binary_operands_strict_left_to_right :
    (∀ (fuel : Nat) (env env1 : Environment) (op : Char) (l r : ExprAST) (err : Error),
      evaluate fuel env (.Expr l) = some (env1, .error err) →
      evaluate (fuel + 1) env (.Expr (.BinaryOp op l r)) = some (env1, .error err)) ∧
    (∀ (fuel : Nat) (env env1 env2 : Environment) (op : Char) (l r : ExprAST)
      (lv : Option Value) (err : Error),
      evaluate fuel env (.Expr l) = some (env1, .ok lv) →
      evaluate fuel env1 (.Expr r) = some (env2, .error err) →
      evaluate (fuel + 1) env (.Expr (.BinaryOp op l r)) = some (env2, .error err)) ∧
    (∃ interp, Interpreter.new srcLeftFails = some (.ok interp) ∧
      Interpreter.run 3 interp "f" []
        = some (interp, .error (.NameError "Undefined variable: x"))) ∧
    (∃ interp, Interpreter.new srcRightFails = some (.ok interp) ∧
      Interpreter.run 3 interp "f" []
        = some (interp, .error (.RuntimeError "Division by zero"))) := by
  refine ⟨?_, ?_, ⟨_, by rfl, by rfl⟩, ⟨_, by rfl, by rfl⟩⟩
  · intro fuel env env1 op l r err hl
    simp only [evaluate, hl]
  · intro fuel env env1 env2 op l r lv err hl hr
    simp only [evaluate, hl, hr]

theorem C20_binary_operands_strict_left_to_right_witness :
    evaluate 1 (.root [] []) (.Expr (.Identifier "x"))
      = some (.root [] [], .error (.NameError "Undefined variable: x")) ∧
    evaluate (1 + 1) (.root [] []) (.Expr (.BinaryOp '+' (.Identifier "x")
        (.BinaryOp '/' (.Number 1) (.Number 0))))
      = some (.root [] [], .error (.NameError "Undefined variable: x")) :=
  ⟨by rfl, C20_binary_operands_strict_left_to_right.1 1 (.root [] []) (.root [] []) '+'
    (.Identifier "x") (.BinaryOp '/' (.Number 1) (.Number 0)) _ (by rfl)⟩
/-! ## Top-level functions resolve everywhere -/

theorem string_append_left_cancel (a x y : String) (h : a ++ x = a ++ y) : x = y := by
  have hd := congrArg String.data h
  simp only [String.data_append] at hd
  exact String.ext (List.append_cancel_left hd)

theorem string_append_ne_of_prefix_ne (a b x y : String) (hlen : a.data.length = b.data.length)
    (hne : a.data ≠ b.data) : a ++ x ≠ b ++ y := by
  intro h
  have hd := congrArg String.data h
  simp only [String.data_append] at hd
  exact hne (List.append_inj hd hlen).1

namespace Environment

theorem getFunction_defineVariable (env : Environment) (key name : String) (v : Option Value) :
    (env.defineVariable key v).getFunction name = env.getFunction name := by
  cases env <;> simp only [defineVariable, getFunction]

theorem getFunction_defineFunction_ne_none (env : Environment) (key name : String)
    (f : FunctionDefAST) (h : env.getFunction name ≠ none) :
    (env.defineFunction key f).getFunction name ≠ none := by
  by_cases hk : key = name
  · subst hk
    rw [getFunction_defineFunction_self]
    simp
  · rw [getFunction_defineFunction_ne _ _ _ _ hk]
    exact h

theorem getFunction_child_ne_none (vars : List (String × Option Value))
    (functions : List (String × FunctionDefAST)) (parent : Environment) (name : String)
    (h : parent.getFunction name ≠ none) :
    (Environment.child vars functions parent).getFunction name ≠ none := by
  simp only [getFunction]
  cases mapFind functions name with
  | none => exact h
  | some f => simp

end Environment

/-- Evaluation never takes a function away from the scope chain. -/
theorem evaluate_getFunction_ne_none (name : String) (fuel : Nat) (env : Environment)
    (node : NodeAST) (env1 : Environment) (r : Except Error (Option Value))
    (hres : env.getFunction name ≠ none) (h : evaluate fuel env node = some (env1, r)) :
    env1.getFunction name ≠ none := by
  cases node with
  | Expr e =>
    rw [(evaluate_frame fuel env _ env1 r h).2 e rfl]
    exact hres
  | Statement s =>
    cases fuel with
    | zero => simp [evaluate] at h
    | succ fuel =>
      cases s with
      | Assignment v value =>
        simp only [evaluate] at h
        split at h
        · simp at h
        · rename_i env2 e2 hv
          have h2 := (evaluate_frame fuel env _ env2 _ hv).2 value rfl
          rw [← (Prod.mk.inj (Option.some.inj h)).1, h2]
          exact hres
        · rename_i env2 hv
          have h2 := (evaluate_frame fuel env _ env2 _ hv).2 value rfl
          rw [← (Prod.mk.inj (Option.some.inj h)).1, h2]
          exact hres
        · rename_i env2 val hv
          have h2 := (evaluate_frame fuel env _ env2 _ hv).2 value rfl
          rw [← (Prod.mk.inj (Option.some.inj h)).1, h2,
            Environment.getFunction_defineVariable]
          exact hres
      | ReturnStmt e =>
        simp only [evaluate] at h
        rw [(evaluate_frame fuel env _ env1 r h).2 e rfl]
        exact hres
      | FunctionDef f =>
        simp only [evaluate] at h
        rw [← (Prod.mk.inj (Option.some.inj h)).1]
        exact Environment.getFunction_defineFunction_ne_none _ _ _ _ hres

theorem bindArgs_resolves (name : String) (fuel : Nat)
    (ih : ∀ env e env1 err, env.getFunction name ≠ none →
      evaluate fuel env (.Expr e) = some (env1, .error err) →
      err ≠ .NameError ("Undefined function: " ++ name)) :
    ∀ (params : List String) (args : List ExprAST) (env funcEnv env1 : Environment)
      (r : Except Error Environment),
      env.getFunction name ≠ none → funcEnv.getFunction name ≠ none →
      funcEnv.parent = some env →
      bindArgs (evaluate fuel) params args env funcEnv = some (env1, r) →
      (∀ err, r = .error err → err ≠ .NameError ("Undefined function: " ++ name)) ∧
        ∀ fe, r = .ok fe → fe.getFunction name ≠ none := by
  intro params
  induction params with
  | nil =>
    intro args env funcEnv env1 r _ hfe _ h
    simp only [bindArgs, Option.some.injEq, Prod.mk.injEq] at h
    rw [← h.2]
    exact ⟨fun err herr => (by cases herr), fun fe hfe2 => (by cases hfe2; exact hfe)⟩
  | cons param params ihp =>
    intro args env funcEnv env1 r henv hfe hp h
    cases args with
    | nil =>
      simp only [bindArgs, Option.some.injEq, Prod.mk.injEq] at h
      rw [← h.2]
      exact ⟨fun err herr => (by cases herr), fun fe hfe2 => (by cases hfe2; exact hfe)⟩
    | cons arg args =>
      simp only [bindArgs] at h
      split at h
      · simp at h
      · rename_i env2 e2 hev
        simp only [Option.some.injEq, Prod.mk.injEq] at h
        rw [← h.2]
        exact ⟨fun err herr => (by cases herr; exact ih _ _ _ _ henv hev),
          fun fe hfe2 => (by cases hfe2)⟩
      · rename_i env2 argValue hev
        have h2 := (evaluate_frame fuel env _ env2 _ hev).2 arg rfl
        subst h2
        rw [Environment.withParent_of_parent hp] at h
        exact ihp args _ _ _ _ henv
          (by rw [Environment.getFunction_defineVariable]; exact hfe)
          (by rw [Environment.parent_defineVariable]; exact hp) h

theorem evalBody_resolves (name : String) (fuel : Nat)
    (ih : ∀ env s env1 err, env.getFunction name ≠ none →
      evaluate fuel env (.Statement s) = some (env1, .error err) →
      err ≠ .NameError ("Undefined function: " ++ name)) :
    ∀ (body : List StatementAST) (env env1 : Environment) (r : Except Error Unit),
      env.getFunction name ≠ none →
      evalBody (evaluate fuel) body env = some (env1, r) →
      (∀ err, r = .error err → err ≠ .NameError ("Undefined function: " ++ name)) ∧
        env1.getFunction name ≠ none := by
  intro body
  induction body with
  | nil =>
    intro env env1 r henv h
    simp only [evalBody, Option.some.injEq, Prod.mk.injEq] at h
    rw [← h.1, ← h.2]
    exact ⟨fun err herr => (by cases herr), henv⟩
  | cons stmt body ihb =>
    intro env env1 r henv h
    simp only [evalBody] at h
    split at h
    · simp at h
    · rename_i env2 e2 hev
      simp only [Option.some.injEq, Prod.mk.injEq] at h
      rw [← h.1, ← h.2]
      exact ⟨fun err herr => (by cases herr; exact ih _ _ _ _ henv hev),
        evaluate_getFunction_ne_none name fuel env _ env2 _ henv hev⟩
    · rename_i env2 u hev
      exact ihb _ _ _ (evaluate_getFunction_ne_none name fuel env _ env2 _ henv hev) h

/-- While `name` resolves in the environment of the evaluator, no evaluation
raises the NameError for the function `name`. -/
theorem evaluate_resolves (name : String) : ∀ (fuel : Nat) (env : Environment) (node : NodeAST)
    (env1 : Environment) (err : Error),
    env.getFunction name ≠ none → evaluate fuel env node = some (env1, .error err) →
    err ≠ .NameError ("Undefined function: " ++ name) := by
  intro fuel
  induction fuel with
  | zero => intro env node env1 err _ h; simp [evaluate] at h
  | succ fuel ih =>
    intro env node env1 err henv h
    have hvar : ∀ x : String, Error.NameError ("Undefined variable: " ++ x)
        ≠ .NameError ("Undefined function: " ++ name) := by
      intro x heq
      exact string_append_ne_of_prefix_ne "Undefined variable: " "Undefined function: " x name
        (by rfl) (by decide) (Error.NameError.inj heq)
    cases node with
    | Expr e =>
      cases e with
      | Number v => simp [evaluate] at h
      | Identifier x =>
        simp only [evaluate] at h
        split at h
        · simp only [Option.some.injEq, Prod.mk.injEq, Except.error.injEq] at h
          rw [← h.2]
          exact hvar x
        · simp at h
      | BinaryOp op l r2 =>
        simp only [evaluate] at h
        split at h
        · simp at h
        · rename_i env2 e2 hl
          simp only [Option.some.injEq, Prod.mk.injEq, Except.error.injEq] at h
          rw [← h.2]
          exact ih _ _ _ _ henv hl
        · rename_i env2 lv hl
          have h2 := (evaluate_frame fuel env _ env2 _ hl).2 l rfl
          subst h2
          split at h
          · simp at h
          · rename_i env3 e3 hr
            simp only [Option.some.injEq, Prod.mk.injEq, Except.error.injEq] at h
            rw [← h.2]
            exact ih _ _ _ _ henv hr
          · split at h
            · split at h
              · rename_i e4 hop
                simp only [Option.some.injEq, Prod.mk.injEq, Except.error.injEq] at h
                rw [← h.2]
                simp only [binaryOp] at hop
                repeat' split at hop
                all_goals first
                  | (cases hop; simp)
                  | simp at hop
              · simp at h
            · simp only [Option.some.injEq, Prod.mk.injEq, Except.error.injEq] at h
              rw [← h.2]; simp
      | TernaryExpr c t e =>
        simp only [evaluate] at h
        split at h
        · simp at h
        · rename_i env2 e2 hc
          simp only [Option.some.injEq, Prod.mk.injEq, Except.error.injEq] at h
          rw [← h.2]
          exact ih _ _ _ _ henv hc
        · simp only [Option.some.injEq, Prod.mk.injEq, Except.error.injEq] at h
          rw [← h.2]; simp
        · rename_i env2 cv hc
          have h2 := (evaluate_frame fuel env _ env2 _ hc).2 c rfl
          subst h2
          split at h
          · exact ih _ _ _ _ henv h
          · exact ih _ _ _ _ henv h
      | FunctionCall callee args =>
        simp only [evaluate] at h
        split at h
        · rename_i hnone
          simp only [Option.some.injEq, Prod.mk.injEq, Except.error.injEq] at h
          rw [← h.2]
          intro hbad
          have hcn : callee = name :=
            string_append_left_cancel _ _ _ (Error.NameError.inj hbad)
          rw [hcn] at hnone
          exact henv hnone
        · rename_i func hf
          split at h
          · simp only [Option.some.injEq, Prod.mk.injEq, Except.error.injEq] at h
            rw [← h.2]; simp
          · split at h
            · simp at h
            · rename_i env2 e2 hb
              simp only [Option.some.injEq, Prod.mk.injEq, Except.error.injEq] at h
              rw [← h.2]
              exact (bindArgs_resolves name fuel
                (fun env e env1 err he hev => ih env _ env1 err he hev)
                _ _ _ _ _ _ henv
                (Environment.getFunction_child_ne_none _ _ _ _ henv)
                env.parent_createChildEnv hb).1 e2 rfl
            · rename_i env2 funcEnv hb
              have hfe := (bindArgs_resolves name fuel
                (fun env e env1 err he hev => ih env _ env1 err he hev)
                _ _ _ _ _ _ henv
                (Environment.getFunction_child_ne_none _ _ _ _ henv)
                env.parent_createChildEnv hb).2 funcEnv rfl
              split at h
              · simp at h
              · rename_i funcEnv1 e3 hbody
                simp only [Option.some.injEq, Prod.mk.injEq, Except.error.injEq] at h
                rw [← h.2]
                exact (evalBody_resolves name fuel
                  (fun env s env1 err he hev => ih env _ env1 err he hev) _ _ _ _ hfe hbody).1
                  e3 rfl
              · rename_i funcEnv1 u hbody
                have hfe1 := (evalBody_resolves name fuel
                  (fun env s env1 err he hev => ih env _ env1 err he hev) _ _ _ _ hfe hbody).2
                split at h
                · simp at h
                · rename_i funcEnv2 result hret
                  simp only [Option.some.injEq, Prod.mk.injEq] at h
                  rw [h.2] at hret
                  exact ih _ _ _ _ hfe1 hret
    | Statement s =>
      cases s with
      | Assignment v value =>
        simp only [evaluate] at h
        split at h
        · simp at h
        · rename_i env2 e2 hv
          simp only [Option.some.injEq, Prod.mk.injEq, Except.error.injEq] at h
          rw [← h.2]
          exact ih _ _ _ _ henv hv
        · simp only [Option.some.injEq, Prod.mk.injEq, Except.error.injEq] at h
          rw [← h.2]; simp
        · simp at h
      | ReturnStmt e =>
        simp only [evaluate] at h
        exact ih _ _ _ _ henv h
      | FunctionDef f => simp [evaluate] at h
theorem getFunction_ne_none_of_mem_chain (name : String) (p : Environment)
    (hp : p.getFunction name ≠ none) : ∀ env : Environment, p ∈ env.chain →
    env.getFunction name ≠ none := by
  intro env
  induction env with
  | root vars functions =>
    intro hmem
    simp only [Environment.chain, List.mem_singleton] at hmem
    rw [← hmem]
    exact hp
  | child vars functions parent ih =>
    intro hmem
    simp only [Environment.chain, List.mem_cons] at hmem
    rcases hmem with hmem | hmem
    · rw [← hmem]
      exact hp
    · exact Environment.getFunction_child_ne_none _ _ _ _ (ih hmem)

theorem getFunction_load_ne_none (functions : List FunctionDefAST) (name : String)
    (h : ∃ f ∈ functions, f.getName = name) :
    (Interpreter.load functions).global_env.getFunction name ≠ none := by
  obtain ⟨g, _, _, hg⟩ := getFunction_registerAll_of_present functions (.root [] []) name h
  have hg2 : (Interpreter.load functions).global_env.getFunction name = some g.clone := hg
  rw [hg2]
  simp

theorem getFunction_bindInts : ∀ (params : List String) (args : List Int) (funcEnv : Environment)
    (name : String),
    (Interpreter.bindInts params args funcEnv).getFunction name = funcEnv.getFunction name := by
  intro params
  induction params with
  | nil => intro args funcEnv name; rfl
  | cons param params ih =>
    intro args funcEnv name
    cases args with
    | nil => rfl
    | cons arg args =>
      simp only [Interpreter.bindInts]
      rw [ih, Environment.getFunction_defineVariable]

theorem run_resolves (interp : Interpreter) (name : String)
    (hres : interp.global_env.getFunction name ≠ none) (fuel : Nat) (entry : String)
    (args : List Int) (interp1 : Interpreter) :
    Interpreter.run fuel interp entry args
      ≠ some (interp1, .error (.NameError ("Undefined function: " ++ name))) := by
  intro h
  unfold Interpreter.run at h
  split at h
  · simp only [Option.some.injEq, Prod.mk.injEq, Except.error.injEq, Error.NameError.injEq] at h
    exact string_append_ne_of_prefix_ne "Function not found: " "Undefined function: " entry name
      (by rfl) (by decide) h.2
  · rename_i func hf
    split at h
    · simp at h
    · have hfe : (Interpreter.bindInts func.getParams args
          interp.global_env.createChildEnv).getFunction name ≠ none := by
        rw [getFunction_bindInts]
        exact Environment.getFunction_child_ne_none _ _ _ _ hres
      simp only at h
      split at h
      · simp at h
      · rename_i funcEnv1 e hbody
        simp only [Option.some.injEq, Prod.mk.injEq, Except.error.injEq] at h
        exact (evalBody_resolves name fuel
          (fun env s env1 err he hev => evaluate_resolves name fuel env _ env1 err he hev)
          _ _ _ _ hfe hbody).1 e rfl h.2
      · rename_i funcEnv1 u hbody
        have hfe1 := (evalBody_resolves name fuel
          (fun env s env1 err he hev => evaluate_resolves name fuel env _ env1 err he hev)
          _ _ _ _ hfe hbody).2
        split at h
        · simp at h
        · rename_i funcEnv2 e hret
          simp only [Option.some.injEq, Prod.mk.injEq, Except.error.injEq] at h
          exact evaluate_resolves name fuel _ _ _ _ hfe1 hret h.2
        · simp at h
        · simp at h

/-- C18: top-level functions are visible to each other and to themselves
whatever the order of their definitions: a name defined at top level resolves
in the global environment and in every environment below it, and no `run`, of
any entry point with any arguments, raises the NameError of an undefined
function for such a name. With `is_even` defined before `is_odd`,
`run("is_even",[4]) = 1` and `run("is_even",[3]) = 0`. -/
theorem C18_top_level_functions_resolve_in_any_order :
    (∀ (functions : List FunctionDefAST) (name : String),
      (∃ f ∈ functions, f.getName = name) →
      ∀ env : Environment, (Interpreter.load functions).global_env ∈ env.chain →
        env.getFunction name ≠ none) ∧
    (∀ (functions : List FunctionDefAST) (name : String),
      (∃ f ∈ functions, f.getName = name) →
      ∀ (fuel : Nat) (entry : String) (args : List Int) (interp1 : Interpreter),
        Interpreter.run fuel (Interpreter.load functions) entry args
          ≠ some (interp1, .error (.NameError ("Undefined function: " ++ name)))) ∧
    (∃ interp, Interpreter.new srcMutualRecursion = some (.ok interp) ∧
      Interpreter.run 12 interp "is_even" [4] = some (interp, .ok 1) ∧
      Interpreter.run 12 interp "is_even" [3] = some (interp, .ok 0)) := by
  refine ⟨?_, ?_, ⟨_, by rfl, by rfl, by rfl⟩⟩
  · intro functions name h env hmem
    exact getFunction_ne_none_of_mem_chain name _ (getFunction_load_ne_none functions name h)
      env hmem
  · intro functions name h fuel entry args interp1
    exact run_resolves _ name (getFunction_load_ne_none functions name h) fuel entry args interp1

theorem C18_top_level_functions_resolve_in_any_order_witness :
    (∃ f ∈ dynamicScopeProgram, f.getName = "g") ∧
    Interpreter.run 2 (Interpreter.load dynamicScopeProgram) "f" [1]
      ≠ some (Interpreter.load dynamicScopeProgram,
          .error (.NameError ("Undefined function: " ++ "g"))) :=
  ⟨⟨.mk "g" [] [] (.Identifier "x"), by simp [dynamicScopeProgram], rfl⟩,
    C18_top_level_functions_resolve_in_any_order.2.1 dynamicScopeProgram "g"
      ⟨.mk "g" [] [] (.Identifier "x"), by simp [dynamicScopeProgram], rfl⟩ 2 "f" [1] _⟩
/-! ## Where a ternary may stand -/

theorem parsePrimary_IF (fuel : Nat) (ts : TokenStream) (h : GetToken ts = .Embracing .IF) :
    parsePrimary (fuel + 1) ts = .error (.SyntaxError "Expected expression") := by
  simp only [parsePrimary, h]

theorem parseMulExpr_IF (fuel : Nat) (ts : TokenStream) (h : GetToken ts = .Embracing .IF) :
    parseMulExpr (fuel + 2) ts = .error (.SyntaxError "Expected expression") := by
  simp only [parseMulExpr, parsePrimary_IF fuel ts h, ParseResult.bind]

theorem parseAddExpr_IF (fuel : Nat) (ts : TokenStream) (h : GetToken ts = .Embracing .IF) :
    parseAddExpr (fuel + 3) ts = .error (.SyntaxError "Expected expression") := by
  simp only [parseAddExpr, parseMulExpr_IF fuel ts h, ParseResult.bind]

theorem parseLogicalExpr_IF (fuel : Nat) (ts : TokenStream) (h : GetToken ts = .Embracing .IF) :
    parseLogicalExpr (fuel + 4) ts = .error (.SyntaxError "Expected expression") := by
  simp only [parseLogicalExpr, parseAddExpr_IF fuel ts h, ParseResult.bind]

/-- C19: a ternary is accepted only where `parseExpression` is called (the
expression of a statement, a call argument, inside parentheses), and its three
parts are read by `parseLogicalExpr`: an `if` where a comparison, a sum, a
product or a primary is expected, so as the operand after a binary operator or
as the condition or a branch of a ternary, is the SyntaxError "Expected
expression". `if a then if b then 1 else 2 else 3` and
`1 + if a then 2 else 3` fail to parse, and
`if a then (if b then 1 else 2) else 3` parses to
Ternary(a, Ternary(b, 1, 2), 3). -/
theorem C19_ternary_only_at_expression_top :
    (∀ (fuel : Nat) (ts : TokenStream), GetToken ts = .Embracing .IF →
      parseLogicalExpr (fuel + 4) ts = .error (.SyntaxError "Expected expression") ∧
      parseAddExpr (fuel + 3) ts = .error (.SyntaxError "Expected expression") ∧
      parseMulExpr (fuel + 2) ts = .error (.SyntaxError "Expected expression") ∧
      parsePrimary (fuel + 1) ts = .error (.SyntaxError "Expected expression")) ∧
    (∀ (fuel : Nat) (expr : ExprAST) (ts : TokenStream),
      GetToken (Next ts) = .Embracing .IF →
      (GetToken ts = .Operator .MULTIPLY ∨ GetToken ts = .Operator .DIVIDE →
        parseMulLoop (fuel + 2) expr ts = .error (.SyntaxError "Expected expression")) ∧
      (GetToken ts = .Operator .PLUS ∨ GetToken ts = .Operator .MINUS →
        parseAddLoop (fuel + 3) expr ts = .error (.SyntaxError "Expected expression")) ∧
      (GetToken ts = .Operator .EQ_EQ ∨ GetToken ts = .Operator .NOT_EQ
          ∨ GetToken ts = .Operator .LESS →
        parseLogicalLoop (fuel + 4) expr ts = .error (.SyntaxError "Expected expression"))) ∧
    (∀ (fuel : Nat) (ts : TokenStream), GetToken ts = .Embracing .IF →
      (GetToken (Next ts) = .Embracing .IF →
        parseTernaryExpr (fuel + 5) ts = .error (.SyntaxError "Expected expression")) ∧
      (∀ condition ts1, parseLogicalExpr (fuel + 4) (Next ts) = .ok condition ts1 →
        GetToken ts1 = .Embracing .THEN →
        (GetToken (Next ts1) = .Embracing .IF →
          parseTernaryExpr (fuel + 5) ts = .error (.SyntaxError "Expected expression")) ∧
        (∀ then_expr ts2, parseLogicalExpr (fuel + 4) (Next ts1) = .ok then_expr ts2 →
          GetToken ts2 = .Embracing .ELSE → GetToken (Next ts2) = .Embracing .IF →
          parseTernaryExpr (fuel + 5) ts = .error (.SyntaxError "Expected expression")))) ∧
    (Interpreter.new srcTernaryInBranch = some (.error (.SyntaxError "Expected expression")) ∧
      Interpreter.new srcTernaryAsOperand = some (.error (.SyntaxError "Expected expression")) ∧
      Interpreter.new srcTernaryInParens = some (.ok (Interpreter.load ternaryInParensProgram)) ∧
      Interpreter.new srcTernaryTopLevel
        = some (.ok (Interpreter.load ternaryTopLevelProgram))) := by
  refine ⟨?_, ?_, ?_, ⟨by rfl, by rfl, by rfl, by rfl⟩⟩
  · intro fuel ts h
    exact ⟨parseLogicalExpr_IF fuel ts h, parseAddExpr_IF fuel ts h, parseMulExpr_IF fuel ts h,
      parsePrimary_IF fuel ts h⟩
  · intro fuel expr ts hIF
    refine ⟨fun hop => ?_, fun hop => ?_, fun hop => ?_⟩
    · simp only [parseMulLoop, hop, if_true, parsePrimary_IF fuel _ hIF, ParseResult.bind]
    · simp only [parseAddLoop, hop, if_true, parseMulExpr_IF fuel _ hIF, ParseResult.bind]
    · simp only [parseLogicalLoop, hop, if_true, parseAddExpr_IF fuel _ hIF, ParseResult.bind]
  · intro fuel ts h
    refine ⟨fun h1 => ?_, fun condition ts1 hc hTHEN => ⟨fun h2 => ?_, fun then_expr ts2 ht hELSE h3 => ?_⟩⟩
    · simp only [parseTernaryExpr, h, if_true, parseLogicalExpr_IF fuel _ h1, ParseResult.bind]
    · simp only [parseTernaryExpr, h, if_true, hc, ParseResult.bind, hTHEN, ne_eq,
        not_true_eq_false, if_false, parseLogicalExpr_IF fuel _ h2]
    · simp only [parseTernaryExpr, h, if_true, hc, ParseResult.bind, hTHEN, ne_eq,
        not_true_eq_false, if_false, ht, hELSE, parseLogicalExpr_IF fuel _ h3]

theorem C19_ternary_only_at_expression_top_witness :
    GetToken [Token.Embracing .IF, .Symbol "a", .Embracing .THEN, .Constant 2,
      .Embracing .ELSE, .Constant 3] = .Embracing .IF ∧
    parsePrimary (0 + 1) [Token.Embracing .IF, .Symbol "a", .Embracing .THEN, .Constant 2,
      .Embracing .ELSE, .Constant 3] = .error (.SyntaxError "Expected expression") :=
  ⟨rfl, (C19_ternary_only_at_expression_top.1 0 [Token.Embracing .IF, .Symbol "a",
    .Embracing .THEN, .Constant 2, .Embracing .ELSE, .Constant 3] rfl).2.2.2⟩
/-! ## More fuel never changes what a parse function returns -/

theorem below_refl {α : Type} (r : ParseResult α) : r.below r := Or.inr rfl

theorem below_outOfFuel {α : Type} (r : ParseResult α) : (ParseResult.outOfFuel).below r :=
  Or.inl rfl

theorem below_bind {α β : Type} {r r1 : ParseResult α} {k k1 : α → TokenStream → ParseResult β}
    (h : r.below r1) (hk : ∀ a rest, (k a rest).below (k1 a rest)) :
    (r.bind k).below (r1.bind k1) := by
  rcases h with h | h
  · rw [h]; exact Or.inl rfl
  · rw [h]
    cases r1 with
    | ok a rest => exact hk a rest
    | error e => exact Or.inr rfl
    | outOfFuel => exact Or.inl rfl

theorem below_ite {α : Type} {c : Prop} [Decidable c] {a a1 b b1 : ParseResult α}
    (ht : c → a.below a1) (he : ¬ c → b.below b1) :
    (if c then a else b).below (if c then a1 else b1) := by
  by_cases h : c
  · simp only [h, if_true]; exact ht h
  · simp only [h, if_false]; exact he h

theorem parseExpression_below : ∀ fuel : Nat,
    (∀ ts, (parseExpression fuel ts).below (parseExpression (fuel + 1) ts)) ∧
    (∀ ts, (parseTernaryExpr fuel ts).below (parseTernaryExpr (fuel + 1) ts)) ∧
    (∀ ts, (parseLogicalExpr fuel ts).below (parseLogicalExpr (fuel + 1) ts)) ∧
    (∀ expr ts, (parseLogicalLoop fuel expr ts).below (parseLogicalLoop (fuel + 1) expr ts)) ∧
    (∀ ts, (parseAddExpr fuel ts).below (parseAddExpr (fuel + 1) ts)) ∧
    (∀ expr ts, (parseAddLoop fuel expr ts).below (parseAddLoop (fuel + 1) expr ts)) ∧
    (∀ ts, (parseMulExpr fuel ts).below (parseMulExpr (fuel + 1) ts)) ∧
    (∀ expr ts, (parseMulLoop fuel expr ts).below (parseMulLoop (fuel + 1) expr ts)) ∧
    (∀ ts, (parsePrimary fuel ts).below (parsePrimary (fuel + 1) ts)) ∧
    (∀ args ts, (parseArgsLoop fuel args ts).below (parseArgsLoop (fuel + 1) args ts)) := by
  intro fuel
  induction fuel with
  | zero =>
    refine ⟨?_, ?_, ?_, ?_, ?_, ?_, ?_, ?_, ?_, ?_⟩ <;> intros <;> exact Or.inl (by
      simp only [parseExpression, parseTernaryExpr, parseLogicalExpr, parseLogicalLoop,
        parseAddExpr, parseAddLoop, parseMulExpr, parseMulLoop, parsePrimary, parseArgsLoop])
  | succ fuel ih =>
    obtain ⟨ihE, ihT, ihL, ihLL, ihA, ihAL, ihM, ihML, ihP, ihArgs⟩ := ih
    refine ⟨?_, ?_, ?_, ?_, ?_, ?_, ?_, ?_, ?_, ?_⟩
    · intro ts
      simp only [parseExpression]
      exact ihT ts
    · intro ts
      simp only [parseTernaryExpr]
      refine below_ite (fun _ => ?_) (fun _ => ihL ts)
      refine below_bind (ihL _) (fun condition ts1 => ?_)
      refine below_ite (fun _ => below_refl _) (fun _ => ?_)
      refine below_bind (ihL _) (fun then_expr ts2 => ?_)
      refine below_ite (fun _ => below_refl _) (fun _ => ?_)
      exact below_bind (ihL _) (fun else_expr ts3 => below_refl _)
    · intro ts
      simp only [parseLogicalExpr]
      exact below_bind (ihA ts) (fun expr ts1 => ihLL expr ts1)
    · intro expr ts
      simp only [parseLogicalLoop]
      refine below_ite (fun _ => ?_) (fun _ => below_refl _)
      exact below_bind (ihA _) (fun right ts1 => ihLL _ ts1)
    · intro ts
      simp only [parseAddExpr]
      exact below_bind (ihM ts) (fun expr ts1 => ihAL expr ts1)
    · intro expr ts
      simp only [parseAddLoop]
      refine below_ite (fun _ => ?_) (fun _ => below_refl _)
      exact below_bind (ihM _) (fun right ts1 => ihAL _ ts1)
    · intro ts
      simp only [parseMulExpr]
      exact below_bind (ihP ts) (fun expr ts1 => ihML expr ts1)
    · intro expr ts
      simp only [parseMulLoop]
      refine below_ite (fun _ => ?_) (fun _ => below_refl _)
      exact below_bind (ihP _) (fun right ts1 => ihML _ ts1)
    · intro ts
      simp only [parsePrimary]
      split
      · exact below_refl _
      · refine below_ite (fun _ => ?_) (fun _ => below_refl _)
        refine below_bind ?_ (fun args ts4 => below_refl _)
        refine below_ite (fun _ => ?_) (fun _ => below_refl _)
        exact below_bind (ihE _) (fun arg ts3 => ihArgs _ ts3)
      · exact below_bind (ihE _) (fun expr ts1 => below_refl _)
      · exact below_refl _
    · intro args ts
      simp only [parseArgsLoop]
      refine below_ite (fun _ => ?_) (fun _ => below_refl _)
      exact below_bind (ihE _) (fun arg ts1 => ihArgs _ ts1)

theorem parseStatement_below (fuel : Nat) (ts : TokenStream) :
    (parseStatement fuel ts).below (parseStatement (fuel + 1) ts) := by
  cases fuel with
  | zero => exact Or.inl (by simp only [parseStatement])
  | succ fuel =>
    simp only [parseStatement]
    split
    · exact below_bind ((parseExpression_below fuel).1 _) (fun expr ts1 => below_refl _)
    · refine below_ite (fun _ => below_refl _) (fun _ => ?_)
      exact below_bind ((parseExpression_below fuel).1 _) (fun expr ts2 => below_refl _)
    · exact below_refl _

theorem parseFunctionDef_below : ∀ fuel : Nat,
    (∀ ts, (parseFunctionDef fuel ts).below (parseFunctionDef (fuel + 1) ts)) ∧
    (∀ body ts, (parseBodyLoop fuel body ts).below (parseBodyLoop (fuel + 1) body ts)) := by
  intro fuel
  induction fuel with
  | zero =>
    refine ⟨?_, ?_⟩ <;> intros <;> exact Or.inl (by simp only [parseFunctionDef, parseBodyLoop])
  | succ fuel ih =>
    obtain ⟨ihF, ihB⟩ := ih
    refine ⟨?_, ?_⟩
    · intro ts
      simp only [parseFunctionDef]
      refine below_ite (fun _ => below_refl _) (fun _ => ?_)
      split
      · refine below_ite (fun _ => below_refl _) (fun _ => ?_)
        refine below_bind (below_refl _) (fun params ts3 => ?_)
        refine below_ite (fun _ => below_refl _) (fun _ => ?_)
        refine below_ite (fun _ => below_refl _) (fun _ => ?_)
        exact below_bind (ihB _ _) (fun parsed ts5 => below_refl _)
      · exact below_refl _
    · intro body ts
      simp only [parseBodyLoop]
      refine below_ite (fun _ => below_refl _) (fun _ => ?_)
      refine below_ite (fun _ => below_refl _) (fun _ => ?_)
      refine below_ite (fun _ => ?_) (fun _ => ?_)
      · exact below_bind (ihF _) (fun nested_func ts2 => ihB _ ts2)
      · refine below_ite (fun _ => ?_) (fun _ => ?_)
        · exact below_bind ((parseExpression_below fuel).1 _) (fun return_expr ts2 => below_refl _)
        · refine below_bind (parseStatement_below fuel _) (fun stmt ts2 => ?_)
          exact below_ite (fun _ => below_refl _) (fun _ => ihB _ _)

theorem parseProgramLoop_below : ∀ (fuel : Nat) (functions : List FunctionDefAST)
    (ts : TokenStream),
    (parseProgramLoop fuel functions ts).below (parseProgramLoop (fuel + 1) functions ts) := by
  intro fuel
  induction fuel with
  | zero => intros; exact Or.inl (by simp only [parseProgramLoop])
  | succ fuel ih =>
    intro functions ts
    simp only [parseProgramLoop]
    refine below_ite (fun _ => below_refl _) (fun _ => ?_)
    refine below_ite (fun _ => below_refl _) (fun _ => ?_)
    refine below_ite (fun _ => ?_) (fun _ => below_refl _)
    exact below_bind ((parseFunctionDef_below fuel).1 _) (fun f ts2 => ih _ ts2)

/-- A result obtained with some fuel is the result with any larger fuel. -/
theorem below_of_le {α : Type} (f : Nat → ParseResult α)
    (hstep : ∀ n, (f n).below (f (n + 1))) : ∀ (n m : Nat), n ≤ m → (f n).below (f m) := by
  intro n m hnm
  induction m with
  | zero =>
    have : n = 0 := by omega
    subst this
    exact below_refl _
  | succ m ih =>
    by_cases h : n = m + 1
    · subst h; exact below_refl _
    · rcases ih (by omega) with h1 | h1
      · exact Or.inl h1
      · rw [h1]; exact hstep m

theorem ok_of_below {α : Type} {r r1 : ParseResult α} (h : r.below r1) {a : α}
    {rest : TokenStream} (hr : r = .ok a rest) : r1 = .ok a rest := by
  rcases h with h | h
  · rw [h] at hr; cases hr
  · rw [← h, hr]

theorem parsePrimary_mono {fuel fuel1 : Nat} {ts rest : TokenStream} {a : ExprAST}
    (h : parsePrimary fuel ts = .ok a rest) (hle : fuel ≤ fuel1) :
    parsePrimary fuel1 ts = .ok a rest :=
  ok_of_below (below_of_le (fun n => parsePrimary n ts)
    (fun n => (parseExpression_below n).2.2.2.2.2.2.2.2.1 ts) fuel fuel1 hle) h

theorem parseMulExpr_mono {fuel fuel1 : Nat} {ts rest : TokenStream} {a : ExprAST}
    (h : parseMulExpr fuel ts = .ok a rest) (hle : fuel ≤ fuel1) :
    parseMulExpr fuel1 ts = .ok a rest :=
  ok_of_below (below_of_le (fun n => parseMulExpr n ts)
    (fun n => (parseExpression_below n).2.2.2.2.2.2.1 ts) fuel fuel1 hle) h

theorem parseMulLoop_mono {fuel fuel1 : Nat} {expr : ExprAST} {ts rest : TokenStream}
    {a : ExprAST} (h : parseMulLoop fuel expr ts = .ok a rest) (hle : fuel ≤ fuel1) :
    parseMulLoop fuel1 expr ts = .ok a rest :=
  ok_of_below (below_of_le (fun n => parseMulLoop n expr ts)
    (fun n => (parseExpression_below n).2.2.2.2.2.2.2.1 expr ts) fuel fuel1 hle) h

theorem parseAddExpr_mono {fuel fuel1 : Nat} {ts rest : TokenStream} {a : ExprAST}
    (h : parseAddExpr fuel ts = .ok a rest) (hle : fuel ≤ fuel1) :
    parseAddExpr fuel1 ts = .ok a rest :=
  ok_of_below (below_of_le (fun n => parseAddExpr n ts)
    (fun n => (parseExpression_below n).2.2.2.2.1 ts) fuel fuel1 hle) h

theorem parseAddLoop_mono {fuel fuel1 : Nat} {expr : ExprAST} {ts rest : TokenStream}
    {a : ExprAST} (h : parseAddLoop fuel expr ts = .ok a rest) (hle : fuel ≤ fuel1) :
    parseAddLoop fuel1 expr ts = .ok a rest :=
  ok_of_below (below_of_le (fun n => parseAddLoop n expr ts)
    (fun n => (parseExpression_below n).2.2.2.2.2.1 expr ts) fuel fuel1 hle) h

theorem parseLogicalExpr_mono {fuel fuel1 : Nat} {ts rest : TokenStream} {a : ExprAST}
    (h : parseLogicalExpr fuel ts = .ok a rest) (hle : fuel ≤ fuel1) :
    parseLogicalExpr fuel1 ts = .ok a rest :=
  ok_of_below (below_of_le (fun n => parseLogicalExpr n ts)
    (fun n => (parseExpression_below n).2.2.1 ts) fuel fuel1 hle) h

theorem parseLogicalLoop_mono {fuel fuel1 : Nat} {expr : ExprAST} {ts rest : TokenStream}
    {a : ExprAST} (h : parseLogicalLoop fuel expr ts = .ok a rest) (hle : fuel ≤ fuel1) :
    parseLogicalLoop fuel1 expr ts = .ok a rest :=
  ok_of_below (below_of_le (fun n => parseLogicalLoop n expr ts)
    (fun n => (parseExpression_below n).2.2.2.1 expr ts) fuel fuel1 hle) h

theorem parseExpression_mono {fuel fuel1 : Nat} {ts rest : TokenStream} {a : ExprAST}
    (h : parseExpression fuel ts = .ok a rest) (hle : fuel ≤ fuel1) :
    parseExpression fuel1 ts = .ok a rest :=
  ok_of_below (below_of_le (fun n => parseExpression n ts)
    (fun n => (parseExpression_below n).1 ts) fuel fuel1 hle) h
/-! ## Associativity and precedence -/

theorem GetToken_chainTokens_append (isOp : OperatorToken → Prop) (stopSub stop : Token → Prop)
    (hop : ∀ o, isOp o → stopSub (.Operator o)) (hstopsub : ∀ t, stop t → stopSub t)
    (ops : List (OperatorToken × TokenStream × ExprAST)) (rest : TokenStream)
    (hops : ∀ x ∈ ops, isOp x.1) (hrest : stop (GetToken rest)) :
    stopSub (GetToken (chainTokens ops ++ rest)) := by
  cases ops with
  | nil => exact hstopsub _ hrest
  | cons x ops =>
    obtain ⟨o, toks, ast⟩ := x
    exact hop o (hops (o, toks, ast) (List.mem_cons_self _ _))

/-- The loop of a binary-operator level builds the left-nested tree over the
operands it is given. -/
theorem loop_chain (sub : Nat → TokenStream → ParseResult ExprAST)
    (loop : Nat → ExprAST → TokenStream → ParseResult ExprAST)
    (isOp : OperatorToken → Prop) (stopSub stop : Token → Prop)
    (hsub_mono : ∀ fuel fuel1 ts a rest, sub fuel ts = .ok a rest → fuel ≤ fuel1 →
      sub fuel1 ts = .ok a rest)
    (hloop_mono : ∀ fuel fuel1 expr ts a rest, loop fuel expr ts = .ok a rest → fuel ≤ fuel1 →
      loop fuel1 expr ts = .ok a rest)
    (hstep : ∀ fuel expr o ts, isOp o → loop (fuel + 1) expr (.Operator o :: ts)
      = (sub fuel ts).bind (fun right ts1 => loop fuel (.BinaryOp (opChar o) expr right) ts1))
    (hstop : ∀ fuel expr ts, stop (GetToken ts) → loop (fuel + 1) expr ts = .ok expr ts)
    (hop : ∀ o, isOp o → stopSub (.Operator o)) (hstopsub : ∀ t, stop t → stopSub t) :
    ∀ (ops : List (OperatorToken × TokenStream × ExprAST)) (expr : ExprAST)
      (rest : TokenStream),
      (∀ x ∈ ops, isOp x.1 ∧ Operand sub stopSub x.2.1 x.2.2) → stop (GetToken rest) →
      ∃ fuel, loop fuel expr (chainTokens ops ++ rest) = .ok (leftNested expr ops) rest := by
  intro ops
  induction ops with
  | nil =>
    intro expr rest _ hrest
    exact ⟨1, hstop 0 expr rest hrest⟩
  | cons x ops ih =>
    intro expr rest hops hrest
    obtain ⟨o, toks, ast⟩ := x
    have hx := hops (o, toks, ast) (List.mem_cons_self _ _)
    have hops1 : ∀ y ∈ ops, isOp y.1 ∧ Operand sub stopSub y.2.1 y.2.2 :=
      fun y hy => hops y (List.mem_cons_of_mem _ hy)
    have hnext : stopSub (GetToken (chainTokens ops ++ rest)) :=
      GetToken_chainTokens_append isOp stopSub stop hop hstopsub ops rest
        (fun y hy => (hops1 y hy).1) hrest
    obtain ⟨f1, h1⟩ := hx.2 (chainTokens ops ++ rest) hnext
    obtain ⟨f2, h2⟩ := ih (.BinaryOp (opChar o) expr ast) rest hops1 hrest
    refine ⟨max f1 f2 + 1, ?_⟩
    have htoks : chainTokens ((o, toks, ast) :: ops) ++ rest
        = .Operator o :: (toks ++ (chainTokens ops ++ rest)) := by
      simp only [chainTokens, List.cons_append, List.append_assoc]
    rw [htoks, hstep _ _ _ _ hx.1, hsub_mono _ _ _ _ _ h1 (Nat.le_max_left f1 f2)]
    simp only [ParseResult.bind]
    exact hloop_mono _ _ _ _ _ _ h2 (Nat.le_max_right f1 f2)

/-- A chain of operands of the level below, joined by operators of a level,
is an operand of that level, with the left-nested tree. -/
theorem chain_Operand (sub level : Nat → TokenStream → ParseResult ExprAST)
    (loop : Nat → ExprAST → TokenStream → ParseResult ExprAST)
    (isOp : OperatorToken → Prop) (stopSub stop : Token → Prop)
    (hsub_mono : ∀ fuel fuel1 ts a rest, sub fuel ts = .ok a rest → fuel ≤ fuel1 →
      sub fuel1 ts = .ok a rest)
    (hloop_mono : ∀ fuel fuel1 expr ts a rest, loop fuel expr ts = .ok a rest → fuel ≤ fuel1 →
      loop fuel1 expr ts = .ok a rest)
    (hlevel : ∀ fuel ts, level (fuel + 1) ts
      = (sub fuel ts).bind (fun expr ts1 => loop fuel expr ts1))
    (hstep : ∀ fuel expr o ts, isOp o → loop (fuel + 1) expr (.Operator o :: ts)
      = (sub fuel ts).bind (fun right ts1 => loop fuel (.BinaryOp (opChar o) expr right) ts1))
    (hstop : ∀ fuel expr ts, stop (GetToken ts) → loop (fuel + 1) expr ts = .ok expr ts)
    (hop : ∀ o, isOp o → stopSub (.Operator o)) (hstopsub : ∀ t, stop t → stopSub t)
    (p0 : TokenStream) (a0 : ExprAST) (ops : List (OperatorToken × TokenStream × ExprAST))
    (h0 : Operand sub stopSub p0 a0)
    (hops : ∀ x ∈ ops, isOp x.1 ∧ Operand sub stopSub x.2.1 x.2.2) :
    Operand level stop (p0 ++ chainTokens ops) (leftNested a0 ops) := by
  intro rest hrest
  have hnext : stopSub (GetToken (chainTokens ops ++ rest)) :=
    GetToken_chainTokens_append isOp stopSub stop hop hstopsub ops rest
      (fun y hy => (hops y hy).1) hrest
  obtain ⟨f1, h1⟩ := h0 (chainTokens ops ++ rest) hnext
  obtain ⟨f2, h2⟩ := loop_chain sub loop isOp stopSub stop hsub_mono hloop_mono hstep hstop hop
    hstopsub ops a0 rest hops hrest
  refine ⟨max f1 f2 + 1, ?_⟩
  rw [List.append_assoc, hlevel, hsub_mono _ _ _ _ _ h1 (Nat.le_max_left f1 f2)]
  simp only [ParseResult.bind]
  exact hloop_mono _ _ _ _ _ _ h2 (Nat.le_max_right f1 f2)

theorem parseMulLoop_step (fuel : Nat) (expr : ExprAST) (o : OperatorToken) (ts : TokenStream)
    (ho : o = .MULTIPLY ∨ o = .DIVIDE) :
    parseMulLoop (fuel + 1) expr (.Operator o :: ts)
      = (parsePrimary fuel ts).bind
          (fun right ts1 => parseMulLoop fuel (.BinaryOp (opChar o) expr right) ts1) := by
  rcases ho with rfl | rfl <;> simp [parseMulLoop, GetToken, Next, opChar]

theorem parseAddLoop_step (fuel : Nat) (expr : ExprAST) (o : OperatorToken) (ts : TokenStream)
    (ho : o = .PLUS ∨ o = .MINUS) :
    parseAddLoop (fuel + 1) expr (.Operator o :: ts)
      = (parseMulExpr fuel ts).bind
          (fun right ts1 => parseAddLoop fuel (.BinaryOp (opChar o) expr right) ts1) := by
  rcases ho with rfl | rfl <;> simp [parseAddLoop, GetToken, Next, opChar]

theorem parseLogicalLoop_step (fuel : Nat) (expr : ExprAST) (o : OperatorToken)
    (ts : TokenStream) (ho : o = .EQ_EQ ∨ o = .NOT_EQ ∨ o = .LESS) :
    parseLogicalLoop (fuel + 1) expr (.Operator o :: ts)
      = (parseAddExpr fuel ts).bind
          (fun right ts1 => parseLogicalLoop fuel (.BinaryOp (opChar o) expr right) ts1) := by
  rcases ho with rfl | rfl | rfl <;> simp [parseLogicalLoop, GetToken, Next, opChar]

theorem parseMulLoop_stop (fuel : Nat) (expr : ExprAST) (ts : TokenStream)
    (h : afterMul (GetToken ts)) : parseMulLoop (fuel + 1) expr ts = .ok expr ts := by
  simp [parseMulLoop, h.2.1, h.2.2]

theorem parseAddLoop_stop (fuel : Nat) (expr : ExprAST) (ts : TokenStream)
    (h : afterAdd (GetToken ts)) : parseAddLoop (fuel + 1) expr ts = .ok expr ts := by
  simp [parseAddLoop, h.2.1, h.2.2]

theorem parseLogicalLoop_stop (fuel : Nat) (expr : ExprAST) (ts : TokenStream)
    (h : afterLogical (GetToken ts)) : parseLogicalLoop (fuel + 1) expr ts = .ok expr ts := by
  simp [parseLogicalLoop, h.2.1, h.2.2.1, h.2.2.2]

theorem mul_chain_Operand (p0 : TokenStream) (a0 : ExprAST)
    (ops : List (OperatorToken × TokenStream × ExprAST)) (h0 : IsPrimary p0 a0)
    (hops : ∀ x ∈ ops, (x.1 = .MULTIPLY ∨ x.1 = .DIVIDE) ∧ IsPrimary x.2.1 x.2.2) :
    Operand parseMulExpr afterMul (p0 ++ chainTokens ops) (leftNested a0 ops) :=
  chain_Operand parsePrimary parseMulExpr parseMulLoop (fun o => o = .MULTIPLY ∨ o = .DIVIDE)
    afterPrimary afterMul (fun _ _ _ _ _ h hle => parsePrimary_mono h hle)
    (fun _ _ _ _ _ _ h hle => parseMulLoop_mono h hle)
    (fun fuel ts => by simp only [parseMulExpr])
    parseMulLoop_step parseMulLoop_stop
    (fun o ho => by rcases ho with rfl | rfl <;> simp [afterPrimary])
    (fun t ht => ht.1) p0 a0 ops h0 hops

theorem add_chain_Operand (p0 : TokenStream) (a0 : ExprAST)
    (ops : List (OperatorToken × TokenStream × ExprAST))
    (h0 : Operand parseMulExpr afterMul p0 a0)
    (hops : ∀ x ∈ ops, (x.1 = .PLUS ∨ x.1 = .MINUS) ∧ Operand parseMulExpr afterMul x.2.1 x.2.2) :
    Operand parseAddExpr afterAdd (p0 ++ chainTokens ops) (leftNested a0 ops) :=
  chain_Operand parseMulExpr parseAddExpr parseAddLoop (fun o => o = .PLUS ∨ o = .MINUS)
    afterMul afterAdd (fun _ _ _ _ _ h hle => parseMulExpr_mono h hle)
    (fun _ _ _ _ _ _ h hle => parseAddLoop_mono h hle)
    (fun fuel ts => by simp only [parseAddExpr])
    parseAddLoop_step parseAddLoop_stop
    (fun o ho => by rcases ho with rfl | rfl <;> simp [afterMul, afterPrimary])
    (fun t ht => ht.1) p0 a0 ops h0 hops

theorem logical_chain_Operand (p0 : TokenStream) (a0 : ExprAST)
    (ops : List (OperatorToken × TokenStream × ExprAST))
    (h0 : Operand parseAddExpr afterAdd p0 a0)
    (hops : ∀ x ∈ ops, (x.1 = .EQ_EQ ∨ x.1 = .NOT_EQ ∨ x.1 = .LESS) ∧
      Operand parseAddExpr afterAdd x.2.1 x.2.2) :
    Operand parseLogicalExpr afterLogical (p0 ++ chainTokens ops) (leftNested a0 ops) :=
  chain_Operand parseAddExpr parseLogicalExpr parseLogicalLoop
    (fun o => o = .EQ_EQ ∨ o = .NOT_EQ ∨ o = .LESS)
    afterAdd afterLogical (fun _ _ _ _ _ h hle => parseAddExpr_mono h hle)
    (fun _ _ _ _ _ _ h hle => parseLogicalLoop_mono h hle)
    (fun fuel ts => by simp only [parseLogicalExpr])
    parseLogicalLoop_step parseLogicalLoop_stop
    (fun o ho => by rcases ho with rfl | rfl | rfl <;> simp [afterAdd, afterMul, afterPrimary])
    (fun t ht => ht.1) p0 a0 ops h0 hops

/-- A primary alone is a product, and a product alone is a sum. -/
theorem IsPrimary.toMul {p : TokenStream} {a : ExprAST} (h : IsPrimary p a) :
    Operand parseMulExpr afterMul p a := by
  have := mul_chain_Operand p a [] h (fun x hx => by cases hx)
  simpa [chainTokens, leftNested] using this

theorem Operand.mulToAdd {p : TokenStream} {a : ExprAST} (h : Operand parseMulExpr afterMul p a) :
    Operand parseAddExpr afterAdd p a := by
  have := add_chain_Operand p a [] h (fun x hx => by cases hx)
  simpa [chainTokens, leftNested] using this

theorem Operand.addToLogical {p : TokenStream} {a : ExprAST}
    (h : Operand parseAddExpr afterAdd p a) : Operand parseLogicalExpr afterLogical p a := by
  have := logical_chain_Operand p a [] h (fun x hx => by cases hx)
  simpa [chainTokens, leftNested] using this
/-! ## Primaries -/

theorem IsPrimary_Number (value : Int) : IsPrimary [.Constant value] (.Number value) :=
  fun rest _ => ⟨1, by simp [parsePrimary, GetToken, Next]⟩

theorem IsPrimary_Identifier (name : String) : IsPrimary [.Symbol name] (.Identifier name) :=
  fun rest hrest => ⟨1, by
    have h : GetToken rest ≠ .Embracing .LPAREN := hrest
    have h1 : GetToken (Next ([Token.Symbol name] ++ rest)) ≠ .Embracing .LPAREN := h
    have h2 : GetToken ([Token.Symbol name] ++ rest) = .Symbol name := rfl
    simp only [parsePrimary, h2, h1, if_false]
    rfl⟩

/-- A primary does not start with `if`. -/
theorem IsPrimary.head_ne_IF {p : TokenStream} {a : ExprAST} (h : IsPrimary p a)
    (rest : TokenStream) : GetToken (p ++ rest) ≠ .Embracing .IF := by
  obtain ⟨fuel, hf⟩ := h [] (by simp [afterPrimary, GetToken])
  cases p with
  | nil =>
    cases fuel with
    | zero => simp [parsePrimary] at hf
    | succ n => simp [parsePrimary, GetToken] at hf
  | cons t p1 =>
    intro hIF
    have ht : t = .Embracing .IF := by simpa [GetToken] using hIF
    subst ht
    cases fuel with
    | zero => simp [parsePrimary] at hf
    | succ n => simp [parsePrimary, GetToken] at hf

/-- A comparison that does not start with `if` is an expression. -/
theorem Operand.logicalToExpression {p : TokenStream} {a : ExprAST}
    (h : Operand parseLogicalExpr afterLogical p a)
    (hIF : ∀ rest, GetToken (p ++ rest) ≠ .Embracing .IF) :
    Operand parseExpression afterLogical p a := by
  intro rest hrest
  obtain ⟨fuel, hf⟩ := h rest hrest
  exact ⟨fuel + 2, by simp only [parseExpression, parseTernaryExpr, hIF rest, if_false, hf]⟩

/-- An expression between parentheses is a primary, with the tree of the
expression. -/
theorem IsPrimary_parenthesised {p : TokenStream} {a : ExprAST}
    (h : Operand parseExpression afterLogical p a) :
    IsPrimary (.Embracing .LPAREN :: p ++ [.Embracing .RPAREN]) a := by
  intro rest _
  obtain ⟨fuel, hf⟩ := h (.Embracing .RPAREN :: rest)
    (by simp [afterLogical, afterAdd, afterMul, afterPrimary, GetToken])
  refine ⟨fuel + 1, ?_⟩
  have htoks : .Embracing .LPAREN :: p ++ [.Embracing .RPAREN] ++ rest
      = .Embracing .LPAREN :: (p ++ .Embracing .RPAREN :: rest) := by simp
  rw [htoks]
  simp [parsePrimary, GetToken, Next, hf, ParseResult.bind]

theorem Operand.enough_fuel {p : TokenStream} {a : ExprAST}
    (h : Operand parseExpression afterLogical p a) (rest : TokenStream)
    (hrest : afterLogical (GetToken rest)) :
    ∃ k, ∀ fuel, k ≤ fuel → parseExpression fuel (p ++ rest) = .ok a rest := by
  obtain ⟨k, hk⟩ := h rest hrest
  exact ⟨k, fun fuel hle => parseExpression_mono hk hle⟩

theorem new_srcLeftAssoc :
    Interpreter.new srcLeftAssoc = some (.ok (Interpreter.load leftAssocProgram)) := by rfl

theorem run_leftAssoc :
    Interpreter.run 3 (Interpreter.load leftAssocProgram) "f" [10, 3, 2]
      = some (Interpreter.load leftAssocProgram, .ok 5) := by rfl

/-- C15: binary operators are left-associative within a precedence level: for
primaries p0..pn and operators op1..opn all from `+ -`, or all from `* /`, or
all from `== != <`, the expression parser reads `p0 op1 p1 ... opn pn`, given
enough fuel, as the left-nested tree
BinaryOp(opn, BinaryOp(..., BinaryOp(op1, p0, p1), ...), pn) and stops after
pn. `a - b - c` parses as (a - b) - c and with a=10, b=3, c=2 evaluates to 5. -/
theorem C15_binary_operators_left_associative :
    (∀ (p0 : TokenStream) (a0 : ExprAST) (ops : List (OperatorToken × TokenStream × ExprAST))
        (rest : TokenStream),
      IsPrimary p0 a0 → (∀ x ∈ ops, IsPrimary x.2.1 x.2.2) →
      ((∀ x ∈ ops, x.1 = .PLUS ∨ x.1 = .MINUS) ∨ (∀ x ∈ ops, x.1 = .MULTIPLY ∨ x.1 = .DIVIDE) ∨
        (∀ x ∈ ops, x.1 = .EQ_EQ ∨ x.1 = .NOT_EQ ∨ x.1 = .LESS)) →
      afterLogical (GetToken rest) →
      ∃ k, ∀ fuel, k ≤ fuel →
        parseExpression fuel (p0 ++ chainTokens ops ++ rest) = .ok (leftNested a0 ops) rest) ∧
    (Interpreter.new srcLeftAssoc = some (.ok (Interpreter.load leftAssocProgram)) ∧
      leftAssocProgram = [.mk "f" ["a", "b", "c"] []
        (leftNested (.Identifier "a")
          [(.MINUS, [.Symbol "b"], .Identifier "b"), (.MINUS, [.Symbol "c"], .Identifier "c")])] ∧
      Interpreter.run 3 (Interpreter.load leftAssocProgram) "f" [10, 3, 2]
        = some (Interpreter.load leftAssocProgram, .ok 5)) := by
  refine ⟨?_, new_srcLeftAssoc, by rfl, run_leftAssoc⟩
  intro p0 a0 ops rest h0 hprim hlevel hrest
  have hIF : ∀ rest1, GetToken (p0 ++ chainTokens ops ++ rest1) ≠ .Embracing .IF := by
    intro rest1
    rw [List.append_assoc]
    exact h0.head_ne_IF _
  refine Operand.enough_fuel (Operand.logicalToExpression ?_ hIF) rest hrest
  rcases hlevel with hadd | hmul | hlog
  · exact (add_chain_Operand p0 a0 ops h0.toMul
      (fun x hx => ⟨hadd x hx, (hprim x hx).toMul⟩)).addToLogical
  · exact (mul_chain_Operand p0 a0 ops h0
      (fun x hx => ⟨hmul x hx, hprim x hx⟩)).mulToAdd.addToLogical
  · exact logical_chain_Operand p0 a0 ops h0.toMul.mulToAdd
      (fun x hx => ⟨hlog x hx, (hprim x hx).toMul.mulToAdd⟩)

theorem C15_binary_operators_left_associative_witness :
    ∃ k, ∀ fuel, k ≤ fuel →
      parseExpression fuel ([.Symbol "a"]
          ++ chainTokens [(.MINUS, [.Symbol "b"], .Identifier "b"),
              (.MINUS, [.Symbol "c"], .Identifier "c")]
          ++ [.Utility .EOFT])
        = .ok (leftNested (.Identifier "a")
            [(.MINUS, [.Symbol "b"], .Identifier "b"), (.MINUS, [.Symbol "c"], .Identifier "c")])
          [.Utility .EOFT] :=
  C15_binary_operators_left_associative.1 [.Symbol "a"] (.Identifier "a")
    [(.MINUS, [.Symbol "b"], .Identifier "b"), (.MINUS, [.Symbol "c"], .Identifier "c")]
    [.Utility .EOFT] (IsPrimary_Identifier "a")
    (fun x hx => by
      simp only [List.mem_cons, List.mem_singleton, List.not_mem_nil, or_false] at hx
      rcases hx with rfl | rfl
      · exact IsPrimary_Identifier "b"
      · exact IsPrimary_Identifier "c")
    (Or.inl (fun x hx => by
      simp only [List.mem_cons, List.mem_singleton, List.not_mem_nil, or_false] at hx
      rcases hx with rfl | rfl <;> exact Or.inr rfl))
    (by simp [afterLogical, afterAdd, afterMul, afterPrimary, GetToken])
/-! ## Precedence -/

theorem mul_pair {a b : TokenStream} {ta tb : ExprAST} (o : OperatorToken)
    (ho : o = .MULTIPLY ∨ o = .DIVIDE) (ha : IsPrimary a ta) (hb : IsPrimary b tb) :
    Operand parseMulExpr afterMul (a ++ .Operator o :: b) (.BinaryOp (opChar o) ta tb) := by
  have h := mul_chain_Operand a ta [(o, b, tb)] ha (fun x hx => by
    simp only [List.mem_singleton] at hx
    subst hx
    exact ⟨ho, hb⟩)
  simpa [chainTokens, leftNested] using h

theorem add_pair {a b : TokenStream} {ta tb : ExprAST} (o : OperatorToken)
    (ho : o = .PLUS ∨ o = .MINUS) (ha : Operand parseMulExpr afterMul a ta)
    (hb : Operand parseMulExpr afterMul b tb) :
    Operand parseAddExpr afterAdd (a ++ .Operator o :: b) (.BinaryOp (opChar o) ta tb) := by
  have h := add_chain_Operand a ta [(o, b, tb)] ha (fun x hx => by
    simp only [List.mem_singleton] at hx
    subst hx
    exact ⟨ho, hb⟩)
  simpa [chainTokens, leftNested] using h

theorem logical_pair {a b : TokenStream} {ta tb : ExprAST} (o : OperatorToken)
    (ho : o = .EQ_EQ ∨ o = .NOT_EQ ∨ o = .LESS) (ha : Operand parseAddExpr afterAdd a ta)
    (hb : Operand parseAddExpr afterAdd b tb) :
    Operand parseLogicalExpr afterLogical (a ++ .Operator o :: b)
      (.BinaryOp (opChar o) ta tb) := by
  have h := logical_chain_Operand a ta [(o, b, tb)] ha (fun x hx => by
    simp only [List.mem_singleton] at hx
    subst hx
    exact ⟨ho, hb⟩)
  simpa [chainTokens, leftNested] using h

theorem new_srcMulBeforeAdd :
    Interpreter.new srcMulBeforeAdd = some (.ok (Interpreter.load mulBeforeAddProgram)) := by rfl

theorem run_mulBeforeAdd :
    Interpreter.run 3 (Interpreter.load mulBeforeAddProgram) "f" [1, 2, 3]
      = some (Interpreter.load mulBeforeAddProgram, .ok 7) := by rfl

theorem new_srcParenthesised :
    Interpreter.new srcParenthesised = some (.ok (Interpreter.load parenthesisedProgram)) := by
  rfl

theorem run_parenthesised :
    Interpreter.run 3 (Interpreter.load parenthesisedProgram) "f" [1, 2, 3]
      = some (Interpreter.load parenthesisedProgram, .ok 9) := by rfl

/-- C16: the expression parser applies the fixed precedence multiplicative >
additive > comparison: for all primaries a, b, c, given enough fuel,
`a + b * c` parses to BinaryOp('+', a, BinaryOp('*', b, c)), `a * b + c` to
BinaryOp('+', BinaryOp('*', a, b), c), `a < b + c` to
BinaryOp('<', a, BinaryOp('+', b, c)), and `(a + b) * c` to
BinaryOp('*', BinaryOp('+', a, b), c), with no node for the parentheses. -/
theorem C16_fixed_precedence_and_parentheses :
    (∀ (a b c : TokenStream) (ta tb tc : ExprAST) (rest : TokenStream),
      IsPrimary a ta → IsPrimary b tb → IsPrimary c tc → afterLogical (GetToken rest) →
      ∃ k, ∀ fuel, k ≤ fuel →
        parseExpression fuel (a ++ [.Operator .PLUS] ++ b ++ [.Operator .MULTIPLY] ++ c ++ rest)
          = .ok (.BinaryOp '+' ta (.BinaryOp '*' tb tc)) rest ∧
        parseExpression fuel (a ++ [.Operator .MULTIPLY] ++ b ++ [.Operator .PLUS] ++ c ++ rest)
          = .ok (.BinaryOp '+' (.BinaryOp '*' ta tb) tc) rest ∧
        parseExpression fuel (a ++ [.Operator .LESS] ++ b ++ [.Operator .PLUS] ++ c ++ rest)
          = .ok (.BinaryOp '<' ta (.BinaryOp '+' tb tc)) rest ∧
        parseExpression fuel
            ([.Embracing .LPAREN] ++ a ++ [.Operator .PLUS] ++ b ++ [.Embracing .RPAREN]
              ++ [.Operator .MULTIPLY] ++ c ++ rest)
          = .ok (.BinaryOp '*' (.BinaryOp '+' ta tb) tc) rest) ∧
    (Interpreter.new srcMulBeforeAdd = some (.ok (Interpreter.load mulBeforeAddProgram)) ∧
      Interpreter.run 3 (Interpreter.load mulBeforeAddProgram) "f" [1, 2, 3]
        = some (Interpreter.load mulBeforeAddProgram, .ok 7) ∧
      Interpreter.new srcParenthesised = some (.ok (Interpreter.load parenthesisedProgram)) ∧
      Interpreter.run 3 (Interpreter.load parenthesisedProgram) "f" [1, 2, 3]
        = some (Interpreter.load parenthesisedProgram, .ok 9)) := by
  refine ⟨?_, new_srcMulBeforeAdd, run_mulBeforeAdd, new_srcParenthesised, run_parenthesised⟩
  intro a b c ta tb tc rest ha hb hc hrest
  have hIFa : ∀ rest1 rest2, GetToken (a ++ rest1 ++ rest2) ≠ .Embracing .IF := by
    intro rest1 rest2
    rw [List.append_assoc]
    exact ha.head_ne_IF _
  -- a + b * c
  have h1 := Operand.enough_fuel (Operand.logicalToExpression
    (add_pair .PLUS (Or.inl rfl) ha.toMul (mul_pair .MULTIPLY (Or.inl rfl) hb hc)).addToLogical
    (hIFa _)) rest hrest
  -- a * b + c
  have h2 := Operand.enough_fuel (Operand.logicalToExpression
    (add_pair .PLUS (Or.inl rfl) (mul_pair .MULTIPLY (Or.inl rfl) ha hb) hc.toMul).addToLogical
    (fun rest1 => by
      simp only [List.append_assoc]
      exact ha.head_ne_IF _)) rest hrest
  -- a < b + c
  have h3 := Operand.enough_fuel (Operand.logicalToExpression
    (logical_pair .LESS (Or.inr (Or.inr rfl)) ha.toMul.mulToAdd
      (add_pair .PLUS (Or.inl rfl) hb.toMul hc.toMul))
    (hIFa _)) rest hrest
  -- (a + b) * c
  have hpar : IsPrimary (.Embracing .LPAREN :: (a ++ .Operator .PLUS :: b)
      ++ [.Embracing .RPAREN]) (.BinaryOp '+' ta tb) :=
    IsPrimary_parenthesised (Operand.logicalToExpression
      (add_pair .PLUS (Or.inl rfl) ha.toMul hb.toMul).addToLogical (hIFa _))
  have h4 := Operand.enough_fuel (Operand.logicalToExpression
    (mul_pair .MULTIPLY (Or.inl rfl) hpar hc).mulToAdd.addToLogical
    (fun rest1 => by simp [GetToken])) rest hrest
  obtain ⟨k1, hk1⟩ := h1
  obtain ⟨k2, hk2⟩ := h2
  obtain ⟨k3, hk3⟩ := h3
  obtain ⟨k4, hk4⟩ := h4
  refine ⟨k1 + k2 + k3 + k4, fun fuel hle => ⟨?_, ?_, ?_, ?_⟩⟩
  · have := hk1 fuel (by omega)
    simpa [opChar] using this
  · have := hk2 fuel (by omega)
    simpa [opChar] using this
  · have := hk3 fuel (by omega)
    simpa [opChar] using this
  · have := hk4 fuel (by omega)
    simpa [opChar] using this

theorem C16_fixed_precedence_and_parentheses_witness :
    ∃ k, ∀ fuel, k ≤ fuel →
      parseExpression fuel ([.Symbol "a"] ++ [.Operator .PLUS] ++ [.Constant 2]
          ++ [.Operator .MULTIPLY] ++ [.Symbol "c"] ++ [.Utility .NEWLINE])
        = .ok (.BinaryOp '+' (.Identifier "a") (.BinaryOp '*' (.Number 2) (.Identifier "c")))
          [.Utility .NEWLINE] ∧
      parseExpression fuel ([.Symbol "a"] ++ [.Operator .MULTIPLY] ++ [.Constant 2]
          ++ [.Operator .PLUS] ++ [.Symbol "c"] ++ [.Utility .NEWLINE])
        = .ok (.BinaryOp '+' (.BinaryOp '*' (.Identifier "a") (.Number 2)) (.Identifier "c"))
          [.Utility .NEWLINE] ∧
      parseExpression fuel ([.Symbol "a"] ++ [.Operator .LESS] ++ [.Constant 2]
          ++ [.Operator .PLUS] ++ [.Symbol "c"] ++ [.Utility .NEWLINE])
        = .ok (.BinaryOp '<' (.Identifier "a") (.BinaryOp '+' (.Number 2) (.Identifier "c")))
          [.Utility .NEWLINE] ∧
      parseExpression fuel
          ([.Embracing .LPAREN] ++ [.Symbol "a"] ++ [.Operator .PLUS] ++ [.Constant 2]
            ++ [.Embracing .RPAREN] ++ [.Operator .MULTIPLY] ++ [.Symbol "c"]
            ++ [.Utility .NEWLINE])
        = .ok (.BinaryOp '*' (.BinaryOp '+' (.Identifier "a") (.Number 2)) (.Identifier "c"))
          [.Utility .NEWLINE] :=
  C16_fixed_precedence_and_parentheses.1 [.Symbol "a"] [.Constant 2] [.Symbol "c"]
    (.Identifier "a") (.Number 2) (.Identifier "c") [.Utility .NEWLINE]
    (IsPrimary_Identifier "a") (IsPrimary_Number 2) (IsPrimary_Identifier "c")
    (by simp [afterLogical, afterAdd, afterMul, afterPrimary, GetToken])
/-! ## A NEWLINE added at the end of the tokens -/

theorem GetToken_append_newline_iff (ts : TokenStream) (t : Token)
    (h1 : t ≠ .Utility .NEWLINE) (h2 : t ≠ .Utility .EOFT) :
    GetToken (ts ++ [.Utility .NEWLINE]) = t ↔ GetToken ts = t := by
  cases ts with
  | nil =>
    simp only [List.nil_append, GetToken]
    exact ⟨fun h => absurd h.symm h1, fun h => absurd h.symm h2⟩
  | cons t1 ts1 => simp only [List.cons_append, GetToken]

theorem GetToken_append_newline (ts : TokenStream) (h : GetToken ts ≠ .Utility .EOFT) :
    GetToken (ts ++ [.Utility .NEWLINE]) = GetToken ts := by
  cases ts with
  | nil => exact absurd rfl h
  | cons t1 ts1 => rfl

theorem Next_append_newline (ts : TokenStream) (h : GetToken ts ≠ .Utility .EOFT) :
    Next (ts ++ [.Utility .NEWLINE]) = Next ts ++ [.Utility .NEWLINE] := by
  cases ts with
  | nil => exact absurd rfl h
  | cons t1 ts1 => rfl

theorem GetToken_append_newline_of_end (ts : TokenStream)
    (h : GetToken ts = .Utility .EOFT) :
    GetToken (ts ++ [.Utility .NEWLINE]) = .Utility .NEWLINE ∨
      GetToken (ts ++ [.Utility .NEWLINE]) = .Utility .EOFT := by
  cases ts with
  | nil => exact Or.inl rfl
  | cons t1 ts1 => exact Or.inr h

theorem appendNewline_bind {α β : Type} {r r1 : ParseResult α}
    {k k1 : α → TokenStream → ParseResult β} (h : r1 = r.appendNewline)
    (hk : ∀ a rest, k1 a (rest ++ [.Utility .NEWLINE]) = (k a rest).appendNewline) :
    r1.bind k1 = (r.bind k).appendNewline := by
  subst h
  cases r with
  | ok a rest => exact hk a rest
  | error e => rfl
  | outOfFuel => rfl

theorem appendNewline_ite {α : Type} {c c1 : Prop} [Decidable c] [Decidable c1]
    {a a1 b b1 : ParseResult α} (hc : c1 ↔ c) (ht : c → a1 = a.appendNewline)
    (he : ¬ c → b1 = b.appendNewline) :
    (if c1 then a1 else b1) = (if c then a else b).appendNewline := by
  by_cases h : c
  · rw [if_pos h, if_pos (hc.2 h)]; exact ht h
  · rw [if_neg h, if_neg (fun h1 => h (hc.1 h1))]; exact he h

theorem parseExpression_append_newline : ∀ fuel : Nat,
    (∀ ts, parseExpression fuel (ts ++ [.Utility .NEWLINE])
      = (parseExpression fuel ts).appendNewline) ∧
    (∀ ts, parseTernaryExpr fuel (ts ++ [.Utility .NEWLINE])
      = (parseTernaryExpr fuel ts).appendNewline) ∧
    (∀ ts, parseLogicalExpr fuel (ts ++ [.Utility .NEWLINE])
      = (parseLogicalExpr fuel ts).appendNewline) ∧
    (∀ expr ts, parseLogicalLoop fuel expr (ts ++ [.Utility .NEWLINE])
      = (parseLogicalLoop fuel expr ts).appendNewline) ∧
    (∀ ts, parseAddExpr fuel (ts ++ [.Utility .NEWLINE])
      = (parseAddExpr fuel ts).appendNewline) ∧
    (∀ expr ts, parseAddLoop fuel expr (ts ++ [.Utility .NEWLINE])
      = (parseAddLoop fuel expr ts).appendNewline) ∧
    (∀ ts, parseMulExpr fuel (ts ++ [.Utility .NEWLINE])
      = (parseMulExpr fuel ts).appendNewline) ∧
    (∀ expr ts, parseMulLoop fuel expr (ts ++ [.Utility .NEWLINE])
      = (parseMulLoop fuel expr ts).appendNewline) ∧
    (∀ ts, parsePrimary fuel (ts ++ [.Utility .NEWLINE])
      = (parsePrimary fuel ts).appendNewline) ∧
    (∀ args ts, parseArgsLoop fuel args (ts ++ [.Utility .NEWLINE])
      = (parseArgsLoop fuel args ts).appendNewline) := by
  intro fuel
  induction fuel with
  | zero =>
    refine ⟨?_, ?_, ?_, ?_, ?_, ?_, ?_, ?_, ?_, ?_⟩ <;> intros <;>
      simp only [parseExpression, parseTernaryExpr, parseLogicalExpr, parseLogicalLoop,
        parseAddExpr, parseAddLoop, parseMulExpr, parseMulLoop, parsePrimary, parseArgsLoop,
        ParseResult.appendNewline]
  | succ fuel ih =>
    obtain ⟨ihE, ihT, ihL, ihLL, ihA, ihAL, ihM, ihML, ihP, ihArgs⟩ := ih
    refine ⟨?_, ?_, ?_, ?_, ?_, ?_, ?_, ?_, ?_, ?_⟩
    · intro ts
      simp only [parseExpression]
      exact ihT ts
    · intro ts
      simp only [parseTernaryExpr]
      refine appendNewline_ite (GetToken_append_newline_iff ts _ (by simp) (by simp))
        (fun h => ?_) (fun _ => ihL ts)
      rw [Next_append_newline ts (by rw [h]; simp)]
      refine appendNewline_bind (ihL _) (fun condition ts1 => ?_)
      refine appendNewline_ite
        (not_congr (GetToken_append_newline_iff ts1 _ (by simp) (by simp)))
        (fun _ => rfl) (fun h1 => ?_)
      rw [Next_append_newline ts1 (by rw [not_not.1 h1]; simp)]
      refine appendNewline_bind (ihL _) (fun then_expr ts2 => ?_)
      refine appendNewline_ite
        (not_congr (GetToken_append_newline_iff ts2 _ (by simp) (by simp)))
        (fun _ => rfl) (fun h2 => ?_)
      rw [Next_append_newline ts2 (by rw [not_not.1 h2]; simp)]
      exact appendNewline_bind (ihL _) (fun else_expr ts3 => rfl)
    · intro ts
      simp only [parseLogicalExpr]
      exact appendNewline_bind (ihA ts) (fun expr ts1 => ihLL expr ts1)
    · intro expr ts
      by_cases h : GetToken ts = .Utility .EOFT
      · rcases GetToken_append_newline_of_end ts h with h1 | h1 <;>
          simp [parseLogicalLoop, h, h1, ParseResult.appendNewline]
      · simp only [parseLogicalLoop, GetToken_append_newline ts h, Next_append_newline ts h]
        refine appendNewline_ite Iff.rfl (fun _ => ?_) (fun _ => rfl)
        exact appendNewline_bind (ihA _) (fun right ts1 => ihLL _ ts1)
    · intro ts
      simp only [parseAddExpr]
      exact appendNewline_bind (ihM ts) (fun expr ts1 => ihAL expr ts1)
    · intro expr ts
      by_cases h : GetToken ts = .Utility .EOFT
      · rcases GetToken_append_newline_of_end ts h with h1 | h1 <;>
          simp [parseAddLoop, h, h1, ParseResult.appendNewline]
      · simp only [parseAddLoop, GetToken_append_newline ts h, Next_append_newline ts h]
        refine appendNewline_ite Iff.rfl (fun _ => ?_) (fun _ => rfl)
        exact appendNewline_bind (ihM _) (fun right ts1 => ihAL _ ts1)
    · intro ts
      simp only [parseMulExpr]
      exact appendNewline_bind (ihP ts) (fun expr ts1 => ihML expr ts1)
    · intro expr ts
      by_cases h : GetToken ts = .Utility .EOFT
      · rcases GetToken_append_newline_of_end ts h with h1 | h1 <;>
          simp [parseMulLoop, h, h1, ParseResult.appendNewline]
      · simp only [parseMulLoop, GetToken_append_newline ts h, Next_append_newline ts h]
        refine appendNewline_ite Iff.rfl (fun _ => ?_) (fun _ => rfl)
        exact appendNewline_bind (ihP _) (fun right ts1 => ihML _ ts1)
    · intro ts
      by_cases h : GetToken ts = .Utility .EOFT
      · rcases GetToken_append_newline_of_end ts h with h1 | h1 <;>
          simp [parsePrimary, h, h1, ParseResult.appendNewline]
      · simp only [parsePrimary, GetToken_append_newline ts h, Next_append_newline ts h]
        split
        · rfl
        · refine appendNewline_ite
            (GetToken_append_newline_iff _ _ (by simp) (by simp)) (fun h1 => ?_) (fun _ => rfl)
          rw [Next_append_newline _ (by rw [h1]; simp)]
          refine appendNewline_bind ?_ (fun args ts4 => ?_)
          · refine appendNewline_ite
              (not_congr (GetToken_append_newline_iff _ _ (by simp) (by simp)))
              (fun _ => ?_) (fun _ => rfl)
            exact appendNewline_bind (ihE _) (fun arg ts3 => ihArgs _ ts3)
          · refine appendNewline_ite
              (not_congr (GetToken_append_newline_iff _ _ (by simp) (by simp)))
              (fun _ => rfl) (fun h2 => ?_)
            rw [Next_append_newline _ (by rw [not_not.1 h2]; simp)]
            rfl
        · refine appendNewline_bind (ihE _) (fun expr ts1 => ?_)
          refine appendNewline_ite
            (not_congr (GetToken_append_newline_iff _ _ (by simp) (by simp)))
            (fun _ => rfl) (fun h2 => ?_)
          rw [Next_append_newline _ (by rw [not_not.1 h2]; simp)]
          rfl
        · rfl
    · intro args ts
      simp only [parseArgsLoop]
      refine appendNewline_ite (GetToken_append_newline_iff ts _ (by simp) (by simp))
        (fun h => ?_) (fun _ => rfl)
      rw [Next_append_newline ts (by rw [h]; simp)]
      exact appendNewline_bind (ihE _) (fun arg ts1 => ihArgs _ ts1)
theorem IsEnd_iff (ts : TokenStream) : IsEnd ts = true ↔ GetToken ts = .Utility .EOFT := by
  simp [IsEnd]

theorem GetToken_eq_EOFT_cases (ts : TokenStream) (h : GetToken ts = .Utility .EOFT) :
    ts = [] ∨ GetToken (ts ++ [.Utility .NEWLINE]) = .Utility .EOFT := by
  cases ts with
  | nil => exact Or.inl rfl
  | cons t1 ts1 => exact Or.inr h

theorem parseStatement_append_newline (fuel : Nat) (ts : TokenStream) :
    parseStatement fuel (ts ++ [.Utility .NEWLINE]) = (parseStatement fuel ts).appendNewline := by
  cases fuel with
  | zero => simp only [parseStatement, ParseResult.appendNewline]
  | succ fuel =>
    by_cases h : GetToken ts = .Utility .EOFT
    · rcases GetToken_append_newline_of_end ts h with h1 | h1 <;>
        simp [parseStatement, h, h1, ParseResult.appendNewline]
    · simp only [parseStatement, GetToken_append_newline ts h, Next_append_newline ts h]
      split
      · exact appendNewline_bind ((parseExpression_append_newline fuel).1 _)
          (fun expr ts1 => rfl)
      · refine appendNewline_ite
          (not_congr (GetToken_append_newline_iff _ _ (by simp) (by simp)))
          (fun _ => rfl) (fun h2 => ?_)
        rw [Next_append_newline _ (by rw [not_not.1 h2]; simp)]
        exact appendNewline_bind ((parseExpression_append_newline fuel).1 _)
          (fun expr ts2 => rfl)
      · rfl

theorem parseParamsLoop_append_newline : ∀ (n : Nat) (ts : TokenStream), ts.length ≤ n →
    ∀ params : List String, parseParamsLoop params (ts ++ [.Utility .NEWLINE])
      = (parseParamsLoop params ts).appendNewline := by
  intro n
  induction n with
  | zero =>
    intro ts hlen params
    have : ts = [] := List.eq_nil_of_length_eq_zero (by omega)
    subst this
    simp [parseParamsLoop, ParseResult.appendNewline]
  | succ n ih =>
    intro ts hlen params
    rcases ts with _ | ⟨t, ts1⟩
    · simp [parseParamsLoop, ParseResult.appendNewline]
    · by_cases ht : t = .Embracing .COMMA
      · subst ht
        rcases ts1 with _ | ⟨t1, ts2⟩
        · simp [parseParamsLoop, ParseResult.appendNewline]
        · cases t1 with
          | Symbol name =>
            have hlen2 : ts2.length ≤ n := by simp only [List.length_cons] at hlen; omega
            simp only [List.cons_append, parseParamsLoop]
            exact ih ts2 hlen2 _
          | Constant v => simp [parseParamsLoop, ParseResult.appendNewline]
          | Embracing e => simp [parseParamsLoop, ParseResult.appendNewline]
          | Operator o => simp [parseParamsLoop, ParseResult.appendNewline]
          | Utility u => simp [parseParamsLoop, ParseResult.appendNewline]
      · have h1 : ∀ l : TokenStream, parseParamsLoop params (t :: l) = .ok params (t :: l) := by
          intro l
          unfold parseParamsLoop
          split
          · rename_i heq
            exact absurd (List.cons.inj heq).1 ht
          · rfl
        rw [List.cons_append, h1, h1]
        rfl

theorem parseParams_append_newline (ts : TokenStream) :
    parseParams (ts ++ [.Utility .NEWLINE]) = (parseParams ts).appendNewline := by
  by_cases h : GetToken ts = .Utility .EOFT
  · rcases GetToken_append_newline_of_end ts h with h1 | h1 <;>
      simp [parseParams, h, h1, ParseResult.appendNewline]
  · simp only [parseParams, GetToken_append_newline ts h, Next_append_newline ts h]
    refine appendNewline_ite Iff.rfl (fun _ => ?_) (fun _ => rfl)
    split
    · exact parseParamsLoop_append_newline _ _ (le_refl _) _
    · rfl

theorem skipNewlines_append_newline : ∀ ts : TokenStream,
    (skipNewlines ts = [] → skipNewlines (ts ++ [.Utility .NEWLINE]) = []) ∧
    (skipNewlines ts ≠ [] →
      skipNewlines (ts ++ [.Utility .NEWLINE]) = skipNewlines ts ++ [.Utility .NEWLINE]) := by
  intro ts
  induction ts with
  | nil => simp [skipNewlines]
  | cons t ts1 ih =>
    by_cases ht : t = .Utility .NEWLINE
    · subst ht
      simpa only [List.cons_append, skipNewlines] using ih
    · have h1 : ∀ l : TokenStream, skipNewlines (t :: l) = t :: l := by
        intro l
        unfold skipNewlines
        split
        · rename_i heq
          exact absurd (List.cons.inj heq).1 ht
        · rfl
      rw [List.cons_append, h1, h1]
      simp

/-! ### Results that succeed together -/

theorem SameSuccess.of_append {α : Type} {Q : α → Prop} {r r1 : ParseResult α}
    (h : r1 = r.appendNewline) : SameSuccess Q r r1 := by
  subst h
  cases r with
  | ok a rest =>
    refine ⟨fun a1 rest1 h1 => ⟨_, ?_, Or.inl rfl⟩, fun a1 rest1 h1 _ => ?_⟩
    · cases h1; rfl
    · cases h1; exact ⟨rest, rfl, Or.inl rfl⟩
  | error e => exact ⟨fun a rest h => (by cases h), fun a rest h => (by cases h)⟩
  | outOfFuel => exact ⟨fun a rest h => (by cases h), fun a rest h => (by cases h)⟩

theorem SameSuccess.of_not_ok {α : Type} {Q : α → Prop} {r r1 : ParseResult α}
    (h : ∀ a rest, r ≠ .ok a rest) (h1 : ∀ a rest, Q a → r1 ≠ .ok a rest) :
    SameSuccess Q r r1 :=
  ⟨fun a rest hr => absurd hr (h a rest), fun a rest hr hq => absurd hr (h1 a rest hq)⟩

theorem SameSuccess.error {α : Type} {Q : α → Prop} (e e1 : Error) :
    SameSuccess Q (.error e : ParseResult α) (.error e1) :=
  SameSuccess.of_not_ok (fun a rest h => (by cases h)) (fun a rest _ h => (by cases h))

theorem SameSuccess.ok {α : Type} {Q : α → Prop} (a : α) {rest rest1 : TokenStream}
    (h : NewlineAbsorbed rest rest1) : SameSuccess Q (.ok a rest) (.ok a rest1) := by
  refine ⟨fun a1 rest2 h1 => ?_, fun a1 rest2 h1 _ => ?_⟩
  · cases h1; exact ⟨rest1, rfl, h⟩
  · cases h1; exact ⟨rest, rfl, h⟩

theorem SameSuccess.same_nil {α : Type} {Q : α → Prop} {r : ParseResult α}
    (h : ∀ a rest, r = .ok a rest → rest = []) : SameSuccess Q r r :=
  ⟨fun a rest hr => ⟨rest, hr, Or.inr ⟨h a rest hr, h a rest hr⟩⟩,
    fun a rest hr _ => ⟨rest, hr, Or.inr ⟨h a rest hr, h a rest hr⟩⟩⟩

theorem SameSuccess.ite {α : Type} {Q : α → Prop} {c c1 : Prop} [Decidable c] [Decidable c1]
    {a a1 b b1 : ParseResult α} (hc : c1 ↔ c) (ht : c → SameSuccess Q a a1)
    (he : ¬ c → SameSuccess Q b b1) :
    SameSuccess Q (if c then a else b) (if c1 then a1 else b1) := by
  by_cases h : c
  · rw [if_pos h, if_pos (hc.2 h)]; exact ht h
  · rw [if_neg h, if_neg (fun h1 => h (hc.1 h1))]; exact he h

theorem SameSuccess.bind {α β : Type} {P : α → Prop} {Q : β → Prop} {r r1 : ParseResult α}
    {k k1 : α → TokenStream → ParseResult β} (h : SameSuccess P r r1)
    (hk : ∀ a rest rest1, NewlineAbsorbed rest rest1 → SameSuccess Q (k a rest) (k1 a rest1))
    (hP : ∀ a rest1 b restb, k1 a rest1 = .ok b restb → Q b → P a) :
    SameSuccess Q (r.bind k) (r1.bind k1) := by
  refine ⟨fun b restb hb => ?_, fun b restb hb hq => ?_⟩
  · cases hr : r with
    | ok a rest =>
      obtain ⟨rest1, hr1, hrel⟩ := h.1 a rest hr
      rw [hr] at hb
      rw [hr1]
      exact (hk a rest rest1 hrel).1 b restb hb
    | error e => rw [hr] at hb; cases hb
    | outOfFuel => rw [hr] at hb; cases hb
  · cases hr1 : r1 with
    | ok a rest1 =>
      rw [hr1] at hb
      obtain ⟨rest, hr, hrel⟩ := h.2 a rest1 hr1 (hP a rest1 b restb hb hq)
      rw [hr]
      exact (hk a rest rest1 hrel).2 b restb hb hq
    | error e => rw [hr1] at hb; cases hb
    | outOfFuel => rw [hr1] at hb; cases hb

theorem SameSuccess.bind_append {α β : Type} {Q : β → Prop} {r r1 : ParseResult α}
    {k k1 : α → TokenStream → ParseResult β} (h : r1 = r.appendNewline)
    (hk : ∀ a rest, SameSuccess Q (k a rest) (k1 a (rest ++ [.Utility .NEWLINE]))) :
    SameSuccess Q (r.bind k) (r1.bind k1) := by
  subst h
  cases r with
  | ok a rest => exact hk a rest
  | error e => exact SameSuccess.error e e
  | outOfFuel =>
    exact ⟨fun a rest h => (by cases h), fun a rest h => (by cases h)⟩
/-- The end of `parseBodyLoop` after the return expression. -/
theorem returnEnd_SameSuccess {Q : List StatementAST × Option ExprAST → Prop}
    (body : List StatementAST) (return_expr : ExprAST) (ts2 : TokenStream) :
    SameSuccess Q
      (if GetToken ts2 ≠ .Utility .NEWLINE ∧ GetToken ts2 ≠ .Utility .EOFT then
          .error (.SyntaxError "Expected newline after return statement")
        else if !IsEnd ts2 then .ok (body, some return_expr) (Next ts2)
        else .ok (body, some return_expr) ts2)
      (if GetToken (ts2 ++ [.Utility .NEWLINE]) ≠ .Utility .NEWLINE ∧
            GetToken (ts2 ++ [.Utility .NEWLINE]) ≠ .Utility .EOFT then
          .error (.SyntaxError "Expected newline after return statement")
        else if !IsEnd (ts2 ++ [.Utility .NEWLINE]) then
          .ok (body, some return_expr) (Next (ts2 ++ [.Utility .NEWLINE]))
        else .ok (body, some return_expr) (ts2 ++ [.Utility .NEWLINE])) := by
  cases ts2 with
  | nil =>
    simp only [List.nil_append, GetToken, IsEnd, Next]
    exact SameSuccess.ok _ (Or.inr ⟨rfl, rfl⟩)
  | cons t tl =>
    simp only [List.cons_append, GetToken, IsEnd, Next]
    refine SameSuccess.ite Iff.rfl (fun _ => SameSuccess.error _ _) (fun _ => ?_)
    exact SameSuccess.ite Iff.rfl (fun _ => SameSuccess.ok _ (Or.inl rfl))
      (fun _ => SameSuccess.ok _ (Or.inl rfl))

theorem parseBodyLoop_nil (fuel : Nat) (body : List StatementAST) :
    parseBodyLoop fuel body [] = .outOfFuel ∨ parseBodyLoop fuel body [] = .ok (body, none) [] := by
  cases fuel with
  | zero => exact Or.inl (by simp only [parseBodyLoop])
  | succ fuel => exact Or.inr (by simp [parseBodyLoop, IsEnd, GetToken])

theorem parseFunctionDef_append_newline : ∀ fuel : Nat,
    (∀ ts, SameSuccess (fun _ => True) (parseFunctionDef fuel ts)
      (parseFunctionDef fuel (ts ++ [.Utility .NEWLINE]))) ∧
    (∀ body ts, SameSuccess (fun p => p.2 ≠ none) (parseBodyLoop fuel body ts)
      (parseBodyLoop fuel body (ts ++ [.Utility .NEWLINE]))) := by
  intro fuel
  induction fuel with
  | zero =>
    refine ⟨?_, ?_⟩ <;> intros <;> simp only [parseFunctionDef, parseBodyLoop] <;>
      exact ⟨fun a rest h => (by cases h), fun a rest h => (by cases h)⟩
  | succ fuel ih =>
    obtain ⟨ihF, ihB⟩ := ih
    refine ⟨?_, ?_⟩
    · intro ts
      simp only [parseFunctionDef]
      refine SameSuccess.ite (not_congr (GetToken_append_newline_iff ts _ (by simp) (by simp)))
        (fun _ => SameSuccess.error _ _) (fun h => ?_)
      rw [Next_append_newline ts (by rw [not_not.1 h]; simp)]
      by_cases hend : GetToken (Next ts) = .Utility .EOFT
      · rcases GetToken_append_newline_of_end _ hend with h1 | h1 <;>
          simp only [hend, h1] <;> exact SameSuccess.error _ _
      · rw [GetToken_append_newline _ hend, Next_append_newline _ hend]
        split
        · refine SameSuccess.ite
            (not_congr (GetToken_append_newline_iff _ _ (by simp) (by simp)))
            (fun _ => SameSuccess.error _ _) (fun h2 => ?_)
          rw [Next_append_newline _ (by rw [not_not.1 h2]; simp)]
          refine SameSuccess.bind_append (parseParams_append_newline _) (fun params ts3 => ?_)
          refine SameSuccess.ite
            (not_congr (GetToken_append_newline_iff _ _ (by simp) (by simp)))
            (fun _ => SameSuccess.error _ _) (fun h3 => ?_)
          rw [Next_append_newline _ (by rw [not_not.1 h3]; simp)]
          by_cases hend4 : GetToken (Next ts3) = .Utility .EOFT
          · rcases GetToken_eq_EOFT_cases _ hend4 with h4 | h4
            · rw [h4]
              refine SameSuccess.of_not_ok (fun a rest hr => ?_) (fun a rest _ hr => ?_)
              · simp [GetToken] at hr
              · rcases parseBodyLoop_nil fuel [] with hb | hb <;>
                  simp [GetToken, Next, hb, ParseResult.bind] at hr
            · simp only [hend4, h4]
              rw [if_pos (by simp), if_pos (by simp)]
              exact SameSuccess.error _ _
          · rw [GetToken_append_newline _ hend4, Next_append_newline _ hend4]
            refine SameSuccess.ite Iff.rfl (fun _ => SameSuccess.error _ _) (fun _ => ?_)
            refine SameSuccess.bind (ihB _ _) (fun parsed rest rest1 hrel => ?_)
              (fun parsed rest1 f restf hf _ => ?_)
            · obtain ⟨b, oe⟩ := parsed
              cases oe with
              | none => exact SameSuccess.error _ _
              | some e => exact SameSuccess.ok _ hrel
            · obtain ⟨b, oe⟩ := parsed
              cases oe with
              | none => cases hf
              | some e => simp
        · exact SameSuccess.error _ _
    · intro body ts
      rcases ts with _ | ⟨t, tl⟩
      · have h1 : parseBodyLoop (fuel + 1) body [] = .ok (body, none) [] := by
          simp [parseBodyLoop, IsEnd, GetToken]
        have h2 : parseBodyLoop (fuel + 1) body ([] ++ [.Utility .NEWLINE])
            = .ok (body, none) [] := by
          simp [parseBodyLoop, IsEnd, GetToken, skipNewlines]
        rw [h1, h2]
        exact SameSuccess.ok _ (Or.inr ⟨rfl, rfl⟩)
      · simp only [parseBodyLoop]
        have hIsEnd : IsEnd (t :: tl ++ [.Utility .NEWLINE]) = IsEnd (t :: tl) := rfl
        rw [hIsEnd]
        refine SameSuccess.ite Iff.rfl (fun _ => SameSuccess.ok _ (Or.inl rfl)) (fun _ => ?_)
        by_cases hs : skipNewlines (t :: tl) = []
        · rw [(skipNewlines_append_newline _).1 hs, hs]
          simp only [IsEnd, GetToken, beq_self_eq_true, if_true]
          exact SameSuccess.ok _ (Or.inr ⟨rfl, rfl⟩)
        · rw [(skipNewlines_append_newline _).2 hs]
          generalize skipNewlines (t :: tl) = ts1 at hs
          obtain ⟨t1, tl1, rfl⟩ := List.exists_cons_of_ne_nil hs
          have hIsEnd1 : IsEnd (t1 :: tl1 ++ [.Utility .NEWLINE]) = IsEnd (t1 :: tl1) := rfl
          have hGet1 : GetToken (t1 :: tl1 ++ [.Utility .NEWLINE]) = GetToken (t1 :: tl1) := rfl
          have hNext1 : Next (t1 :: tl1 ++ [.Utility .NEWLINE])
              = Next (t1 :: tl1) ++ [.Utility .NEWLINE] := rfl
          rw [hIsEnd1, hGet1, hNext1]
          refine SameSuccess.ite Iff.rfl (fun _ => SameSuccess.ok _ (Or.inl rfl)) (fun _ => ?_)
          refine SameSuccess.ite Iff.rfl (fun _ => ?_) (fun _ => ?_)
          · refine SameSuccess.bind (ihF _) (fun nested rest rest1 hrel => ?_)
              (fun _ _ _ _ _ _ => trivial)
            rcases hrel with rfl | ⟨rfl, rfl⟩
            · exact ihB _ _
            · refine SameSuccess.same_nil (fun a rest hr => ?_)
              rcases parseBodyLoop_nil fuel (body ++ [.FunctionDef nested]) with hb | hb
              · rw [hb] at hr; cases hr
              · rw [hb] at hr; cases hr; rfl
          · refine SameSuccess.ite Iff.rfl (fun _ => ?_) (fun _ => ?_)
            · exact SameSuccess.bind_append ((parseExpression_append_newline fuel).1 _)
                (fun e ts2 => returnEnd_SameSuccess body e ts2)
            · refine SameSuccess.bind_append (parseStatement_append_newline fuel _)
                (fun stmt ts2 => ?_)
              rcases ts2 with _ | ⟨t2, tl2⟩
              · refine SameSuccess.of_not_ok (fun a rest hr => ?_) (fun a rest hq hr => ?_)
                · simp [GetToken] at hr
                · rcases parseBodyLoop_nil fuel (body ++ [stmt]) with hb | hb
                  · simp [GetToken, Next, hb] at hr
                  · simp only [List.nil_append, GetToken, Next, hb, ne_eq, not_true_eq_false,
                      if_false] at hr
                    cases hr
                    exact hq rfl
              · have hGet2 : GetToken (t2 :: tl2 ++ [.Utility .NEWLINE])
                    = GetToken (t2 :: tl2) := rfl
                have hNext2 : Next (t2 :: tl2 ++ [.Utility .NEWLINE])
                    = Next (t2 :: tl2) ++ [.Utility .NEWLINE] := rfl
                rw [hGet2, hNext2]
                exact SameSuccess.ite Iff.rfl (fun _ => SameSuccess.error _ _)
                  (fun _ => ihB _ _)
theorem parseProgramLoop_nil (fuel : Nat) (functions : List FunctionDefAST) :
    parseProgramLoop fuel functions [] = .outOfFuel ∨
      parseProgramLoop fuel functions [] = .ok functions [] := by
  cases fuel with
  | zero => exact Or.inl (by simp only [parseProgramLoop])
  | succ fuel => exact Or.inr (by simp [parseProgramLoop, IsEnd, GetToken])

theorem parseProgramLoop_append_newline : ∀ (fuel : Nat) (functions : List FunctionDefAST)
    (ts : TokenStream),
    SameSuccess (fun _ => True) (parseProgramLoop fuel functions ts)
      (parseProgramLoop fuel functions (ts ++ [.Utility .NEWLINE])) := by
  intro fuel
  induction fuel with
  | zero =>
    intro functions ts
    simp only [parseProgramLoop]
    exact ⟨fun a rest h => (by cases h), fun a rest h => (by cases h)⟩
  | succ fuel ih =>
    intro functions ts
    rcases ts with _ | ⟨t, tl⟩
    · have h1 : parseProgramLoop (fuel + 1) functions [] = .ok functions [] := by
        simp [parseProgramLoop, IsEnd, GetToken]
      have h2 : parseProgramLoop (fuel + 1) functions ([] ++ [.Utility .NEWLINE])
          = .ok functions [] := by
        simp [parseProgramLoop, IsEnd, GetToken, skipNewlines]
      rw [h1, h2]
      exact SameSuccess.ok _ (Or.inr ⟨rfl, rfl⟩)
    · simp only [parseProgramLoop]
      have hIsEnd : IsEnd (t :: tl ++ [.Utility .NEWLINE]) = IsEnd (t :: tl) := rfl
      rw [hIsEnd]
      refine SameSuccess.ite Iff.rfl (fun _ => SameSuccess.ok _ (Or.inl rfl)) (fun _ => ?_)
      by_cases hs : skipNewlines (t :: tl) = []
      · rw [(skipNewlines_append_newline _).1 hs, hs]
        simp only [IsEnd, GetToken, beq_self_eq_true, if_true]
        exact SameSuccess.ok _ (Or.inr ⟨rfl, rfl⟩)
      · rw [(skipNewlines_append_newline _).2 hs]
        generalize skipNewlines (t :: tl) = ts1 at hs
        obtain ⟨t1, tl1, rfl⟩ := List.exists_cons_of_ne_nil hs
        have hIsEnd1 : IsEnd (t1 :: tl1 ++ [.Utility .NEWLINE]) = IsEnd (t1 :: tl1) := rfl
        have hGet1 : GetToken (t1 :: tl1 ++ [.Utility .NEWLINE]) = GetToken (t1 :: tl1) := rfl
        rw [hIsEnd1, hGet1]
        refine SameSuccess.ite Iff.rfl (fun _ => SameSuccess.ok _ (Or.inl rfl)) (fun _ => ?_)
        refine SameSuccess.ite Iff.rfl (fun _ => ?_) (fun _ => SameSuccess.error _ _)
        refine SameSuccess.bind ((parseFunctionDef_append_newline fuel).1 _)
          (fun f rest rest1 hrel => ?_) (fun _ _ _ _ _ _ => trivial)
        rcases hrel with rfl | ⟨rfl, rfl⟩
        · exact ih _ _
        · refine SameSuccess.same_nil (fun a rest hr => ?_)
          rcases parseProgramLoop_nil fuel (functions ++ [f]) with hb | hb
          · rw [hb] at hr; cases hr
          · rw [hb] at hr; cases hr; rfl

theorem parseProgramLoop_mono {fuel fuel1 : Nat} {functions prog : List FunctionDefAST}
    {ts rest : TokenStream} (h : parseProgramLoop fuel functions ts = .ok prog rest)
    (hle : fuel ≤ fuel1) : parseProgramLoop fuel1 functions ts = .ok prog rest :=
  ok_of_below (below_of_le (fun n => parseProgramLoop n functions ts)
    (fun n => parseProgramLoop_below n functions ts) fuel fuel1 hle) h

/-- A NEWLINE token added at the end of the tokens of a program changes
neither whether it parses nor the Program it parses to. -/
theorem parseProgram_append_newline (ts : TokenStream) (prog : List FunctionDefAST) :
    (∃ rest, parseProgram ts = .ok prog rest) ↔
      (∃ rest, parseProgram (ts ++ [.Utility .NEWLINE]) = .ok prog rest) := by
  have hle : parseFuel ts.length ≤ parseFuel (ts ++ [Token.Utility .NEWLINE]).length := by
    simp only [parseFuel, List.length_append, List.length_singleton]
    omega
  constructor
  · rintro ⟨rest, h⟩
    obtain ⟨rest1, h1, _⟩ := (parseProgramLoop_append_newline _ [] ts).1 prog rest h
    exact ⟨rest1, parseProgramLoop_mono h1 hle⟩
  · rintro ⟨rest1, h1⟩
    obtain ⟨rest, h, _⟩ := (parseProgramLoop_append_newline _ [] ts).2 prog rest1 h1 trivial
    refine ⟨rest, ?_⟩
    have hb := below_of_le (fun n => parseProgramLoop n [] ts)
      (fun n => parseProgramLoop_below n [] ts) _ _ hle
    rcases hb with hb | hb
    · have hspec := parseProgram_spec ts
      unfold parseProgram at hspec
      have hb1 : parseProgramLoop (parseFuel ts.length) [] ts = .outOfFuel := hb
      rw [hb1] at hspec
      simp only [ParseSpec, parseFuel] at hspec
      omega
    · exact hb.trans h

/-- One pass of the statement loop of `parseFunctionDef` that meets `return`. -/
theorem parseBodyLoop_return (fuel : Nat) (body : List StatementAST) (ts ts2 : TokenStream)
    (return_expr : ExprAST) (hret : GetToken (skipNewlines ts) = .Utility .RETURN)
    (hexpr : parseExpression fuel (Next (skipNewlines ts)) = .ok return_expr ts2) :
    (GetToken ts2 ≠ .Utility .NEWLINE → GetToken ts2 ≠ .Utility .EOFT →
      parseBodyLoop (fuel + 1) body ts
        = .error (.SyntaxError "Expected newline after return statement")) ∧
    (GetToken ts2 = .Utility .NEWLINE →
      parseBodyLoop (fuel + 1) body ts = .ok (body, some return_expr) (Next ts2)) ∧
    (GetToken ts2 = .Utility .EOFT →
      parseBodyLoop (fuel + 1) body ts = .ok (body, some return_expr) ts2) := by
  have h1 : ¬ GetToken (skipNewlines ts) = .Utility .EOFT := by simp [hret]
  have hend : ¬ GetToken ts = .Utility .EOFT := by
    intro h
    rcases ts with _ | ⟨t, tl⟩
    · exact h1 rfl
    · have ht : t = .Utility .EOFT := h
      subst ht
      exact h1 rfl
  refine ⟨fun hn he => ?_, fun hn => ?_, fun he => ?_⟩
  · simp [parseBodyLoop, IsEnd, hend, hret, hexpr, ParseResult.bind, hn, he]
  · simp [parseBodyLoop, IsEnd, hend, hret, hexpr, ParseResult.bind, hn]
  · simp [parseBodyLoop, IsEnd, hend, hret, hexpr, ParseResult.bind, he]

/-- A statement loop that ends with a return expression read it after a
`return` and found NEWLINE or the end of the input after it. -/
theorem parseBodyLoop_some : ∀ (fuel : Nat) (body : List StatementAST) (ts rest : TokenStream)
    (b : List StatementAST) (e : ExprAST),
    parseBodyLoop fuel body ts = .ok (b, some e) rest →
    ∃ fuel1 ts1 ts2, GetToken ts1 = .Utility .RETURN ∧
      parseExpression fuel1 (Next ts1) = .ok e ts2 ∧
      ((GetToken ts2 = .Utility .NEWLINE ∧ rest = Next ts2) ∨
        (GetToken ts2 = .Utility .EOFT ∧ rest = ts2)) := by
  intro fuel
  induction fuel with
  | zero =>
    intro body ts rest b e h
    simp only [parseBodyLoop] at h
    cases h
  | succ fuel ih =>
    intro body ts rest b e h
    simp only [parseBodyLoop] at h
    split at h
    · cases h
    · split at h
      · cases h
      · split at h
        · cases hf : parseFunctionDef fuel (skipNewlines ts) with
          | ok f ts2 =>
            rw [hf] at h
            exact ih _ _ _ _ _ h
          | error err => rw [hf] at h; cases h
          | outOfFuel => rw [hf] at h; cases h
        · split at h
          · rename_i hret
            cases he : parseExpression fuel (Next (skipNewlines ts)) with
            | ok e1 ts2 =>
              rw [he] at h
              simp only [ParseResult.bind] at h
              split at h
              · cases h
              · rename_i hterm
                split at h
                · rename_i hnotend
                  cases h
                  refine ⟨fuel, skipNewlines ts, _, hret, he, Or.inl ⟨?_, rfl⟩⟩
                  have hne : GetToken ts2 ≠ .Utility .EOFT := by
                    simpa [IsEnd] using hnotend
                  by_contra hnl
                  exact hterm ⟨hnl, hne⟩
                · rename_i hisend
                  cases h
                  refine ⟨fuel, skipNewlines ts, _, hret, he, Or.inr ⟨?_, rfl⟩⟩
                  simpa [IsEnd] using hisend
            | error err => rw [he] at h; cases h
            | outOfFuel => rw [he] at h; cases h
          · cases hs : parseStatement fuel (skipNewlines ts) with
            | ok stmt ts2 =>
              rw [hs] at h
              simp only [ParseResult.bind] at h
              split at h
              · cases h
              · exact ih _ _ _ _ _ h
            | error err => rw [hs] at h; cases h
            | outOfFuel => rw [hs] at h; cases h

theorem parseFunctionDef_return_end (fuel : Nat) (ts rest : TokenStream) (f : FunctionDefAST)
    (h : parseFunctionDef fuel ts = .ok f rest) :
    ∃ fuel1 ts1 ts2, GetToken ts1 = .Utility .RETURN ∧
      parseExpression fuel1 (Next ts1) = .ok f.getReturnExpr ts2 ∧
      ((GetToken ts2 = .Utility .NEWLINE ∧ rest = Next ts2) ∨
        (GetToken ts2 = .Utility .EOFT ∧ rest = ts2)) := by
  cases fuel with
  | zero => simp only [parseFunctionDef] at h; cases h
  | succ fuel =>
    simp only [parseFunctionDef] at h
    split at h
    · cases h
    · split at h
      · split at h
        · cases h
        · cases hp : parseParams (Next (Next (Next ts))) with
          | ok params ts3 =>
            rw [hp] at h
            simp only [ParseResult.bind] at h
            split at h
            · cases h
            · split at h
              · cases h
              · cases hb : parseBodyLoop fuel [] (Next (Next ts3)) with
                | ok parsed ts5 =>
                  rw [hb] at h
                  obtain ⟨b, oe⟩ := parsed
                  cases oe with
                  | none => cases h
                  | some e =>
                    cases h
                    exact parseBodyLoop_some fuel [] _ _ b e hb
                | error err => rw [hb] at h; cases h
                | outOfFuel => rw [hb] at h; cases h
          | error err => rw [hp] at h; cases h
          | outOfFuel => rw [hp] at h; cases h
      · cases h
theorem new_srcReturnTwoExpressions :
    Interpreter.new srcReturnTwoExpressions
      = some (.error (.SyntaxError "Expected newline after return statement")) := by rfl

theorem new_srcReturnThenParen :
    Interpreter.new srcReturnThenParen
      = some (.error (.SyntaxError "Expected newline after return statement")) := by rfl

theorem tokens_srcTrailingNewline :
    ∃ ts, Tokenizer.tokens srcNoTrailingNewline = some (.ok ts) ∧
      Tokenizer.tokens srcTrailingNewline = some (.ok (ts ++ [.Utility .NEWLINE])) :=
  ⟨_, by rfl, by rfl⟩

theorem new_srcNoTrailingNewline :
    Interpreter.new srcNoTrailingNewline = some (.ok (Interpreter.load addProgram)) := by rfl

theorem new_srcTrailingNewline :
    Interpreter.new srcTrailingNewline = some (.ok (Interpreter.load addProgram)) := by rfl

/-- C17: in the statement loop of a function definition, once the expression
after `return` is read, a next token that is neither NEWLINE nor end of input
is the SyntaxError "Expected newline after return statement" (`return 1 2`,
`return a )`); NEWLINE is consumed and end of input is accepted in its place,
the loop ending in both cases with the same body and return expression. Every
definition the parser accepts had NEWLINE or end of input after its return
expression, and a NEWLINE token added at the end of the tokens of a program
changes neither whether it parses nor the Program: `def f(a,b) \n return a+b`
with and without a trailing newline give the same Program. -/
theorem C17_return_ends_at_newline_or_end_of_input :
    (∀ (fuel : Nat) (body : List StatementAST) (ts ts2 : TokenStream) (return_expr : ExprAST),
      GetToken (skipNewlines ts) = .Utility .RETURN →
      parseExpression fuel (Next (skipNewlines ts)) = .ok return_expr ts2 →
      (GetToken ts2 ≠ .Utility .NEWLINE → GetToken ts2 ≠ .Utility .EOFT →
        parseBodyLoop (fuel + 1) body ts
          = .error (.SyntaxError "Expected newline after return statement")) ∧
      (GetToken ts2 = .Utility .NEWLINE →
        parseBodyLoop (fuel + 1) body ts = .ok (body, some return_expr) (Next ts2)) ∧
      (GetToken ts2 = .Utility .EOFT →
        parseBodyLoop (fuel + 1) body ts = .ok (body, some return_expr) ts2)) ∧
    (∀ (fuel : Nat) (ts rest : TokenStream) (f : FunctionDefAST),
      parseFunctionDef fuel ts = .ok f rest →
      ∃ fuel1 ts1 ts2, GetToken ts1 = .Utility .RETURN ∧
        parseExpression fuel1 (Next ts1) = .ok f.getReturnExpr ts2 ∧
        ((GetToken ts2 = .Utility .NEWLINE ∧ rest = Next ts2) ∨
          (GetToken ts2 = .Utility .EOFT ∧ rest = ts2))) ∧
    (∀ (ts : TokenStream) (prog : List FunctionDefAST),
      (∃ rest, parseProgram ts = .ok prog rest) ↔
        (∃ rest, parseProgram (ts ++ [.Utility .NEWLINE]) = .ok prog rest)) ∧
    (Interpreter.new srcReturnTwoExpressions
        = some (.error (.SyntaxError "Expected newline after return statement")) ∧
      Interpreter.new srcReturnThenParen
        = some (.error (.SyntaxError "Expected newline after return statement")) ∧
      (∃ ts, Tokenizer.tokens srcNoTrailingNewline = some (.ok ts) ∧
        Tokenizer.tokens srcTrailingNewline = some (.ok (ts ++ [.Utility .NEWLINE]))) ∧
      Interpreter.new srcNoTrailingNewline = some (.ok (Interpreter.load addProgram)) ∧
      Interpreter.new srcTrailingNewline = some (.ok (Interpreter.load addProgram))) :=
  ⟨fun fuel body ts ts2 return_expr hret hexpr =>
      parseBodyLoop_return fuel body ts ts2 return_expr hret hexpr,
    fun fuel ts rest f h => parseFunctionDef_return_end fuel ts rest f h,
    parseProgram_append_newline,
    new_srcReturnTwoExpressions, new_srcReturnThenParen, tokens_srcTrailingNewline,
    new_srcNoTrailingNewline, new_srcTrailingNewline⟩

theorem C17_return_ends_at_newline_or_end_of_input_witness :
    parseBodyLoop (6 + 1) [] [.Utility .RETURN, .Constant 1, .Constant 2]
        = .error (.SyntaxError "Expected newline after return statement") ∧
    parseBodyLoop (6 + 1) [] [.Utility .RETURN, .Symbol "a", .Embracing .RPAREN]
        = .error (.SyntaxError "Expected newline after return statement") ∧
    parseBodyLoop (6 + 1) [] [.Utility .RETURN, .Symbol "a"]
        = .ok ([], some (.Identifier "a")) [] :=
  ⟨(C17_return_ends_at_newline_or_end_of_input.1 6 []
      [.Utility .RETURN, .Constant 1, .Constant 2] [.Constant 2] (.Number 1) rfl (by rfl)).1
      (by decide) (by decide),
    (C17_return_ends_at_newline_or_end_of_input.1 6 []
      [.Utility .RETURN, .Symbol "a", .Embracing .RPAREN] [.Embracing .RPAREN]
      (.Identifier "a") rfl (by rfl)).1 (by decide) (by decide),
    (C17_return_ends_at_newline_or_end_of_input.1 6 []
      [.Utility .RETURN, .Symbol "a"] [] (.Identifier "a") rfl (by rfl)).2.2 rfl⟩
/-! ## Several top-level definitions with one name -/

theorem getFunction_registerAll_eq : ∀ (functions : List FunctionDefAST) (env : Environment)
    (name : String),
    (Interpreter.registerAll functions env).getFunction name
      = match lastNamed functions name with
        | some f => some f.clone
        | none => env.getFunction name := by
  intro functions
  induction functions with
  | nil => intro env name; rfl
  | cons func functions ih =>
    intro env name
    simp only [Interpreter.registerAll]
    rw [ih]
    have hlast : lastNamed (func :: functions) name
        = match lastNamed functions name with
          | some f => some f
          | none => if func.getName = name then some func else none := by
      simp only [lastNamed, List.reverse_cons, List.find?_append]
      cases List.find? (fun f => decide (f.getName = name)) functions.reverse with
      | some f => rfl
      | none =>
        by_cases hn : func.getName = name
        · simp [List.find?, hn]
        · simp [List.find?, hn]
    rw [hlast]
    cases lastNamed functions name with
    | some f => rfl
    | none =>
      by_cases hn : func.getName = name
      · simp only [hn, if_true]
        rw [← hn]
        exact Environment.getFunction_defineFunction_self _ _ _
      · simp only [hn, if_false]
        exact Environment.getFunction_defineFunction_ne _ _ _ _ hn

theorem lastNamed_eq_none_iff (functions : List FunctionDefAST) (name : String) :
    lastNamed functions name = none ↔ ∀ f ∈ functions, f.getName ≠ name := by
  simp [lastNamed, List.find?_eq_none]

theorem lastNamed_eq_some (functions : List FunctionDefAST) (name : String)
    (f : FunctionDefAST) (h : lastNamed functions name = some f) :
    ∃ before after, functions = before ++ f :: after ∧ f.getName = name ∧
      ∀ g ∈ after, g.getName ≠ name := by
  simp only [lastNamed] at h
  obtain ⟨hp, as, bs, hrev, hbefore⟩ := List.find?_eq_some.1 h
  refine ⟨bs.reverse, as.reverse, ?_, by simpa using hp, ?_⟩
  · have := congrArg List.reverse hrev
    simpa using this
  · intro g hg
    have := hbefore g (List.mem_reverse.1 hg)
    simpa using this

theorem new_srcDuplicateTop :
    Interpreter.new srcDuplicateTop = some (.ok (Interpreter.load duplicateTopProgram)) := by rfl

theorem run_duplicateTop_one :
    Interpreter.run 1 (Interpreter.load duplicateTopProgram) "f" [7]
      = some (Interpreter.load duplicateTopProgram, .ok 7) := by rfl

theorem run_duplicateTop_none (fuel : Nat) :
    Interpreter.run fuel (Interpreter.load duplicateTopProgram) "f" []
      = some (Interpreter.load duplicateTopProgram,
          .error (.RuntimeError "Incorrect number of arguments for function: f")) := by rfl

/-- C29: when a program has several top-level definitions with one name, the
load registers the last one in source order: after the load the global
function table gives, for each name, a structural copy of the last top-level
definition with that name, and nothing for a name without a top-level
definition. For `def f() \n return 1` followed by `def f(a) \n return a` the
load succeeds, `run("f",[7])` returns 7 and `run("f",[])` is the RuntimeError
of the arity check. -/
theorem C29_last_top_level_definition_is_registered :
    (∀ (functions : List FunctionDefAST) (name : String),
      (Interpreter.load functions).global_env.getFunction name = lastNamed functions name) ∧
    (∀ (functions : List FunctionDefAST) (name : String) (f : FunctionDefAST),
      (Interpreter.load functions).global_env.getFunction name = some f →
      ∃ before after, functions = before ++ f :: after ∧ f.getName = name ∧
        ∀ g ∈ after, g.getName ≠ name) ∧
    (∀ (functions : List FunctionDefAST) (name : String),
      (Interpreter.load functions).global_env.getFunction name = none ↔
        ∀ f ∈ functions, f.getName ≠ name) ∧
    (Interpreter.new srcDuplicateTop = some (.ok (Interpreter.load duplicateTopProgram)) ∧
      Interpreter.run 1 (Interpreter.load duplicateTopProgram) "f" [7]
        = some (Interpreter.load duplicateTopProgram, .ok 7) ∧
      ∀ fuel, Interpreter.run fuel (Interpreter.load duplicateTopProgram) "f" []
        = some (Interpreter.load duplicateTopProgram,
            .error (.RuntimeError "Incorrect number of arguments for function: f"))) := by
  have hload : ∀ (functions : List FunctionDefAST) (name : String),
      (Interpreter.load functions).global_env.getFunction name = lastNamed functions name := by
    intro functions name
    have h := getFunction_registerAll_eq functions (.root [] []) name
    have h1 : (Interpreter.load functions).global_env.getFunction name
        = (Interpreter.registerAll functions (.root [] [])).getFunction name := rfl
    rw [h1, h]
    cases lastNamed functions name with
    | some f => simp only [clone_eq]
    | none => rfl
  refine ⟨hload, ?_, ?_, new_srcDuplicateTop, run_duplicateTop_one, run_duplicateTop_none⟩
  · intro functions name f h
    rw [hload] at h
    exact lastNamed_eq_some functions name f h
  · intro functions name
    rw [hload]
    exact lastNamed_eq_none_iff functions name

theorem C29_last_top_level_definition_is_registered_witness :
    ∃ before after, duplicateTopProgram
        = before ++ FunctionDefAST.mk "f" ["a"] [] (.Identifier "a") :: after ∧
      (FunctionDefAST.mk "f" ["a"] [] (.Identifier "a")).getName = "f" ∧
      ∀ g ∈ after, g.getName ≠ "f" :=
  C29_last_top_level_definition_is_registered.2.1 duplicateTopProgram "f"
    (.mk "f" ["a"] [] (.Identifier "a")) (by rfl)
/-! ## Duplicate parameter names -/

theorem parseParamsLoop_paramTokens : ∀ (names : List String) (acc : List String)
    (rest : TokenStream), names ≠ [] →
    parseParamsLoop acc (.Embracing .COMMA :: (paramTokens names ++ .Embracing .RPAREN :: rest))
      = .ok (acc ++ names) (.Embracing .RPAREN :: rest) := by
  intro names
  induction names with
  | nil => intro acc rest h; exact absurd rfl h
  | cons name names ih =>
    intro acc rest _
    cases names with
    | nil => simp [paramTokens, parseParamsLoop]
    | cons name1 names1 =>
      have h := ih (acc ++ [name]) rest (by simp)
      have step : ∀ (acc : List String) (n : String) (ts : TokenStream),
          parseParamsLoop acc (.Embracing .COMMA :: .Symbol n :: ts)
            = parseParamsLoop (acc ++ [n]) ts := by
        intro acc n ts
        simp only [parseParamsLoop]
      show parseParamsLoop acc (.Embracing .COMMA :: .Symbol name :: (.Embracing .COMMA ::
        (paramTokens (name1 :: names1) ++ .Embracing .RPAREN :: rest))) = _
      rw [step, h]
      simp

theorem parseParams_paramTokens (names : List String) (rest : TokenStream) :
    parseParams (paramTokens names ++ .Embracing .RPAREN :: rest)
      = .ok names (.Embracing .RPAREN :: rest) := by
  cases names with
  | nil => simp [paramTokens, parseParams, GetToken]
  | cons name names =>
    cases names with
    | nil => simp [paramTokens, parseParams, GetToken, Next, parseParamsLoop]
    | cons name1 names1 =>
      have h := parseParamsLoop_paramTokens (name1 :: names1) [name] rest (by simp)
      show parseParams (.Symbol name :: (.Embracing .COMMA ::
        (paramTokens (name1 :: names1) ++ .Embracing .RPAREN :: rest))) = _
      simp only [parseParams, GetToken, Next, ne_eq, reduceCtorEq, not_false_eq_true, if_true]
      rw [h]
      simp

theorem lastBound_cons (param : String) (params : List String) (arg : Int) (args : List Int)
    (name : String) :
    lastBound (param :: params) (arg :: args) name
      = match lastBound params args name with
        | some v => some v
        | none => if param = name then some arg else none := by
  simp only [lastBound, List.zip_cons_cons, List.reverse_cons, List.lookup_append]
  cases List.lookup name (params.zip args).reverse with
  | some v => rfl
  | none =>
    by_cases h : param = name
    · subst h
      simp [List.lookup]
    · have h1 : (name == param) = false := by
        simp only [beq_eq_false_iff_ne, ne_eq]
        exact fun h2 => h h2.symm
      simp [List.lookup, h, h1]

/-- After the parameters have been bound from left to right, a name reads the
argument bound last to a parameter of that name. -/
theorem getVariable_bindInts : ∀ (params : List String) (args : List Int)
    (funcEnv : Environment) (name : String),
    (Interpreter.bindInts params args funcEnv).getVariable name
      = match lastBound params args name with
        | some v => some (.IntValue v)
        | none => funcEnv.getVariable name := by
  intro params
  induction params with
  | nil => intro args funcEnv name; simp [Interpreter.bindInts, lastBound]
  | cons param params ih =>
    intro args funcEnv name
    cases args with
    | nil => simp [Interpreter.bindInts, lastBound]
    | cons arg args =>
      simp only [Interpreter.bindInts]
      rw [ih, lastBound_cons]
      cases lastBound params args name with
      | some v => rfl
      | none =>
        by_cases h : param = name
        · subst h
          simp only [if_true]
          exact Environment.getVariable_defineVariable_self _ _ _
        · simp only [h, if_false]
          exact Environment.getVariable_defineVariable_ne _ _ _ _ h

theorem new_srcDuplicateParams :
    Interpreter.new srcDuplicateParams = some (.ok (Interpreter.load duplicateParamsProgram)) := by
  rfl

theorem run_duplicateParams (x y : Int) (fuel : Nat) :
    Interpreter.run (fuel + 1) (Interpreter.load duplicateParamsProgram) "f" [x, y]
      = some (Interpreter.load duplicateParamsProgram, .ok y) := by
  simp [Interpreter.run, Interpreter.load, duplicateParamsProgram, Interpreter.registerAll,
    Environment.defineFunction, Environment.getFunction, mapFind, mapAssign,
    FunctionDefAST.getName, FunctionDefAST.clone, cloneBody, cloneExpr,
    FunctionDefAST.getParams, FunctionDefAST.getBody, FunctionDefAST.getReturnExpr,
    Interpreter.bindInts, Environment.createChildEnv, Environment.defineVariable, evalBody,
    evaluate, Environment.getVariable, Value.asInt, Environment.parentOr]

theorem run_duplicateParams_one (x : Int) (fuel : Nat) :
    Interpreter.run fuel (Interpreter.load duplicateParamsProgram) "f" [x]
      = some (Interpreter.load duplicateParamsProgram,
          .error (.RuntimeError "Incorrect number of arguments for function: f")) := by
  simp [Interpreter.run, Interpreter.load, duplicateParamsProgram, Interpreter.registerAll,
    Environment.defineFunction, Environment.getFunction, mapFind, mapAssign,
    FunctionDefAST.getName, FunctionDefAST.clone, cloneBody, cloneExpr,
    FunctionDefAST.getParams]

/-- C22: duplicate parameter names are accepted by the parser, which returns
the names of a parameter list as written, and are bound from left to right, so
that a name reads the argument of the last parameter with that name. For
`def f(a,a) \n return a` the load succeeds, `run("f",[x,y])` returns y for all
integers x and y, and `run("f",[x])` is the RuntimeError of the arity check,
the two parameters being counted. -/
theorem C22_duplicate_parameters_last_binding_wins :
    (∀ (names : List String) (rest : TokenStream),
      parseParams (paramTokens names ++ .Embracing .RPAREN :: rest)
        = .ok names (.Embracing .RPAREN :: rest)) ∧
    (∀ (params : List String) (args : List Int) (env : Environment) (name : String) (v : Int),
      lastBound params args name = some v →
      (Interpreter.bindInts params args env.createChildEnv).getVariable name
        = some (.IntValue v)) ∧
    (Interpreter.new srcDuplicateParams
        = some (.ok (Interpreter.load duplicateParamsProgram)) ∧
      (∀ (x y : Int) (fuel : Nat),
        Interpreter.run (fuel + 1) (Interpreter.load duplicateParamsProgram) "f" [x, y]
          = some (Interpreter.load duplicateParamsProgram, .ok y)) ∧
      ∀ (x : Int) (fuel : Nat),
        Interpreter.run fuel (Interpreter.load duplicateParamsProgram) "f" [x]
          = some (Interpreter.load duplicateParamsProgram,
              .error (.RuntimeError "Incorrect number of arguments for function: f"))) := by
  refine ⟨parseParams_paramTokens, ?_, new_srcDuplicateParams, run_duplicateParams,
    run_duplicateParams_one⟩
  intro params args env name v h
  rw [getVariable_bindInts, h]

theorem C22_duplicate_parameters_last_binding_wins_witness :
    lastBound ["a", "a"] [1, 2] "a" = some 2 ∧
    (Interpreter.bindInts ["a", "a"] [1, 2]
        (Environment.root [] []).createChildEnv).getVariable "a" = some (.IntValue 2) :=
  ⟨by decide, C22_duplicate_parameters_last_binding_wins.2.1 ["a", "a"] [1, 2] (.root [] []) "a"
    2 (by decide)⟩
/-! ## Arguments are evaluated in the environment of the caller -/

theorem bindArgs_values (fuel : Nat) : ∀ (params : List String) (args : List ExprAST)
    (vals : List (Option Value)) (env funcEnv : Environment),
    funcEnv.parent = some env →
    List.Forall₂ (fun arg v => evaluate fuel env (.Expr arg) = some (env, .ok v)) args vals →
    bindArgs (evaluate fuel) params args env funcEnv
      = some (env, .ok (bindValues params vals funcEnv)) := by
  intro params
  induction params with
  | nil =>
    intro args vals env funcEnv _ _
    cases vals <;> simp [bindArgs, bindValues]
  | cons param params ih =>
    intro args vals env funcEnv hp hall
    cases hall with
    | nil => simp [bindArgs, bindValues]
    | cons hv hrest =>
      simp only [bindArgs, hv, bindValues]
      rw [Environment.withParent_of_parent hp]
      exact ih _ _ _ _ (by rw [Environment.parent_defineVariable]; exact hp) hrest

theorem bindArgs_leftmost_error (fuel : Nat) : ∀ (params : List String) (pre : List ExprAST)
    (vals : List (Option Value)) (a : ExprAST) (post : List ExprAST)
    (env env1 funcEnv : Environment) (e : Error),
    funcEnv.parent = some env → pre.length < params.length →
    List.Forall₂ (fun arg v => evaluate fuel env (.Expr arg) = some (env, .ok v)) pre vals →
    evaluate fuel env (.Expr a) = some (env1, .error e) →
    bindArgs (evaluate fuel) params (pre ++ a :: post) env funcEnv = some (env1, .error e) := by
  intro params
  induction params with
  | nil => intro pre vals a post env env1 funcEnv e _ hlen; simp at hlen
  | cons param params ih =>
    intro pre vals a post env env1 funcEnv e hp hlen hall ha
    cases hall with
    | nil => simp only [List.nil_append, bindArgs, ha]
    | cons hv hrest =>
      simp only [List.cons_append, bindArgs, hv]
      rw [Environment.withParent_of_parent hp]
      exact ih _ _ _ _ _ _ _ e (by rw [Environment.parent_defineVariable]; exact hp)
        (by simp only [List.length_cons] at hlen; omega) hrest ha

theorem new_srcArgsInCallerEnv :
    Interpreter.new srcArgsInCallerEnv
      = some (.ok (Interpreter.load argsInCallerEnvProgram)) := by rfl

theorem run_argsInCallerEnv (n : Int) (fuel : Nat) :
    Interpreter.run (fuel + 4) (Interpreter.load argsInCallerEnvProgram) "f" [n]
      = some (Interpreter.load argsInCallerEnvProgram, .ok n) := by
  simp [Interpreter.run, Interpreter.load, argsInCallerEnvProgram, Interpreter.registerAll,
    Environment.defineFunction, Environment.getFunction, mapFind, mapAssign,
    FunctionDefAST.getName, FunctionDefAST.clone, cloneBody, cloneExpr, cloneArgs,
    FunctionDefAST.getParams, FunctionDefAST.getBody, FunctionDefAST.getReturnExpr,
    Interpreter.bindInts, Environment.createChildEnv, Environment.defineVariable, evalBody,
    evaluate, Environment.getVariable, bindArgs, Value.asInt, Environment.parentOr,
    Environment.withParent, binaryOp]

theorem run_twoFailingArgs :
    ∃ interp, Interpreter.new srcTwoFailingArgs = some (.ok interp) ∧
      Interpreter.run 5 interp "f" []
        = some (interp, .error (.NameError "Undefined variable: x")) :=
  ⟨_, by rfl, by rfl⟩

theorem run_twoFailingArgsSwapped :
    ∃ interp, Interpreter.new srcTwoFailingArgsSwapped = some (.ok interp) ∧
      Interpreter.run 5 interp "f" []
        = some (interp, .error (.RuntimeError "Division by zero")) :=
  ⟨_, by rfl, by rfl⟩

/-- C21: every argument of a call is evaluated in the environment of the
caller, from left to right, whatever has been bound for the earlier
parameters: when the arguments have the values `vals` in the environment of
the caller, the environment of the call is the new child with the parameters
bound to `vals`; and when an argument fails after the arguments on its left
have evaluated, the call fails with the error of that argument, whatever the
arguments on its right are. With `def g(a,b) \n return b` and
`def f(a) \n return g(a+1, a)`, `run("f",[n])` returns n for every n;
`g(x, 1/0)` fails with the NameError of x and `g(1/0, x)` with the division by
zero. -/
theorem C21_arguments_evaluated_in_caller_environment :
    (∀ (fuel : Nat) (params : List String) (args : List ExprAST) (vals : List (Option Value))
        (env : Environment),
      List.Forall₂ (fun arg v => evaluate fuel env (.Expr arg) = some (env, .ok v)) args vals →
      bindArgs (evaluate fuel) params args env env.createChildEnv
        = some (env, .ok (bindValues params vals env.createChildEnv))) ∧
    (∀ (fuel : Nat) (env env1 : Environment) (callee : String) (func : FunctionDefAST)
        (pre : List ExprAST) (vals : List (Option Value)) (a : ExprAST) (post : List ExprAST)
        (e : Error),
      env.getFunction callee = some func →
      func.getParams.length = (pre ++ a :: post).length →
      List.Forall₂ (fun arg v => evaluate fuel env (.Expr arg) = some (env, .ok v)) pre vals →
      evaluate fuel env (.Expr a) = some (env1, .error e) →
      evaluate (fuel + 1) env (.Expr (.FunctionCall callee (pre ++ a :: post)))
        = some (env1, .error e)) ∧
    (Interpreter.new srcArgsInCallerEnv
        = some (.ok (Interpreter.load argsInCallerEnvProgram)) ∧
      (∀ (n : Int) (fuel : Nat),
        Interpreter.run (fuel + 4) (Interpreter.load argsInCallerEnvProgram) "f" [n]
          = some (Interpreter.load argsInCallerEnvProgram, .ok n)) ∧
      (∃ interp, Interpreter.new srcTwoFailingArgs = some (.ok interp) ∧
        Interpreter.run 5 interp "f" []
          = some (interp, .error (.NameError "Undefined variable: x"))) ∧
      (∃ interp, Interpreter.new srcTwoFailingArgsSwapped = some (.ok interp) ∧
        Interpreter.run 5 interp "f" []
          = some (interp, .error (.RuntimeError "Division by zero")))) := by
  refine ⟨?_, ?_, new_srcArgsInCallerEnv, run_argsInCallerEnv, run_twoFailingArgs,
    run_twoFailingArgsSwapped⟩
  · intro fuel params args vals env hall
    exact bindArgs_values fuel params args vals env _ env.parent_createChildEnv hall
  · intro fuel env env1 callee func pre vals a post e hf hlen hall ha
    rw [evaluate_FunctionCall_found fuel env callee _ func hf hlen,
      bindArgs_leftmost_error fuel func.getParams pre vals a post env env1 _ e
        env.parent_createChildEnv (by rw [hlen]; simp) hall ha]

theorem C21_arguments_evaluated_in_caller_environment_witness :
    evaluate (2 + 1) (.root [("a", some (.IntValue 7))] [("g", .mk "g" ["a", "b"] [] (.Identifier "b"))])
        (.Expr (.FunctionCall "g" ([.Identifier "a"]
          ++ .BinaryOp '/' (.Number 1) (.Number 0) :: [])))
      = some (.root [("a", some (.IntValue 7))] [("g", .mk "g" ["a", "b"] [] (.Identifier "b"))],
          .error (.RuntimeError "Division by zero")) :=
  C21_arguments_evaluated_in_caller_environment.2.1 2
    (.root [("a", some (.IntValue 7))] [("g", .mk "g" ["a", "b"] [] (.Identifier "b"))])
    (.root [("a", some (.IntValue 7))] [("g", .mk "g" ["a", "b"] [] (.Identifier "b"))])
    "g" (.mk "g" ["a", "b"] [] (.Identifier "b")) [.Identifier "a"] [some (.IntValue 7)]
    (.BinaryOp '/' (.Number 1) (.Number 0)) [] (.RuntimeError "Division by zero")
    (by rfl) (by rfl) (List.Forall₂.cons (by rfl) List.Forall₂.nil) (by rfl)
/-! ## Nested function definitions -/

theorem Reachable_eq {interp0 interp : Interpreter} (h : Reachable interp0 interp) :
    interp = interp0 := by
  induction h with
  | start => rfl
  | step i i1 fuel name args r _ hrun ih =>
    rw [run_frame i fuel name args i1 r hrun, ih]

theorem bindArgs_numbers (fuel : Nat) : ∀ (params : List String) (args : List Int)
    (env funcEnv : Environment), funcEnv.parent = some env →
    bindArgs (evaluate (fuel + 1)) params (args.map .Number) env funcEnv
      = some (env, .ok (Interpreter.bindInts params args funcEnv)) := by
  intro params
  induction params with
  | nil => intro args env funcEnv _; cases args <;> simp [bindArgs, Interpreter.bindInts]
  | cons param params ih =>
    intro args env funcEnv hp
    cases args with
    | nil => simp [bindArgs, Interpreter.bindInts]
    | cons arg args =>
      simp only [List.map_cons, bindArgs, evaluate, Interpreter.bindInts]
      rw [Environment.withParent_of_parent hp]
      exact ih _ _ _ (by rw [Environment.parent_defineVariable]; exact hp)

/-- Once the function is found and the number of arguments is right, `run`
returns what the call expression evaluates to. -/
theorem run_eq_call (interp : Interpreter) (fuel : Nat) (name : String) (args : List Int)
    (func : FunctionDefAST) (hf : interp.global_env.getFunction name = some func)
    (hlen : func.getParams.length = args.length) :
    Interpreter.run fuel interp name args
      = match evaluate (fuel + 1) interp.global_env (.Expr (callExpr name args)) with
        | none => none
        | some (env1, .error e) => some ({ interp with global_env := env1 }, .error e)
        | some (env1, .ok none) =>
          some ({ interp with global_env := env1 },
            .error (.RuntimeError "Function did not return a value"))
        | some (env1, .ok (some v)) => some ({ interp with global_env := env1 }, .ok v.asInt) := by
  have hlen1 : func.getParams.length = (args.map ExprAST.Number).length := by
    rw [List.length_map]; exact hlen
  rw [callExpr, evaluate_FunctionCall_found fuel _ name _ func hf hlen1]
  simp only [Interpreter.run, hf, hlen, ne_eq, not_true_eq_false, if_false]
  cases fuel with
  | zero =>
    cases hargs : args with
    | nil =>
      have hp : func.getParams = [] := by
        rw [hargs] at hlen
        exact List.eq_nil_of_length_eq_zero hlen
      rw [hp]
      simp only [List.map_nil, bindArgs, Interpreter.bindInts]
      cases func.getBody with
      | nil => simp only [evalBody, evaluate]
      | cons stmt body => simp only [evalBody, evaluate]
    | cons arg args1 =>
      cases hp : func.getParams with
      | nil => rw [hp, hargs] at hlen; simp at hlen
      | cons param params =>
        simp only [List.map_cons, bindArgs, evaluate, Interpreter.bindInts]
        cases func.getBody with
        | nil => simp only [evalBody, evaluate]
        | cons stmt body => simp only [evalBody, evaluate]
  | succ fuel =>
    rw [bindArgs_numbers fuel _ _ _ _ interp.global_env.parent_createChildEnv]
    simp only
    cases evalBody (evaluate (fuel + 1)) func.getBody
        (Interpreter.bindInts func.getParams args interp.global_env.createChildEnv) with
    | none => rfl
    | some p =>
      obtain ⟨funcEnv1, r⟩ := p
      cases r with
      | error e => rfl
      | ok u =>
        simp only
        cases evaluate (fuel + 1) funcEnv1 (.Expr func.getReturnExpr) with
        | none => rfl
        | some q =>
          obtain ⟨funcEnv2, result⟩ := q
          cases result with
          | error e => rfl
          | ok v =>
            cases v with
            | none => rfl
            | some val => rfl

/-- C27: the entry point agrees with an in-language call: for every
interpreter, name and integers `args`, `run(name, args)` returns v exactly when
the call of `name` on the number literals of `args`, evaluated in the global
environment, yields the value v; it raises a NameError exactly when that
evaluation raises a NameError, and a RuntimeError exactly when that evaluation
raises a RuntimeError; and it reaches the bound on the nesting depth exactly
when the evaluation does, with one more level for the call itself. -/
theorem C27_run_agrees_with_call_expression (interp : Interpreter) (fuel : Nat) (name : String)
    (args : List Int) :
    (∀ v : Int, (∃ interp1, Interpreter.run fuel interp name args = some (interp1, .ok v)) ↔
      (∃ env1, evaluate (fuel + 1) interp.global_env (.Expr (callExpr name args))
        = some (env1, .ok (some (.IntValue v))))) ∧
    ((∃ interp1 msg, Interpreter.run fuel interp name args
        = some (interp1, .error (.NameError msg))) ↔
      (∃ env1 msg, evaluate (fuel + 1) interp.global_env (.Expr (callExpr name args))
        = some (env1, .error (.NameError msg)))) ∧
    ((∃ interp1 msg, Interpreter.run fuel interp name args
        = some (interp1, .error (.RuntimeError msg))) ↔
      (∃ env1 msg, evaluate (fuel + 1) interp.global_env (.Expr (callExpr name args))
        = some (env1, .error (.RuntimeError msg)))) ∧
    (Interpreter.run fuel interp name args = none ↔
      evaluate (fuel + 1) interp.global_env (.Expr (callExpr name args)) = none) := by
  cases hf : interp.global_env.getFunction name with
  | none =>
    have h1 : Interpreter.run fuel interp name args
        = some (interp, .error (.NameError ("Function not found: " ++ name))) := by
      simp only [Interpreter.run, hf]
    have h2 : evaluate (fuel + 1) interp.global_env (.Expr (callExpr name args))
        = some (interp.global_env, .error (.NameError ("Undefined function: " ++ name))) := by
      simp only [callExpr, evaluate, hf]
    rw [h1, h2]
    simp
  | some func =>
    by_cases hlen : func.getParams.length = args.length
    · rw [run_eq_call interp fuel name args func hf hlen]
      cases he : evaluate (fuel + 1) interp.global_env (.Expr (callExpr name args)) with
      | none => simp
      | some p =>
        obtain ⟨env1, r⟩ := p
        cases r with
        | error e => cases e <;> simp
        | ok v =>
          cases v with
          | none => exact absurd rfl (evaluate_Expr_value _ _ _ _ _ he)
          | some val =>
            cases val with
            | IntValue x =>
              simp only [Value.asInt]
              simp
    · have h1 : Interpreter.run fuel interp name args
          = some (interp, .error (.RuntimeError
              ("Incorrect number of arguments for function: " ++ name))) := by
        simp only [Interpreter.run, hf, ne_eq, hlen, not_false_eq_true, if_true]
      have hlen2 : ¬ func.getParams.length = (args.map ExprAST.Number).length := by
        rw [List.length_map]; exact hlen
      have h2 : evaluate (fuel + 1) interp.global_env (.Expr (callExpr name args))
          = some (interp.global_env, .error (.RuntimeError
              ("Function " ++ name ++ " called with incorrect number of arguments"))) := by
        simp only [callExpr, evaluate, hf, ne_eq, hlen2, not_false_eq_true, if_true]
      rw [h1, h2]
      simp

theorem C27_run_agrees_with_call_expression_witness :
    ∃ env1, evaluate (3 + 1) (Interpreter.load addProgram).global_env
        (.Expr (callExpr "f" [1, 2])) = some (env1, .ok (some (.IntValue 3))) :=
  ((C27_run_agrees_with_call_expression (Interpreter.load addProgram) 3 "f" [1, 2]).1 3).1
    ⟨_, by rfl⟩
/-! ## Termination of the parser -/

theorem ParseSpec_ok {α : Type} {need fuel : Nat} {post : α → TokenStream → Prop}
    {r : ParseResult α} (h : ParseSpec need fuel post r) {a : α} {rest : TokenStream}
    (hr : r = .ok a rest) : post a rest := by
  rw [hr] at h
  exact h

theorem Next_length_le (ts : TokenStream) : (Next ts).length ≤ ts.length := by
  cases ts with
  | nil => exact Nat.le_refl _
  | cons t ts => exact Nat.le_succ _

theorem Next_length_lt {ts : TokenStream} (h : GetToken ts ≠ .Utility .EOFT) :
    (Next ts).length < ts.length := by
  cases ts with
  | nil => exact absurd rfl h
  | cons t ts => exact Nat.lt_succ_self _

theorem parseExpression_length_le {fuel : Nat} {ts rest : TokenStream} {a : ExprAST}
    (h : parseExpression fuel ts = .ok a rest) : rest.length ≤ ts.length :=
  (ParseSpec_ok ((parseExpression_spec fuel).1 ts) h).1

theorem parsePrimary_shortens {fuel : Nat} {ts rest : TokenStream} {a : ExprAST}
    (h : parsePrimary fuel ts = .ok a rest) : rest.length < ts.length := by
  cases fuel with
  | zero => simp only [parsePrimary] at h; cases h
  | succ fuel =>
    simp only [parsePrimary] at h
    split at h
    · rename_i value hC
      cases h
      exact Next_length_lt (by rw [hC]; simp)
    · rename_i name hS
      have h1 : (Next ts).length < ts.length := Next_length_lt (by rw [hS]; simp)
      split at h
      · rename_i hL
        have h2 : (Next (Next ts)).length < (Next ts).length :=
          Next_length_lt (by rw [hL]; simp)
        cases hparsed : (if GetToken (Next (Next ts)) ≠ .Embracing .RPAREN then
            (parseExpression fuel (Next (Next ts))).bind
              fun arg ts3 => parseArgsLoop fuel [arg] ts3
            else ParseResult.ok [] (Next (Next ts))) with
        | ok args ts4 =>
          rw [hparsed] at h
          simp only [ParseResult.bind] at h
          split at h
          · cases h
          · cases h
            have h4 : ts4.length ≤ (Next (Next ts)).length := by
              split at hparsed
              · cases he : parseExpression fuel (Next (Next ts)) with
                | ok arg ts3 =>
                  rw [he] at hparsed
                  simp only [ParseResult.bind] at hparsed
                  have := (ParseSpec_ok ((parseExpression_spec fuel).2.2.2.2.2.2.2.2.2 _ _)
                    hparsed).1
                  have := parseExpression_length_le he
                  omega
                | error e => rw [he] at hparsed; cases hparsed
                | outOfFuel => rw [he] at hparsed; cases hparsed
              · cases hparsed
                exact Nat.le_refl _
            have := Next_length_le ts4
            omega
        | error e => rw [hparsed] at h; cases h
        | outOfFuel => rw [hparsed] at h; cases h
      · cases h
        exact h1
    · rename_i hL
      have h1 : (Next ts).length < ts.length := Next_length_lt (by rw [hL]; simp)
      cases he : parseExpression fuel (Next ts) with
      | ok expr ts1 =>
        rw [he] at h
        simp only [ParseResult.bind] at h
        split at h
        · cases h
        · cases h
          have := parseExpression_length_le he
          have := Next_length_le ts1
          omega
      | error e => rw [he] at h; cases h
      | outOfFuel => rw [he] at h; cases h
    · cases h

/-- A level of binary operators uses up at least one token: its first operand
does, and its loop does not give tokens back. -/
theorem level_shortens (sub : Nat → TokenStream → ParseResult ExprAST)
    (loop : Nat → ExprAST → TokenStream → ParseResult ExprAST) (fuel : Nat)
    (hsub : ∀ ts a rest, sub fuel ts = .ok a rest → rest.length < ts.length)
    (hloop : ∀ expr ts a rest, loop fuel expr ts = .ok a rest → rest.length ≤ ts.length)
    {ts rest : TokenStream} {a : ExprAST}
    (h : ((sub fuel ts).bind fun expr ts1 => loop fuel expr ts1) = .ok a rest) :
    rest.length < ts.length := by
  cases hs : sub fuel ts with
  | ok expr ts1 =>
    rw [hs] at h
    have := hsub _ _ _ hs
    have := hloop _ _ _ _ h
    omega
  | error e => rw [hs] at h; cases h
  | outOfFuel => rw [hs] at h; cases h

theorem parseMulExpr_shortens {fuel : Nat} {ts rest : TokenStream} {a : ExprAST}
    (h : parseMulExpr fuel ts = .ok a rest) : rest.length < ts.length := by
  cases fuel with
  | zero => simp only [parseMulExpr] at h; cases h
  | succ fuel =>
    simp only [parseMulExpr] at h
    exact level_shortens parsePrimary parseMulLoop fuel (fun _ _ _ h1 => parsePrimary_shortens h1)
      (fun expr ts1 _ _ h1 =>
        (ParseSpec_ok ((parseExpression_spec fuel).2.2.2.2.2.2.2.1 expr ts1) h1).1) h

theorem parseAddExpr_shortens {fuel : Nat} {ts rest : TokenStream} {a : ExprAST}
    (h : parseAddExpr fuel ts = .ok a rest) : rest.length < ts.length := by
  cases fuel with
  | zero => simp only [parseAddExpr] at h; cases h
  | succ fuel =>
    simp only [parseAddExpr] at h
    exact level_shortens parseMulExpr parseAddLoop fuel (fun _ _ _ h1 => parseMulExpr_shortens h1)
      (fun expr ts1 _ _ h1 =>
        (ParseSpec_ok ((parseExpression_spec fuel).2.2.2.2.2.1 expr ts1) h1).1) h

theorem parseLogicalExpr_shortens {fuel : Nat} {ts rest : TokenStream} {a : ExprAST}
    (h : parseLogicalExpr fuel ts = .ok a rest) : rest.length < ts.length := by
  cases fuel with
  | zero => simp only [parseLogicalExpr] at h; cases h
  | succ fuel =>
    simp only [parseLogicalExpr] at h
    exact level_shortens parseAddExpr parseLogicalLoop fuel
      (fun _ _ _ h1 => parseAddExpr_shortens h1)
      (fun expr ts1 _ _ h1 =>
        (ParseSpec_ok ((parseExpression_spec fuel).2.2.2.1 expr ts1) h1).1) h

theorem parseTernaryExpr_shortens {fuel : Nat} {ts rest : TokenStream} {a : ExprAST}
    (h : parseTernaryExpr fuel ts = .ok a rest) : rest.length < ts.length := by
  cases fuel with
  | zero => simp only [parseTernaryExpr] at h; cases h
  | succ fuel =>
    simp only [parseTernaryExpr] at h
    split at h
    · cases hc : parseLogicalExpr fuel (Next ts) with
      | ok condition ts1 =>
        have h1 := parseLogicalExpr_shortens hc
        have := Next_length_le ts
        rw [hc] at h
        simp only [ParseResult.bind] at h
        split at h
        · cases h
        · cases ht : parseLogicalExpr fuel (Next ts1) with
          | ok then_expr ts2 =>
            have h2 := parseLogicalExpr_shortens ht
            have := Next_length_le ts1
            rw [ht] at h
            simp only [ParseResult.bind] at h
            split at h
            · cases h
            · cases hel : parseLogicalExpr fuel (Next ts2) with
              | ok else_expr ts3 =>
                have h3 := parseLogicalExpr_shortens hel
                have := Next_length_le ts2
                rw [hel] at h
                cases h
                omega
              | error e => rw [hel] at h; cases h
              | outOfFuel => rw [hel] at h; cases h
          | error e => rw [ht] at h; cases h
          | outOfFuel => rw [ht] at h; cases h
      | error e => rw [hc] at h; cases h
      | outOfFuel => rw [hc] at h; cases h
    · exact parseLogicalExpr_shortens h

theorem parseExpression_shortens {fuel : Nat} {ts rest : TokenStream} {a : ExprAST}
    (h : parseExpression fuel ts = .ok a rest) : rest.length < ts.length := by
  cases fuel with
  | zero => simp only [parseExpression] at h; cases h
  | succ fuel =>
    simp only [parseExpression] at h
    exact parseTernaryExpr_shortens h

theorem parseStatement_shortens {fuel : Nat} {ts rest : TokenStream} {s : StatementAST}
    (h : parseStatement fuel ts = .ok s rest) : rest.length < ts.length := by
  cases fuel with
  | zero => simp only [parseStatement] at h; cases h
  | succ fuel =>
    simp only [parseStatement] at h
    split at h
    · cases he : parseExpression fuel (Next ts) with
      | ok expr ts1 =>
        rw [he] at h
        cases h
        have := parseExpression_shortens he
        have := Next_length_le ts
        omega
      | error e => rw [he] at h; cases h
      | outOfFuel => rw [he] at h; cases h
    · split at h
      · cases h
      · cases he : parseExpression fuel (Next (Next ts)) with
        | ok expr ts1 =>
          rw [he] at h
          cases h
          have := parseExpression_shortens he
          have := Next_length_le ts
          have := Next_length_le (Next ts)
          omega
        | error e => rw [he] at h; cases h
        | outOfFuel => rw [he] at h; cases h
    · cases h

theorem parseProgram_total (ts : TokenStream) :
    (∃ prog rest, parseProgram ts = .ok prog rest) ∨
      (∃ msg, parseProgram ts = .error (.SyntaxError msg)) := by
  have h := parseProgram_spec ts
  cases hr : parseProgram ts with
  | ok functions rest => exact Or.inl ⟨functions, rest, rfl⟩
  | error e =>
    rw [hr] at h
    cases e with
    | SyntaxError msg => exact Or.inr ⟨msg, rfl⟩
    | NameError msg => exact absurd h (by simp [ParseSpec, isSyntaxError])
    | RuntimeError msg => exact absurd h (by simp [ParseSpec, isSyntaxError])
  | outOfFuel =>
    rw [hr] at h
    simp only [ParseSpec, parseFuel] at h
    omega

theorem parseProgramLoop_enough_fuel (ts : TokenStream) (fuel : Nat)
    (hle : parseFuel ts.length ≤ fuel) : parseProgramLoop fuel [] ts = parseProgram ts := by
  have hb := below_of_le (fun n => parseProgramLoop n [] ts)
    (fun n => parseProgramLoop_below n [] ts) _ _ hle
  rcases hb with hb | hb
  · have hspec := parseProgram_spec ts
    unfold parseProgram at hspec
    have hb1 : parseProgramLoop (parseFuel ts.length) [] ts = .outOfFuel := hb
    rw [hb1] at hspec
    simp only [ParseSpec, parseFuel] at hspec
    omega
  · exact hb.symm

/-- C28: `parseProgram` ends on every finite token sequence, with a Program or
with a SyntaxError, and what it returns does not depend on the bound on the
nesting of calls once the bound is large enough for the length of the input.
The reason is that the remaining input only shrinks: `Next` before the end of
the input removes a token, every parse function that returns has used up at
least one token, and no loop gives tokens back, so every iteration of a loop
and every recursive call made after a token was consumed works on strictly
fewer tokens. -/
theorem C28_parser_terminates :
    (∀ ts : TokenStream, (∃ prog rest, parseProgram ts = .ok prog rest) ∨
      (∃ msg, parseProgram ts = .error (.SyntaxError msg))) ∧
    (∀ (ts : TokenStream) (fuel : Nat), parseFuel ts.length ≤ fuel →
      parseProgramLoop fuel [] ts = parseProgram ts) ∧
    (∀ ts : TokenStream, (GetToken ts ≠ .Utility .EOFT → (Next ts).length < ts.length) ∧
      (skipNewlines ts).length ≤ ts.length) ∧
    (∀ (fuel : Nat) (ts rest : TokenStream),
      (∀ a, parsePrimary fuel ts = .ok a rest → rest.length < ts.length) ∧
      (∀ a, parseMulExpr fuel ts = .ok a rest → rest.length < ts.length) ∧
      (∀ a, parseAddExpr fuel ts = .ok a rest → rest.length < ts.length) ∧
      (∀ a, parseLogicalExpr fuel ts = .ok a rest → rest.length < ts.length) ∧
      (∀ a, parseTernaryExpr fuel ts = .ok a rest → rest.length < ts.length) ∧
      (∀ a, parseExpression fuel ts = .ok a rest → rest.length < ts.length) ∧
      (∀ s, parseStatement fuel ts = .ok s rest → rest.length < ts.length) ∧
      (∀ f, parseFunctionDef fuel ts = .ok f rest → rest.length < ts.length)) ∧
    (∀ (fuel : Nat) (ts rest : TokenStream),
      (∀ expr a, parseMulLoop fuel expr ts = .ok a rest → rest.length ≤ ts.length) ∧
      (∀ expr a, parseAddLoop fuel expr ts = .ok a rest → rest.length ≤ ts.length) ∧
      (∀ expr a, parseLogicalLoop fuel expr ts = .ok a rest → rest.length ≤ ts.length) ∧
      (∀ args a, parseArgsLoop fuel args ts = .ok a rest → rest.length ≤ ts.length) ∧
      (∀ params a, parseParamsLoop params ts = .ok a rest → rest.length ≤ ts.length) ∧
      (∀ body a, parseBodyLoop fuel body ts = .ok a rest → rest.length ≤ ts.length)) := by
  refine ⟨parseProgram_total, parseProgramLoop_enough_fuel, ?_, ?_, ?_⟩
  · intro ts
    exact ⟨Next_length_lt, (skipNewlines_Consumed ts).1⟩
  · intro fuel ts rest
    exact ⟨fun _ h => parsePrimary_shortens h, fun _ h => parseMulExpr_shortens h,
      fun _ h => parseAddExpr_shortens h, fun _ h => parseLogicalExpr_shortens h,
      fun _ h => parseTernaryExpr_shortens h, fun _ h => parseExpression_shortens h,
      fun _ h => parseStatement_shortens h,
      fun _ h => (ParseSpec_ok ((parseFunctionDef_spec fuel).1 ts) h).1⟩
  · intro fuel ts rest
    exact ⟨fun expr _ h => (ParseSpec_ok ((parseExpression_spec fuel).2.2.2.2.2.2.2.1 expr ts) h).1,
      fun expr _ h => (ParseSpec_ok ((parseExpression_spec fuel).2.2.2.2.2.1 expr ts) h).1,
      fun expr _ h => (ParseSpec_ok ((parseExpression_spec fuel).2.2.2.1 expr ts) h).1,
      fun args _ h => (ParseSpec_ok ((parseExpression_spec fuel).2.2.2.2.2.2.2.2.2 args ts) h).1,
      fun params _ h =>
        (ParseSpec_ok (parseParamsLoop_spec ts.length ts (Nat.le_refl _) params 0 0) h).1,
      fun body _ h => (ParseSpec_ok ((parseFunctionDef_spec fuel).2 body ts) h).1⟩

theorem C28_parser_terminates_witness :
    parseFuel [Token.Utility .DEF, .Symbol "f", .Embracing .LPAREN, .Embracing .RPAREN,
        .Utility .NEWLINE, .Utility .RETURN, .Constant 1].length ≤ 200 ∧
    parseProgramLoop 200 [] [.Utility .DEF, .Symbol "f", .Embracing .LPAREN, .Embracing .RPAREN,
        .Utility .NEWLINE, .Utility .RETURN, .Constant 1]
      = parseProgram [.Utility .DEF, .Symbol "f", .Embracing .LPAREN, .Embracing .RPAREN,
        .Utility .NEWLINE, .Utility .RETURN, .Constant 1] :=
  ⟨by decide, C28_parser_terminates.2.1 [.Utility .DEF, .Symbol "f", .Embracing .LPAREN,
    .Embracing .RPAREN, .Utility .NEWLINE, .Utility .RETURN, .Constant 1] 200 (by decide)⟩
/-! ## The parser builds known operators only -/

theorem Holds_bind {α β : Type} {P : α → Prop} {Q : β → Prop} {r : ParseResult α}
    {k : α → TokenStream → ParseResult β} (h : r.Holds P)
    (hk : ∀ a rest, P a → (k a rest).Holds Q) : (r.bind k).Holds Q := by
  cases r with
  | ok a rest => exact hk a rest h
  | error e => trivial
  | outOfFuel => trivial

theorem Holds_ite {α : Type} {P : α → Prop} {c : Prop} [Decidable c] {a b : ParseResult α}
    (ht : c → a.Holds P) (he : ¬ c → b.Holds P) : (if c then a else b).Holds P := by
  by_cases h : c
  · rw [if_pos h]; exact ht h
  · rw [if_neg h]; exact he h

theorem Holds_ok {α : Type} {P : α → Prop} {r : ParseResult α} (h : r.Holds P) {a : α}
    {rest : TokenStream} (hr : r = .ok a rest) : P a := by
  rw [hr] at h
  exact h

theorem argsKnownOps_append : ∀ (args : List ExprAST) (arg : ExprAST),
    argsKnownOps args → arg.KnownOps → argsKnownOps (args ++ [arg]) := by
  intro args
  induction args with
  | nil => intro arg _ h; simp only [List.nil_append, argsKnownOps]; exact ⟨h, trivial⟩
  | cons a args ih =>
    intro arg h harg
    simp only [List.cons_append, argsKnownOps] at h ⊢
    exact ⟨h.1, ih arg h.2 harg⟩

theorem parseExpression_KnownOps : ∀ fuel : Nat,
    (∀ ts, (parseExpression fuel ts).Holds ExprAST.KnownOps) ∧
    (∀ ts, (parseTernaryExpr fuel ts).Holds ExprAST.KnownOps) ∧
    (∀ ts, (parseLogicalExpr fuel ts).Holds ExprAST.KnownOps) ∧
    (∀ expr ts, expr.KnownOps → (parseLogicalLoop fuel expr ts).Holds ExprAST.KnownOps) ∧
    (∀ ts, (parseAddExpr fuel ts).Holds ExprAST.KnownOps) ∧
    (∀ expr ts, expr.KnownOps → (parseAddLoop fuel expr ts).Holds ExprAST.KnownOps) ∧
    (∀ ts, (parseMulExpr fuel ts).Holds ExprAST.KnownOps) ∧
    (∀ expr ts, expr.KnownOps → (parseMulLoop fuel expr ts).Holds ExprAST.KnownOps) ∧
    (∀ ts, (parsePrimary fuel ts).Holds ExprAST.KnownOps) ∧
    (∀ args ts, argsKnownOps args → (parseArgsLoop fuel args ts).Holds argsKnownOps) := by
  intro fuel
  induction fuel with
  | zero =>
    refine ⟨?_, ?_, ?_, ?_, ?_, ?_, ?_, ?_, ?_, ?_⟩ <;> intros <;>
      simp only [parseExpression, parseTernaryExpr, parseLogicalExpr, parseLogicalLoop,
        parseAddExpr, parseAddLoop, parseMulExpr, parseMulLoop, parsePrimary, parseArgsLoop,
        ParseResult.Holds]
  | succ fuel ih =>
    obtain ⟨ihE, ihT, ihL, ihLL, ihA, ihAL, ihM, ihML, ihP, ihArgs⟩ := ih
    refine ⟨?_, ?_, ?_, ?_, ?_, ?_, ?_, ?_, ?_, ?_⟩
    · intro ts
      simp only [parseExpression]
      exact ihT ts
    · intro ts
      simp only [parseTernaryExpr]
      refine Holds_ite (fun _ => ?_) (fun _ => ihL ts)
      refine Holds_bind (ihL _) (fun condition ts1 hc => ?_)
      refine Holds_ite (fun _ => trivial) (fun _ => ?_)
      refine Holds_bind (ihL _) (fun then_expr ts2 ht => ?_)
      refine Holds_ite (fun _ => trivial) (fun _ => ?_)
      refine Holds_bind (ihL _) (fun else_expr ts3 he => ?_)
      simp only [ParseResult.Holds, ExprAST.KnownOps]
      exact ⟨hc, ht, he⟩
    · intro ts
      simp only [parseLogicalExpr]
      exact Holds_bind (ihA ts) (fun expr ts1 h => ihLL expr ts1 h)
    · intro expr ts hexpr
      simp only [parseLogicalLoop]
      refine Holds_ite (fun _ => ?_) (fun _ => hexpr)
      refine Holds_bind (ihA _) (fun right ts1 hr => ihLL _ ts1 ?_)
      simp only [ExprAST.KnownOps]
      refine ⟨?_, hexpr, hr⟩
      unfold knownOp
      split_ifs <;> simp
    · intro ts
      simp only [parseAddExpr]
      exact Holds_bind (ihM ts) (fun expr ts1 h => ihAL expr ts1 h)
    · intro expr ts hexpr
      simp only [parseAddLoop]
      refine Holds_ite (fun _ => ?_) (fun _ => hexpr)
      refine Holds_bind (ihM _) (fun right ts1 hr => ihAL _ ts1 ?_)
      simp only [ExprAST.KnownOps]
      refine ⟨?_, hexpr, hr⟩
      unfold knownOp
      split_ifs <;> simp
    · intro ts
      simp only [parseMulExpr]
      exact Holds_bind (ihP ts) (fun expr ts1 h => ihML expr ts1 h)
    · intro expr ts hexpr
      simp only [parseMulLoop]
      refine Holds_ite (fun _ => ?_) (fun _ => hexpr)
      refine Holds_bind (ihP _) (fun right ts1 hr => ihML _ ts1 ?_)
      simp only [ExprAST.KnownOps]
      refine ⟨?_, hexpr, hr⟩
      unfold knownOp
      split_ifs <;> simp
    · intro ts
      simp only [parsePrimary]
      split
      · simp only [ParseResult.Holds, ExprAST.KnownOps]
      · refine Holds_ite (fun _ => ?_) (fun _ => ?_)
        · refine Holds_bind (P := argsKnownOps) ?_ (fun args ts4 hargs => ?_)
          · refine Holds_ite (fun _ => ?_) (fun _ => ?_)
            · refine Holds_bind (ihE _) (fun arg ts3 harg => ihArgs _ ts3 ?_)
              simp only [argsKnownOps]
              exact ⟨harg, trivial⟩
            · simp only [ParseResult.Holds, argsKnownOps]
          · refine Holds_ite (fun _ => trivial) (fun _ => ?_)
            simp only [ParseResult.Holds, ExprAST.KnownOps]
            exact hargs
        · simp only [ParseResult.Holds, ExprAST.KnownOps]
      · refine Holds_bind (ihE _) (fun expr ts1 hexpr => ?_)
        exact Holds_ite (fun _ => trivial) (fun _ => hexpr)
      · trivial
    · intro args ts hargs
      simp only [parseArgsLoop]
      refine Holds_ite (fun _ => ?_) (fun _ => hargs)
      exact Holds_bind (ihE _) (fun arg ts1 harg =>
        ihArgs _ ts1 (argsKnownOps_append args arg hargs harg))

theorem parseStatement_KnownOps (fuel : Nat) (ts : TokenStream) :
    (parseStatement fuel ts).Holds StatementAST.KnownOps := by
  cases fuel with
  | zero => simp only [parseStatement, ParseResult.Holds]
  | succ fuel =>
    simp only [parseStatement]
    split
    · exact Holds_bind ((parseExpression_KnownOps fuel).1 _) (fun expr ts1 h => h)
    · refine Holds_ite (fun _ => trivial) (fun _ => ?_)
      exact Holds_bind ((parseExpression_KnownOps fuel).1 _) (fun expr ts2 h => h)
    · trivial

theorem bodyKnownOps_cons (stmt : StatementAST) (body : List StatementAST) :
    bodyKnownOps (stmt :: body) ↔ stmt.KnownOps ∧ bodyKnownOps body := by
  cases stmt <;> simp only [bodyKnownOps, StatementAST.KnownOps]

theorem bodyKnownOps_append : ∀ (body : List StatementAST) (stmt : StatementAST),
    bodyKnownOps body → stmt.KnownOps → bodyKnownOps (body ++ [stmt]) := by
  intro body
  induction body with
  | nil =>
    intro stmt _ h
    rw [List.nil_append, bodyKnownOps_cons]
    exact ⟨h, by simp only [bodyKnownOps]⟩
  | cons s body ih =>
    intro stmt h hstmt
    rw [List.cons_append, bodyKnownOps_cons]
    rw [bodyKnownOps_cons] at h
    exact ⟨h.1, ih stmt h.2 hstmt⟩

theorem parseFunctionDef_KnownOps : ∀ fuel : Nat,
    (∀ ts, (parseFunctionDef fuel ts).Holds FunctionDefAST.KnownOps) ∧
    (∀ body ts, bodyKnownOps body → (parseBodyLoop fuel body ts).Holds
      (fun parsed => bodyKnownOps parsed.1 ∧ ∀ e, parsed.2 = some e → e.KnownOps)) := by
  intro fuel
  induction fuel with
  | zero =>
    refine ⟨?_, ?_⟩ <;> intros <;>
      simp only [parseFunctionDef, parseBodyLoop, ParseResult.Holds]
  | succ fuel ih =>
    obtain ⟨ihF, ihB⟩ := ih
    refine ⟨?_, ?_⟩
    · intro ts
      simp only [parseFunctionDef]
      refine Holds_ite (fun _ => trivial) (fun _ => ?_)
      split
      · refine Holds_ite (fun _ => trivial) (fun _ => ?_)
        refine Holds_bind (P := fun _ => True) ?_ (fun params ts3 _ => ?_)
        · cases parseParams (Next (Next (Next ts))) <;> trivial
        · refine Holds_ite (fun _ => trivial) (fun _ => ?_)
          refine Holds_ite (fun _ => trivial) (fun _ => ?_)
          refine Holds_bind (ihB [] _ (by simp only [bodyKnownOps])) (fun parsed ts5 hp => ?_)
          obtain ⟨b, oe⟩ := parsed
          cases oe with
          | none => trivial
          | some e =>
            simp only [ParseResult.Holds, FunctionDefAST.KnownOps]
            exact ⟨hp.1, hp.2 e rfl⟩
      · trivial
    · intro body ts hbody
      simp only [parseBodyLoop]
      refine Holds_ite (fun _ => ⟨hbody, fun e he => (by cases he)⟩) (fun _ => ?_)
      refine Holds_ite (fun _ => ⟨hbody, fun e he => (by cases he)⟩) (fun _ => ?_)
      refine Holds_ite (fun _ => ?_) (fun _ => ?_)
      · refine Holds_bind (ihF _) (fun nested_func ts2 hf => ihB _ ts2 ?_)
        exact bodyKnownOps_append body _ hbody hf
      · refine Holds_ite (fun _ => ?_) (fun _ => ?_)
        · refine Holds_bind ((parseExpression_KnownOps fuel).1 _) (fun return_expr ts2 he => ?_)
          refine Holds_ite (fun _ => trivial) (fun _ => ?_)
          refine Holds_ite (fun _ => ?_) (fun _ => ?_) <;>
            exact ⟨hbody, fun e h1 => (by cases h1; exact he)⟩
        · refine Holds_bind (parseStatement_KnownOps fuel _) (fun stmt ts2 hs => ?_)
          exact Holds_ite (fun _ => trivial)
            (fun _ => ihB _ _ (bodyKnownOps_append body stmt hbody hs))

theorem parseProgramLoop_KnownOps : ∀ (fuel : Nat) (functions : List FunctionDefAST)
    (ts : TokenStream), (∀ f ∈ functions, f.KnownOps) →
    (parseProgramLoop fuel functions ts).Holds (fun prog => ∀ f ∈ prog, f.KnownOps) := by
  intro fuel
  induction fuel with
  | zero => intros; simp only [parseProgramLoop, ParseResult.Holds]
  | succ fuel ih =>
    intro functions ts hfs
    simp only [parseProgramLoop]
    refine Holds_ite (fun _ => hfs) (fun _ => ?_)
    refine Holds_ite (fun _ => hfs) (fun _ => ?_)
    refine Holds_ite (fun _ => ?_) (fun _ => trivial)
    refine Holds_bind ((parseFunctionDef_KnownOps fuel).1 _) (fun f ts2 hf => ih _ ts2 ?_)
    intro g hg
    rcases List.mem_append.1 hg with h1 | h1
    · exact hfs g h1
    · rw [List.mem_singleton.1 h1]; exact hf

/-- Every operator character of a parsed program is one the evaluator knows. -/
theorem parseProgram_KnownOps (ts rest : TokenStream) (prog : List FunctionDefAST)
    (h : parseProgram ts = .ok prog rest) : ∀ f ∈ prog, f.KnownOps :=
  Holds_ok (parseProgramLoop_KnownOps _ [] ts (fun f hf => (by cases hf))) h
/-! ## The errors an evaluation can raise -/

namespace Environment

theorem KnownOps_defineVariable (env : Environment) (name : String) (v : Option Value)
    (h : env.KnownOps) : (env.defineVariable name v).KnownOps := by
  cases env <;> exact h

theorem KnownOps_defineFunction (env : Environment) (name : String) (f : FunctionDefAST)
    (h : env.KnownOps) (hf : f.KnownOps) : (env.defineFunction name f).KnownOps := by
  cases env with
  | root vars functions =>
    intro p hp
    rcases mem_mapAssign _ _ _ _ hp with h1 | h1
    · rw [h1]; exact hf
    · exact h p h1
  | child vars functions parent =>
    refine ⟨fun p hp => ?_, h.2⟩
    rcases mem_mapAssign _ _ _ _ hp with h1 | h1
    · rw [h1]; exact hf
    · exact h.1 p h1

theorem KnownOps_createChildEnv (env : Environment) (h : env.KnownOps) :
    env.createChildEnv.KnownOps :=
  ⟨fun p hp => (by cases hp), h⟩

theorem KnownOps_getFunction : ∀ (env : Environment) (name : String) (f : FunctionDefAST),
    env.KnownOps → env.getFunction name = some f → f.KnownOps := by
  intro env
  induction env with
  | root vars functions =>
    intro name f h hf
    simp only [getFunction] at hf
    cases hm : mapFind functions name with
    | none => rw [hm] at hf; cases hf
    | some g =>
      rw [hm] at hf
      cases hf
      exact h _ (mem_of_mapFind _ _ _ hm)
  | child vars functions parent ih =>
    intro name f h hf
    simp only [getFunction] at hf
    cases hm : mapFind functions name with
    | none => rw [hm] at hf; exact ih name f h.2 hf
    | some g =>
      rw [hm] at hf
      cases hf
      exact h.1 _ (mem_of_mapFind _ _ _ hm)

end Environment

theorem evaluate_KnownOps (fuel : Nat) (env : Environment) (node : NodeAST) (env1 : Environment)
    (r : Except Error (Option Value)) (henv : env.KnownOps) (hnode : node.KnownOps)
    (h : evaluate fuel env node = some (env1, r)) : env1.KnownOps := by
  cases node with
  | Expr e =>
    rw [(evaluate_frame fuel env _ env1 r h).2 e rfl]
    exact henv
  | Statement s =>
    cases fuel with
    | zero => simp [evaluate] at h
    | succ fuel =>
      cases s with
      | Assignment v value =>
        simp only [evaluate] at h
        split at h
        · simp at h
        · rename_i env2 e2 hv
          have h2 := (evaluate_frame fuel env _ env2 _ hv).2 value rfl
          rw [← (Prod.mk.inj (Option.some.inj h)).1, h2]
          exact henv
        · rename_i env2 hv
          have h2 := (evaluate_frame fuel env _ env2 _ hv).2 value rfl
          rw [← (Prod.mk.inj (Option.some.inj h)).1, h2]
          exact henv
        · rename_i env2 val hv
          have h2 := (evaluate_frame fuel env _ env2 _ hv).2 value rfl
          rw [← (Prod.mk.inj (Option.some.inj h)).1, h2]
          exact Environment.KnownOps_defineVariable _ _ _ henv
      | ReturnStmt e =>
        simp only [evaluate] at h
        rw [(evaluate_frame fuel env _ env1 r h).2 e rfl]
        exact henv
      | FunctionDef f =>
        simp only [evaluate] at h
        rw [← (Prod.mk.inj (Option.some.inj h)).1, clone_eq]
        exact Environment.KnownOps_defineFunction _ _ _ henv hnode

theorem argsKnownOps_cons (arg : ExprAST) (args : List ExprAST) :
    argsKnownOps (arg :: args) ↔ arg.KnownOps ∧ argsKnownOps args := by
  simp only [argsKnownOps]

theorem bindArgs_evaluatorError (fuel : Nat)
    (ih : ∀ env e env1 err, env.KnownOps → e.KnownOps →
      evaluate fuel env (.Expr e) = some (env1, .error err) → evaluatorError err) :
    ∀ (params : List String) (args : List ExprAST) (env funcEnv env1 : Environment)
      (r : Except Error Environment),
      env.KnownOps → funcEnv.KnownOps → argsKnownOps args → funcEnv.parent = some env →
      bindArgs (evaluate fuel) params args env funcEnv = some (env1, r) →
      (∀ err, r = .error err → evaluatorError err) ∧ ∀ fe, r = .ok fe → fe.KnownOps := by
  intro params
  induction params with
  | nil =>
    intro args env funcEnv env1 r _ hfe _ _ h
    simp only [bindArgs, Option.some.injEq, Prod.mk.injEq] at h
    rw [← h.2]
    exact ⟨fun err herr => (by cases herr), fun fe hfe2 => (by cases hfe2; exact hfe)⟩
  | cons param params ihp =>
    intro args env funcEnv env1 r henv hfe hargs hp h
    cases args with
    | nil =>
      simp only [bindArgs, Option.some.injEq, Prod.mk.injEq] at h
      rw [← h.2]
      exact ⟨fun err herr => (by cases herr), fun fe hfe2 => (by cases hfe2; exact hfe)⟩
    | cons arg args =>
      rw [argsKnownOps_cons] at hargs
      simp only [bindArgs] at h
      split at h
      · simp at h
      · rename_i env2 e2 hev
        simp only [Option.some.injEq, Prod.mk.injEq] at h
        rw [← h.2]
        exact ⟨fun err herr => (by cases herr; exact ih _ arg _ _ henv hargs.1 hev),
          fun fe hfe2 => (by cases hfe2)⟩
      · rename_i env2 argValue hev
        have h2 := (evaluate_frame fuel env _ env2 _ hev).2 arg rfl
        subst h2
        rw [Environment.withParent_of_parent hp] at h
        exact ihp args _ _ _ _ henv (Environment.KnownOps_defineVariable _ _ _ hfe) hargs.2
          (by rw [Environment.parent_defineVariable]; exact hp) h

theorem evalBody_evaluatorError (fuel : Nat)
    (ih : ∀ env s env1 err, env.KnownOps → s.KnownOps →
      evaluate fuel env (.Statement s) = some (env1, .error err) → evaluatorError err) :
    ∀ (body : List StatementAST) (env env1 : Environment) (r : Except Error Unit),
      env.KnownOps → bodyKnownOps body →
      evalBody (evaluate fuel) body env = some (env1, r) →
      (∀ err, r = .error err → evaluatorError err) ∧ env1.KnownOps := by
  intro body
  induction body with
  | nil =>
    intro env env1 r henv _ h
    simp only [evalBody, Option.some.injEq, Prod.mk.injEq] at h
    rw [← h.1, ← h.2]
    exact ⟨fun err herr => (by cases herr), henv⟩
  | cons stmt body ihb =>
    intro env env1 r henv hbody h
    rw [bodyKnownOps_cons] at hbody
    simp only [evalBody] at h
    split at h
    · simp at h
    · rename_i env2 e2 hev
      simp only [Option.some.injEq, Prod.mk.injEq] at h
      rw [← h.1, ← h.2]
      exact ⟨fun err herr => (by cases herr; exact ih _ stmt _ _ henv hbody.1 hev),
        evaluate_KnownOps fuel env (.Statement stmt) env2 _ henv hbody.1 hev⟩
    · rename_i env2 u hev
      exact ihb _ _ _ (evaluate_KnownOps fuel env (.Statement stmt) env2 _ henv hbody.1 hev) hbody.2 h

theorem binaryOp_error (op : Char) (left right : Int) (e : Error) (hop : knownOp op)
    (h : binaryOp op left right = .error e) : e = .RuntimeError "Division by zero" := by
  simp only [binaryOp] at h
  rcases hop with rfl | rfl | rfl | rfl | rfl | rfl | rfl
  · simp at h
  · simp at h
  · simp at h
  · by_cases hr : right = 0
    · simp [hr] at h; exact h.symm
    · simp [hr] at h
  · simp at h
  · simp at h
  · simp at h

/-- An evaluation of a node with known operators, in an environment whose
functions have known operators, raises no defensive error. -/
theorem evaluate_evaluatorError : ∀ (fuel : Nat) (env : Environment) (node : NodeAST)
    (env1 : Environment) (err : Error),
    env.KnownOps → node.KnownOps → evaluate fuel env node = some (env1, .error err) →
    evaluatorError err := by
  intro fuel
  induction fuel with
  | zero => intro env node env1 err _ _ h; simp [evaluate] at h
  | succ fuel ih =>
    intro env node env1 err henv hnode h
    cases node with
    | Expr e =>
      cases e with
      | Number v => simp [evaluate] at h
      | Identifier x =>
        simp only [evaluate] at h
        split at h
        · simp only [Option.some.injEq, Prod.mk.injEq, Except.error.injEq] at h
          rw [← h.2]
          exact Or.inl ⟨_, rfl⟩
        · simp at h
      | BinaryOp op l r2 =>
        have hk : knownOp op ∧ l.KnownOps ∧ r2.KnownOps := by
          simpa only [NodeAST.KnownOps, ExprAST.KnownOps] using hnode
        simp only [evaluate] at h
        split at h
        · simp at h
        · rename_i env2 e2 hl
          simp only [Option.some.injEq, Prod.mk.injEq, Except.error.injEq] at h
          rw [← h.2]
          exact ih _ (.Expr l) _ _ henv hk.2.1 hl
        · rename_i env2 lv hl
          have h2 := (evaluate_frame fuel env _ env2 _ hl).2 l rfl
          subst h2
          have hlv := evaluate_Expr_value fuel _ _ _ _ hl
          split at h
          · simp at h
          · rename_i env3 e3 hr
            simp only [Option.some.injEq, Prod.mk.injEq, Except.error.injEq] at h
            rw [← h.2]
            exact ih _ (.Expr r2) _ _ henv hk.2.2 hr
          · rename_i env3 rv hr
            have hrv := evaluate_Expr_value fuel _ _ _ _ hr
            split at h
            · split at h
              · rename_i e4 hop
                simp only [Option.some.injEq, Prod.mk.injEq, Except.error.injEq] at h
                rw [← h.2, binaryOp_error _ _ _ _ hk.1 hop]
                exact Or.inr (Or.inl rfl)
              · simp at h
            · rename_i hnot
              cases lv with
              | none => exact absurd rfl hlv
              | some a =>
                cases rv with
                | none => exact absurd rfl hrv
                | some b => exact absurd rfl (hnot a b rfl)
      | TernaryExpr c t e =>
        have hk : c.KnownOps ∧ t.KnownOps ∧ e.KnownOps := by
          simpa only [NodeAST.KnownOps, ExprAST.KnownOps] using hnode
        simp only [evaluate] at h
        split at h
        · simp at h
        · rename_i env2 e2 hc
          simp only [Option.some.injEq, Prod.mk.injEq, Except.error.injEq] at h
          rw [← h.2]
          exact ih _ (.Expr c) _ _ henv hk.1 hc
        · rename_i env2 hc
          exact absurd rfl (evaluate_Expr_value fuel _ _ _ _ hc)
        · rename_i env2 cv hc
          have h2 := (evaluate_frame fuel env _ env2 _ hc).2 c rfl
          subst h2
          split at h
          · exact ih _ (.Expr t) _ _ henv hk.2.1 h
          · exact ih _ (.Expr e) _ _ henv hk.2.2 h
      | FunctionCall callee args =>
        have hk : argsKnownOps args := by
          simpa only [NodeAST.KnownOps, ExprAST.KnownOps] using hnode
        simp only [evaluate] at h
        split at h
        · simp only [Option.some.injEq, Prod.mk.injEq, Except.error.injEq] at h
          rw [← h.2]
          exact Or.inl ⟨_, rfl⟩
        · rename_i func hf
          have hfunc := Environment.KnownOps_getFunction env callee func henv hf
          have hfunc2 : bodyKnownOps func.getBody ∧ func.getReturnExpr.KnownOps := by
            cases func with
            | mk n p b re => simpa only [FunctionDefAST.KnownOps] using hfunc
          split at h
          · simp only [Option.some.injEq, Prod.mk.injEq, Except.error.injEq] at h
            rw [← h.2]
            exact Or.inr (Or.inr ⟨callee, rfl⟩)
          · split at h
            · simp at h
            · rename_i env2 e2 hb
              simp only [Option.some.injEq, Prod.mk.injEq, Except.error.injEq] at h
              rw [← h.2]
              exact (bindArgs_evaluatorError fuel
                (fun env e env1 err he hn hev => ih env (.Expr e) env1 err he hn hev)
                _ _ _ _ _ _ henv (Environment.KnownOps_createChildEnv _ henv) hk
                env.parent_createChildEnv hb).1 e2 rfl
            · rename_i env2 funcEnv hb
              have hfe := (bindArgs_evaluatorError fuel
                (fun env e env1 err he hn hev => ih env (.Expr e) env1 err he hn hev)
                _ _ _ _ _ _ henv (Environment.KnownOps_createChildEnv _ henv) hk
                env.parent_createChildEnv hb).2 funcEnv rfl
              split at h
              · simp at h
              · rename_i funcEnv1 e3 hbody
                simp only [Option.some.injEq, Prod.mk.injEq, Except.error.injEq] at h
                rw [← h.2]
                exact (evalBody_evaluatorError fuel
                  (fun env s env1 err he hn hev => ih env (.Statement s) env1 err he hn hev)
                  _ _ _ _ hfe hfunc2.1 hbody).1 e3 rfl
              · rename_i funcEnv1 u hbody
                have hfe1 := (evalBody_evaluatorError fuel
                  (fun env s env1 err he hn hev => ih env (.Statement s) env1 err he hn hev)
                  _ _ _ _ hfe hfunc2.1 hbody).2
                split at h
                · simp at h
                · rename_i funcEnv2 result hret
                  simp only [Option.some.injEq, Prod.mk.injEq] at h
                  rw [h.2] at hret
                  exact ih _ (.Expr func.getReturnExpr) _ _ hfe1 hfunc2.2 hret
    | Statement s =>
      cases s with
      | Assignment v value =>
        simp only [evaluate] at h
        split at h
        · simp at h
        · rename_i env2 e2 hv
          simp only [Option.some.injEq, Prod.mk.injEq, Except.error.injEq] at h
          rw [← h.2]
          exact ih _ (.Expr value) _ _ henv hnode hv
        · rename_i env2 hv
          exact absurd rfl (evaluate_Expr_value fuel _ _ _ _ hv)
        · simp at h
      | ReturnStmt e =>
        simp only [evaluate] at h
        exact ih _ (.Expr e) _ _ henv hnode h
      | FunctionDef f => simp [evaluate] at h
theorem registerAll_KnownOps : ∀ (functions : List FunctionDefAST) (env : Environment),
    (∀ f ∈ functions, f.KnownOps) → env.KnownOps →
    (Interpreter.registerAll functions env).KnownOps := by
  intro functions
  induction functions with
  | nil => intro env _ h; exact h
  | cons func functions ih =>
    intro env hfs h
    simp only [Interpreter.registerAll]
    refine ih _ (fun f hf => hfs f (List.mem_cons_of_mem _ hf)) ?_
    rw [clone_eq]
    exact Environment.KnownOps_defineFunction _ _ _ h (hfs func (List.mem_cons_self _ _))

theorem load_KnownOps (functions : List FunctionDefAST) (h : ∀ f ∈ functions, f.KnownOps) :
    (Interpreter.load functions).global_env.KnownOps :=
  registerAll_KnownOps functions (.root [] []) h (fun p hp => (by cases hp))

theorem bindInts_KnownOps : ∀ (params : List String) (args : List Int) (funcEnv : Environment),
    funcEnv.KnownOps → (Interpreter.bindInts params args funcEnv).KnownOps := by
  intro params
  induction params with
  | nil => intro args funcEnv h; exact h
  | cons param params ih =>
    intro args funcEnv h
    cases args with
    | nil => exact h
    | cons arg args => exact ih _ _ (Environment.KnownOps_defineVariable _ _ _ h)

/-- The errors of a run on an interpreter whose functions have known
operators. -/
theorem run_error (interp : Interpreter) (hk : interp.global_env.KnownOps) (fuel : Nat)
    (name : String) (args : List Int) (interp1 : Interpreter) (e : Error)
    (h : Interpreter.run fuel interp name args = some (interp1, .error e)) :
    evaluatorError e ∨
      e = .RuntimeError ("Incorrect number of arguments for function: " ++ name) := by
  unfold Interpreter.run at h
  split at h
  · simp only [Option.some.injEq, Prod.mk.injEq, Except.error.injEq] at h
    rw [← h.2]
    exact Or.inl (Or.inl ⟨_, rfl⟩)
  · rename_i func hf
    have hfunc := Environment.KnownOps_getFunction _ name func hk hf
    have hfunc2 : bodyKnownOps func.getBody ∧ func.getReturnExpr.KnownOps := by
      cases func with
      | mk n p b re => simpa only [FunctionDefAST.KnownOps] using hfunc
    split at h
    · simp only [Option.some.injEq, Prod.mk.injEq, Except.error.injEq] at h
      rw [← h.2]
      exact Or.inr rfl
    · have hfe : (Interpreter.bindInts func.getParams args
          interp.global_env.createChildEnv).KnownOps :=
        bindInts_KnownOps _ _ _ (Environment.KnownOps_createChildEnv _ hk)
      simp only at h
      split at h
      · simp at h
      · rename_i funcEnv1 e1 hbody
        simp only [Option.some.injEq, Prod.mk.injEq, Except.error.injEq] at h
        rw [← h.2]
        exact Or.inl ((evalBody_evaluatorError fuel
          (fun env s env1 err he hn hev =>
            evaluate_evaluatorError fuel env (.Statement s) env1 err he hn hev)
          _ _ _ _ hfe hfunc2.1 hbody).1 e1 rfl)
      · rename_i funcEnv1 u hbody
        have hfe1 := (evalBody_evaluatorError fuel
          (fun env s env1 err he hn hev =>
            evaluate_evaluatorError fuel env (.Statement s) env1 err he hn hev)
          _ _ _ _ hfe hfunc2.1 hbody).2
        split at h
        · simp at h
        · rename_i funcEnv2 e2 hret
          simp only [Option.some.injEq, Prod.mk.injEq, Except.error.injEq] at h
          rw [← h.2]
          exact Or.inl (evaluate_evaluatorError fuel _ (.Expr func.getReturnExpr) _ _ hfe1
            hfunc2.2 hret)
        · rename_i funcEnv2 hret
          exact absurd rfl (evaluate_Expr_value fuel _ _ _ _ hret)
        · simp at h

theorem not_defensive_of_length (msg : String) (h : 40 ≤ msg.length) :
    Error.RuntimeError msg ∉ defensiveErrors := by
  intro hmem
  simp only [defensiveErrors, List.mem_cons, Error.RuntimeError.injEq, List.mem_singleton,
    List.not_mem_nil, or_false] at hmem
  rcases hmem with rfl | rfl | rfl | rfl | rfl <;> revert h <;> decide

theorem not_defensive (name : String) (e : Error)
    (h : evaluatorError e ∨
      e = .RuntimeError ("Incorrect number of arguments for function: " ++ name)) :
    e ∉ defensiveErrors := by
  rcases h with (⟨msg, rfl⟩ | rfl | ⟨callee, rfl⟩) | rfl
  · simp [defensiveErrors]
  · decide
  · apply not_defensive_of_length
    simp only [String.length_append]
    have h1 : "Function ".length = 9 := by decide
    have h2 : " called with incorrect number of arguments".length = 42 := by decide
    omega
  · apply not_defensive_of_length
    simp only [String.length_append]
    have h1 : "Incorrect number of arguments for function: ".length = 44 := by decide
    omega

theorem new_srcAllOperators :
    ∃ interp, Interpreter.new srcAllOperators = some (.ok interp) ∧
      Interpreter.run 8 interp "f" [1, 2] = some (interp, .ok 1) :=
  ⟨_, by rfl, by rfl⟩

/-- C25: the defensive error branches are not reached on parsed programs:
every operator character of a Program returned by `parseProgram` is one of
`+ - * / = ! <`, every expression evaluation that does not fail yields a value,
and every error raised by a run on such a program, whatever runs came before,
is a NameError, the division by zero, or an arity mismatch, and so none of
"Unknown binary operator", "Invalid operands in binary operation", "Invalid
condition in ternary expression", "Invalid expression in assignment" and
"Function did not return a value". -/
theorem C25_defensive_errors_unreachable :
    (∀ (ts rest : TokenStream) (prog : List FunctionDefAST),
      parseProgram ts = .ok prog rest → ∀ f ∈ prog, f.KnownOps) ∧
    (∀ (fuel : Nat) (env env1 : Environment) (e : ExprAST) (v : Option Value),
      evaluate fuel env (.Expr e) = some (env1, .ok v) → v ≠ none) ∧
    (∀ (ts rest : TokenStream) (prog : List FunctionDefAST) (interp interp1 : Interpreter)
        (fuel : Nat) (name : String) (args : List Int) (e : Error),
      parseProgram ts = .ok prog rest → Reachable (Interpreter.load prog) interp →
      Interpreter.run fuel interp name args = some (interp1, .error e) →
      e ∉ defensiveErrors ∧
      ((∃ msg, e = .NameError msg) ∨ e = .RuntimeError "Division by zero" ∨
        (∃ callee, e = .RuntimeError
          ("Function " ++ callee ++ " called with incorrect number of arguments")) ∨
        e = .RuntimeError ("Incorrect number of arguments for function: " ++ name))) ∧
    (∃ interp, Interpreter.new srcAllOperators = some (.ok interp) ∧
      Interpreter.run 8 interp "f" [1, 2] = some (interp, .ok 1)) := by
  refine ⟨parseProgram_KnownOps, ?_, ?_, new_srcAllOperators⟩
  · intro fuel env env1 e v h
    exact evaluate_Expr_value fuel env e env1 v h
  · intro ts rest prog interp interp1 fuel name args e hparse hreach hrun
    rw [Reachable_eq hreach] at hrun
    have h := run_error _ (load_KnownOps prog (parseProgram_KnownOps ts rest prog hparse))
      fuel name args interp1 e hrun
    refine ⟨not_defensive name e h, ?_⟩
    rcases h with (h | h | h) | h
    · exact Or.inl h
    · exact Or.inr (Or.inl h)
    · exact Or.inr (Or.inr (Or.inl h))
    · exact Or.inr (Or.inr (Or.inr h))

theorem C25_defensive_errors_unreachable_witness :
    Error.RuntimeError "Division by zero" ∉ defensiveErrors ∧
    ((∃ msg, Error.RuntimeError "Division by zero" = .NameError msg) ∨
      Error.RuntimeError "Division by zero" = .RuntimeError "Division by zero" ∨
      (∃ callee, Error.RuntimeError "Division by zero" = .RuntimeError
        ("Function " ++ callee ++ " called with incorrect number of arguments")) ∨
      Error.RuntimeError "Division by zero"
        = .RuntimeError ("Incorrect number of arguments for function: " ++ "d")) :=
  C25_defensive_errors_unreachable.2.2.1
    [.Utility .DEF, .Symbol "d", .Embracing .LPAREN, .Symbol "a", .Embracing .COMMA, .Symbol "b",
      .Embracing .RPAREN, .Utility .NEWLINE, .Utility .RETURN, .Symbol "a", .Operator .DIVIDE,
      .Symbol "b"]
    [] divProgram (Interpreter.load divProgram) (Interpreter.load divProgram) 3 "d" [1, 0]
    (.RuntimeError "Division by zero") (by rfl) Reachable.start (by rfl)
/-! ## Blank lines -/

theorem BlankLineAfter.getToken_eq {s s1 : TokenStream} (h : BlankLineAfter s s1) :
    GetToken s1 = GetToken s := by
  obtain ⟨pre, post, rfl, rfl⟩ := h
  cases pre <;> rfl

theorem BlankLineAfter.next_of_ne {s s1 : TokenStream} (h : BlankLineAfter s s1)
    (hne : GetToken s ≠ .Utility .NEWLINE) : BlankLineAfter (Next s) (Next s1) := by
  obtain ⟨pre, post, rfl, rfl⟩ := h
  cases pre with
  | nil => exact absurd rfl hne
  | cons t pre1 => exact ⟨pre1, post, rfl, rfl⟩

theorem BlankLineAfter.next_newline {s s1 : TokenStream} (h : BlankLineAfter s s1) :
    BlankLineInserted (Next s) (Next s1) := by
  obtain ⟨pre, post, rfl, rfl⟩ := h
  cases pre with
  | nil => exact Or.inl rfl
  | cons t pre1 => exact Or.inr ⟨pre1, post, rfl, rfl⟩

theorem Related_refl {α : Type} {R : TokenStream → TokenStream → Prop}
    (hR : ∀ ts, R ts ts) (r : ParseResult α) : r.Related R r := by
  cases r with
  | ok a rest => exact ⟨rfl, hR rest⟩
  | error e => rfl
  | outOfFuel => trivial

theorem Related_mono {α : Type} {R R1 : TokenStream → TokenStream → Prop}
    (hR : ∀ ts ts1, R ts ts1 → R1 ts ts1) {r r1 : ParseResult α} (h : r.Related R r1) :
    r.Related R1 r1 := by
  cases r <;> cases r1 <;> first
    | exact ⟨h.1, hR _ _ h.2⟩
    | exact h

theorem Related_bind {α β : Type} {R R1 : TokenStream → TokenStream → Prop}
    {r r1 : ParseResult α} {k k1 : α → TokenStream → ParseResult β} (h : r.Related R r1)
    (hk : ∀ a rest rest1, R rest rest1 → (k a rest).Related R1 (k1 a rest1)) :
    (r.bind k).Related R1 (r1.bind k1) := by
  cases r with
  | ok a rest =>
    cases r1 with
    | ok a1 rest1 =>
      obtain ⟨ha, hrest⟩ := h
      subst ha
      exact hk _ _ _ hrest
    | error e1 => exact h.elim
    | outOfFuel => exact h.elim
  | error e =>
    cases r1 with
    | ok a1 rest1 => exact h.elim
    | error e1 => exact h
    | outOfFuel => exact h.elim
  | outOfFuel =>
    cases r1 with
    | ok a1 rest1 => exact h.elim
    | error e1 => exact h.elim
    | outOfFuel => exact h

theorem Related_ite {α : Type} {R : TokenStream → TokenStream → Prop} {c c1 : Prop}
    [Decidable c] [Decidable c1] {a a1 b b1 : ParseResult α} (hc : c1 ↔ c)
    (ht : c → a.Related R a1) (he : ¬ c → b.Related R b1) :
    (if c then a else b).Related R (if c1 then a1 else b1) := by
  by_cases h : c
  · rw [if_pos h, if_pos (hc.2 h)]; exact ht h
  · rw [if_neg h, if_neg (fun h1 => h (hc.1 h1))]; exact he h

theorem Related_ok {α : Type} {R : TokenStream → TokenStream → Prop} (a : α)
    {rest rest1 : TokenStream} (h : R rest rest1) :
    (ParseResult.ok a rest).Related R (.ok a rest1) := ⟨rfl, h⟩

theorem Related_error {α : Type} {R : TokenStream → TokenStream → Prop} (e : Error) :
    (ParseResult.error e : ParseResult α).Related R (.error e) := rfl

theorem parseExpression_blank_line : ∀ fuel : Nat,
    (∀ s s1, BlankLineAfter s s1 →
      (parseExpression fuel s).Related BlankLineAfter (parseExpression fuel s1)) ∧
    (∀ s s1, BlankLineAfter s s1 →
      (parseTernaryExpr fuel s).Related BlankLineAfter (parseTernaryExpr fuel s1)) ∧
    (∀ s s1, BlankLineAfter s s1 →
      (parseLogicalExpr fuel s).Related BlankLineAfter (parseLogicalExpr fuel s1)) ∧
    (∀ expr s s1, BlankLineAfter s s1 →
      (parseLogicalLoop fuel expr s).Related BlankLineAfter (parseLogicalLoop fuel expr s1)) ∧
    (∀ s s1, BlankLineAfter s s1 →
      (parseAddExpr fuel s).Related BlankLineAfter (parseAddExpr fuel s1)) ∧
    (∀ expr s s1, BlankLineAfter s s1 →
      (parseAddLoop fuel expr s).Related BlankLineAfter (parseAddLoop fuel expr s1)) ∧
    (∀ s s1, BlankLineAfter s s1 →
      (parseMulExpr fuel s).Related BlankLineAfter (parseMulExpr fuel s1)) ∧
    (∀ expr s s1, BlankLineAfter s s1 →
      (parseMulLoop fuel expr s).Related BlankLineAfter (parseMulLoop fuel expr s1)) ∧
    (∀ s s1, BlankLineAfter s s1 →
      (parsePrimary fuel s).Related BlankLineAfter (parsePrimary fuel s1)) ∧
    (∀ args s s1, BlankLineAfter s s1 →
      (parseArgsLoop fuel args s).Related BlankLineAfter (parseArgsLoop fuel args s1)) := by
  intro fuel
  induction fuel with
  | zero =>
    refine ⟨?_, ?_, ?_, ?_, ?_, ?_, ?_, ?_, ?_, ?_⟩ <;> intros <;>
      simp only [parseExpression, parseTernaryExpr, parseLogicalExpr, parseLogicalLoop,
        parseAddExpr, parseAddLoop, parseMulExpr, parseMulLoop, parsePrimary, parseArgsLoop,
        ParseResult.Related]
  | succ fuel ih =>
    obtain ⟨ihE, ihT, ihL, ihLL, ihA, ihAL, ihM, ihML, ihP, ihArgs⟩ := ih
    have hnext : ∀ {s s1 : TokenStream} {t : Token}, BlankLineAfter s s1 → GetToken s = t →
        t ≠ .Utility .NEWLINE → BlankLineAfter (Next s) (Next s1) :=
      fun h ht hne => h.next_of_ne (by rw [ht]; exact hne)
    refine ⟨?_, ?_, ?_, ?_, ?_, ?_, ?_, ?_, ?_, ?_⟩
    · intro s s1 h
      simp only [parseExpression]
      exact ihT s s1 h
    · intro s s1 h
      simp only [parseTernaryExpr, h.getToken_eq]
      refine Related_ite Iff.rfl (fun hIF => ?_) (fun _ => ihL s s1 h)
      refine Related_bind (ihL _ _ (hnext h hIF (by simp))) (fun condition ts1 ts1a h1 => ?_)
      rw [h1.getToken_eq]
      refine Related_ite Iff.rfl (fun _ => Related_error _) (fun hT => ?_)
      refine Related_bind (ihL _ _ (hnext h1 (not_not.1 hT) (by simp)))
        (fun then_expr ts2 ts2a h2 => ?_)
      rw [h2.getToken_eq]
      refine Related_ite Iff.rfl (fun _ => Related_error _) (fun hE => ?_)
      refine Related_bind (ihL _ _ (hnext h2 (not_not.1 hE) (by simp)))
        (fun else_expr ts3 ts3a h3 => ?_)
      exact Related_ok _ h3
    · intro s s1 h
      simp only [parseLogicalExpr]
      exact Related_bind (ihA s s1 h) (fun expr ts1 ts1a h1 => ihLL expr _ _ h1)
    · intro expr s s1 h
      simp only [parseLogicalLoop, h.getToken_eq]
      refine Related_ite Iff.rfl (fun hop => ?_) (fun _ => Related_ok _ h)
      have hne : GetToken s ≠ .Utility .NEWLINE := by
        rcases hop with hop | hop | hop <;> rw [hop] <;> simp
      exact Related_bind (ihA _ _ (h.next_of_ne hne)) (fun right ts1 ts1a h1 => ihLL _ _ _ h1)
    · intro s s1 h
      simp only [parseAddExpr]
      exact Related_bind (ihM s s1 h) (fun expr ts1 ts1a h1 => ihAL expr _ _ h1)
    · intro expr s s1 h
      simp only [parseAddLoop, h.getToken_eq]
      refine Related_ite Iff.rfl (fun hop => ?_) (fun _ => Related_ok _ h)
      have hne : GetToken s ≠ .Utility .NEWLINE := by
        rcases hop with hop | hop <;> rw [hop] <;> simp
      exact Related_bind (ihM _ _ (h.next_of_ne hne)) (fun right ts1 ts1a h1 => ihAL _ _ _ h1)
    · intro s s1 h
      simp only [parseMulExpr]
      exact Related_bind (ihP s s1 h) (fun expr ts1 ts1a h1 => ihML expr _ _ h1)
    · intro expr s s1 h
      simp only [parseMulLoop, h.getToken_eq]
      refine Related_ite Iff.rfl (fun hop => ?_) (fun _ => Related_ok _ h)
      have hne : GetToken s ≠ .Utility .NEWLINE := by
        rcases hop with hop | hop <;> rw [hop] <;> simp
      exact Related_bind (ihP _ _ (h.next_of_ne hne)) (fun right ts1 ts1a h1 => ihML _ _ _ h1)
    · intro s s1 h
      simp only [parsePrimary, h.getToken_eq]
      split
      · rename_i value hC
        exact Related_ok _ (hnext h hC (by simp))
      · rename_i name hS
        have h1 := hnext h hS (by simp)
        rw [h1.getToken_eq]
        refine Related_ite Iff.rfl (fun hL => ?_) (fun _ => Related_ok _ h1)
        have h2 := hnext h1 hL (by simp)
        rw [h2.getToken_eq]
        refine Related_bind (R := BlankLineAfter) ?_ (fun args ts4 ts4a h4 => ?_)
        · refine Related_ite Iff.rfl (fun _ => ?_) (fun _ => Related_ok _ h2)
          exact Related_bind (ihE _ _ h2) (fun arg ts3 ts3a h3 => ihArgs _ _ _ h3)
        · rw [h4.getToken_eq]
          refine Related_ite Iff.rfl (fun _ => Related_error _) (fun hR => ?_)
          exact Related_ok _ (hnext h4 (not_not.1 hR) (by simp))
      · rename_i hL
        refine Related_bind (ihE _ _ (hnext h hL (by simp))) (fun expr ts1 ts1a h1 => ?_)
        rw [h1.getToken_eq]
        refine Related_ite Iff.rfl (fun _ => Related_error _) (fun hR => ?_)
        exact Related_ok _ (hnext h1 (not_not.1 hR) (by simp))
      · exact Related_error _
    · intro args s s1 h
      simp only [parseArgsLoop, h.getToken_eq]
      refine Related_ite Iff.rfl (fun hC => ?_) (fun _ => Related_ok _ h)
      exact Related_bind (ihE _ _ (hnext h hC (by simp)))
        (fun arg ts1 ts1a h1 => ihArgs _ _ _ h1)
theorem parseStatement_blank_line (fuel : Nat) (s s1 : TokenStream) (h : BlankLineAfter s s1) :
    (parseStatement fuel s).Related BlankLineAfter (parseStatement fuel s1) := by
  cases fuel with
  | zero => simp only [parseStatement, ParseResult.Related]
  | succ fuel =>
    simp only [parseStatement, h.getToken_eq]
    split
    · rename_i hR
      have h1 := h.next_of_ne (by rw [hR]; simp)
      exact Related_bind ((parseExpression_blank_line fuel).1 _ _ h1)
        (fun expr ts1 ts1a h2 => Related_ok _ h2)
    · rename_i name hS
      have h1 := h.next_of_ne (by rw [hS]; simp)
      rw [h1.getToken_eq]
      refine Related_ite Iff.rfl (fun _ => Related_error _) (fun hEQ => ?_)
      have h2 := h1.next_of_ne (by rw [not_not.1 hEQ]; simp)
      exact Related_bind ((parseExpression_blank_line fuel).1 _ _ h2)
        (fun expr ts2 ts2a h3 => Related_ok _ h3)
    · exact Related_error _

theorem parseParamsLoop_blank_line : ∀ (n : Nat) (pre : List Token), pre.length ≤ n →
    ∀ (post : TokenStream) (params : List String),
    (parseParamsLoop params (pre ++ .Utility .NEWLINE :: post)).Related BlankLineAfter
      (parseParamsLoop params (pre ++ .Utility .NEWLINE :: .Utility .NEWLINE :: post)) := by
  intro n
  induction n with
  | zero =>
    intro pre hlen post params
    have : pre = [] := List.eq_nil_of_length_eq_zero (by omega)
    subst this
    have hother : ∀ (l : TokenStream),
        parseParamsLoop params (.Utility .NEWLINE :: l) = .ok params (.Utility .NEWLINE :: l) := by
      intro l
      simp only [parseParamsLoop]
    rw [List.nil_append, List.nil_append, hother, hother]
    exact Related_ok _ ⟨[], post, rfl, rfl⟩
  | succ n ih =>
    intro pre hlen post params
    have hother : ∀ (t : Token) (l : TokenStream), t ≠ .Embracing .COMMA →
        parseParamsLoop params (t :: l) = .ok params (t :: l) := by
      intro t l ht
      unfold parseParamsLoop
      split
      · rename_i heq
        exact absurd (List.cons.inj heq).1 ht
      · rfl
    rcases pre with _ | ⟨t, pre1⟩
    · rw [List.nil_append, List.nil_append, hother _ _ (by simp), hother _ _ (by simp)]
      exact Related_ok _ ⟨[], post, rfl, rfl⟩
    · by_cases ht : t = .Embracing .COMMA
      · subst ht
        rcases pre1 with _ | ⟨t1, pre2⟩
        · simp only [List.cons_append, List.nil_append, parseParamsLoop]
          exact Related_error _
        · cases t1 with
          | Symbol name =>
            simp only [List.cons_append, parseParamsLoop]
            exact ih pre2 (by
              simp only [List.length_cons] at hlen
              omega) post _
          | Constant v =>
            simp only [List.cons_append, parseParamsLoop]; exact Related_error _
          | Embracing e =>
            simp only [List.cons_append, parseParamsLoop]; exact Related_error _
          | Operator o =>
            simp only [List.cons_append, parseParamsLoop]; exact Related_error _
          | Utility u =>
            simp only [List.cons_append, parseParamsLoop]; exact Related_error _
      · rw [List.cons_append, List.cons_append, hother _ _ ht, hother _ _ ht]
        exact Related_ok _ ⟨t :: pre1, post, rfl, rfl⟩

theorem parseParams_blank_line (s s1 : TokenStream) (h : BlankLineAfter s s1) :
    (parseParams s).Related BlankLineAfter (parseParams s1) := by
  simp only [parseParams, h.getToken_eq]
  refine Related_ite Iff.rfl (fun _ => ?_) (fun _ => Related_ok _ h)
  split
  · rename_i name hS
    obtain ⟨pre, post, hp, hp1⟩ := h.next_of_ne (by rw [hS]; simp)
    rw [hp, hp1]
    exact parseParamsLoop_blank_line _ pre (Nat.le_refl _) post _
  · exact Related_error _

theorem skipNewlines_blank_line (s s1 : TokenStream) (h : BlankLineAfter s s1) :
    skipNewlines s1 = skipNewlines s ∨ BlankLineAfter (skipNewlines s) (skipNewlines s1) := by
  obtain ⟨pre, post, rfl, rfl⟩ := h
  induction pre with
  | nil => exact Or.inl (by simp only [List.nil_append, skipNewlines])
  | cons t pre ih =>
    by_cases ht : t = .Utility .NEWLINE
    · subst ht
      simpa only [List.cons_append, skipNewlines] using ih
    · have h1 : ∀ l : TokenStream, skipNewlines (t :: l) = t :: l := by
        intro l
        unfold skipNewlines
        split
        · rename_i heq
          exact absurd (List.cons.inj heq).1 ht
        · rfl
      rw [List.cons_append, List.cons_append, h1, h1]
      exact Or.inr ⟨t :: pre, post, rfl, rfl⟩

theorem skipNewlines_of_IsEnd (s : TokenStream) (h : IsEnd s = true) : skipNewlines s = s := by
  cases s with
  | nil => rfl
  | cons t l =>
    have ht : t = .Utility .EOFT := by simpa [IsEnd, GetToken] using h
    subst ht
    simp only [skipNewlines]

/-- A NEWLINE before the tokens a statement loop starts on is skipped. -/
theorem parseBodyLoop_leading_newline (fuel : Nat) (body : List StatementAST)
    (s : TokenStream) :
    parseBodyLoop fuel body (.Utility .NEWLINE :: s) = parseBodyLoop fuel body s := by
  cases fuel with
  | zero => simp only [parseBodyLoop]
  | succ fuel =>
    have h1 : IsEnd (.Utility .NEWLINE :: s) = false := by simp [IsEnd, GetToken]
    have h2 : skipNewlines (.Utility .NEWLINE :: s) = skipNewlines s := by
      simp only [skipNewlines]
    by_cases hend : IsEnd s = true
    · have h3 := skipNewlines_of_IsEnd s hend
      simp only [parseBodyLoop, h1, h2, h3, hend, if_true, Bool.false_eq_true, if_false]
    · simp only [parseBodyLoop, h1, h2, hend, Bool.false_eq_true, if_false]

theorem parseProgramLoop_leading_newline (fuel : Nat) (functions : List FunctionDefAST)
    (s : TokenStream) :
    parseProgramLoop fuel functions (.Utility .NEWLINE :: s)
      = parseProgramLoop fuel functions s := by
  cases fuel with
  | zero => simp only [parseProgramLoop]
  | succ fuel =>
    have h1 : IsEnd (.Utility .NEWLINE :: s) = false := by simp [IsEnd, GetToken]
    have h2 : skipNewlines (.Utility .NEWLINE :: s) = skipNewlines s := by
      simp only [skipNewlines]
    by_cases hend : IsEnd s = true
    · have h3 := skipNewlines_of_IsEnd s hend
      simp only [parseProgramLoop, h1, h2, h3, hend, if_true, Bool.false_eq_true, if_false]
    · simp only [parseProgramLoop, h1, h2, hend, Bool.false_eq_true, if_false]

theorem BlankLineAfter.isEnd_eq {s s1 : TokenStream} (h : BlankLineAfter s s1) :
    IsEnd s1 = IsEnd s := by
  simp only [IsEnd, h.getToken_eq]

theorem BlankLineOrSame.same (ts : TokenStream) : BlankLineOrSame ts ts := Or.inl rfl

theorem BlankLineOrSame.of_after {s s1 : TokenStream} (h : BlankLineAfter s s1) :
    BlankLineOrSame s s1 := Or.inr (Or.inr h)

theorem parseFunctionDef_blank_line : ∀ fuel : Nat,
    (∀ s s1, BlankLineAfter s s1 →
      (parseFunctionDef fuel s).Related BlankLineOrSame (parseFunctionDef fuel s1)) ∧
    (∀ body s s1, BlankLineOrSame s s1 →
      (parseBodyLoop fuel body s).Related BlankLineOrSame (parseBodyLoop fuel body s1)) := by
  intro fuel
  induction fuel with
  | zero =>
    refine ⟨?_, ?_⟩ <;> intros <;>
      simp only [parseFunctionDef, parseBodyLoop, ParseResult.Related]
  | succ fuel ih =>
    obtain ⟨ihF, ihB⟩ := ih
    refine ⟨?_, ?_⟩
    · intro s s1 h
      simp only [parseFunctionDef, h.getToken_eq]
      refine Related_ite Iff.rfl (fun _ => Related_error _) (fun hDEF => ?_)
      have h1 := h.next_of_ne (by rw [not_not.1 hDEF]; simp)
      rw [h1.getToken_eq]
      split
      · rename_i name hS
        have h2 := h1.next_of_ne (by rw [hS]; simp)
        rw [h2.getToken_eq]
        refine Related_ite Iff.rfl (fun _ => Related_error _) (fun hL => ?_)
        have h3 := h2.next_of_ne (by rw [not_not.1 hL]; simp)
        refine Related_bind (parseParams_blank_line _ _ h3) (fun params ts3 ts3a h4 => ?_)
        rw [h4.getToken_eq]
        refine Related_ite Iff.rfl (fun _ => Related_error _) (fun hR => ?_)
        have h5 := h4.next_of_ne (by rw [not_not.1 hR]; simp)
        rw [h5.getToken_eq]
        refine Related_ite Iff.rfl (fun _ => Related_error _) (fun _ => ?_)
        refine Related_bind (ihB [] _ _ (Or.inr h5.next_newline))
          (fun parsed ts5 ts5a h6 => ?_)
        obtain ⟨b, oe⟩ := parsed
        cases oe with
        | none => exact Related_error _
        | some e => exact Related_ok _ h6
      · exact Related_error _
    · intro body s s1 h
      rcases h with rfl | rfl | h
      · exact Related_refl BlankLineOrSame.same _
      · rw [parseBodyLoop_leading_newline]
        exact Related_refl BlankLineOrSame.same _
      · simp only [parseBodyLoop, h.isEnd_eq]
        refine Related_ite Iff.rfl (fun _ => Related_ok _ (.of_after h)) (fun _ => ?_)
        rcases skipNewlines_blank_line s s1 h with hs | hs
        · rw [hs]
          exact Related_refl BlankLineOrSame.same _
        · rw [hs.isEnd_eq, hs.getToken_eq]
          refine Related_ite Iff.rfl (fun _ => Related_ok _ (.of_after hs)) (fun _ => ?_)
          refine Related_ite Iff.rfl (fun _ => ?_) (fun _ => ?_)
          · exact Related_bind (ihF _ _ hs) (fun nested ts2 ts2a h2 => ihB _ _ _ h2)
          · refine Related_ite Iff.rfl (fun hRET => ?_) (fun _ => ?_)
            · have h1 := hs.next_of_ne (by rw [hRET]; simp)
              refine Related_bind ((parseExpression_blank_line fuel).1 _ _ h1)
                (fun return_expr ts2 ts2a h2 => ?_)
              rw [h2.getToken_eq, h2.isEnd_eq]
              refine Related_ite Iff.rfl (fun _ => Related_error _) (fun hterm => ?_)
              refine Related_ite Iff.rfl (fun _ => Related_ok _ (Or.inr h2.next_newline))
                (fun _ => Related_ok _ (.of_after h2))
            · refine Related_bind (parseStatement_blank_line fuel _ _ hs)
                (fun stmt ts2 ts2a h2 => ?_)
              rw [h2.getToken_eq]
              exact Related_ite Iff.rfl (fun _ => Related_error _)
                (fun _ => ihB _ _ _ (Or.inr h2.next_newline))

theorem parseProgramLoop_blank_line : ∀ (fuel : Nat) (functions : List FunctionDefAST)
    (s s1 : TokenStream), BlankLineOrSame s s1 →
    (parseProgramLoop fuel functions s).Related BlankLineOrSame
      (parseProgramLoop fuel functions s1) := by
  intro fuel
  induction fuel with
  | zero => intros; simp only [parseProgramLoop, ParseResult.Related]
  | succ fuel ih =>
    intro functions s s1 h
    rcases h with rfl | rfl | h
    · exact Related_refl BlankLineOrSame.same _
    · rw [parseProgramLoop_leading_newline]
      exact Related_refl BlankLineOrSame.same _
    · simp only [parseProgramLoop, h.isEnd_eq]
      refine Related_ite Iff.rfl (fun _ => Related_ok _ (.of_after h)) (fun _ => ?_)
      rcases skipNewlines_blank_line s s1 h with hs | hs
      · rw [hs]
        exact Related_refl BlankLineOrSame.same _
      · rw [hs.isEnd_eq, hs.getToken_eq]
        refine Related_ite Iff.rfl (fun _ => Related_ok _ (.of_after hs)) (fun _ => ?_)
        refine Related_ite Iff.rfl (fun _ => ?_) (fun _ => Related_error _)
        exact Related_bind ((parseFunctionDef_blank_line fuel).1 _ _ hs)
          (fun f ts2 ts2a h2 => ih _ _ _ h2)

theorem BlankLineInserted.length {ts ts1 : TokenStream} (h : BlankLineInserted ts ts1) :
    ts1.length = ts.length + 1 := by
  rcases h with rfl | ⟨pre, post, rfl, rfl⟩
  · rfl
  · simp only [List.length_append, List.length_cons]
    omega

/-- A blank line changes neither the Program `parseProgram` returns nor the
SyntaxError it throws. -/
theorem parseProgram_blank_line (ts ts1 : TokenStream) (h : BlankLineInserted ts ts1) :
    (parseProgram ts).Related BlankLineOrSame (parseProgram ts1) := by
  have hfuel : parseFuel ts.length ≤ parseFuel ts1.length := by
    rw [h.length]
    simp only [parseFuel]
    omega
  have h1 := parseProgramLoop_blank_line (parseFuel ts1.length) [] ts ts1 (Or.inr h)
  rw [parseProgramLoop_enough_fuel ts _ hfuel] at h1
  exact h1
theorem new_srcWithoutBlankLines :
    ∃ interp, Interpreter.new srcWithoutBlankLines = some (.ok interp) ∧
      Interpreter.new srcWithBlankLines = some (.ok interp) ∧
      Interpreter.run 6 interp "g" [] = some (interp, .ok 1) :=
  ⟨_, by rfl, by rfl, by rfl⟩

/-- C24: blank lines are insignificant: a NEWLINE token inserted at the very
start of a token stream, or right after one of its NEWLINE tokens, changes
nothing in what `parseProgram` returns: the stream with the blank line parses
exactly when the stream without it does, to the same Program, and fails with
the same SyntaxError otherwise. -/
theorem C24_blank_lines_are_insignificant :
    (∀ (ts ts1 : TokenStream) (prog : List FunctionDefAST), BlankLineInserted ts ts1 →
      ((∃ rest, parseProgram ts = .ok prog rest) ↔
        (∃ rest1, parseProgram ts1 = .ok prog rest1))) ∧
    (∀ (ts ts1 : TokenStream) (e : Error), BlankLineInserted ts ts1 →
      (parseProgram ts = .error e ↔ parseProgram ts1 = .error e)) ∧
    (∃ interp, Interpreter.new srcWithoutBlankLines = some (.ok interp) ∧
      Interpreter.new srcWithBlankLines = some (.ok interp) ∧
      Interpreter.run 6 interp "g" [] = some (interp, .ok 1)) := by
  refine ⟨?_, ?_, new_srcWithoutBlankLines⟩
  · intro ts ts1 prog h
    have hrel := parseProgram_blank_line ts ts1 h
    constructor
    · rintro ⟨rest, hr⟩
      rw [hr] at hrel
      cases hr1 : parseProgram ts1 with
      | ok prog1 rest1 =>
        rw [hr1] at hrel
        exact ⟨rest1, by rw [hrel.1]⟩
      | error e => rw [hr1] at hrel; exact hrel.elim
      | outOfFuel => rw [hr1] at hrel; exact hrel.elim
    · rintro ⟨rest1, hr1⟩
      rw [hr1] at hrel
      cases hr : parseProgram ts with
      | ok prog0 rest =>
        rw [hr] at hrel
        exact ⟨rest, by rw [hrel.1]⟩
      | error e => rw [hr] at hrel; exact hrel.elim
      | outOfFuel => rw [hr] at hrel; exact hrel.elim
  · intro ts ts1 e h
    have hrel := parseProgram_blank_line ts ts1 h
    constructor
    · intro hr
      rw [hr] at hrel
      cases hr1 : parseProgram ts1 with
      | ok prog1 rest1 => rw [hr1] at hrel; exact hrel.elim
      | error e1 =>
        rw [hr1] at hrel
        have he : e = e1 := hrel
        rw [he]
      | outOfFuel => rw [hr1] at hrel; exact hrel.elim
    · intro hr1
      rw [hr1] at hrel
      cases hr : parseProgram ts with
      | ok prog0 rest => rw [hr] at hrel; exact hrel.elim
      | error e0 =>
        rw [hr] at hrel
        have he : e0 = e := hrel
        rw [he]
      | outOfFuel => rw [hr] at hrel; exact hrel.elim

theorem C24_blank_lines_are_insignificant_witness :
    BlankLineInserted
      [.Utility .DEF, .Symbol "f", .Embracing .LPAREN, .Embracing .RPAREN, .Utility .NEWLINE,
        .Utility .RETURN, .Constant 1]
      [.Utility .DEF, .Symbol "f", .Embracing .LPAREN, .Embracing .RPAREN, .Utility .NEWLINE,
        .Utility .NEWLINE, .Utility .RETURN, .Constant 1] ∧
    ∃ rest1, parseProgram
      [.Utility .DEF, .Symbol "f", .Embracing .LPAREN, .Embracing .RPAREN, .Utility .NEWLINE,
        .Utility .NEWLINE, .Utility .RETURN, .Constant 1]
      = .ok [.mk "f" [] [] (.Number 1)] rest1 :=
  ⟨Or.inr ⟨[.Utility .DEF, .Symbol "f", .Embracing .LPAREN, .Embracing .RPAREN],
      [.Utility .RETURN, .Constant 1], rfl, rfl⟩,
    (C24_blank_lines_are_insignificant.1
      [.Utility .DEF, .Symbol "f", .Embracing .LPAREN, .Embracing .RPAREN, .Utility .NEWLINE,
        .Utility .RETURN, .Constant 1]
      [.Utility .DEF, .Symbol "f", .Embracing .LPAREN, .Embracing .RPAREN, .Utility .NEWLINE,
        .Utility .NEWLINE, .Utility .RETURN, .Constant 1]
      [.mk "f" [] [] (.Number 1)]
      (Or.inr ⟨[.Utility .DEF, .Symbol "f", .Embracing .LPAREN, .Embracing .RPAREN],
        [.Utility .RETURN, .Constant 1], rfl, rfl⟩)).1 ⟨[], by rfl⟩⟩
/-! ## Comments -/

namespace Tokenizer

theorem dropWhile_append_stop (p : Char → Bool) : ∀ (L Y : List Char),
    (∀ h t, Y = h :: t → p h = false) → (L ++ Y).dropWhile p = L.dropWhile p ++ Y := by
  intro L
  induction L with
  | nil =>
    intro Y hY
    cases Y with
    | nil => rfl
    | cons h t => simp [List.dropWhile_cons, hY h t rfl]
  | cons c L ih =>
    intro Y hY
    by_cases hc : p c = true
    · simp only [List.cons_append, List.dropWhile_cons, hc, if_true]
      exact ih Y hY
    · simp only [List.cons_append, List.dropWhile_cons, hc, if_false]
      simp

theorem takeWhile_append_stop (p : Char → Bool) : ∀ (L Y : List Char),
    (∀ h t, Y = h :: t → p h = false) → (L ++ Y).takeWhile p = L.takeWhile p := by
  intro L
  induction L with
  | nil =>
    intro Y hY
    cases Y with
    | nil => rfl
    | cons h t => simp [List.takeWhile_cons, hY h t rfl]
  | cons c L ih =>
    intro Y hY
    by_cases hc : p c = true
    · simp only [List.cons_append, List.takeWhile_cons, hc, if_true]
      rw [ih Y hY]
    · simp only [List.cons_append, List.takeWhile_cons, hc]
      simp

theorem Stops.of_pred {Y : List Char} (hY : Stops Y) (p : Char → Bool) (h1 : p '#' = false)
    (h2 : p '\n' = false) : ∀ h t, Y = h :: t → p h = false := by
  intro h t hht
  rcases hY h t hht with rfl | rfl
  · exact h1
  · exact h2

theorem ReadNumber_append (L Y : List Char) (hY : Stops Y) :
    ReadNumber (L ++ Y) = appendRest Y (ReadNumber L) := by
  have hp := hY.of_pred isdigit (by decide) (by decide)
  simp only [ReadNumber, takeWhile_append_stop isdigit L Y hp,
    dropWhile_append_stop isdigit L Y hp]
  split <;> rfl

theorem ReadIdentifier_append (L Y : List Char) (hY : Stops Y) :
    ReadIdentifier (L ++ Y) = ((ReadIdentifier L).1, (ReadIdentifier L).2 ++ Y) := by
  have hp := hY.of_pred (fun c => isalnum c || c = '_') (by decide) (by decide)
  simp only [ReadIdentifier, takeWhile_append_stop _ L Y hp, dropWhile_append_stop _ L Y hp]

theorem SkipWhitespace_cons (c : Char) (M : List Char)
    (hws : (isspace c && c != '\n') = false) (hc : c ≠ '#') :
    SkipWhitespace (c :: M) = c :: M := by
  simp only [SkipWhitespace, List.dropWhile_cons, hws, Bool.false_eq_true, if_false]
  split
  · rename_i heq
    exact absurd (List.cons.inj heq).1 hc
  · rfl

theorem match_append (M Y : List Char) (hY : Stops Y)
    (a b : Except Error (Token × List Char))
    (f f1 : List Char → Except Error (Token × List Char))
    (hf : ∀ rest1, f1 (rest1 ++ Y) = appendRest Y (f rest1)) (hab : b = appendRest Y a) :
    (match M ++ Y with
      | '=' :: rest1 => f1 rest1
      | _ => b)
    = appendRest Y (match M with
      | '=' :: rest1 => f rest1
      | _ => a) := by
  cases M with
  | nil =>
    cases Y with
    | nil => exact hab
    | cons h t =>
      rcases hY h t rfl with rfl | rfl
      · exact hab
      · exact hab
  | cons d M1 =>
    by_cases hd : d = '='
    · subst hd
      exact hf M1
    · have e1 : ∀ l : List Char, (match d :: l with
          | '=' :: rest1 => f1 rest1
          | _ => b) = b := by
        intro l
        split
        · rename_i heq
          exact absurd (List.cons.inj heq).1 hd
        · rfl
      have e2 : ∀ l : List Char, (match d :: l with
          | '=' :: rest1 => f rest1
          | _ => a) = a := by
        intro l
        split
        · rename_i heq
          exact absurd (List.cons.inj heq).1 hd
        · rfl
      rw [List.cons_append, e1, e2]
      exact hab

/-- What `Next` does on an input that starts with the first character of a
token does not depend on what follows the token, once the end of the token is
marked by a `#` or a newline. -/
theorem Next_append (c : Char) (M Y : List Char) (hws : (isspace c && c != '\n') = false)
    (hc : c ≠ '#') (hY : Stops Y) :
    Tokenizer.Next (c :: M ++ Y) = appendRest Y (Tokenizer.Next (c :: M)) := by
  have h1 : SkipWhitespace (c :: (M ++ Y)) = c :: (M ++ Y) := SkipWhitespace_cons c _ hws hc
  have h2 : SkipWhitespace (c :: M) = c :: M := SkipWhitespace_cons c _ hws hc
  show Tokenizer.Next (c :: (M ++ Y)) = appendRest Y (Tokenizer.Next (c :: M))
  have hnum : ReadNumber (c :: (M ++ Y)) = appendRest Y (ReadNumber (c :: M)) :=
    ReadNumber_append (c :: M) Y hY
  have hid : ReadIdentifier (c :: (M ++ Y))
      = ((ReadIdentifier (c :: M)).1, (ReadIdentifier (c :: M)).2 ++ Y) :=
    ReadIdentifier_append (c :: M) Y hY
  unfold Tokenizer.Next
  rw [h1, h2]
  dsimp only
  rw [hnum, hid]
  dsimp only
  by_cases c1 : c = '\n'
  · rw [if_pos c1, if_pos c1]; rfl
  rw [if_neg c1, if_neg c1]
  by_cases c2 : isdigit c = true
  · rw [if_pos c2, if_pos c2]
  rw [if_neg c2, if_neg c2]
  by_cases c3 : (isalpha c || decide (c = '_')) = true
  · rw [if_pos c3, if_pos c3]
    split_ifs <;> rfl
  rw [if_neg c3, if_neg c3]
  by_cases c4 : c = '('
  · rw [if_pos c4, if_pos c4]; rfl
  rw [if_neg c4, if_neg c4]
  by_cases c5 : c = ')'
  · rw [if_pos c5, if_pos c5]; rfl
  rw [if_neg c5, if_neg c5]
  by_cases c6 : c = ','
  · rw [if_pos c6, if_pos c6]; rfl
  rw [if_neg c6, if_neg c6]
  by_cases c7 : c = '+'
  · rw [if_pos c7, if_pos c7]; rfl
  rw [if_neg c7, if_neg c7]
  by_cases c8 : c = '-'
  · rw [if_pos c8, if_pos c8]; rfl
  rw [if_neg c8, if_neg c8]
  by_cases c9 : c = '*'
  · rw [if_pos c9, if_pos c9]; rfl
  rw [if_neg c9, if_neg c9]
  by_cases c10 : c = '/'
  · rw [if_pos c10, if_pos c10]; rfl
  rw [if_neg c10, if_neg c10]
  by_cases c11 : c = '<'
  · rw [if_pos c11, if_pos c11]; rfl
  rw [if_neg c11, if_neg c11]
  by_cases c12 : c = '='
  · rw [if_pos c12, if_pos c12]
    exact match_append M Y hY (.ok (.Operator .EQ, M)) (.ok (.Operator .EQ, M ++ Y))
      (fun rest1 => .ok (.Operator .EQ_EQ, rest1))
      (fun rest1 => .ok (.Operator .EQ_EQ, rest1)) (fun _ => rfl) rfl
  rw [if_neg c12, if_neg c12]
  by_cases c13 : c = '!'
  · rw [if_pos c13, if_pos c13]
    exact match_append M Y hY (.error (.SyntaxError "Expected '=' after '!'"))
      (.error (.SyntaxError "Expected '=' after '!'"))
      (fun rest1 => .ok (.Operator .NOT_EQ, rest1))
      (fun rest1 => .ok (.Operator .NOT_EQ, rest1)) (fun _ => rfl) rfl
  rw [if_neg c13, if_neg c13]
  rfl

end Tokenizer
namespace Tokenizer

theorem tokensLoop_succ (fuel : Nat) (acc : List Token) (input : List Char) :
    tokensLoop (fuel + 1) acc input
      = match Tokenizer.Next input with
        | .error e => some (.error e)
        | .ok (t, rest) =>
          if t = .Utility .EOFT then some (.ok acc) else tokensLoop fuel (acc ++ [t]) rest := by
  cases h : Tokenizer.Next input with
  | error e => simp only [tokensLoop, h]
  | ok p =>
    obtain ⟨t, rest⟩ := p
    cases t with
    | Utility u => cases u <;> simp [tokensLoop, h]
    | Symbol n => simp [tokensLoop, h]
    | Constant v => simp [tokensLoop, h]
    | Embracing e => simp [tokensLoop, h]
    | Operator o => simp [tokensLoop, h]

theorem Next_congr {I J : List Char} (h : SkipWhitespace I = SkipWhitespace J) :
    Tokenizer.Next I = Tokenizer.Next J := by
  unfold Tokenizer.Next
  rw [h]

theorem length_dropWhile_le (p : Char → Bool) : ∀ L : List Char,
    (L.dropWhile p).length ≤ L.length := by
  intro L
  induction L with
  | nil => exact Nat.le_refl _
  | cons c L ih =>
    simp only [List.dropWhile_cons]
    split
    · exact Nat.le_succ_of_le ih
    · exact Nat.le_refl _

theorem dropWhile_append_of_ne_nil (p : Char → Bool) (L Y : List Char)
    (h : L.dropWhile p ≠ []) : (L ++ Y).dropWhile p = L.dropWhile p ++ Y := by
  rw [List.dropWhile_append]
  cases hd : L.dropWhile p with
  | nil => exact absurd hd h
  | cons c r => simp

theorem head_dropWhile (p : Char → Bool) (L : List Char) (c : Char) (r : List Char)
    (h : L.dropWhile p = c :: r) : p c = false := by
  have := List.head?_dropWhile_not p L
  rw [h] at this
  exact this

/-- What `SkipWhitespace` leaves of an input `L ++ Y`: what it leaves of `L`
and then `Y`, when it leaves something of `L`. -/
theorem SkipWhitespace_append (L Y : List Char) :
    (∃ c L2, SkipWhitespace L = c :: L2 ∧ SkipWhitespace (L ++ Y) = c :: L2 ++ Y ∧
      (isspace c && c != '\n') = false ∧ c ≠ '#') ∨
    (SkipWhitespace L = [] ∧ (SkipWhitespace (L ++ Y) = SkipWhitespace Y ∨
      SkipWhitespace (L ++ Y) = Y.dropWhile (fun c => c != '\n'))) := by
  cases hD : L.dropWhile (fun c => isspace c && c != '\n') with
  | nil =>
    refine Or.inr ⟨by simp only [SkipWhitespace, hD], Or.inl ?_⟩
    have hall := List.dropWhile_eq_nil_iff.1 hD
    simp only [SkipWhitespace, List.dropWhile_append_of_pos hall]
  | cons c r =>
    have hc := head_dropWhile _ L c r hD
    have hDY : (L ++ Y).dropWhile (fun c => isspace c && c != '\n') = c :: r ++ Y := by
      rw [dropWhile_append_of_ne_nil _ L Y (by rw [hD]; simp), hD]
    by_cases hsharp : c = '#'
    · subst hsharp
      have hS : SkipWhitespace L = ('#' :: r).dropWhile (fun c => c != '\n') := by
        simp only [SkipWhitespace, hD]
      have hSY : SkipWhitespace (L ++ Y) = ('#' :: r ++ Y).dropWhile (fun c => c != '\n') := by
        simp only [SkipWhitespace, hDY, List.cons_append]
      cases hE : ('#' :: r).dropWhile (fun c => c != '\n') with
      | nil =>
        refine Or.inr ⟨by rw [hS, hE], Or.inr ?_⟩
        rw [hSY, List.dropWhile_append_of_pos (List.dropWhile_eq_nil_iff.1 hE)]
      | cons e E2 =>
        have he := head_dropWhile _ _ e E2 hE
        have he1 : e = '\n' := by simpa using he
        subst he1
        refine Or.inl ⟨'\n', E2, by rw [hS, hE], ?_, by decide, by decide⟩
        rw [hSY, dropWhile_append_of_ne_nil _ _ Y (by rw [hE]; simp), hE]
    · refine Or.inl ⟨c, r, ?_, ?_, hc, hsharp⟩
      · simp only [SkipWhitespace, hD]
        split
        · rename_i heq
          exact absurd (List.cons.inj heq).1 hsharp
        · rfl
      · simp only [SkipWhitespace, hDY, List.cons_append]
        split
        · rename_i heq
          exact absurd (List.cons.inj heq).1 hsharp
        · rfl

theorem Next_of_SkipWhitespace (I : List Char) (c : Char) (M : List Char)
    (h : SkipWhitespace I = c :: M) (hws : (isspace c && c != '\n') = false) (hc : c ≠ '#') :
    Tokenizer.Next I = Tokenizer.Next (c :: M) :=
  Next_congr (by rw [h, SkipWhitespace_cons c M hws hc])

theorem length_SkipWhitespace_le (I : List Char) : (SkipWhitespace I).length ≤ I.length := by
  simp only [SkipWhitespace]
  split
  · exact Nat.le_trans (length_dropWhile_le _ _) (length_dropWhile_le _ _)
  · exact length_dropWhile_le _ _

theorem length_dropWhile_cons_le (p : Char → Bool) (c : Char) (M : List Char)
    (hc : p c = true) : ((c :: M).dropWhile p).length ≤ M.length := by
  simp only [List.dropWhile_cons, hc, if_true]
  exact length_dropWhile_le p M

/-- A token read at the start of `c :: M` takes the character `c` at least. -/
theorem Next_cons_length (c : Char) (M : List Char) (t : Token) (rest : List Char)
    (hws : (isspace c && c != '\n') = false) (hc : c ≠ '#')
    (h : Tokenizer.Next (c :: M) = .ok (t, rest)) : rest.length ≤ M.length := by
  unfold Tokenizer.Next at h
  rw [SkipWhitespace_cons c M hws hc] at h
  dsimp only at h
  by_cases c1 : c = '\n'
  · rw [if_pos c1] at h; cases h; exact Nat.le_refl _
  rw [if_neg c1] at h
  by_cases c2 : isdigit c = true
  · rw [if_pos c2] at h
    simp only [ReadNumber] at h
    split at h
    · cases h
      exact length_dropWhile_cons_le isdigit c M c2
    · cases h
  rw [if_neg c2] at h
  by_cases c3 : (isalpha c || decide (c = '_')) = true
  · rw [if_pos c3] at h
    have hp : (fun c => isalnum c || decide (c = '_')) c = true := by
      simp only [isalnum, Bool.or_eq_true, decide_eq_true_eq] at c3 ⊢
      rcases c3 with c3 | c3
      · exact Or.inl (Or.inl c3)
      · exact Or.inr c3
    have hlen : (ReadIdentifier (c :: M)).2.length ≤ M.length := by
      simp only [ReadIdentifier]
      exact length_dropWhile_cons_le (fun c => isalnum c || decide (c = '_')) c M hp
    split_ifs at h <;> cases h <;> exact hlen
  rw [if_neg c3] at h
  have hmatch : ∀ (f : List Char → Except Error (Token × List Char))
      (g : Except Error (Token × List Char)),
      (∀ rest1, f rest1 = .ok (t, rest) → rest = rest1) → (g = .ok (t, rest) → rest = M) →
      (match M with
        | '=' :: rest1 => f rest1
        | _ => g) = .ok (t, rest) → rest.length ≤ M.length := by
    intro f g hf hg hm
    split at hm
    · have := hf _ hm
      subst this
      exact Nat.le_succ _
    · rw [hg hm]
  by_cases c4 : c = '('
  · rw [if_pos c4] at h; cases h; exact Nat.le_refl _
  rw [if_neg c4] at h
  by_cases c5 : c = ')'
  · rw [if_pos c5] at h; cases h; exact Nat.le_refl _
  rw [if_neg c5] at h
  by_cases c6 : c = ','
  · rw [if_pos c6] at h; cases h; exact Nat.le_refl _
  rw [if_neg c6] at h
  by_cases c7 : c = '+'
  · rw [if_pos c7] at h; cases h; exact Nat.le_refl _
  rw [if_neg c7] at h
  by_cases c8 : c = '-'
  · rw [if_pos c8] at h; cases h; exact Nat.le_refl _
  rw [if_neg c8] at h
  by_cases c9 : c = '*'
  · rw [if_pos c9] at h; cases h; exact Nat.le_refl _
  rw [if_neg c9] at h
  by_cases c10 : c = '/'
  · rw [if_pos c10] at h; cases h; exact Nat.le_refl _
  rw [if_neg c10] at h
  by_cases c11 : c = '<'
  · rw [if_pos c11] at h; cases h; exact Nat.le_refl _
  rw [if_neg c11] at h
  by_cases c12 : c = '='
  · rw [if_pos c12] at h
    exact hmatch _ _ (fun rest1 h1 => (by cases h1; rfl)) (fun h1 => (by cases h1; rfl)) h
  rw [if_neg c12] at h
  by_cases c13 : c = '!'
  · rw [if_pos c13] at h
    exact hmatch _ _ (fun rest1 h1 => (by cases h1; rfl)) (fun h1 => (by cases h1)) h
  rw [if_neg c13] at h
  cases h

/-- Every token before the end of the input takes at least one character. -/
theorem Next_shortens_input (I : List Char) (t : Token) (rest : List Char)
    (h : Tokenizer.Next I = .ok (t, rest)) (ht : t ≠ .Utility .EOFT) :
    rest.length < I.length := by
  rcases SkipWhitespace_append I [] with ⟨c, L2, hS, _, hws, hc⟩ | ⟨hS, _⟩
  · rw [Next_of_SkipWhitespace I c L2 hS hws hc] at h
    have h1 := Next_cons_length c L2 t rest hws hc h
    have h2 := length_SkipWhitespace_le I
    rw [hS, List.length_cons] at h2
    omega
  · unfold Tokenizer.Next at h
    rw [hS] at h
    cases h
    exact absurd rfl ht

/-- With more fuel than characters, `tokensLoop` does not depend on the
fuel. -/
theorem tokensLoop_fuel : ∀ (fuel fuel1 : Nat) (acc : List Token) (I : List Char),
    I.length < fuel → I.length < fuel1 → tokensLoop fuel acc I = tokensLoop fuel1 acc I := by
  intro fuel
  induction fuel with
  | zero => intro fuel1 acc I h; omega
  | succ fuel ih =>
    intro fuel1 acc I h h1
    cases fuel1 with
    | zero => omega
    | succ fuel1 =>
      rw [tokensLoop_succ, tokensLoop_succ]
      cases hN : Tokenizer.Next I with
      | error e => rfl
      | ok p =>
        obtain ⟨t, rest⟩ := p
        dsimp only
        by_cases ht : t = .Utility .EOFT
        · rw [if_pos ht, if_pos ht]
        · rw [if_neg ht, if_neg ht]
          have := Next_shortens_input I t rest hN ht
          exact ih fuel1 _ rest (by omega) (by omega)

theorem tokensLoop_ne_none : ∀ (fuel : Nat) (acc : List Token) (I : List Char),
    I.length < fuel → tokensLoop fuel acc I ≠ none := by
  intro fuel
  induction fuel with
  | zero => intro acc I h; omega
  | succ fuel ih =>
    intro acc I h
    rw [tokensLoop_succ]
    cases hN : Tokenizer.Next I with
    | error e => simp
    | ok p =>
      obtain ⟨t, rest⟩ := p
      dsimp only
      by_cases ht : t = .Utility .EOFT
      · rw [if_pos ht]; simp
      · rw [if_neg ht]
        have := Next_shortens_input I t rest hN ht
        exact ih _ rest (by omega)

end Tokenizer
namespace Tokenizer

theorem dropWhile_comment (body post : List Char) (hbody : ∀ c ∈ body, c ≠ '\n')
    (hpost : post = [] ∨ ∃ p, post = '\n' :: p) :
    ('#' :: body ++ post).dropWhile (fun c => c != '\n') = post ∧
      post.dropWhile (fun c => c != '\n') = post := by
  have hp : post.dropWhile (fun c => c != '\n') = post := by
    rcases hpost with rfl | ⟨p, rfl⟩
    · rfl
    · simp [List.dropWhile_cons]
  refine ⟨?_, hp⟩
  have hall : ∀ c ∈ '#' :: body, (fun c => c != '\n') c = true := by
    intro c hc
    rcases List.mem_cons.1 hc with rfl | hc
    · decide
    · simpa using hbody c hc
  have : '#' :: body ++ post = ('#' :: body) ++ post := rfl
  rw [this, List.dropWhile_append_of_pos hall, hp]

theorem SkipWhitespace_comment (body post : List Char) (hbody : ∀ c ∈ body, c ≠ '\n')
    (hpost : post = [] ∨ ∃ p, post = '\n' :: p) :
    SkipWhitespace ('#' :: body ++ post) = post ∧ SkipWhitespace post = post := by
  have hd := dropWhile_comment body post hbody hpost
  constructor
  · have h1 : ('#' :: (body ++ post)).dropWhile (fun c => isspace c && c != '\n')
        = '#' :: (body ++ post) := by
      simp [List.dropWhile_cons, isspace]
    have h2 : SkipWhitespace ('#' :: (body ++ post))
        = ('#' :: (body ++ post)).dropWhile (fun c => c != '\n') := by
      simp only [SkipWhitespace, h1]
    exact h2.trans hd.1
  · rcases hpost with rfl | ⟨p, rfl⟩
    · rfl
    · exact SkipWhitespace_cons '\n' p (by decide) (by decide)

theorem Stops_comment (body post : List Char) (hpost : post = [] ∨ ∃ p, post = '\n' :: p) :
    Stops ('#' :: body ++ post) ∧ Stops post := by
  constructor
  · intro h t heq
    exact Or.inl (List.cons.inj heq).1.symm
  · intro h t heq
    rcases hpost with rfl | ⟨p, rfl⟩
    · cases heq
    · exact Or.inr (List.cons.inj heq).1.symm

/-- The tokens of an input do not change when a comment is taken out of it. -/
theorem tokensLoop_comment (body post : List Char) (hbody : ∀ c ∈ body, c ≠ '\n')
    (hpost : post = [] ∨ ∃ p, post = '\n' :: p) : ∀ (n : Nat) (L : List Char), L.length ≤ n →
    ∀ (acc : List Token) (fuel fuel1 : Nat), (L ++ ('#' :: body ++ post)).length < fuel →
      (L ++ post).length < fuel1 →
      tokensLoop fuel acc (L ++ ('#' :: body ++ post)) = tokensLoop fuel1 acc (L ++ post) := by
  have hstops := Stops_comment body post hpost
  have hskip := SkipWhitespace_comment body post hbody hpost
  have hdrop := dropWhile_comment body post hbody hpost
  have hstep : ∀ (n : Nat), (∀ (L : List Char), L.length ≤ n →
      ∀ (acc : List Token) (fuel fuel1 : Nat), (L ++ ('#' :: body ++ post)).length < fuel →
        (L ++ post).length < fuel1 →
        tokensLoop fuel acc (L ++ ('#' :: body ++ post)) = tokensLoop fuel1 acc (L ++ post)) →
      ∀ (L : List Char), L.length ≤ n + 1 →
      ∀ (acc : List Token) (fuel fuel1 : Nat), (L ++ ('#' :: body ++ post)).length < fuel →
        (L ++ post).length < fuel1 →
        tokensLoop fuel acc (L ++ ('#' :: body ++ post)) = tokensLoop fuel1 acc (L ++ post) := by
    intro n ih L hL acc fuel fuel1 hf hf1
    cases fuel with
    | zero => omega
    | succ fuel =>
      cases fuel1 with
      | zero => omega
      | succ fuel1 =>
        rw [tokensLoop_succ, tokensLoop_succ]
        rcases SkipWhitespace_append L ('#' :: body ++ post) with
          ⟨c, L2, hS, hSX, hws, hc⟩ | ⟨hS, hSX⟩
        · have hSP : SkipWhitespace (L ++ post) = c :: L2 ++ post := by
            rcases SkipWhitespace_append L post with ⟨c1, L3, hS1, hSP, _, _⟩ | ⟨hS1, _⟩
            · rw [hS] at hS1
              cases hS1
              exact hSP
            · rw [hS] at hS1
              cases hS1
          have hNX : Tokenizer.Next (L ++ ('#' :: body ++ post))
              = appendRest ('#' :: body ++ post) (Tokenizer.Next (c :: L2)) :=
            (Next_of_SkipWhitespace _ c (L2 ++ ('#' :: body ++ post)) hSX hws hc).trans
              (Next_append c L2 _ hws hc hstops.1)
          have hNP : Tokenizer.Next (L ++ post) = appendRest post (Tokenizer.Next (c :: L2)) :=
            (Next_of_SkipWhitespace _ c (L2 ++ post) hSP hws hc).trans
              (Next_append c L2 _ hws hc hstops.2)
          rw [hNX, hNP]
          cases hN : Tokenizer.Next (c :: L2) with
          | error e => rfl
          | ok p =>
            obtain ⟨t, L1⟩ := p
            simp only [appendRest]
            by_cases ht : t = .Utility .EOFT
            · rw [if_pos ht, if_pos ht]
            · rw [if_neg ht, if_neg ht]
              have h1 := Next_cons_length c L2 t L1 hws hc hN
              have h2 := length_SkipWhitespace_le L
              rw [hS, List.length_cons] at h2
              simp only [List.length_append] at hf hf1 ⊢
              exact ih L1 (by omega) _ _ _ (by simp only [List.length_append]; omega)
                (by simp only [List.length_append]; omega)
        · have hX : SkipWhitespace (L ++ ('#' :: body ++ post)) = post := by
            rcases hSX with h | h
            · rw [h, hskip.1]
            · rw [h, hdrop.1]
          have hP : SkipWhitespace (L ++ post) = post := by
            rcases SkipWhitespace_append L post with ⟨c1, L3, hS1, _, _, _⟩ | ⟨_, h | h⟩
            · rw [hS] at hS1
              cases hS1
            · rw [h, hskip.2]
            · rw [h, hdrop.2]
          rw [Next_congr (hX.trans hP.symm)]
          cases hN : Tokenizer.Next (L ++ post) with
          | error e => rfl
          | ok p =>
            obtain ⟨t, rest⟩ := p
            dsimp only
            by_cases ht : t = .Utility .EOFT
            · rw [if_pos ht, if_pos ht]
            · rw [if_neg ht, if_neg ht]
              have h1 := Next_shortens_input _ t rest hN ht
              simp only [List.length_append, List.length_cons] at hf hf1 h1
              exact tokensLoop_fuel _ _ _ _ (by omega) (by omega)
  intro n
  induction n with
  | zero =>
    intro L hL
    have hz : ∀ (L : List Char), L.length ≤ 0 →
        ∀ (acc : List Token) (fuel fuel1 : Nat), (L ++ ('#' :: body ++ post)).length < fuel →
          (L ++ post).length < fuel1 →
          tokensLoop fuel acc (L ++ ('#' :: body ++ post))
            = tokensLoop fuel1 acc (L ++ post) := by
      intro L0 hL0
      have : L0 = [] := List.eq_nil_of_length_eq_zero (by omega)
      subst this
      intro acc fuel fuel1 hf hf1
      cases fuel with
      | zero => omega
      | succ fuel =>
        cases fuel1 with
        | zero => omega
        | succ fuel1 =>
          rw [tokensLoop_succ, tokensLoop_succ]
          have hX : SkipWhitespace ([] ++ ('#' :: body ++ post)) = post := hskip.1
          have hP : SkipWhitespace ([] ++ post) = post := hskip.2
          rw [Next_congr (hX.trans hP.symm)]
          cases hN : Tokenizer.Next ([] ++ post) with
          | error e => rfl
          | ok p =>
            obtain ⟨t, rest⟩ := p
            dsimp only
            by_cases ht : t = .Utility .EOFT
            · rw [if_pos ht, if_pos ht]
            · rw [if_neg ht, if_neg ht]
              have h1 := Next_shortens_input _ t rest hN ht
              simp only [List.length_append, List.length_cons, List.nil_append] at hf hf1 h1
              exact tokensLoop_fuel _ _ _ _ (by omega) (by omega)
    exact hz L hL
  | succ n ih => exact hstep n ih

theorem tokens_ne_none (input : String) : tokens input ≠ none :=
  tokensLoop_ne_none _ _ _ (Nat.lt_succ_self _)

theorem tokens_comment (pre body post : String) (hbody : ∀ c ∈ body.data, c ≠ '\n')
    (hpost : post.data = [] ∨ ∃ p, post.data = '\n' :: p) :
    tokens (pre ++ "#" ++ body ++ post) = tokens (pre ++ post) := by
  have hd : (pre ++ "#" ++ body ++ post).data = pre.data ++ ('#' :: body.data ++ post.data) := by
    simp only [String.data_append]
    simp
  have hd1 : (pre ++ post).data = pre.data ++ post.data := String.data_append _ _
  have hl : ∀ s : String, s.length = s.data.length := fun s => rfl
  simp only [tokens, hl, hd, hd1]
  exact tokensLoop_comment body.data post.data hbody hpost _ pre.data (Nat.le_refl _) _ _ _
    (Nat.lt_succ_self _) (Nat.lt_succ_self _)

end Tokenizer
theorem tokens_srcCommented :
    Tokenizer.tokens srcCommented
        = some (.ok [.Utility .RETURN, .Constant 1, .Utility .NEWLINE]) ∧
      Tokenizer.tokens srcUncommented
        = some (.ok [.Utility .RETURN, .Constant 1, .Utility .NEWLINE]) :=
  ⟨by rfl, by rfl⟩

/-- C26: comments do not change the token stream: when a `#` and the
characters after it, up to but not including the next newline or the end of
the input, are taken out of a source text, the Tokenizer turns the text into
the same token sequence, or fails with the same SyntaxError; the newline that
ends the comment line is still a NEWLINE token. `return 1 # done` followed by
a newline gives RETURN, Constant 1, NEWLINE and then the end of the input. -/
theorem C26_comments_do_not_change_tokens :
    (∀ pre body post : String, (∀ c ∈ body.data, c ≠ '\n') →
      (post.data = [] ∨ ∃ p, post.data = '\n' :: p) →
      Tokenizer.tokens (pre ++ "#" ++ body ++ post) = Tokenizer.tokens (pre ++ post)) ∧
    (∀ input : String, Tokenizer.tokens input ≠ none) ∧
    (Tokenizer.tokens srcCommented
        = some (.ok [.Utility .RETURN, .Constant 1, .Utility .NEWLINE]) ∧
      Tokenizer.tokens srcUncommented
        = some (.ok [.Utility .RETURN, .Constant 1, .Utility .NEWLINE])) :=
  ⟨Tokenizer.tokens_comment, Tokenizer.tokens_ne_none, tokens_srcCommented⟩

theorem C26_comments_do_not_change_tokens_witness :
    Tokenizer.tokens ("x = 1 " ++ "#" ++ " one # two" ++ "\nreturn x")
      = Tokenizer.tokens ("x = 1 " ++ "\nreturn x") :=
  C26_comments_do_not_change_tokens.1 "x = 1 " " one # two" "\nreturn x" (by decide)
    (Or.inr ⟨"return x".data, rfl⟩)
